import Mathlib

/-!
# LuckyGFX: signal detection, alert polling and candle cache

A shallow embedding of the signal pipeline of the LuckyGFX backend
(`backend/src/services/tradingview-service.js`, `backend/src/server.js`)
together with theorems about it.

Conventions of the embedding

* JavaScript numbers are modelled by `JsNum`: a finite number is a rational
  (`JsNum.fin q`), next to `NaN`, `+Infinity` and `-Infinity`. The operators
  `+`, `*` and `/`, and `Number.parseInt` in `getIntervalMinutes` and
  `parsePositiveInt`, round their exact result to the nearest double, ties to
  even, and overflow to infinity (`roundDouble`). The negative zero is not told
  apart from zero. The arithmetic of `requestCandles` on hours and minutes and
  the number read from a timeframe text (`normalizeChartTimeframe`,
  `describeTimeframe`) are followed in exact numbers, which is what a double
  holds for integers up to `2^53`.
* JavaScript values that reach the modelled code are `JsVal`: numbers, strings,
  `null` and `undefined`.
* Awaited I/O (the TradingView fetch, the CallMeBot delivery, the clock) is an
  explicit input of the function that awaits it; mutable module state (the
  last-alert map, the chart cache, the timer) is passed explicitly.
* The polls that `pollAll` starts together run on one thread and take turns at
  their `await`s: `pollAllRun` follows a cycle for any order in which the
  awaited calls settle, and `pollResults` is the cycle in which each poll
  settles before the next one moves on.
-/

namespace LuckyGFX

/-! ## JavaScript numbers and values -/

/-- A JavaScript number: a finite value (exact rational) or one of the three
non-finite values. -/
inductive JsNum where
  | fin (q : ℚ)
  | nan
  | posInf
  | negInf
  deriving DecidableEq

/-- A JavaScript value as far as the modelled code can observe it. -/
inductive JsVal where
  | num (x : JsNum)
  | str (s : String)
  | null
  | undefined
  deriving DecidableEq

namespace JsNum

/-- Unary minus. -/
def neg : JsNum → JsNum
  | fin q => fin (-q)
  | nan => nan
  | posInf => negInf
  | negInf => posInf

/-- The integer nearest to `n / d`, the even one of the two when `n / d` lies
half way between two integers. -/
def roundHalfEven (n d : ℕ) : ℕ :=
  let q := n / d
  let r := n % d
  if 2 * r < d then q
  else if d < 2 * r then q + 1
  else if q % 2 = 0 then q else q + 1

/-- The binary exponent of the positive rational `n / d`: the integer `k` with
`2^k ≤ n / d < 2^(k+1)`. -/
def binaryExponent (n d : ℕ) : ℤ :=
  let k : ℤ := (Nat.log2 n : ℤ) - (Nat.log2 d : ℤ)
  if (if 0 ≤ k then d * 2 ^ k.toNat ≤ n else d ≤ n * 2 ^ (-k).toNat) then k else k - 1

/-- The double nearest to the positive rational `n / d`, ties to even: the
rational is rounded to a multiple of `2^e`, where `e` is its binary exponent
less 52 (53 significant bits) and at least -1074 (the subnormal numbers), and a
result of `2^1024` or more is `+Infinity`. -/
def roundPositive (n d : ℕ) : JsNum :=
  let e : ℤ := Max.max (binaryExponent n d - 52) (-1074)
  let value : ℚ :=
    if 0 ≤ e then ((roundHalfEven n (d * 2 ^ e.toNat) * 2 ^ e.toNat : ℕ) : ℚ)
    else (roundHalfEven (n * 2 ^ (-e).toNat) d : ℚ) / ((2 ^ (-e).toNat : ℕ) : ℚ)
  if (2 : ℚ) ^ 1024 ≤ value then posInf else fin value

/-- The double that stands for an exact result: the nearest double, ties to
even, and an infinity when the result is out of range. -/
def roundDouble (q : ℚ) : JsNum :=
  if q = 0 then fin 0
  else if 0 < q then roundPositive q.num.natAbs q.den
  else neg (roundPositive q.num.natAbs q.den)

/-- The `+` operator on two numbers: the exact sum rounded to a double. -/
def add : JsNum → JsNum → JsNum
  | nan, _ => nan
  | _, nan => nan
  | fin a, fin b => roundDouble (a + b)
  | fin _, posInf => posInf
  | fin _, negInf => negInf
  | posInf, negInf => nan
  | posInf, _ => posInf
  | negInf, posInf => nan
  | negInf, _ => negInf

/-- The binary `-` operator as the modelled code uses it, on a position of an
array and a period: the exact difference. A double holds the difference of two
integers below `2^53` exactly, and the positions of an array are below `2^32`. -/
def sub : JsNum → JsNum → JsNum
  | nan, _ => nan
  | _, nan => nan
  | fin a, fin b => fin (a - b)
  | fin _, posInf => negInf
  | fin _, negInf => posInf
  | posInf, posInf => nan
  | posInf, _ => posInf
  | negInf, negInf => nan
  | negInf, _ => negInf

/-- The `*` operator on two numbers: the exact product rounded to a double. -/
def mul : JsNum → JsNum → JsNum
  | nan, _ => nan
  | _, nan => nan
  | fin a, fin b => roundDouble (a * b)
  | fin a, posInf => if a = 0 then nan else if 0 < a then posInf else negInf
  | fin a, negInf => if a = 0 then nan else if 0 < a then negInf else posInf
  | posInf, fin b => if b = 0 then nan else if 0 < b then posInf else negInf
  | negInf, fin b => if b = 0 then nan else if 0 < b then negInf else posInf
  | posInf, posInf => posInf
  | posInf, negInf => negInf
  | negInf, posInf => negInf
  | negInf, negInf => posInf

/-- The `/` operator on two numbers (every zero is the positive zero): the exact
quotient rounded to a double. -/
def div : JsNum → JsNum → JsNum
  | nan, _ => nan
  | _, nan => nan
  | fin a, fin b =>
    if b = 0 then (if a = 0 then nan else if 0 < a then posInf else negInf)
    else roundDouble (a / b)
  | fin _, posInf => fin 0
  | fin _, negInf => fin 0
  | posInf, fin b => if 0 ≤ b then posInf else negInf
  | negInf, fin b => if 0 ≤ b then negInf else posInf
  | posInf, _ => nan
  | negInf, _ => nan

/-- The `<` operator on two numbers: false as soon as one side is `NaN`. -/
def lt : JsNum → JsNum → Bool
  | nan, _ => false
  | _, nan => false
  | fin a, fin b => decide (a < b)
  | fin _, posInf => true
  | fin _, negInf => false
  | posInf, _ => false
  | negInf, negInf => false
  | negInf, _ => true

/-- The `>` operator on two numbers. -/
def gt (a b : JsNum) : Bool := lt b a

/-- The `<=` operator on two numbers: false as soon as one side is `NaN`. -/
def le : JsNum → JsNum → Bool
  | nan, _ => false
  | _, nan => false
  | fin a, fin b => decide (a ≤ b)
  | fin _, posInf => true
  | fin _, negInf => false
  | posInf, posInf => true
  | posInf, _ => false
  | negInf, _ => true

/-- The `>=` operator on two numbers. -/
def ge (a b : JsNum) : Bool := le b a

/-- The function `Math.max` on two numbers. -/
def max (a b : JsNum) : JsNum :=
  match a, b with
  | nan, _ => nan
  | _, nan => nan
  | a, b => if lt a b then b else a

/-- The function `Math.min` on two numbers. -/
def min (a b : JsNum) : JsNum :=
  match a, b with
  | nan, _ => nan
  | _, nan => nan
  | a, b => if lt b a then b else a

/-- The function `Number.isFinite` restricted to numbers. -/
def isFinite : JsNum → Bool
  | fin _ => true
  | _ => false

/-- Truncation of a rational toward zero. -/
def truncate (q : ℚ) : ℤ := if 0 ≤ q then Int.floor q else Int.ceil q

/-- The position that `Array.prototype.slice` derives from one of its arguments
for an array of length `len`: the argument goes through `ToIntegerOrInfinity`
(`NaN` becomes 0, a finite value is truncated), a negative position counts
from the end, and the result is clamped to `0 .. len`. -/
def sliceIndex (len : ℕ) : JsNum → ℕ
  | nan => 0
  | posInf => len
  | negInf => 0
  | fin q =>
    let t := truncate q
    if t < 0 then (len + t).toNat else Nat.min t.toNat len

end JsNum

namespace JsVal

/-- The function `Number.isFinite`: true exactly for finite numbers; it does not
coerce, so strings, `null` and `undefined` give false. -/
def isFinite : JsVal → Bool
  | num x => x.isFinite
  | _ => false

/-- Truthiness of a value (`ToBoolean`). -/
def truthy : JsVal → Bool
  | num (JsNum.fin q) => decide (q ≠ 0)
  | num JsNum.nan => false
  | num _ => true
  | str s => decide (s ≠ "")
  | null => false
  | undefined => false

/-- The operator `a || b`. -/
def or (a b : JsVal) : JsVal := if a.truthy then a else b

/-- The number held by a value that is a number. The modelled code applies
arithmetic and comparison only to values that have passed `Number.isFinite`, so
the coercion of other values is never reached; the model gives `NaN` there. -/
def asNum : JsVal → JsNum
  | num x => x
  | _ => JsNum.nan

end JsVal

/-- The method `Array.prototype.slice(start, end)` on a list. -/
def jsSlice {α : Type} (xs : List α) (start stop : JsNum) : List α :=
  let k := JsNum.sliceIndex xs.length start
  let final := JsNum.sliceIndex xs.length stop
  (xs.drop k).take (final - k)

/-- The method `Array.prototype.slice(start)` with the end left out. -/
def jsSliceFrom {α : Type} (xs : List α) (start : JsNum) : List α :=
  xs.drop (JsNum.sliceIndex xs.length start)

/-! ## Candles, the trailing SMA and the classification -/

/-- A candle object as built by `fetchTradingViewAnalysis`: position, timestamp,
the OHLCV fields and the `sma` field (`undefined` until it is assigned). -/
structure Candle where
  index : ℕ
  number : ℕ
  timestamp : JsVal
  open_ : JsVal
  high : JsVal
  low : JsVal
  close : JsVal
  volume : JsVal
  sma : JsVal := JsVal.undefined
  deriving DecidableEq

/-- The function `computeSMA(candles, period)`: one entry per candle, `null`
unless the period is a finite positive number, the index has reached the period
and the closes of the window `candles.slice(index - period, index)` are all
finite, in which case it is their sum, added from the left with `+` starting at
0, divided by the period with `/`. -/
def computeSMA (candles : List Candle) (period : JsVal) : List JsVal :=
  if !period.isFinite || JsNum.le period.asNum (JsNum.fin 0) then
    candles.map (fun _ => JsVal.null)
  else
    (List.range candles.length).map (fun (index : ℕ) =>
      if JsNum.lt (JsNum.fin (index : ℚ)) period.asNum then JsVal.null
      else
        let window := jsSlice candles (JsNum.sub (JsNum.fin (index : ℚ)) period.asNum)
          (JsNum.fin (index : ℚ))
        if window.any (fun item => !item.close.isFinite) then JsVal.null
        else
          let sum := window.foldl (fun acc item => JsNum.add acc item.close.asNum)
            (JsNum.fin 0)
          JsVal.num (JsNum.div sum period.asNum))

/-- The result of `evaluateMatches`. -/
structure Matches where
  greenAbove : Bool
  redBelow : Bool
  deriving DecidableEq

/-- The function `evaluateMatches(candle)`. -/
def evaluateMatches (candle : Candle) : Matches :=
  let valid :=
    candle.sma.isFinite && candle.open_.isFinite && candle.close.isFinite &&
    candle.high.isFinite && candle.low.isFinite
  if !valid then
    { greenAbove := false, redBelow := false }
  else
    let greenAbove :=
      JsNum.gt candle.close.asNum candle.open_.asNum &&
      JsNum.gt candle.low.asNum candle.sma.asNum
    let redBelow :=
      JsNum.lt candle.close.asNum candle.open_.asNum &&
      JsNum.lt candle.high.asNum candle.sma.asNum
    { greenAbove := greenAbove, redBelow := redBelow }

/-! ## The analysis of fetched bars -/

/-- The coercion `Number(value)`. The conversion of a string to a number is a
primitive of the language runtime and is taken as the parameter
`numberOfString`. -/
def JsVal.toNumeric (numberOfString : String → JsNum) : JsVal → JsNum
  | JsVal.num x => x
  | JsVal.str s => numberOfString s
  | JsVal.null => JsNum.fin 0
  | JsVal.undefined => JsNum.nan

/-- The function `toNumber(value)` of the TradingView service: `null` for
`null`, `undefined` and everything that does not convert to a finite number. -/
def toNumber (numberOfString : String → JsNum) (value : JsVal) : JsVal :=
  if value = JsVal.null ∨ value = JsVal.undefined then JsVal.null
  else
    let numeric := value.toNumeric numberOfString
    if numeric.isFinite then JsVal.num numeric else JsVal.null

/-- A bar as returned by `fetchTradingViewPeriods`: the normalised object has
the fields `time`, `open`, `high`, `low`, `close` and `volume` only. -/
structure Bar where
  time : JsVal
  open_ : JsVal
  high : JsVal
  low : JsVal
  close : JsVal
  volume : JsVal
  deriving DecidableEq

/-- What `fetchTradingViewPeriods` resolves to (the awaited network fetch). -/
structure Fetched where
  periods : List Bar
  usingGuest : Bool
  resolvedSymbol : String
  timeframe : String

/-- The options of `fetchTradingViewAnalysis` after the defaults are filled in. -/
structure AnalysisOptions where
  symbol : String
  timeframe : String
  range : JsVal
  smaPeriod : JsVal
  recentCount : JsVal

/-- An entry of the returned `candles` list. -/
structure RecentCandle where
  index : ℕ
  number : ℕ
  timestamp : JsVal
  open_ : JsVal
  high : JsVal
  low : JsVal
  close : JsVal
  volume : JsVal
  sma : JsVal
  forming : Bool
  matches_ : Matches
  deriving DecidableEq

/-- An entry of the returned `closes` list. -/
structure CloseUsed where
  timestamp : JsVal
  close : JsVal
  deriving DecidableEq

/-- The object reported as `previousCompleted`. -/
structure PreviousCompleted where
  candle : RecentCandle
  matches_ : Matches
  formingReference : Option RecentCandle
  deriving DecidableEq

/-- The object resolved by `fetchTradingViewAnalysis`. -/
structure Analysis where
  symbol : String
  requestedSymbol : String
  resolvedSymbol : String
  timeframe : String
  normalizedTimeframe : String
  totalBarsFetched : ℕ
  smaPeriod : JsVal
  recentCount : ℕ
  candles : List RecentCandle
  closes : List CloseUsed
  sma : JsVal
  greenAbove : List RecentCandle
  redBelow : List RecentCandle
  previousCompleted : Option PreviousCompleted
  usingGuest : Bool
  fetchRange : JsVal

/-- The candle objects built from the bars (`periods.map((bar, index) => ...)`);
the bars carry no `datetime` or `date`, so these two read as `undefined`. -/
def buildCandles (numberOfString : String → JsNum) (periods : List Bar) : List Candle :=
  (List.range periods.length).zipWith (fun (index : ℕ) (bar : Bar) =>
    { index := index
      number := index + 1
      timestamp :=
        JsVal.or (JsVal.or (JsVal.or bar.time JsVal.undefined) JsVal.undefined) JsVal.null
      open_ := toNumber numberOfString bar.open_
      high := toNumber numberOfString bar.high
      low := toNumber numberOfString bar.low
      close := toNumber numberOfString bar.close
      volume := toNumber numberOfString bar.volume }) periods

/-- The candles after `candle.sma = smaSeries[idx]` has run over them. -/
def attachSMA (candles : List Candle) (smaSeries : List JsVal) : List Candle :=
  (List.range candles.length).zipWith (fun (idx : ℕ) (candle : Candle) =>
    { candle with sma := (smaSeries[idx]?).getD JsVal.undefined }) candles

/-- The mapping of a recent candle to its returned entry. Candle objects are
created once per index, so the identity test `candle === latest` is the equality
of their indices. -/
def toRecentCandle (latest : Option Candle) (candle : Candle) : RecentCandle :=
  { index := candle.index
    number := candle.number
    timestamp := candle.timestamp
    open_ := candle.open_
    high := candle.high
    low := candle.low
    close := candle.close
    volume := candle.volume
    sma := candle.sma
    forming := decide (latest.map Candle.index = some candle.index)
    matches_ := evaluateMatches candle }

/-- The list `candles` of `fetchTradingViewAnalysis`: the candle objects of the
bars with the SMA series attached. -/
def analysisCandles (numberOfString : String → JsNum) (smaPeriod : JsVal)
    (periods : List Bar) : List Candle :=
  let candles := buildCandles numberOfString periods
  let smaSeries := computeSMA candles smaPeriod
  attachSMA candles smaSeries

/-- The list `recent`: `candles.slice(-Math.max(recentCount, 1))`. -/
def recentWindow (numberOfString : String → JsNum) (recentCount : JsVal)
    (candles : List Candle) : List Candle :=
  jsSliceFrom candles
    (JsNum.neg (JsNum.max (recentCount.toNumeric numberOfString) (JsNum.fin 1)))

/-- The candle `latest`: `recent[recent.length - 1]`. -/
def latestOf (recent : List Candle) : Option Candle :=
  recent[recent.length - 1]?

/-- The flag `hasSMA`: `latest && Number.isFinite(latest.sma)`. -/
def hasSMAOf (latest : Option Candle) : Bool :=
  match latest with
  | some l => l.sma.isFinite
  | none => false

/-- The list `closesUsed`. -/
def closesUsedOf (smaPeriod : JsVal) (candles : List Candle) (hasSMA : Bool) :
    List CloseUsed :=
  let startIdx :=
    if hasSMA then
      JsNum.sub (JsNum.fin ((candles.length : ℚ) - 1)) smaPeriod.asNum
    else JsNum.fin (-1)
  if hasSMA && JsNum.ge startIdx (JsNum.fin 0) then
    (jsSlice candles startIdx (JsNum.fin ((candles.length : ℚ) - 1))).map
      (fun c => ({ timestamp := c.timestamp, close := c.close } : CloseUsed))
  else []

/-- The list `recentCandles`. -/
def recentCandlesOf (recent : List Candle) : List RecentCandle :=
  recent.map (toRecentCandle (latestOf recent))

/-- The value `previousCompleted` before it is wrapped:
`recentCandles.length >= 2 ? recentCandles[recentCandles.length - 2] : null`. -/
def previousCompletedOf (recentCandles : List RecentCandle) : Option RecentCandle :=
  if 2 ≤ recentCandles.length then recentCandles[recentCandles.length - 2]? else none

/-- The function `fetchTradingViewAnalysis`, from the point where the fetch has
resolved to `fetched`. It fails when no bar came back. -/
def fetchTradingViewAnalysis (numberOfString : String → JsNum) (options : AnalysisOptions)
    (fetched : Fetched) : Except String Analysis :=
  if fetched.periods.length = 0 then
    Except.error "No bars returned from TradingView"
  else
    let candles := analysisCandles numberOfString options.smaPeriod fetched.periods
    let recent := recentWindow numberOfString options.recentCount candles
    let latest := latestOf recent
    let hasSMA := hasSMAOf latest
    let closesUsed := closesUsedOf options.smaPeriod candles hasSMA
    let recentCandles := recentCandlesOf recent
    let previousCompleted := previousCompletedOf recentCandles
    Except.ok
      { symbol := options.symbol
        requestedSymbol := options.symbol
        resolvedSymbol := fetched.resolvedSymbol
        timeframe := options.timeframe
        normalizedTimeframe := fetched.timeframe
        totalBarsFetched := candles.length
        smaPeriod := options.smaPeriod
        recentCount := recentCandles.length
        candles := recentCandles
        closes := closesUsed
        sma := match latest with
          | some l => if hasSMA then l.sma else JsVal.null
          | none => JsVal.null
        greenAbove := recentCandles.filter (fun c => c.matches_.greenAbove)
        redBelow := recentCandles.filter (fun c => c.matches_.redBelow)
        previousCompleted := previousCompleted.map (fun pc =>
          { candle := pc
            matches_ := pc.matches_
            formingReference := recentCandles[recentCandles.length - 1]? })
        usingGuest := fetched.usingGuest
        fetchRange := options.range }

/-! ## The WhatsApp alert of one symbol -/

/-- The characters removed by `String.prototype.trim`: the white space and the
line terminators of the language. -/
def isJsWhiteSpace (c : Char) : Bool :=
  c.toNat = 0x9 || c.toNat = 0xA || c.toNat = 0xB || c.toNat = 0xC || c.toNat = 0xD ||
  c.toNat = 0x20 || c.toNat = 0xA0 || c.toNat = 0x1680 ||
  (0x2000 ≤ c.toNat && c.toNat ≤ 0x200A) ||
  c.toNat = 0x2028 || c.toNat = 0x2029 || c.toNat = 0x202F || c.toNat = 0x205F ||
  c.toNat = 0x3000 || c.toNat = 0xFEFF

/-- The method `String.prototype.trim`. -/
def jsTrim (s : String) : String :=
  String.mk ((s.toList.dropWhile isJsWhiteSpace).reverse.dropWhile isJsWhiteSpace).reverse

/-- The operator `===` on two values: `NaN` differs from itself. -/
def JsVal.strictEq (a b : JsVal) : Bool :=
  if a = JsVal.num JsNum.nan then false else decide (a = b)

/-- A `Map` with string keys: the entries in insertion order, each key once. -/
abbrev JsMap (α : Type) := List (String × α)

/-- The lookup of a key in a `Map`. -/
def JsMap.get? {α : Type} : JsMap α → String → Option α
  | [], _ => none
  | (k0, v) :: m, k => if k0 = k then some v else JsMap.get? m k

/-- The method `Map.prototype.set`: the value of an existing key is replaced in
place, a new key is appended. -/
def JsMap.set {α : Type} : JsMap α → String → α → JsMap α
  | [], k, v => [(k, v)]
  | (k0, v0) :: m, k, v => if k0 = k then (k, v) :: m else (k0, v0) :: JsMap.set m k v

/-- The argument object of `buildFriendlyWhatsAppMessage`. -/
structure MessageInput where
  symbol : String
  timeframe : String
  previousCandle : Option RecentCandle
  formingCandle : Option RecentCandle

/-- The object resolved by `prepareWhatsAppAlert`. -/
structure AlertPrep where
  analysis : Analysis
  message : String
  formingCandle : Option RecentCandle
  previousCandle : Option RecentCandle
  isVerified : Bool

/-- The function `prepareWhatsAppAlert` from the point where the analysis has
resolved. The message builder `buildFriendlyWhatsAppMessage` of the WhatsApp
service is the parameter `build`. -/
def prepareWhatsAppAlert (build : MessageInput → String) (analysis : Analysis) : AlertPrep :=
  let candles := analysis.candles
  let formingCandle := candles[candles.length - 1]?
  let previousInfo := analysis.previousCompleted
  let previousCandle := previousInfo.map (fun info =>
    { info.candle with matches_ := info.matches_ })
  let isVerified := match previousCandle with
    | some c => c.matches_.greenAbove || c.matches_.redBelow
    | none => false
  let message :=
    if isVerified then
      build
        { symbol := analysis.symbol
          timeframe := analysis.timeframe
          previousCandle := previousCandle
          formingCandle := formingCandle }
    else ""
  { analysis := analysis
    message := message
    formingCandle := formingCandle
    previousCandle := previousCandle
    isVerified := isVerified }

/-- A call of `sendWhatsAppMessage` and whether it resolved (the message was
confirmed as sent) or threw. -/
structure SendCall where
  phone : String
  apiKey : String
  text : String
  delivered : Bool
  deriving DecidableEq

/-- The state the alert loop keeps between polls: the map `lastAlertTimestamp`
and, as a record of the effects, the calls of `sendWhatsAppMessage` so far.
Lines written with `writeLog` are not modelled. -/
structure AlertState where
  lastAlertTimestamp : JsMap JsVal
  sendCalls : List SendCall

/-- The object a poll of one symbol resolves to. -/
structure PollResult where
  symbol : String
  verified : Bool
  sent : Bool
  deriving DecidableEq

/-- The CallMeBot credentials `CALLMEBOT_PHONE` and `CALLMEBOT_API_KEY`. -/
structure Credentials where
  phone : String
  apiKey : String

/-- The constant `prevTimestamp` of `pollSymbol`:
`previousCandle?.timestamp || null`. -/
def prevTimestampOf (prep : AlertPrep) : JsVal :=
  match prep.previousCandle with
  | some c => JsVal.or c.timestamp JsVal.null
  | none => JsVal.null

/-- The constant `trimmedMessage` of `pollSymbol`: `message && message.trim()`. -/
def trimmedMessageOf (prep : AlertPrep) : String :=
  if prep.message = "" then "" else jsTrim prep.message

/-- The closure `pollSymbol(symbol)`. Its two awaited calls are inputs:
`analysis` is what the analysis inside `prepareWhatsAppAlert` resolved to or
the error it rejected with, and `delivery` is the outcome of
`sendWhatsAppMessage` in case it is called. `toUpperCase` is
`String.prototype.toUpperCase`. The result is what the poll resolves to, or the
error it rejects with, and the state afterwards. -/
def pollSymbol (toUpperCase : String → String) (build : MessageInput → String)
    (cred : Credentials) (st : AlertState) (symbol : String)
    (analysis : Except String Analysis) (delivery : Except String String) :
    Except String PollResult × AlertState :=
  let key := toUpperCase symbol
  match analysis with
  | Except.error e => (Except.error e, st)
  | Except.ok a =>
    let prep := prepareWhatsAppAlert build a
    let prevTimestamp := prevTimestampOf prep
    let trimmedMessage := trimmedMessageOf prep
    if !prevTimestamp.truthy || !prep.isVerified || trimmedMessage = "" then
      (Except.ok { symbol := symbol, verified := false, sent := false }, st)
    else if JsVal.strictEq ((st.lastAlertTimestamp.get? key).getD JsVal.undefined)
        prevTimestamp then
      (Except.ok { symbol := symbol, verified := true, sent := false }, st)
    else
      match delivery with
      | Except.error e =>
        (Except.error e,
          { st with sendCalls := st.sendCalls ++
              [{ phone := cred.phone, apiKey := cred.apiKey, text := trimmedMessage,
                 delivered := false }] })
      | Except.ok _ =>
        (Except.ok { symbol := symbol, verified := true, sent := true },
          { lastAlertTimestamp := st.lastAlertTimestamp.set key prevTimestamp
            sendCalls := st.sendCalls ++
              [{ phone := cred.phone, apiKey := cred.apiKey, text := trimmedMessage,
                 delivered := true }] })

/-- The number of messages delivered so far. -/
def AlertState.deliveredCount (st : AlertState) : ℕ :=
  (st.sendCalls.filter (fun c => c.delivered)).length

/-! ## The alert scheduler -/

/-- The constants of the alert loop: `baseIntervalMs`, `retryIntervalMs` and
`WHATSAPP_MAX_RETRIES`, all positive integers in the source. -/
structure SchedulerConfig where
  baseIntervalMs : ℕ
  retryIntervalMs : ℕ
  maxRetries : ℕ

/-- The timers of the runtime that belong to the alert loop: the pending ones
with their delay, and the identifier the next `setTimeout` hands out. -/
structure Timers where
  pending : List (ℕ × ℕ)
  nextId : ℕ
  deriving DecidableEq

/-- The call `setTimeout(callback, delay)`: a fresh timer becomes pending. -/
def Timers.setTimeout (t : Timers) (delay : ℕ) : ℕ × Timers :=
  (t.nextId, { pending := t.pending ++ [(t.nextId, delay)], nextId := t.nextId + 1 })

/-- The call `clearTimeout(id)`: the timer is no longer pending; clearing a timer
that has fired already changes nothing. -/
def Timers.clearTimeout (t : Timers) (id : ℕ) : Timers :=
  { t with pending := t.pending.filter (fun e => e.1 ≠ id) }

/-- The variables `consecutiveFailures` and `timeoutId` of
`startWhatsAppAlerts`, with the timers of the runtime. -/
structure SchedulerState where
  consecutiveFailures : ℕ
  timeoutId : Option ℕ
  timers : Timers
  deriving DecidableEq

/-- The closure `scheduleNext(delay)`: a stored timer is cleared, then a new one
is armed and stored. -/
def scheduleNext (st : SchedulerState) (delay : ℕ) : SchedulerState :=
  let cleared := match st.timeoutId with
    | some id => st.timers.clearTimeout id
    | none => st.timers
  let armed := cleared.setTimeout delay
  { st with timeoutId := some armed.1, timers := armed.2 }

/-- How `await pollAll()` ended inside the timer callback: it resolved with the
flag `hadErrors`, or an exception reached the `catch` block. -/
inductive PollOutcome where
  | resolved (hadErrors : Bool)
  | threw
  deriving DecidableEq

/-- Whether the outcome counts as a failing cycle. -/
def PollOutcome.failed : PollOutcome → Bool
  | PollOutcome.resolved hadErrors => hadErrors
  | PollOutcome.threw => true

/-- The body of the timer callback once `pollAll` has ended with `outcome`. -/
def timerCallback (cfg : SchedulerConfig) (st : SchedulerState) (outcome : PollOutcome) :
    SchedulerState :=
  match outcome with
  | PollOutcome.resolved true =>
    let st1 := { st with consecutiveFailures := st.consecutiveFailures + 1 }
    if st1.consecutiveFailures > cfg.maxRetries then
      scheduleNext { st1 with consecutiveFailures := 0 } cfg.baseIntervalMs
    else
      let retryDelay := cfg.retryIntervalMs * st1.consecutiveFailures
      scheduleNext st1 retryDelay
  | PollOutcome.resolved false =>
    scheduleNext { st with consecutiveFailures := 0 } cfg.baseIntervalMs
  | PollOutcome.threw =>
    let st1 := { st with consecutiveFailures := st.consecutiveFailures + 1 }
    if st1.consecutiveFailures > cfg.maxRetries then
      scheduleNext { st1 with consecutiveFailures := 0 } cfg.baseIntervalMs
    else
      let retryDelay := cfg.retryIntervalMs * st1.consecutiveFailures
      scheduleNext st1 retryDelay

/-- The runtime fires the oldest pending timer: it stops being pending. -/
def fireTimer (st : SchedulerState) : SchedulerState :=
  { st with timers := { st.timers with pending := st.timers.pending.tail } }

/-- One polling cycle: the pending timer fires and its callback runs to the end
with the given outcome of `pollAll`. Without a pending timer nothing runs. -/
def runCycle (cfg : SchedulerConfig) (st : SchedulerState) (outcome : PollOutcome) :
    SchedulerState :=
  if st.timers.pending = [] then st else timerCallback cfg (fireTimer st) outcome

/-- The state after a sequence of polling cycles. -/
def runCycles (cfg : SchedulerConfig) (st : SchedulerState) (outcomes : List PollOutcome) :
    SchedulerState :=
  outcomes.foldl (runCycle cfg) st

/-- The delays of the pending timers, oldest first. -/
def SchedulerState.pendingDelays (st : SchedulerState) : List ℕ :=
  st.timers.pending.map (fun e => e.2)

/-- The delays scheduled by a sequence of polling cycles, one cycle after the
other. -/
def scheduledDelays (cfg : SchedulerConfig) :
    SchedulerState → List PollOutcome → List (List ℕ)
  | _, [] => []
  | st, o :: os =>
    (runCycle cfg st o).pendingDelays :: scheduledDelays cfg (runCycle cfg st o) os

/-- The invariant of the alert loop between two cycles: exactly one timer is
pending, and it is the one stored in `timeoutId`. -/
def Armed (st : SchedulerState) : Prop :=
  ∃ id delay, st.timeoutId = some id ∧ st.timers.pending = [(id, delay)]

/-- The switches checked by `startWhatsAppAlerts` before it arms the loop. -/
structure AlertSwitches where
  alertEnabled : Bool
  callmebotPhone : String
  callmebotApiKey : String
  symbols : List String

/-- The function `startWhatsAppAlerts`: nothing is armed when alerts are
disabled, a credential is empty or no symbol is configured; otherwise the loop
starts with `scheduleNext(0)`. The argument is the timers before the call. -/
def startWhatsAppAlerts (sw : AlertSwitches) (timers : Timers) : Option SchedulerState :=
  if !sw.alertEnabled then none
  else if sw.callmebotPhone = "" ∨ sw.callmebotApiKey = "" then none
  else if sw.symbols.length = 0 then none
  else
    some (scheduleNext { consecutiveFailures := 0, timeoutId := none, timers := timers } 0)

/-! ## The candle cache -/

/-- The object `result` that `requestCandles` builds and caches. The provider
metadata `meta` is passed through as received; `symbol` and `providerSymbol` are
`undefined` when the pair is a name inherited from `Object.prototype`. -/
structure CandleBatch where
  pair : String
  symbol : JsVal
  providerSymbol : JsVal
  interval : String
  resolution : String
  timestamps : List JsVal
  open_ : List JsVal
  high : List JsVal
  low : List JsVal
  close : List JsVal
  volume : List JsVal
  lastUpdated : JsVal
  lookbackHours : ℚ
  fetchDurationMs : ℤ
  providerMeta : JsVal
  source : String
  requestedOutputSize : ℕ
  deriving DecidableEq

/-- An entry of `chartCache`. -/
structure CacheEntry where
  data : CandleBatch
  cachedAt : ℤ
  deriving DecidableEq

/-- The function `getCachedCandles(pair, hours)`; `ttl` is `CHART_CACHE_TTL_MS`
(the result of a `parseInt`, so possibly `NaN`) and `now` is `Date.now()`. -/
def getCachedCandles (ttl : JsNum) (now : ℤ) (chartCache : JsMap CacheEntry)
    (pair : String) (hours : JsNum) : Option CandleBatch :=
  match chartCache.get? pair with
  | none => none
  | some cached =>
    let isFresh := JsNum.lt (JsNum.fin ((now : ℚ) - (cached.cachedAt : ℚ))) ttl
    let coversRequestedHours := JsNum.ge (JsNum.fin cached.data.lookbackHours) hours
    if isFresh && coversRequestedHours then some cached.data else none

/-! ## The credential check of the HTTP API -/

/-- What `auth(req)` of the `basic-auth` library yields for a request that
carries Basic credentials. -/
structure BasicUser where
  name : String
  pass : String
  deriving DecidableEq

/-- A request as far as `requireAuth` reads it: the method and the result of
`auth(req)`, `none` when the request carries no Basic credentials. -/
structure AuthRequest where
  method : String
  credentials : Option BasicUser

/-- The environment variables `APP_USERNAME` and `APP_PASSWORD`, `none` when not
set. -/
structure AuthEnv where
  appUsername : Option String
  appPassword : Option String

/-- The expression `process.env.NAME || fallback` for an environment variable. -/
def envOr (value : Option String) (fallback : String) : String :=
  match value with
  | some v => if v = "" then fallback else v
  | none => fallback

/-- What `requireAuth` does with a request: it calls `next`, after recording
`req.authenticatedUser` or not, or it answers with a status, the
`WWW-Authenticate` header and a JSON body `{success, error}`. -/
inductive AuthOutcome where
  | next (authenticatedUser : Option String)
  | answered (status : ℕ) (wwwAuthenticate : String) (success : Bool) (error : String)
  deriving DecidableEq

/-- The middleware `requireAuth(req, res, next)`. -/
def requireAuth (env : AuthEnv) (req : AuthRequest) : AuthOutcome :=
  if req.method = "OPTIONS" then AuthOutcome.next none
  else
    let user := req.credentials
    let username := envOr env.appUsername "admin"
    let password := envOr env.appPassword "admin"
    match user with
    | none => AuthOutcome.answered 401 "Basic realm=\"Signal Alert\"" false "Access denied"
    | some u =>
      if u.name ≠ username ∨ u.pass ≠ password then
        AuthOutcome.answered 401 "Basic realm=\"Signal Alert\"" false "Access denied"
      else AuthOutcome.next (some u.name)

/-! ## The delivery of a WhatsApp message -/

/-- What the request to CallMeBot resolved to: `response.ok`, `response.status`
and the text of the body. -/
structure HttpResponse where
  ok : Bool
  status : ℕ
  body : String
  deriving DecidableEq

/-- The query parameters of a request made to the CallMeBot endpoint. -/
structure CallMeBotRequest where
  phone : String
  text : String
  apikey : String
  deriving DecidableEq

/-- The test `/pattern/i.test(text)` for a pattern made of ASCII letters and
spaces: some stretch of the text equals the pattern up to the case of ASCII
letters (a character outside ASCII never matches an ASCII letter). -/
def regexTestIgnoreCase (pattern text : String) : Bool :=
  decide ((pattern.toList.map Char.toLower) <:+: (text.toList.map Char.toLower))

/-- The expression `phone.replace(/[^0-9+]/g, "")`: only digits and `+` stay. -/
def keepDigitsAndPlus (phone : String) : String :=
  String.mk (phone.toList.filter (fun c => c.isDigit || c = '+'))

/-- The function `sendWhatsAppMessage({ phone, apiKey, text })`. The awaited
request is the input `fetched`: the response, or the error with which `fetch`
or `response.text()` rejected. The result is the value returned or the message
of the error thrown, with the requests made. -/
def sendWhatsAppMessage (phone apiKey text : String) (fetched : Except String HttpResponse) :
    Except String String × List CallMeBotRequest :=
  if phone = "" ∨ apiKey = "" then
    (Except.error "Missing CallMeBot credentials", [])
  else if text = "" then
    (Except.error "Cannot send an empty WhatsApp message", [])
  else
    let request : CallMeBotRequest :=
      { phone := keepDigitsAndPlus phone, text := text, apikey := jsTrim apiKey }
    match fetched with
    | Except.error e => (Except.error e, [request])
    | Except.ok response =>
      let resultText := response.body
      if !response.ok then
        (Except.error
          ("CallMeBot responded with " ++ toString response.status ++ ": " ++
            (if resultText = "" then "Unknown error" else resultText)),
          [request])
      else if !regexTestIgnoreCase "Message sent" resultText then
        (Except.error
          (if resultText ≠ "" ∧ jsTrim resultText ≠ "" then jsTrim resultText
           else "CallMeBot did not confirm message delivery"),
          [request])
      else (Except.ok (jsTrim resultText), [request])

/-! ## One polling cycle over all symbols -/

/-- An entry of the array `results` of `pollAll`: what the poll of one symbol
resolved to, or the object built in the `catch` block, which carries the error
caught (an `Error` object, hence truthy). -/
structure PollEntry where
  symbol : String
  error : Option String
  verified : Bool
  sent : Bool
  deriving DecidableEq

/-- The outcomes of the two awaited calls of one poll. -/
structure PollInputs where
  analysis : Except String Analysis
  delivery : Except String String

/-- The object `pollAll` resolves to. -/
structure PollSummary where
  hadErrors : Bool
  anyVerified : Bool
  anySent : Bool
  deriving DecidableEq

/-- The body of the function mapped over the symbols in `pollAll`:
`try { return await pollSymbol(symbol) } catch (error) { ... }`. -/
def guardedPoll (symbol : String) (polled : Except String PollResult) :
    Except String PollEntry :=
  match polled with
  | Except.ok r =>
    Except.ok { symbol := r.symbol, error := none, verified := r.verified, sent := r.sent }
  | Except.error e =>
    Except.ok { symbol := symbol, error := some e, verified := false, sent := false }

/-- The array `results` of `pollAll`, or the error with which `Promise.all`
rejects, and the state afterwards, for the cycle in which the poll of every
symbol settles before that of the next one moves on. The source starts the
polls together and they take turns at their `await`s in an order that is up to
the network (`pollAllRun`); a poll reads and writes the shared map only under
the key of its own symbol, so for symbols with different keys every order gives
each poll the same result. -/
def pollResults (toUpperCase : String → String) (build : MessageInput → String)
    (cred : Credentials) :
    AlertState → List (String × PollInputs) → Except String (List PollEntry) × AlertState
  | st, [] => (Except.ok [], st)
  | st, (symbol, inputs) :: rest =>
    let polled := pollSymbol toUpperCase build cred st symbol inputs.analysis inputs.delivery
    let others := pollResults toUpperCase build cred polled.2 rest
    (match guardedPoll symbol polled.1, others.1 with
      | Except.ok entry, Except.ok entries => Except.ok (entry :: entries)
      | Except.error e, _ => Except.error e
      | _, Except.error e => Except.error e,
     others.2)

/-- The closure `pollAll()`. -/
def pollAll (toUpperCase : String → String) (build : MessageInput → String)
    (cred : Credentials) (st : AlertState) (symbols : List (String × PollInputs)) :
    Except String PollSummary × AlertState :=
  let polled := pollResults toUpperCase build cred st symbols
  (match polled.1 with
    | Except.ok results =>
      Except.ok
        { hadErrors := results.any (fun entry => entry.error.isSome)
          anyVerified := results.any (fun entry => entry.verified)
          anySent := results.any (fun entry => entry.sent) }
    | Except.error e => Except.error e,
   polled.2)

/-- Where the poll of one symbol stands while the polls of a cycle run together:
at its first `await` (the analysis), at its second (`sendWhatsAppMessage`, called
with `text` for the candle of `prevTimestamp`), or settled with what it resolved
to or rejected with. -/
inductive PollProgress where
  | awaitingAnalysis
  | awaitingDelivery (prevTimestamp : JsVal) (text : String)
  | settled (outcome : Except String PollResult)

/-- The part of `pollSymbol(symbol)` between its two `await`s: it runs when the
analysis has settled, reads the map `lastAlertTimestamp` as it is at that moment
and either settles or calls `sendWhatsAppMessage`. -/
def pollSymbolToSend (toUpperCase : String → String) (build : MessageInput → String)
    (st : AlertState) (symbol : String) (analysis : Except String Analysis) : PollProgress :=
  let key := toUpperCase symbol
  match analysis with
  | Except.error e => PollProgress.settled (Except.error e)
  | Except.ok a =>
    let prep := prepareWhatsAppAlert build a
    let prevTimestamp := prevTimestampOf prep
    let trimmedMessage := trimmedMessageOf prep
    if !prevTimestamp.truthy || !prep.isVerified || trimmedMessage = "" then
      PollProgress.settled (Except.ok { symbol := symbol, verified := false, sent := false })
    else if JsVal.strictEq ((st.lastAlertTimestamp.get? key).getD JsVal.undefined)
        prevTimestamp then
      PollProgress.settled (Except.ok { symbol := symbol, verified := true, sent := false })
    else PollProgress.awaitingDelivery prevTimestamp trimmedMessage

/-- The part of `pollSymbol(symbol)` after `await sendWhatsAppMessage(...)`: it
runs when the delivery has settled, and on a delivery that resolved it writes
the map `lastAlertTimestamp` as it is at that moment. -/
def pollSymbolAfterSend (toUpperCase : String → String) (cred : Credentials)
    (st : AlertState) (symbol : String) (prevTimestamp : JsVal) (text : String)
    (delivery : Except String String) : Except String PollResult × AlertState :=
  let key := toUpperCase symbol
  match delivery with
  | Except.error e =>
    (Except.error e,
      { st with sendCalls := st.sendCalls ++
          [{ phone := cred.phone, apiKey := cred.apiKey, text := text, delivered := false }] })
  | Except.ok _ =>
    (Except.ok { symbol := symbol, verified := true, sent := true },
      { lastAlertTimestamp := st.lastAlertTimestamp.set key prevTimestamp
        sendCalls := st.sendCalls ++
          [{ phone := cred.phone, apiKey := cred.apiKey, text := text, delivered := true }] })

/-- A cycle of `pollAll` under way: the shared state and where the poll of each
symbol stands. -/
structure PollCycle where
  alert : AlertState
  progress : List PollProgress

/-- The cycle right after `WHATSAPP_ALERT_SYMBOLS.map(...)` has started the polls:
every poll waits for its analysis. -/
def pollAllStart (st : AlertState) (symbols : List (String × PollInputs)) : PollCycle :=
  { alert := st, progress := symbols.map (fun _ => PollProgress.awaitingAnalysis) }

/-- One turn of the event loop inside a cycle: the call that the poll at
position `i` awaits settles, and that poll runs on to its next `await` or to its
end. The polls share one thread, so nothing else runs in between. A position
without a poll, or whose poll has settled, changes nothing. -/
def pollAllStep (toUpperCase : String → String) (build : MessageInput → String)
    (cred : Credentials) (symbols : List (String × PollInputs)) (cycle : PollCycle) (i : ℕ) :
    PollCycle :=
  match symbols[i]?, cycle.progress[i]? with
  | some (symbol, inputs), some PollProgress.awaitingAnalysis =>
    let next := pollSymbolToSend toUpperCase build cycle.alert symbol inputs.analysis
    { alert := cycle.alert, progress := cycle.progress.set i next }
  | some (symbol, inputs), some (PollProgress.awaitingDelivery prevTimestamp text) =>
    let finished := pollSymbolAfterSend toUpperCase cred cycle.alert symbol prevTimestamp text
      inputs.delivery
    { alert := finished.2, progress := cycle.progress.set i (PollProgress.settled finished.1) }
  | _, _ => cycle

/-- A cycle of `pollAll` in which the awaited calls settle in the order
`schedule`, a list of positions in the list of symbols: the first time a
position comes up its analysis settles, the second time its delivery. The order
is up to the network; `pollResults` is the order in which every poll settles
before the next one moves. -/
def pollAllRun (toUpperCase : String → String) (build : MessageInput → String)
    (cred : Credentials) (st : AlertState) (symbols : List (String × PollInputs))
    (schedule : List ℕ) : PollCycle :=
  schedule.foldl (pollAllStep toUpperCase build cred symbols) (pollAllStart st symbols)

/-! ## Primitives of the language runtime -/

/-- The primitives of the language runtime that the model does not compute:
the lower-case mapping of a character outside ASCII, `Number.parseFloat` on a
string, `String.prototype.localeCompare`, `new Date(value).toLocaleString()` and
`Number.prototype.toFixed`. -/
structure JsRuntime where
  lowerNonAscii : Char → String
  parseFloatText : String → JsNum
  localeCompare : String → String → ℤ
  toLocaleString : JsVal → String
  toFixed : ℚ → ℕ → String

/-- The method `String.prototype.toLowerCase`: an ASCII capital becomes its small
letter, every other ASCII character stays, and a character outside ASCII is
mapped by the runtime (its mapping is taken character by character). -/
def jsToLowerCase (rt : JsRuntime) (s : String) : String :=
  String.mk (s.toList.flatMap (fun c =>
    if c.toNat < 128 then [c.toLower] else (rt.lowerNonAscii c).toList))

/-- The value of a string of decimal digits. -/
def digitsValue (digits : List Char) : ℕ :=
  digits.foldl (fun acc d => acc * 10 + (d.toNat - 48)) 0

/-- The integer that `Number.parseInt(text, 10)` reads: leading white space is
skipped, a sign is read, then the longest run of decimal digits; `none` where
the function gives `NaN`. The function returns the double nearest to this
integer (`jsParseInt`), which is the integer itself up to `2^53`. -/
def parseInt10 (text : String) : Option ℤ :=
  let cs := text.toList.dropWhile isJsWhiteSpace
  let signed : Bool × List Char := match cs with
    | '-' :: rest => (true, rest)
    | '+' :: rest => (false, rest)
    | rest => (false, rest)
  let digits := signed.2.takeWhile Char.isDigit
  if digits = [] then none
  else if signed.1 then some (-(digitsValue digits : ℤ)) else some (digitsValue digits : ℤ)

/-- The function `Number.parseInt(text, 10)`: `NaN` when no digit is read, else
the double nearest to the integer read, `Infinity` when that is out of range. -/
def jsParseInt (text : String) : JsNum :=
  match parseInt10 text with
  | none => JsNum.nan
  | some value => JsNum.roundDouble (value : ℚ)

/-- The conversion `String(value)` of a number whose value is an integer:
decimal digits below `10^21` and the exponent form from there on. The exponent
form is written with the decimal digits of the integer up to its last digit
that is not zero, which are the digits the runtime prints when the number is
held exactly with at most 17 of them. -/
def jsNumberText (value : ℤ) : String :=
  let digits := (Nat.repr value.natAbs).toList
  let sign := if value < 0 then "-" else ""
  if value.natAbs < 10 ^ 21 then sign ++ String.mk digits
  else
    let significant := (digits.reverse.dropWhile (fun c => c = '0')).reverse
    let mantissa : List Char :=
      match significant with
      | [] => []
      | [d] => [d]
      | d :: rest => d :: '.' :: rest
    sign ++ String.mk mantissa ++ "e+" ++ Nat.repr (digits.length - 1)

/-! ## The candle fetcher -/

/-- The units that the pattern of `getIntervalMinutes` accepts. -/
def intervalUnits : List String := ["min", "h", "day", "week", "month"]

/-- The function `getIntervalMinutes(interval)`: 60 unless the trimmed,
lower-cased text matches `/^(\d+)(min|h|day|week|month)$/`, a run of decimal
digits followed by one of the units, and `Number.parseInt` of the digits, the
double nearest to their value, is finite and positive; then that number times
the minutes of the unit. -/
def getIntervalMinutes (rt : JsRuntime) (interval : JsVal) : JsNum :=
  match interval with
  | JsVal.str text =>
    if jsTrim text = "" then JsNum.fin 60
    else
      let normalized := (jsToLowerCase rt (jsTrim text)).toList
      let digits := normalized.takeWhile Char.isDigit
      let unitText := String.mk (normalized.dropWhile Char.isDigit)
      if digits = [] ∨ unitText ∉ intervalUnits then JsNum.fin 60
      else
        let value := JsNum.roundDouble (digitsValue digits : ℚ)
        if !value.isFinite || JsNum.le value (JsNum.fin 0) then JsNum.fin 60
        else if unitText = "min" then value
        else if unitText = "h" then JsNum.mul value (JsNum.fin 60)
        else if unitText = "day" then JsNum.mul value (JsNum.fin 1440)
        else if unitText = "week" then JsNum.mul value (JsNum.fin 10080)
        else if unitText = "month" then JsNum.mul value (JsNum.fin 43200)
        else JsNum.fin 60
  | _ => JsNum.fin 60

/-- An entry of the table `SYMBOLS`, or what a property inherited from
`Object.prototype` looks like when it is read as one: it has neither
`providerSymbol` nor `interval`. -/
structure SymbolMeta where
  providerSymbol : JsVal
  label : JsVal
  interval : Option String
  deriving DecidableEq

/-- The names every object inherits from `Object.prototype`; each holds a
function or an object, which is truthy. -/
def objectPrototypeNames : List String :=
  ["constructor", "__defineGetter__", "__defineSetter__", "hasOwnProperty",
   "__lookupGetter__", "__lookupSetter__", "isPrototypeOf", "propertyIsEnumerable",
   "toString", "valueOf", "__proto__", "toLocaleString"]

/-- The lookup `SYMBOLS[pair]`, `none` when it is `undefined`. -/
def SYMBOLS (pair : String) : Option SymbolMeta :=
  if pair = "XAUUSD" then
    some { providerSymbol := JsVal.str "XAU/USD", label := JsVal.str "Gold / XAUUSD",
           interval := some "1h" }
  else if pair = "USDJPY" then
    some { providerSymbol := JsVal.str "USD/JPY", label := JsVal.str "USDJPY",
           interval := some "1h" }
  else if pair = "US30" then
    some { providerSymbol := JsVal.str "DJI", label := JsVal.str "US30 / Dow Jones",
           interval := some "1h" }
  else if pair ∈ objectPrototypeNames then
    some { providerSymbol := JsVal.undefined, label := JsVal.undefined, interval := none }
  else none

/-- The keys of the table `SYMBOLS`. -/
def symbolKeys : List String := ["XAUUSD", "USDJPY", "US30"]

/-- The constants of the Twelve Data integration: `TWELVEDATA_ENABLED`,
`TWELVEDATA_DEFAULT_INTERVAL` (never empty) and `parsedOutputSize`, the result
of the `parseInt` behind `TWELVEDATA_MAX_OUTPUTSIZE` with `none` for a result
that is not finite. -/
structure TwelveDataConfig where
  enabled : Bool
  defaultInterval : String
  parsedOutputSize : Option ℤ

/-- The constant `TWELVEDATA_MAX_OUTPUTSIZE`. -/
def TwelveDataConfig.maxOutputSize (cfg : TwelveDataConfig) : ℕ :=
  match cfg.parsedOutputSize with
  | some parsed => if 0 < parsed then parsed.toNat else 5000
  | none => 5000

/-- A row of `payload.values`: an object whose `datetime`, when present, is a
text, as the provider sends it. -/
structure ProviderRow where
  datetime : Option String
  open_ : JsVal
  high : JsVal
  low : JsVal
  close : JsVal
  volume : JsVal
  deriving DecidableEq

/-- The parsed body of the provider as `requestCandles` reads it; `values` is
`none` when `payload.values` is not an array. -/
structure Payload where
  status : JsVal
  message : JsVal
  code : JsVal
  values : Option (List ProviderRow)
  providerMeta : JsVal

/-- What `fetch` and `response.text()` resolved to, with the outcome of
`JSON.parse(rawText)`: a parse error, `none` for the JSON value `null`, or the
payload (a value that is no object reads as a payload without fields). -/
structure ProviderResponse where
  ok : Bool
  status : ℕ
  rawText : String
  parsed : Except String (Option Payload)

/-- An error thrown by `requestCandles`: the value its message was made from and
its `statusCode`, `undefined` when none was set. -/
structure RequestError where
  message : JsVal
  statusCode : JsVal
  deriving DecidableEq

/-- The readings of the clock during one call of `requestCandles`: `Date.now()`
before the request, when the result is built and when it is cached, and
`new Date().toISOString()`. -/
structure FetchClock where
  startedAt : ℤ
  finishedAt : ℤ
  cachedAt : ℤ
  isoNow : String

/-- The payload without any field, as `{}` is. -/
def emptyPayload : Payload :=
  { status := JsVal.undefined, message := JsVal.undefined, code := JsVal.undefined,
    values := none, providerMeta := JsVal.undefined }

/-- Truthiness of a row's `datetime`. -/
def hasDatetime (row : ProviderRow) : Bool :=
  match row.datetime with
  | some text => decide (text ≠ "")
  | none => false

/-- The comparator handed to `values.sort`: 0 when one of the two rows lacks a
`datetime`, else `a.datetime.localeCompare(b.datetime)`. -/
def compareRows (rt : JsRuntime) (a b : ProviderRow) : ℤ :=
  if !hasDatetime a || !hasDatetime b then 0
  else rt.localeCompare (a.datetime.getD "") (b.datetime.getD "")

/-- The call `values.sort(comparator)`: a stable sort; for a comparator that is
not a consistent order the engine leaves the result open, and the model is a
merge sort. -/
def sortRows (rt : JsRuntime) (values : List ProviderRow) : List ProviderRow :=
  values.mergeSort (fun a b => decide (compareRows rt a b ≤ 0))

/-- The function `Number.parseFloat(value)`: a number comes back as it is, a
text is parsed by the runtime, `null` and `undefined` give `NaN`. -/
def jsParseFloat (rt : JsRuntime) (value : JsVal) : JsNum :=
  match value with
  | JsVal.num x => x
  | JsVal.str text => rt.parseFloatText text
  | JsVal.null => JsNum.nan
  | JsVal.undefined => JsNum.nan

/-- The local function `toNumber` of `requestCandles`: `null` for `null`,
`undefined` and everything `Number.parseFloat` does not turn into a finite
number. -/
def parseFloatOrNull (rt : JsRuntime) (value : JsVal) : JsVal :=
  if value = JsVal.null ∨ value = JsVal.undefined then JsVal.null
  else
    let numeric := jsParseFloat rt value
    if numeric.isFinite then JsVal.num numeric else JsVal.null

/-- The rows the provider returned: `payload.values` when the request resolved
with a body that parses to a payload whose `values` is an array, else none. -/
def providerRowsOf (fetched : Except String ProviderResponse) : List ProviderRow :=
  match fetched with
  | Except.ok response =>
    match (if response.rawText = "" then Except.ok (some emptyPayload)
           else response.parsed) with
    | Except.ok (some payload) => payload.values.getD []
    | _ => []
  | Except.error _ => []

/-- The constant `requestedHours`. -/
def requestedHoursOf (hours : JsVal) : ℚ :=
  match hours with
  | JsVal.num (JsNum.fin h) => if 0 < h then h else 24
  | _ => 24

/-- The constant `interval`: `symbolMeta.interval || TWELVEDATA_DEFAULT_INTERVAL`. -/
def intervalOf (cfg : TwelveDataConfig) (symbolMeta : SymbolMeta) : String :=
  match symbolMeta.interval with
  | some text => if text = "" then cfg.defaultInterval else text
  | none => cfg.defaultInterval

/-- The constant `intervalMinutes`, `Math.max(getIntervalMinutes(interval), 1)`,
as a natural number: `getIntervalMinutes` gives a positive integer or
`Infinity`. `Infinity`, which takes an interval of more than 300 digits, is
held as `2^1030`: this is above 60 times every finite double, so that for every
finite `requestedHours` the quotient `requestedHours * 60 / intervalMinutes`
rounds up to at most 1 and `effectiveLookbackHours` is above `requestedHours`,
as with `Infinity`. -/
def intervalMinutesOf (rt : JsRuntime) (cfg : TwelveDataConfig) (symbolMeta : SymbolMeta) : ℕ :=
  match getIntervalMinutes rt (JsVal.str (intervalOf cfg symbolMeta)) with
  | JsNum.fin minutes => Nat.max (Nat.floor minutes) 1
  | _ => 2 ^ 1030

/-- The constant `pointsNeeded`. -/
def pointsNeededOf (requestedHours : ℚ) (intervalMinutes : ℕ) : ℕ :=
  (Max.max (Int.ceil (requestedHours * 60 / (intervalMinutes : ℚ))) 1).toNat

/-- The constant `outputsize`. -/
def outputSizeOf (cfg : TwelveDataConfig) (pointsNeeded : ℕ) : ℕ :=
  Nat.min pointsNeeded cfg.maxOutputSize

/-- The list `limitedValues`: `orderedValues.slice(-outputsize)`. -/
def limitedValuesOf (rt : JsRuntime) (outputsize : ℕ) (values : List ProviderRow) :
    List ProviderRow :=
  jsSliceFrom (sortRows rt values) (JsNum.neg (JsNum.fin (outputsize : ℚ)))

/-- The object `result` of `requestCandles`, built from the rows of the payload
once every check has passed. -/
def candleBatchOf (rt : JsRuntime) (cfg : TwelveDataConfig) (clock : FetchClock)
    (pair : String) (symbolMeta : SymbolMeta) (hours : JsVal) (payloadMeta : JsVal)
    (values : List ProviderRow) : CandleBatch :=
  let interval := intervalOf cfg symbolMeta
  let intervalMinutes := intervalMinutesOf rt cfg symbolMeta
  let requestedHours := requestedHoursOf hours
  let outputsize := outputSizeOf cfg (pointsNeededOf requestedHours intervalMinutes)
  let limitedValues := limitedValuesOf rt outputsize values
  let lastEntry := limitedValues[limitedValues.length - 1]?
  let effectiveLookbackHours :=
    Max.max (((limitedValues.length : ℚ) * (intervalMinutes : ℚ)) / 60)
      ((intervalMinutes : ℚ) / 60)
  let usedLookbackHours := Min.min requestedHours effectiveLookbackHours
  { pair := pair
    symbol := symbolMeta.providerSymbol
    providerSymbol := symbolMeta.providerSymbol
    interval := interval
    resolution := interval
    timestamps := limitedValues.map (fun entry =>
      match entry.datetime with
      | some text => JsVal.str text
      | none => JsVal.undefined)
    open_ := limitedValues.map (fun entry => parseFloatOrNull rt entry.open_)
    high := limitedValues.map (fun entry => parseFloatOrNull rt entry.high)
    low := limitedValues.map (fun entry => parseFloatOrNull rt entry.low)
    close := limitedValues.map (fun entry => parseFloatOrNull rt entry.close)
    volume := limitedValues.map (fun entry => parseFloatOrNull rt entry.volume)
    lastUpdated :=
      match lastEntry with
      | some entry => if hasDatetime entry then JsVal.str (entry.datetime.getD "")
                      else JsVal.str clock.isoNow
      | none => JsVal.str clock.isoNow
    lookbackHours := usedLookbackHours
    fetchDurationMs := clock.finishedAt - clock.startedAt
    providerMeta := JsVal.or payloadMeta JsVal.null
    source := "twelvedata"
    requestedOutputSize := outputsize }

/-- The function `requestCandles({ pair, hours })`. The awaited request is the
input `fetched` (the response, or the error `fetch` rejected with) and the
readings of the clock are the input `clock`. The result is the object returned
or the error thrown, with the chart cache afterwards. Lines written with
`writeLog` are not modelled. -/
def requestCandles (rt : JsRuntime) (cfg : TwelveDataConfig) (clock : FetchClock)
    (chartCache : JsMap CacheEntry) (pair : String) (hours : JsVal)
    (fetched : Except String ProviderResponse) :
    Except RequestError CandleBatch × JsMap CacheEntry :=
  if !cfg.enabled then
    (Except.error { message := JsVal.str "Twelve Data integration is disabled",
                    statusCode := JsVal.num (JsNum.fin 503) }, chartCache)
  else
    match SYMBOLS pair with
    | none =>
      (Except.error { message := JsVal.str ("Unsupported symbol: " ++ pair),
                      statusCode := JsVal.num (JsNum.fin 400) }, chartCache)
    | some symbolMeta =>
      match fetched with
      | Except.error e =>
        (Except.error { message := JsVal.str e, statusCode := JsVal.undefined }, chartCache)
      | Except.ok response =>
        if !response.ok then
          (Except.error
            { message := JsVal.str ("Twelve Data responded with " ++ toString response.status
                ++ ": " ++ response.rawText)
              statusCode := JsVal.num (JsNum.fin (response.status : ℚ)) }, chartCache)
        else
          match (if response.rawText = "" then Except.ok (some emptyPayload)
                 else response.parsed) with
          | Except.error parseMessage =>
            (Except.error
              { message := JsVal.str ("Unable to parse Twelve Data response: " ++ parseMessage)
                statusCode := JsVal.num (JsNum.fin 502) }, chartCache)
          | Except.ok none =>
            (Except.error
              { message := JsVal.str "TypeError: Cannot read properties of null"
                statusCode := JsVal.undefined }, chartCache)
          | Except.ok (some payload) =>
            if payload.status.truthy && !JsVal.strictEq payload.status (JsVal.str "ok") then
              (Except.error
                { message := JsVal.or payload.message
                    (JsVal.str "Twelve Data returned an error response")
                  statusCode := JsVal.or payload.code (JsVal.num (JsNum.fin 502)) },
                chartCache)
            else if payload.code.truthy && payload.message.truthy && !payload.status.truthy then
              (Except.error { message := payload.message, statusCode := payload.code },
                chartCache)
            else
              let values := payload.values.getD []
              if values.length = 0 then
                (Except.error { message := JsVal.str "Twelve Data returned no candle data"
                                statusCode := JsVal.num (JsNum.fin 404) }, chartCache)
              else
                let result := candleBatchOf rt cfg clock pair symbolMeta hours
                  payload.providerMeta values
                (Except.ok result,
                  chartCache.set pair { data := result, cachedAt := clock.cachedAt })

/-- The function `getCandles(pair, hours)`: the cached batch when
`getCachedCandles` has one for the normalised hours, else a fresh request. -/
def getCandles (rt : JsRuntime) (cfg : TwelveDataConfig) (ttl : JsNum) (now : ℤ)
    (clock : FetchClock) (chartCache : JsMap CacheEntry) (pair : String) (hours : JsVal)
    (fetched : Except String ProviderResponse) :
    Except RequestError CandleBatch × JsMap CacheEntry :=
  let normalizedHours : ℚ :=
    match hours with
    | JsVal.num (JsNum.fin h) => if 0 < h then Min.min h 240 else 24
    | _ => 24
  match getCachedCandles ttl now chartCache pair (JsNum.fin normalizedHours) with
  | some cached => (Except.ok cached, chartCache)
  | none =>
    requestCandles rt cfg clock chartCache pair (JsVal.num (JsNum.fin normalizedHours)) fetched

/-! ## The text of the WhatsApp alert -/

/-- The function `formatDecimal(value, digits)`: `toFixed` for a finite number,
`String(value)` for any other value. -/
def formatDecimal (rt : JsRuntime) (value : JsVal) (digits : ℕ) : String :=
  match value with
  | JsVal.num (JsNum.fin q) => rt.toFixed q digits
  | JsVal.num JsNum.nan => "NaN"
  | JsVal.num JsNum.posInf => "Infinity"
  | JsVal.num JsNum.negInf => "-Infinity"
  | JsVal.str s => s
  | JsVal.null => "null"
  | JsVal.undefined => "undefined"

/-- The own properties of the object `lookup` of `describeTimeframe`. -/
def timeframeLookup : List (String × String) :=
  [("1", "1 minute"), ("3", "3 minutes"), ("5", "5 minutes"), ("15", "15 minutes"),
   ("30", "30 minutes"), ("45", "45 minutes"), ("60", "1 hour"), ("120", "2 hours"),
   ("180", "3 hours"), ("240", "4 hours"), ("360", "6 hours"), ("480", "8 hours"),
   ("720", "12 hours"), ("d", "daily"), ("w", "weekly"), ("m", "monthly")]

/-- The text of `lookup[normalized]` in a template when the value is truthy. The
key is in lower case, so of the names inherited from `Object.prototype` only
`constructor` (the function `Object`) and `__proto__` (the prototype object) can
be read. -/
def lookupTimeframe (normalized : String) : Option String :=
  match timeframeLookup.lookup normalized with
  | some label => some label
  | none =>
    if normalized = "constructor" then some "function Object() \x7b [native code] \x7d"
    else if normalized = "__proto__" then some "[object Object]"
    else none

/-- The test `text.endsWith(ending)`. -/
def jsEndsWith (text ending : String) : Bool :=
  decide (ending.toList <:+ text.toList)

/-- The function `describeTimeframe(code)`, as the text its result has in a
template. -/
def describeTimeframe (rt : JsRuntime) (code : String) : String :=
  if code = "" then ""
  else
    let normalized := jsToLowerCase rt (jsTrim code)
    match lookupTimeframe normalized with
    | some label => label
    | none =>
      match (if jsEndsWith normalized "h" then parseInt10 normalized else none) with
      | some hours => if hours = 1 then "1 hour" else jsNumberText hours ++ " hours"
      | none =>
        match (if jsEndsWith normalized "m" then parseInt10 normalized else none) with
        | some minutes => if minutes = 1 then "1 minute" else jsNumberText minutes ++ " minutes"
        | none => normalized

/-- The expression `trimmed.split(":").pop()`: the text after the last colon. -/
def afterLastColon (text : String) : String :=
  String.mk (text.toList.reverse.takeWhile (fun c => c ≠ ':')).reverse

/-- The function `normalizePairName(symbol)`. -/
def normalizePairName (rt : JsRuntime) (symbol : String) : String :=
  if symbol = "" then "pair"
  else
    let trimmed := jsTrim symbol
    let withoutPrefix := if ':' ∈ trimmed.toList then afterLastColon trimmed else trimmed
    jsToLowerCase rt withoutPrefix

/-- A candle as `buildFriendlyWhatsAppMessage` reads it: the fields `timestamp`
and `close`, and `matches`, `none` when the candle has no such property. -/
structure MessageCandle where
  timestamp : JsVal
  close : JsVal
  matches_ : Option Matches

/-- The argument `options` of `buildFriendlyWhatsAppMessage`. -/
structure FriendlyOptions where
  symbol : String
  timeframe : String
  previousCandle : Option MessageCandle
  formingCandle : Option MessageCandle

/-- The method `Array.prototype.join` on texts. -/
def jsJoin (separator : String) : List String → String
  | [] => ""
  | [part] => part
  | part :: rest => part ++ separator ++ jsJoin separator rest

/-- The constant `closeValue`, and likewise `formingClose`, of
`buildFriendlyWhatsAppMessage`: the close with two decimals when it is a finite
number, `none` (for `null`) otherwise. -/
def closeText (rt : JsRuntime) (candle : Option MessageCandle) : Option String :=
  match candle with
  | some c => if c.close.isFinite then some (formatDecimal rt c.close 2) else none
  | none => none

/-- The constant `candleTime` of `buildFriendlyWhatsAppMessage`. -/
def candleTimeOf (rt : JsRuntime) (previousCandle : MessageCandle) : String :=
  if previousCandle.timestamp.truthy then rt.toLocaleString previousCandle.timestamp
  else "the last candle"

/-- The constant `patternFragment` of `buildFriendlyWhatsAppMessage`. -/
def patternFragmentOf (m : Matches) : String :=
  if m.greenAbove then "it's a green above the MA" else "it's a red below the MA"

/-- The constant `timeframeText` of `buildFriendlyWhatsAppMessage`. -/
def timeframeTextOf (rt : JsRuntime) (timeframe : String) : String :=
  let timeframeLabel := describeTimeframe rt timeframe
  if timeframeLabel ≠ "" then " on the " ++ timeframeLabel ++ " chart" else ""

/-- The constant `timeNote` of `buildFriendlyWhatsAppMessage`. -/
def timeNoteOf (rt : JsRuntime) (previousCandle : MessageCandle) : String :=
  let candleTime := candleTimeOf rt previousCandle
  if candleTime ≠ "" then " (closed " ++ candleTime ++ ")" else ""

/-- The first entry of the array `parts` of `buildFriendlyWhatsAppMessage`. -/
def headlineOf (rt : JsRuntime) (options : FriendlyOptions) (previousCandle : MessageCandle)
    (m : Matches) : String :=
  "I juust spotted a candle on the " ++ normalizePairName rt options.symbol ++
    " pair similar to your pattern" ++ timeframeTextOf rt options.timeframe ++
    timeNoteOf rt previousCandle ++ ", " ++ patternFragmentOf m ++ "."

/-- What a statement `if (value) { parts.push(...) }` of
`buildFriendlyWhatsAppMessage` adds to `parts`: the sentence made of `before`,
the value and a full stop when the value is a non-empty text. -/
def pushedSentence (before : String) (value : Option String) : List String :=
  match value with
  | some text => if text ≠ "" then [before ++ text ++ "."] else []
  | none => []

/-- The array `parts` of `buildFriendlyWhatsAppMessage` for a verified previous
candle with the flags `m`. -/
def messageParts (rt : JsRuntime) (options : FriendlyOptions) (previousCandle : MessageCandle)
    (m : Matches) : List String :=
  headlineOf rt options previousCandle m ::
    (pushedSentence "It closed around " (closeText rt (some previousCandle)) ++
      (pushedSentence "The one forming now is hovering close to "
        (closeText rt options.formingCandle) ++
      ["Please do well to check it out."]))

/-- The function `buildFriendlyWhatsAppMessage(options)`. -/
def buildFriendlyWhatsAppMessage (rt : JsRuntime) (options : FriendlyOptions) : String :=
  match options.previousCandle with
  | none => ""
  | some previousCandle =>
    match previousCandle.matches_ with
    | none => ""
    | some m =>
      let verified := m.greenAbove || m.redBelow
      if !verified then ""
      else jsJoin " " ((messageParts rt options previousCandle m).filter (fun part => part ≠ ""))

/-- The candle handed over by `prepareWhatsAppAlert`, as the message builder
reads it. -/
def RecentCandle.toMessageCandle (c : RecentCandle) : MessageCandle :=
  { timestamp := c.timestamp, close := c.close, matches_ := some c.matches_ }

/-- The object literal `prepareWhatsAppAlert` passes to
`buildFriendlyWhatsAppMessage`. -/
def MessageInput.toOptions (input : MessageInput) : FriendlyOptions :=
  { symbol := input.symbol
    timeframe := input.timeframe
    previousCandle := input.previousCandle.map RecentCandle.toMessageCandle
    formingCandle := input.formingCandle.map RecentCandle.toMessageCandle }

/-- The message builder as `prepareWhatsAppAlert` calls it. -/
def friendlyMessage (rt : JsRuntime) (input : MessageInput) : String :=
  buildFriendlyWhatsAppMessage rt input.toOptions

/-! ## Sequences of chart requests -/

/-- The function `pollOHLC()`: nothing when the integration is disabled, else one
`requestCandles` per key of `SYMBOLS`, in order, each error caught. The awaited
request of a pair and the readings of the clock are given by `outcomes`; the
result is the chart cache afterwards. -/
def pollOHLC (rt : JsRuntime) (cfg : TwelveDataConfig) (pollLookbackHours : JsVal)
    (chartCache : JsMap CacheEntry)
    (outcomes : String → FetchClock × Except String ProviderResponse) : JsMap CacheEntry :=
  if !cfg.enabled then chartCache
  else
    symbolKeys.foldl (fun cache pair =>
      (requestCandles rt cfg (outcomes pair).1 cache pair pollLookbackHours
        (outcomes pair).2).2) chartCache

/-- A call that touches the chart cache, with the outcome of what it awaits. -/
inductive ChartRequest where
  | getCandles (pair : String) (hours : JsVal) (now : ℤ) (clock : FetchClock)
      (fetched : Except String ProviderResponse)
  | requestCandles (pair : String) (hours : JsVal) (clock : FetchClock)
      (fetched : Except String ProviderResponse)
  | pollOHLC (outcomes : String → FetchClock × Except String ProviderResponse)

/-- The pair a call is made for, `none` for `pollOHLC`, which walks the keys of
`SYMBOLS`. -/
def ChartRequest.pair? : ChartRequest → Option String
  | ChartRequest.getCandles pair _ _ _ _ => some pair
  | ChartRequest.requestCandles pair _ _ _ => some pair
  | ChartRequest.pollOHLC _ => none

/-- The chart cache after one call. -/
def runChartRequest (rt : JsRuntime) (cfg : TwelveDataConfig) (ttl : JsNum)
    (pollLookbackHours : JsVal) (chartCache : JsMap CacheEntry) :
    ChartRequest → JsMap CacheEntry
  | ChartRequest.getCandles pair hours now clock fetched =>
    (getCandles rt cfg ttl now clock chartCache pair hours fetched).2
  | ChartRequest.requestCandles pair hours clock fetched =>
    (requestCandles rt cfg clock chartCache pair hours fetched).2
  | ChartRequest.pollOHLC outcomes => pollOHLC rt cfg pollLookbackHours chartCache outcomes

/-- The chart cache after a sequence of calls, one after the other. -/
def runChartRequests (rt : JsRuntime) (cfg : TwelveDataConfig) (ttl : JsNum)
    (pollLookbackHours : JsVal) (chartCache : JsMap CacheEntry)
    (requests : List ChartRequest) : JsMap CacheEntry :=
  requests.foldl (runChartRequest rt cfg ttl pollLookbackHours) chartCache

/-! ## The settings of the alert loop -/

/-- The function `parsePositiveInt(value, fallback)` on an environment
variable, `none` when it is not set (`parseInt(undefined, 10)` is `NaN`). A
parsed number that is finite and positive is an integer, and `Int.floor` only
changes its type. -/
def parsePositiveInt (value : Option String) (fallback : ℤ) : ℤ :=
  match value.map jsParseInt with
  | some (JsNum.fin parsed) => if 0 < parsed then Int.floor parsed else fallback
  | _ => fallback

/-- The environment variables `WHATSAPP_POLL_INTERVAL_MS`,
`WHATSAPP_RETRY_INTERVAL_MS` and `WHATSAPP_MAX_RETRIES`, `none` when not set. -/
structure AlertEnv where
  pollIntervalMs : Option String
  retryIntervalMs : Option String
  maxRetries : Option String

/-- The constant `WHATSAPP_POLL_INTERVAL_MS`. -/
def WHATSAPP_POLL_INTERVAL_MS (env : AlertEnv) : ℤ :=
  parsePositiveInt env.pollIntervalMs (60 * 60 * 1000)

/-- The constant `WHATSAPP_RETRY_INTERVAL_MS`. -/
def WHATSAPP_RETRY_INTERVAL_MS (env : AlertEnv) : ℤ :=
  parsePositiveInt env.retryIntervalMs (5 * 60 * 1000)

/-- The constant `WHATSAPP_MAX_RETRIES`. -/
def WHATSAPP_MAX_RETRIES (env : AlertEnv) : ℤ :=
  Max.max 1 (parsePositiveInt env.maxRetries 3)

/-- The constant `baseIntervalMs` of `startWhatsAppAlerts`. -/
def baseIntervalMsOf (env : AlertEnv) : ℤ :=
  Max.max (WHATSAPP_POLL_INTERVAL_MS env) (60 * 60 * 1000)

/-- The constant `retryIntervalMs` of `startWhatsAppAlerts`. -/
def retryIntervalMsOf (env : AlertEnv) : ℤ :=
  Max.max (WHATSAPP_RETRY_INTERVAL_MS env) (60 * 1000)

/-- The configuration the alert loop runs with. -/
def schedulerConfigOf (env : AlertEnv) : SchedulerConfig :=
  { baseIntervalMs := (baseIntervalMsOf env).toNat
    retryIntervalMs := (retryIntervalMsOf env).toNat
    maxRetries := (WHATSAPP_MAX_RETRIES env).toNat }

/-! ## The symbols of the alert loop -/

/-- The characters matched by the class `[\s,]`: the white space of the
language and the comma. -/
def isListSeparator (c : Char) : Bool :=
  isJsWhiteSpace c || c = ','

/-- The pieces of `text.split(/[\s,]+/)` from a position on: `current` holds the
characters of the piece being read, in reverse, and `inRun` tells whether the
previous character was a separator. -/
def splitRunsFrom : List Char → List Char → Bool → List String
  | [], current, _ => [String.mk current.reverse]
  | c :: rest, current, inRun =>
    if isListSeparator c then
      if inRun then splitRunsFrom rest current true
      else String.mk current.reverse :: splitRunsFrom rest [] true
    else splitRunsFrom rest (c :: current) false

/-- The call `text.split(/[\s,]+/)`: the pieces between the maximal runs of
separators, with an empty piece before a leading and after a trailing run. -/
def splitRuns (text : String) : List String :=
  splitRunsFrom text.toList [] false

/-- The function `parseSymbolList(input)` on an environment variable, `none`
when it is not set. -/
def parseSymbolList (input : Option String) : List String :=
  match input with
  | none => []
  | some text =>
    if text = "" then []
    else ((splitRuns text).map jsTrim).filter (fun entry => entry ≠ "")

/-- The expression `Array.from(new Set(entries))`: every entry once, at the
place of its first occurrence. -/
def jsUnique (entries : List String) : List String :=
  entries.foldl (fun seen entry => if entry ∈ seen then seen else seen ++ [entry]) []

/-- The constant `DEFAULT_TV_SYMBOL`, from the environment variable
`TRADINGVIEW_SYMBOL`. -/
def DEFAULT_TV_SYMBOL (tradingViewSymbol : Option String) : String :=
  match tradingViewSymbol with
  | some text => if text ≠ "" ∧ jsTrim text ≠ "" then jsTrim text else "OANDA:XAUUSD"
  | none => "OANDA:XAUUSD"

/-- The constant `WHATSAPP_ALERT_SYMBOLS`, from the environment variables
`WHATSAPP_ALERT_SYMBOLS`, `WHATSAPP_ALERT_SYMBOL` and `TRADINGVIEW_SYMBOL`. -/
def WHATSAPP_ALERT_SYMBOLS (alertSymbols alertSymbol tradingViewSymbol : Option String) :
    List String :=
  let combined := parseSymbolList alertSymbols ++ parseSymbolList alertSymbol
  let unique := jsUnique combined
  if unique.length ≠ 0 then unique
  else if DEFAULT_TV_SYMBOL tradingViewSymbol ≠ "" then [DEFAULT_TV_SYMBOL tradingViewSymbol]
  else []

/-! ## The timeframe handed to the chart -/

/-- The function `normalizeChartTimeframe(tf)`. -/
def normalizeChartTimeframe (rt : JsRuntime) (tf : String) : String :=
  if tf = "" then "60"
  else
    let lower := jsToLowerCase rt (jsTrim tf)
    if lower = "d" ∨ lower = "1d" ∨ lower = "day" then "D"
    else if lower = "w" ∨ lower = "1w" ∨ lower = "week" then "W"
    else if lower = "m" ∨ lower = "1m" ∨ lower = "month" then "M"
    else if jsEndsWith lower "h" then
      match parseInt10 lower with
      | some value => if 0 < value then jsNumberText (value * 60) else "60"
      | none => "60"
    else if jsEndsWith lower "min" then
      match parseInt10 lower with
      | some value => if 0 < value then jsNumberText value else "1"
      | none => "1"
    else if jsEndsWith lower "m" then
      match parseInt10 lower with
      | some value => if 0 < value then jsNumberText value else "1"
      | none => "1"
    else if lower ≠ "" ∧ lower.toList.all Char.isDigit = true then lower
    else "60"

/-! ## The resolution of a TradingView symbol -/

/-- An element of the list a search returns: a falsy value, or a value read
through its property `id` (`undefined` when it has none). -/
inductive SearchItem where
  | falsy
  | object (id : JsVal)
  deriving DecidableEq

/-- What the awaited call `search(query)` comes to: it throws, it resolves to
something that is no array, or it resolves to an array. -/
inductive SearchOutcome where
  | threw
  | notArray
  | results (items : List SearchItem)
  deriving DecidableEq

/-- The library as `resolveTradingViewSymbol` uses it: the functions
`searchMarketV3` and `searchMarket`, `none` where the library has no function
of that name, each given by what its call on a query comes to. -/
structure SearchLib where
  searchMarketV3 : Option (String → SearchOutcome)
  searchMarket : Option (String → SearchOutcome)

/-- The array `searchFns`. -/
def searchFnsOf (lib : SearchLib) : List (String → SearchOutcome) :=
  lib.searchMarketV3.toList ++ lib.searchMarket.toList

/-- The expression `trimmed.split(":").slice(1).join(":")`: the text after the
first colon. -/
def afterFirstColon (text : String) : String :=
  String.mk ((text.toList.dropWhile (fun c => c ≠ ':')).drop 1)

/-- The constant `symbolOnly`. -/
def symbolOnlyOf (trimmed : String) : String :=
  if ':' ∈ trimmed.toList then jsTrim (afterFirstColon trimmed) else trimmed

/-- The array `queries`. -/
def queriesOf (trimmed : String) : List String :=
  [trimmed] ++
    (if symbolOnlyOf trimmed ≠ "" ∧ symbolOnlyOf trimmed ≠ trimmed then [symbolOnlyOf trimmed]
     else [])

/-- The calls `search(query)` in the order of the two nested loops, each with
what it comes to. -/
def searchCallsOf (lib : SearchLib) (trimmed : String) : List (String × SearchOutcome) :=
  (queriesOf trimmed).flatMap (fun query =>
    (searchFnsOf lib).map (fun search => (query, search query)))

/-- The method `String.prototype.includes`. -/
def jsIncludes (text part : String) : Bool :=
  decide (part.toList <:+: text.toList)

/-- The body of the inner loop for one call: the value returned, or `none` when
the loop goes on (after an error, a result that is no array or is empty, or a
list without a match). -/
def searchStep (trimmed symbolOnly query : String) (outcome : SearchOutcome) : Option JsVal :=
  match outcome with
  | SearchOutcome.threw => none
  | SearchOutcome.notArray => none
  | SearchOutcome.results items =>
    if items.length = 0 then none
    else
      let exact := items.find? (fun item =>
        match item with
        | SearchItem.object id => JsVal.strictEq id (JsVal.str trimmed)
        | SearchItem.falsy => false)
      match exact with
      | some (SearchItem.object id) => some id
      | _ =>
        let partialMatch := items.find? (fun item =>
          match item with
          | SearchItem.object (JsVal.str id) => id = query || jsIncludes id symbolOnly
          | _ => false)
        match partialMatch with
        | some (SearchItem.object id) => if id.truthy then some id else none
        | _ => none

/-- The function `resolveTradingViewSymbol(lib, rawSymbol)`: the value it
resolves to, or the message of the error it throws. -/
def resolveTradingViewSymbol (lib : SearchLib) (rawSymbol : String) : Except String JsVal :=
  if rawSymbol = "" then Except.error "Missing TradingView symbol"
  else
    let trimmed := jsTrim rawSymbol
    if (searchFnsOf lib).length = 0 then Except.ok (JsVal.str trimmed)
    else
      match (searchCallsOf lib trimmed).findSome? (fun call =>
          searchStep trimmed (symbolOnlyOf trimmed) call.1 call.2) with
      | some id => Except.ok id
      | none => Except.ok (JsVal.str trimmed)

/-! ## Sample data -/

/-- A candle whose four prices all equal `c`. -/
def sampleCandle (i : ℕ) (c : ℚ) : Candle :=
  { index := i, number := i + 1, timestamp := JsVal.str "2024-01-01 00:00:00.000",
    open_ := JsVal.num (JsNum.fin c), high := JsVal.num (JsNum.fin c),
    low := JsVal.num (JsNum.fin c), close := JsVal.num (JsNum.fin c),
    volume := JsVal.null }

/-- A bar whose four prices all equal `c`. -/
def sampleBar (c : ℚ) : Bar :=
  { time := JsVal.str "2024-01-01 00:00:00.000", open_ := JsVal.num (JsNum.fin c),
    high := JsVal.num (JsNum.fin c), low := JsVal.num (JsNum.fin c),
    close := JsVal.num (JsNum.fin c), volume := JsVal.null }

/-- A fetch that resolved with three bars. -/
def sampleFetched : Fetched :=
  { periods := [sampleBar 1, sampleBar 2, sampleBar 4], usingGuest := true,
    resolvedSymbol := "OANDA:XAUUSD", timeframe := "60" }

/-- Options asking for an SMA over two bars and the two most recent candles. -/
def sampleOptions : AnalysisOptions :=
  { symbol := "OANDA:XAUUSD", timeframe := "1h", range := JsVal.num (JsNum.fin 120),
    smaPeriod := JsVal.num (JsNum.fin 2), recentCount := JsVal.num (JsNum.fin 2) }

/-- An entry of the returned candles with the given index and classification. -/
def sampleRecent (i : ℕ) (forming : Bool) (m : Matches) : RecentCandle :=
  { index := i, number := i + 1, timestamp := JsVal.str "2024-01-01 00:00:00.000",
    open_ := JsVal.num (JsNum.fin 1), high := JsVal.num (JsNum.fin 3),
    low := JsVal.num (JsNum.fin 1), close := JsVal.num (JsNum.fin 2),
    volume := JsVal.null, sma := JsVal.num (JsNum.fin (1 / 2)), forming := forming,
    matches_ := m }

/-- An analysis with the given previous completed candle. -/
def sampleAnalysis (previous : Option PreviousCompleted) : Analysis :=
  { symbol := "OANDA:XAUUSD", requestedSymbol := "OANDA:XAUUSD",
    resolvedSymbol := "OANDA:XAUUSD", timeframe := "1h", normalizedTimeframe := "60",
    totalBarsFetched := 120, smaPeriod := JsVal.num (JsNum.fin 9), recentCount := 2,
    candles := [sampleRecent 118 false { greenAbove := true, redBelow := false },
      sampleRecent 119 true { greenAbove := false, redBelow := false }],
    closes := [], sma := JsVal.null,
    greenAbove := [sampleRecent 118 false { greenAbove := true, redBelow := false }],
    redBelow := [], previousCompleted := previous, usingGuest := true,
    fetchRange := JsVal.num (JsNum.fin 120) }

/-- A previous completed candle classified green above the MA. -/
def sampleGreen : PreviousCompleted :=
  { candle := sampleRecent 118 false { greenAbove := true, redBelow := false },
    matches_ := { greenAbove := true, redBelow := false },
    formingReference := some (sampleRecent 119 true { greenAbove := false, redBelow := false }) }

/-- An alert state without any record or call. -/
def sampleAlertState : AlertState :=
  { lastAlertTimestamp := [], sendCalls := [] }

/-- The state of the loop right after `scheduleNext(0)` on fresh timers. -/
def sampleArmed : SchedulerState :=
  scheduleNext { consecutiveFailures := 0, timeoutId := none,
                 timers := { pending := [], nextId := 1 } } 0

/-- A scheduler configuration: one hour, five minutes, three retries. -/
def sampleConfig : SchedulerConfig :=
  { baseIntervalMs := 3600000, retryIntervalMs := 300000, maxRetries := 3 }

/-- Switches with alerts enabled, both credentials and one symbol. -/
def sampleSwitches : AlertSwitches :=
  { alertEnabled := true, callmebotPhone := "+15550100", callmebotApiKey := "key",
    symbols := ["OANDA:XAUUSD"] }

/-- A cached batch covering 24 hours. -/
def sampleBatch : CandleBatch :=
  { pair := "XAUUSD", symbol := JsVal.str "XAU/USD", providerSymbol := JsVal.str "XAU/USD",
    interval := "1h",
    resolution := "1h", timestamps := [], open_ := [], high := [], low := [], close := [],
    volume := [], lastUpdated := JsVal.str "2024-01-01 00:00:00", lookbackHours := 24,
    fetchDurationMs := 5, providerMeta := JsVal.null, source := "twelvedata",
    requestedOutputSize := 24 }

/-- A cache holding the sample batch, stored at time 1000. -/
def sampleCache : JsMap CacheEntry :=
  [("XAUUSD", { data := sampleBatch, cachedAt := 1000 })]

/-- A runtime for the instances: characters outside ASCII stay as they are,
texts compare by their code points, and the formatting primitives return fixed
texts. -/
def sampleRuntime : JsRuntime :=
  { lowerNonAscii := fun c => String.singleton c
    parseFloatText := fun _ => JsNum.nan
    localeCompare := fun a b => if a < b then -1 else if a = b then 0 else 1
    toLocaleString := fun _ => "1/1/2024, 10:00:00 AM"
    toFixed := fun _ _ => "2.00" }

/-- The Twelve Data integration switched on with the default limits. -/
def sampleTwelveData : TwelveDataConfig :=
  { enabled := true, defaultInterval := "1h", parsedOutputSize := some 5000 }

/-- Readings of the clock for one request. -/
def sampleClock : FetchClock :=
  { startedAt := 1000, finishedAt := 1005, cachedAt := 1006,
    isoNow := "2024-01-01T12:00:00.000Z" }

/-- A provider row with the given datetime and close. -/
def sampleRow (datetime : String) (close : ℚ) : ProviderRow :=
  { datetime := some datetime, open_ := JsVal.num (JsNum.fin close),
    high := JsVal.num (JsNum.fin close), low := JsVal.num (JsNum.fin close),
    close := JsVal.num (JsNum.fin close), volume := JsVal.null }

/-- A provider response with two rows, the later one first. -/
def sampleProviderResponse : ProviderResponse :=
  { ok := true, status := 200, rawText := "body",
    parsed := Except.ok (some
      { status := JsVal.str "ok", message := JsVal.undefined, code := JsVal.undefined,
        values := some [sampleRow "2024-01-01 11:00:00" 2, sampleRow "2024-01-01 10:00:00" 1],
        providerMeta := JsVal.undefined }) }

/-- A candle that closed above its open with its low above the SMA. -/
def sampleGreenCandle : Candle :=
  { index := 118, number := 119, timestamp := JsVal.str "2024-01-01 00:00:00.000",
    open_ := JsVal.num (JsNum.fin 1), high := JsVal.num (JsNum.fin 3),
    low := JsVal.num (JsNum.fin 1), close := JsVal.num (JsNum.fin 2),
    volume := JsVal.null, sma := JsVal.num (JsNum.fin (1 / 2)) }

/-- The candle `sampleGreenCandle` as the message builder reads it. -/
def sampleMessageCandle : MessageCandle :=
  { timestamp := JsVal.str "2024-01-01 00:00:00.000", close := JsVal.num (JsNum.fin 2),
    matches_ := some { greenAbove := true, redBelow := false } }

/-- The options of an alert on `sampleMessageCandle`. -/
def sampleFriendlyOptions : FriendlyOptions :=
  { symbol := "OANDA:XAUUSD", timeframe := "1h", previousCandle := some sampleMessageCandle,
    formingCandle := none }

/-- A provider response with HTTP status 200 whose body reports an error of the
provider and carries no candle values. -/
def sampleErrorResponse : ProviderResponse :=
  { ok := true, status := 200, rawText := "body",
    parsed := Except.ok (some
      { status := JsVal.str "error", message := JsVal.str "You have run out of API credits",
        code := JsVal.num (JsNum.fin 429), values := none, providerMeta := JsVal.undefined }) }

/-- Two configured symbols with different keys, both on the sample green candle:
the delivery of the first throws or resolves as `first` says, that of the second
as `second` says. -/
def samplePolls (first second : Except String String) : List (String × PollInputs) :=
  [("oanda:xauusd", { analysis := Except.ok (sampleAnalysis (some sampleGreen)),
                      delivery := first }),
   ("fx:eurusd", { analysis := Except.ok (sampleAnalysis (some sampleGreen)),
                   delivery := second })]

/-- Two configured symbols that differ only in the case of their letters, both on
the sample green candle. -/
def sampleTwins (first second : Except String String) : List (String × PollInputs) :=
  [("fx:eurusd", { analysis := Except.ok (sampleAnalysis (some sampleGreen)),
                   delivery := first }),
   ("FX:EURUSD", { analysis := Except.ok (sampleAnalysis (some sampleGreen)),
                   delivery := second })]

/-- The method `toUpperCase` on text without letters outside ASCII: every
character is mapped by `Char.toUpper`. -/
def sampleUpperCase (text : String) : String :=
  String.mk (text.toList.map Char.toUpper)

/-- The credentials of the sample deployment. -/
def sampleCredentials : Credentials :=
  { phone := "+15550100", apiKey := "key" }

/-! ## Theorems -/

/-! ### The trailing SMA -/

theorem JsNum.truncate_natCast (n : ℕ) : JsNum.truncate (n : ℚ) = (n : ℤ) := by
  unfold JsNum.truncate
  rw [if_pos (by positivity)]
  exact Int.floor_natCast n

theorem JsNum.sliceIndex_natCast (len n : ℕ) :
    JsNum.sliceIndex len (JsNum.fin (n : ℚ)) = Nat.min n len := by
  simp only [JsNum.sliceIndex, JsNum.truncate_natCast]
  rw [if_neg (by omega)]
  simp

theorem JsNum.add_fin (a b : ℚ) :
    JsNum.add (JsNum.fin a) (JsNum.fin b) = JsNum.roundDouble (a + b) := rfl

theorem JsVal.asNum_num (x : JsNum) : (JsVal.num x).asNum = x := rfl

theorem JsNum.roundHalfEven_one (n : ℕ) : JsNum.roundHalfEven n 1 = n := by
  simp [JsNum.roundHalfEven, Nat.mod_one]

theorem JsNum.roundHalfEven_ge (n d : ℕ) : n / d ≤ JsNum.roundHalfEven n d := by
  unfold JsNum.roundHalfEven
  simp only []
  split_ifs <;> omega

theorem log2_eq (n k : ℕ) (h1 : 2 ^ k ≤ n) (h2 : n < 2 ^ (k + 1)) : Nat.log2 n = k := by
  have hn : n ≠ 0 := Nat.pos_iff_ne_zero.mp (lt_of_lt_of_le (pow_pos (by norm_num) _) h1)
  have ha : k ≤ Nat.log2 n := (Nat.le_log2 hn).mpr h1
  have hb : Nat.log2 n < k + 1 := (Nat.log2_lt hn).mpr h2
  omega

theorem le_log2_of_pow_le (n k : ℕ) (hn : n ≠ 0) (h : 2 ^ k ≤ n) : k ≤ Nat.log2 n :=
  (Nat.le_log2 hn).mpr h

theorem cast_two_pow_le (k m : ℕ) (h : 2 ^ k ≤ m) : (2 : ℚ) ^ k ≤ (m : ℚ) := by
  exact_mod_cast h

theorem cast_two_pow_lt (k m : ℕ) (h : k < m) : ((2 ^ k : ℕ) : ℚ) < (2 : ℚ) ^ m := by
  rw [Nat.cast_pow, Nat.cast_ofNat]
  exact pow_lt_pow_right₀ (by norm_num) h

theorem two_pow_le_mul (k m : ℕ) (h : m = k + 1) : 2 ^ m ≤ 2 ^ k * 60 := by
  rw [h, pow_succ]
  exact Nat.mul_le_mul_left _ (by norm_num)

theorem JsNum.binaryExponent_one (n : ℕ) (hn : n ≠ 0) :
    JsNum.binaryExponent n 1 = (Nat.log2 n : ℤ) := by
  have h1 : Nat.log2 1 = 0 := by simp [Nat.log2]
  have hle := Nat.log2_self_le hn
  simp only [JsNum.binaryExponent, h1, Nat.cast_zero, sub_zero, Int.natCast_nonneg, if_true,
    Int.toNat_ofNat, one_mul, hle]

theorem JsNum.roundPositive_of_lt (n : ℕ) (hn : n ≠ 0) (h : n < 2 ^ 53) :
    JsNum.roundPositive n 1 = JsNum.fin (n : ℚ) := by
  have hk : Nat.log2 n < 53 := (Nat.log2_lt hn).mpr h
  have hsmall : ¬ ((2 : ℚ) ^ 1024 ≤ (n : ℚ)) := by
    have h1 : (n : ℚ) < 2 ^ 53 := by exact_mod_cast h
    have h2 : (2 : ℚ) ^ 53 ≤ 2 ^ 1024 := pow_le_pow_right₀ (by norm_num) (by norm_num)
    exact not_le.mpr (lt_of_lt_of_le h1 h2)
  unfold JsNum.roundPositive
  rw [JsNum.binaryExponent_one n hn]
  have he : Max.max ((Nat.log2 n : ℤ) - 52) (-1074) = (Nat.log2 n : ℤ) - 52 :=
    max_eq_left (by omega)
  simp only [he]
  by_cases hk52 : Nat.log2 n = 52
  · have h0 : ((Nat.log2 n : ℤ) - 52) = 0 := by omega
    simp only [h0, le_refl, if_true, Int.toNat_zero, pow_zero, mul_one,
      JsNum.roundHalfEven_one, hsmall, if_false]
  · have hneg : ¬ (0 ≤ (Nat.log2 n : ℤ) - 52) := by omega
    have hpos : (0 : ℚ) < ((2 ^ (-((Nat.log2 n : ℤ) - 52)).toNat : ℕ) : ℚ) := by positivity
    have hval : ((JsNum.roundHalfEven (n * 2 ^ (-((Nat.log2 n : ℤ) - 52)).toNat) 1 : ℕ) : ℚ)
        / ((2 ^ (-((Nat.log2 n : ℤ) - 52)).toNat : ℕ) : ℚ) = (n : ℚ) := by
      rw [JsNum.roundHalfEven_one, Nat.cast_mul, mul_div_assoc, div_self (ne_of_gt hpos),
        mul_one]
    simp only [hneg, if_false, hval, hsmall]

theorem JsNum.roundPositive_natural (n : ℕ) (hn : n ≠ 0) :
    JsNum.roundPositive n 1 = JsNum.posInf ∨
      ∃ m : ℕ, 1 ≤ m ∧ JsNum.roundPositive n 1 = JsNum.fin (m : ℚ) := by
  by_cases h : n < 2 ^ 53
  · exact Or.inr ⟨n, Nat.one_le_iff_ne_zero.mpr hn, JsNum.roundPositive_of_lt n hn h⟩
  · have hk : 53 ≤ Nat.log2 n := (Nat.le_log2 hn).mpr (not_lt.mp h)
    have he : Max.max ((Nat.log2 n : ℤ) - 52) (-1074) = (Nat.log2 n : ℤ) - 52 :=
      max_eq_left (by omega)
    have hpos : 0 ≤ (Nat.log2 n : ℤ) - 52 := by omega
    have hto : ((Nat.log2 n : ℤ) - 52).toNat = Nat.log2 n - 52 := by omega
    have hm : 1 ≤ JsNum.roundHalfEven n (1 * 2 ^ (Nat.log2 n - 52)) := by
      refine le_trans ?_ (JsNum.roundHalfEven_ge _ _)
      rw [one_mul]
      apply (Nat.one_le_div_iff (by positivity)).mpr
      exact le_trans (Nat.pow_le_pow_right (by norm_num) (by omega)) (Nat.log2_self_le hn)
    unfold JsNum.roundPositive
    rw [JsNum.binaryExponent_one n hn]
    simp only [he, hpos, if_true, hto]
    split_ifs
    · exact Or.inl rfl
    · refine Or.inr ⟨_, ?_, rfl⟩
      exact le_trans hm (Nat.le_mul_of_pos_right _ (by positivity))

theorem JsNum.roundPositive_of_huge (n : ℕ) (h : 2 ^ 1024 ≤ n) :
    JsNum.roundPositive n 1 = JsNum.posInf := by
  have hn : n ≠ 0 :=
    Nat.pos_iff_ne_zero.mp (lt_of_lt_of_le (pow_pos (by norm_num) _) h)
  have hk : 1024 ≤ Nat.log2 n := le_log2_of_pow_le n 1024 hn h
  clear h
  have he : Max.max ((Nat.log2 n : ℤ) - 52) (-1074) = (Nat.log2 n : ℤ) - 52 :=
    max_eq_left (by omega)
  have hpos : 0 ≤ (Nat.log2 n : ℤ) - 52 := by omega
  have hto : ((Nat.log2 n : ℤ) - 52).toNat = Nat.log2 n - 52 := by omega
  have hm : 2 ^ 52 ≤ JsNum.roundHalfEven n (1 * 2 ^ (Nat.log2 n - 52)) := by
    refine le_trans ?_ (JsNum.roundHalfEven_ge _ _)
    rw [one_mul]
    apply (Nat.le_div_iff_mul_le (by positivity)).mpr
    rw [← pow_add]
    have : 52 + (Nat.log2 n - 52) = Nat.log2 n := by omega
    rw [this]
    exact Nat.log2_self_le hn
  have hbig : 2 ^ 1024
      ≤ JsNum.roundHalfEven n (1 * 2 ^ (Nat.log2 n - 52)) * 2 ^ (Nat.log2 n - 52) := by
    calc 2 ^ 1024 ≤ 2 ^ Nat.log2 n := pow_le_pow_right₀ (by norm_num) hk
      _ = 2 ^ 52 * 2 ^ (Nat.log2 n - 52) := by rw [← pow_add]; congr 1; omega
      _ ≤ _ := Nat.mul_le_mul_right _ hm
  have hq : (2 : ℚ) ^ 1024
      ≤ ((JsNum.roundHalfEven n (1 * 2 ^ (Nat.log2 n - 52)) * 2 ^ (Nat.log2 n - 52) : ℕ) : ℚ) := by
    exact cast_two_pow_le 1024 _ hbig
  unfold JsNum.roundPositive
  rw [JsNum.binaryExponent_one n hn]
  simp only [he, hpos, if_true, hto, hq]

theorem JsNum.roundDouble_natCast (n : ℕ) :
    JsNum.roundDouble (n : ℚ) = if n = 0 then JsNum.fin 0 else JsNum.roundPositive n 1 := by
  unfold JsNum.roundDouble
  by_cases hn : n = 0
  · simp [hn]
  · have hpos : (0 : ℚ) < (n : ℚ) := by
      have : 0 < n := Nat.pos_of_ne_zero hn
      exact_mod_cast this
    simp [hn, hpos]

theorem JsNum.roundDouble_natural (n : ℕ) (hn : n ≠ 0) :
    JsNum.roundDouble (n : ℚ) = JsNum.posInf ∨
      ∃ m : ℕ, 1 ≤ m ∧ JsNum.roundDouble (n : ℚ) = JsNum.fin (m : ℚ) := by
  rw [JsNum.roundDouble_natCast, if_neg hn]
  exact JsNum.roundPositive_natural n hn

theorem JsNum.roundDouble_of_huge (n : ℕ) (h : 2 ^ 1024 ≤ n) :
    JsNum.roundDouble (n : ℚ) = JsNum.posInf := by
  have hn : n ≠ 0 :=
    Nat.pos_iff_ne_zero.mp (lt_of_lt_of_le (pow_pos (by norm_num) _) h)
  rw [JsNum.roundDouble_natCast, if_neg hn]
  exact JsNum.roundPositive_of_huge n h

theorem JsNum.roundDouble_of_lt (n : ℕ) (h : n < 2 ^ 53) :
    JsNum.roundDouble (n : ℚ) = JsNum.fin (n : ℚ) := by
  rw [JsNum.roundDouble_natCast]
  by_cases hn : n = 0
  · simp [hn]
  · rw [if_neg hn, JsNum.roundPositive_of_lt n hn h]

theorem JsNum.roundDouble_of_le (n : ℕ) (h : n ≤ 2 ^ 53) :
    JsNum.roundDouble (n : ℚ) = JsNum.fin (n : ℚ) := by
  rcases Nat.lt_or_eq_of_le h with hlt | heq
  · exact JsNum.roundDouble_of_lt n hlt
  · subst heq
    rw [JsNum.roundDouble_natCast, if_neg (by norm_num)]
    unfold JsNum.roundPositive
    rw [JsNum.binaryExponent_one _ (by norm_num), log2_eq (2 ^ 53) 53 (le_refl _) (by norm_num)]
    norm_num [JsNum.roundHalfEven]

theorem JsNum.roundDouble_four_thirds :
    JsNum.roundDouble (4 / 3) = JsNum.fin (6004799503160661 / 4503599627370496) := by
  have hnum : (4 / 3 : ℚ).num = 4 := by norm_num
  have hden : (4 / 3 : ℚ).den = 3 := by norm_num
  have h4 : Nat.log2 4 = 2 := log2_eq 4 2 (by norm_num) (by norm_num)
  have h3 : Nat.log2 3 = 1 := log2_eq 3 1 (by norm_num) (by norm_num)
  have hexp : JsNum.binaryExponent 4 3 = 0 := by
    simp [JsNum.binaryExponent, h4, h3]
  unfold JsNum.roundDouble
  have habs : (4 : ℤ).natAbs = 4 := rfl
  rw [if_neg (by norm_num), if_pos (by norm_num), hnum, hden, habs]
  unfold JsNum.roundPositive
  rw [hexp]
  have ht : (52 : ℤ).toNat = 52 := rfl
  norm_num [JsNum.roundHalfEven, ht]

theorem JsNum.roundDouble_three_halves :
    JsNum.roundDouble (3 / 2) = JsNum.fin (3 / 2) := by
  have hnum : (3 / 2 : ℚ).num = 3 := by norm_num
  have hden : (3 / 2 : ℚ).den = 2 := by norm_num
  have h3 : Nat.log2 3 = 1 := log2_eq 3 1 (by norm_num) (by norm_num)
  have h2 : Nat.log2 2 = 1 := log2_eq 2 1 (by norm_num) (by norm_num)
  have hexp : JsNum.binaryExponent 3 2 = 0 := by
    simp [JsNum.binaryExponent, h3, h2]
  unfold JsNum.roundDouble
  have habs : (3 : ℤ).natAbs = 3 := rfl
  rw [if_neg (by norm_num), if_pos (by norm_num), hnum, hden, habs]
  unfold JsNum.roundPositive
  rw [hexp]
  have ht : (52 : ℤ).toNat = 52 := rfl
  norm_num [JsNum.roundHalfEven, ht]

theorem JsNum.roundDouble_small (n : ℕ) (h : n < 2 ^ 53) (q : ℚ) (hq : q = (n : ℚ)) :
    JsNum.roundDouble q = JsNum.fin q := by
  rw [hq]
  exact JsNum.roundDouble_of_lt n h

theorem JsNum.roundDouble_above_exact :
    JsNum.roundDouble ((9007199254740993 : ℕ) : ℚ) = JsNum.fin 9007199254740992 := by
  rw [JsNum.roundDouble_natCast, if_neg (by norm_num)]
  have hl : Nat.log2 9007199254740993 = 53 := log2_eq _ 53 (by norm_num) (by norm_num)
  unfold JsNum.roundPositive
  rw [JsNum.binaryExponent_one _ (by norm_num), hl]
  norm_num [JsNum.roundHalfEven]

theorem JsNum.roundDouble_two_pow (k : ℕ) (h52 : 52 ≤ k) (hk : k < 1024) :
    JsNum.roundDouble ((2 ^ k : ℕ) : ℚ) = JsNum.fin ((2 ^ k : ℕ) : ℚ) := by
  have hne : (2 ^ k : ℕ) ≠ 0 := pow_ne_zero _ (by norm_num)
  rw [JsNum.roundDouble_natCast, if_neg hne]
  have hl : Nat.log2 (2 ^ k) = k :=
    log2_eq _ k (le_refl _) (pow_lt_pow_right₀ (by norm_num) (Nat.lt_succ_self k))
  have he : Max.max ((k : ℤ) - 52) (-1074) = (k : ℤ) - 52 := max_eq_left (by omega)
  have hpos : 0 ≤ (k : ℤ) - 52 := by omega
  have hto : ((k : ℤ) - 52).toNat = k - 52 := by omega
  have hsplit : 2 ^ k = 2 ^ 52 * 2 ^ (k - 52) := by
    rw [← pow_add]; congr 1; omega
  have hd : 0 < 2 ^ (k - 52) := pow_pos (by norm_num) _
  have hround : JsNum.roundHalfEven (2 ^ k) (1 * 2 ^ (k - 52)) = 2 ^ 52 := by
    have hq : 2 ^ k / 2 ^ (k - 52) = 2 ^ 52 := by
      rw [hsplit]; exact Nat.mul_div_cancel _ hd
    have hr : 2 ^ k % 2 ^ (k - 52) = 0 := by
      rw [hsplit]; exact Nat.mul_mod_left _ _
    simp only [JsNum.roundHalfEven, one_mul, hq, hr, Nat.mul_zero, hd, if_true]
  have hsmall : ¬ ((2 : ℚ) ^ 1024 ≤ ((2 ^ 52 * 2 ^ (k - 52) : ℕ) : ℚ)) := by
    rw [← hsplit]
    exact not_le.mpr (cast_two_pow_lt k 1024 hk)
  unfold JsNum.roundPositive
  rw [JsNum.binaryExponent_one _ hne, hl]
  simp only [he, hpos, if_true, hto, hround, hsmall, if_false]
  rw [← hsplit]

theorem foldl_close_eq (w : List Candle) (f : ℕ → ℚ) (k : ℕ) (acc : JsNum)
    (h : ∀ t, t < w.length →
      (w[t]?).map Candle.close = some (JsVal.num (JsNum.fin (f (k + t))))) :
    w.foldl (fun acc item => JsNum.add acc item.close.asNum) acc
      = ((List.range w.length).map (fun t => f (k + t))).foldl
          (fun acc x => JsNum.add acc (JsNum.fin x)) acc := by
  have hmap : w.map (fun item => item.close.asNum)
      = ((List.range w.length).map (fun t => f (k + t))).map JsNum.fin := by
    apply List.ext_getElem?
    intro t
    by_cases ht : t < w.length
    · have := h t ht
      simp only [List.getElem?_eq_getElem ht, Option.map_some', Option.some.injEq] at this
      simp [List.getElem?_map, List.getElem?_eq_getElem ht, List.getElem?_range ht, this,
        JsVal.asNum]
    · have h1 : w.length ≤ t := not_lt.mp ht
      simp [List.getElem?_eq_none, h1]
  have h1 : w.foldl (fun acc item => JsNum.add acc item.close.asNum) acc
      = (w.map (fun item => item.close.asNum)).foldl JsNum.add acc := by
    rw [List.foldl_map]
  rw [h1, hmap, List.foldl_map]

theorem foldl_add_exact (g : ℕ → ℚ) (n : ℕ)
    (h : ∀ t, t < n → JsNum.roundDouble (∑ u in Finset.range (t + 1), g u)
      = JsNum.fin (∑ u in Finset.range (t + 1), g u)) :
    ((List.range n).map g).foldl (fun acc x => JsNum.add acc (JsNum.fin x)) (JsNum.fin 0)
      = JsNum.fin (∑ u in Finset.range n, g u) := by
  induction n with
  | zero => simp
  | succ n ih =>
    rw [List.range_succ, List.map_append, List.foldl_append,
      ih (fun t ht => h t (Nat.lt_succ_of_lt ht))]
    simp only [List.map_cons, List.map_nil, List.foldl_cons, List.foldl_nil, JsNum.add_fin]
    rw [← Finset.sum_range_succ]
    exact h n (Nat.lt_succ_self n)

theorem any_not_finite_eq_false (w : List Candle)
    (h : ∀ t, t < w.length → ∃ q, (w[t]?).map Candle.close = some (JsVal.num (JsNum.fin q))) :
    w.any (fun item => !item.close.isFinite) = false := by
  rw [List.any_eq_false]
  intro c hc
  obtain ⟨t, ht, rfl⟩ := List.getElem_of_mem hc
  obtain ⟨q, hq⟩ := h t ht
  simp only [List.getElem?_eq_getElem ht, Option.map_some', Option.some.injEq] at hq
  simp [hq, JsVal.isFinite, JsNum.isFinite]

theorem computeSMA_getElem_window (candles : List Candle) (p i : ℕ)
    (hp : 0 < p) (hpi : p ≤ i) (hi : i < candles.length) :
    (computeSMA candles (JsVal.num (JsNum.fin (p : ℚ))))[i]? = some
      (if ((candles.drop (i - p)).take p).any (fun item => !item.close.isFinite) then JsVal.null
       else JsVal.num (JsNum.div
        (((candles.drop (i - p)).take p).foldl
          (fun acc item => JsNum.add acc item.close.asNum) (JsNum.fin 0))
        (JsNum.fin (p : ℚ)))) := by
  have hp0 : ¬ ((p : ℚ) ≤ 0) := by
    have : (0 : ℚ) < p := by exact_mod_cast hp
    exact not_le.mpr this
  have hlt : ¬ ((i : ℚ) < (p : ℚ)) := by
    have : (p : ℚ) ≤ i := by exact_mod_cast hpi
    exact not_lt.mpr this
  have hsub : JsNum.sub (JsNum.fin (i : ℚ)) (JsNum.fin (p : ℚ)) = JsNum.fin ((i - p : ℕ) : ℚ) := by
    simp only [JsNum.sub]
    rw [Nat.cast_sub hpi]
  have hwin : jsSlice candles (JsNum.fin ((i - p : ℕ) : ℚ)) (JsNum.fin (i : ℚ))
      = (candles.drop (i - p)).take p := by
    simp only [jsSlice, JsNum.sliceIndex_natCast]
    have h1 : Nat.min (i - p) candles.length = i - p := Nat.min_eq_left (by omega)
    have h2 : Nat.min i candles.length = i := Nat.min_eq_left (by omega)
    rw [h1, h2]
    congr 1; omega
  have hguard : (!(JsVal.num (JsNum.fin (p : ℚ))).isFinite
      || JsNum.le (JsVal.num (JsNum.fin (p : ℚ))).asNum (JsNum.fin 0)) = false := by
    simp [JsVal.isFinite, JsNum.isFinite, JsVal.asNum, JsNum.le, hp0]
  have hidx : JsNum.lt (JsNum.fin (i : ℚ)) (JsNum.fin (p : ℚ)) = false := by
    simp [JsNum.lt, hlt]
  unfold computeSMA
  rw [hguard, if_neg (by simp), List.getElem?_map, List.getElem?_range hi, Option.map_some']
  simp only [hidx, Bool.false_eq_true, if_false, JsVal.asNum_num, hsub, hwin]

theorem computeSMA_of_closes (candles : List Candle) (p i : ℕ) (c : ℕ → ℚ)
    (hp : 0 < p) (hpi : p ≤ i) (hi : i < candles.length)
    (hfin : ∀ j, i - p ≤ j → j < i →
      (candles[j]?).map Candle.close = some (JsVal.num (JsNum.fin (c j)))) :
    (computeSMA candles (JsVal.num (JsNum.fin (p : ℚ))))[i]?
      = some (JsVal.num (JsNum.div
          (((List.range p).map (fun t => c (i - p + t))).foldl
            (fun acc x => JsNum.add acc (JsNum.fin x)) (JsNum.fin 0))
          (JsNum.fin (p : ℚ)))) := by
  have hlen : ((candles.drop (i - p)).take p).length = p := by
    simp only [List.length_take, List.length_drop]; omega
  have hget : ∀ t, t < ((candles.drop (i - p)).take p).length →
      (((candles.drop (i - p)).take p)[t]?).map Candle.close
        = some (JsVal.num (JsNum.fin (c ((i - p) + t)))) := by
    intro t ht
    rw [hlen] at ht
    rw [List.getElem?_take, if_pos ht, List.getElem?_drop]
    exact hfin _ (by omega) (by omega)
  have hany := any_not_finite_eq_false _ (fun t ht => ⟨_, hget t ht⟩)
  have hsum := foldl_close_eq _ c (i - p) (JsNum.fin 0) hget
  rw [computeSMA_getElem_window candles p i hp hpi hi, hany, hsum, hlen]
  simp only [Bool.false_eq_true, if_false]

theorem div_of_exact_sum (c : ℕ → ℚ) (p i : ℕ) (hp : 0 < p) (hpi : p ≤ i)
    (hsums : ∀ t, t < p →
      JsNum.roundDouble (∑ j in Finset.Ico (i - p) (i - p + t + 1), c j)
        = JsNum.fin (∑ j in Finset.Ico (i - p) (i - p + t + 1), c j))
    (hmean : JsNum.roundDouble ((∑ j in Finset.Ico (i - p) i, c j) / (p : ℚ))
      = JsNum.fin ((∑ j in Finset.Ico (i - p) i, c j) / (p : ℚ))) :
    JsNum.div
        (((List.range p).map (fun t => c (i - p + t))).foldl
          (fun acc x => JsNum.add acc (JsNum.fin x)) (JsNum.fin 0))
        (JsNum.fin (p : ℚ))
      = JsNum.fin ((∑ j in Finset.Ico (i - p) i, c j) / (p : ℚ)) := by
  have hpne : ¬ ((p : ℚ) = 0) := by
    have : (0 : ℚ) < p := by exact_mod_cast hp
    exact ne_of_gt this
  have hico : ∀ t, ∑ j in Finset.Ico (i - p) (i - p + t), c j
      = ∑ u in Finset.range t, c (i - p + u) := by
    intro t
    rw [Finset.sum_Ico_eq_sum_range]
    have : i - p + t - (i - p) = t := by omega
    rw [this]
  have hfold := foldl_add_exact (fun t => c (i - p + t)) p (fun t ht => by
    have := hsums t ht
    rw [Nat.add_assoc, hico (t + 1)] at this
    exact this)
  have hall : ∑ j in Finset.Ico (i - p) i, c j = ∑ u in Finset.range p, c (i - p + u) := by
    have := hico p
    have hip : i - p + p = i := by omega
    rw [hip] at this
    exact this
  rw [hfold, ← hall]
  simp only [JsNum.div, hpne, if_false]
  exact hmean

/-- C1, amended: for a positive integer period `p` and an index `i ≥ p` of the
candle list whose `p` preceding closes are finite numbers `c j`, the entry of
`computeSMA` at `i` is made of the closes at indices `i-p .. i-1` only: they are
added from the left with the operator `+`, every partial sum rounded to a
double, and the sum is divided by `p` with the operator `/`, the quotient
rounded to a double. When every partial sum and the arithmetic mean of these
closes are doubles, the entry is that mean. The close of candle `i` itself does
not enter. -/
theorem computeSMA_trailing_mean (candles : List Candle) (p i : ℕ) (c : ℕ → ℚ)
    (hp : 0 < p) (hpi : p ≤ i) (hi : i < candles.length)
    (hfin : ∀ j, i - p ≤ j → j < i →
      (candles[j]?).map Candle.close = some (JsVal.num (JsNum.fin (c j)))) :
    (computeSMA candles (JsVal.num (JsNum.fin (p : ℚ))))[i]?
      = some (JsVal.num (JsNum.div
          (((List.range p).map (fun t => c (i - p + t))).foldl
            (fun acc x => JsNum.add acc (JsNum.fin x)) (JsNum.fin 0))
          (JsNum.fin (p : ℚ)))) ∧
    ((∀ t, t < p →
        JsNum.roundDouble (∑ j in Finset.Ico (i - p) (i - p + t + 1), c j)
          = JsNum.fin (∑ j in Finset.Ico (i - p) (i - p + t + 1), c j)) →
      JsNum.roundDouble ((∑ j in Finset.Ico (i - p) i, c j) / (p : ℚ))
        = JsNum.fin ((∑ j in Finset.Ico (i - p) i, c j) / (p : ℚ)) →
      (computeSMA candles (JsVal.num (JsNum.fin (p : ℚ))))[i]?
        = some (JsVal.num (JsNum.fin ((∑ j in Finset.Ico (i - p) i, c j) / (p : ℚ))))) := by
  have hentry := computeSMA_of_closes candles p i c hp hpi hi hfin
  refine ⟨hentry, ?_⟩
  intro hsums hmean
  rw [hentry, div_of_exact_sum c p i hp hpi hsums hmean]

theorem JsVal.isFinite_iff (v : JsVal) : v.isFinite = true ↔ ∃ q, v = JsVal.num (JsNum.fin q) := by
  cases v with
  | num x => cases x <;> simp [JsVal.isFinite, JsNum.isFinite]
  | str s => simp [JsVal.isFinite]
  | null => simp [JsVal.isFinite]
  | undefined => simp [JsVal.isFinite]

theorem evaluateMatches_of_finite (c : Candle) (s o cl h l : ℚ)
    (hs : c.sma = JsVal.num (JsNum.fin s)) (ho : c.open_ = JsVal.num (JsNum.fin o))
    (hcl : c.close = JsVal.num (JsNum.fin cl)) (hh : c.high = JsVal.num (JsNum.fin h))
    (hl : c.low = JsVal.num (JsNum.fin l)) :
    evaluateMatches c =
      { greenAbove := decide (o < cl) && decide (s < l)
        redBelow := decide (cl < o) && decide (h < s) } := by
  simp [evaluateMatches, hs, ho, hcl, hh, hl, JsVal.isFinite, JsNum.isFinite, JsVal.asNum,
    JsNum.gt, JsNum.lt]

theorem evaluateMatches_of_not_finite (c : Candle)
    (hv : ¬ (c.sma.isFinite = true ∧ c.open_.isFinite = true ∧ c.close.isFinite = true ∧
      c.high.isFinite = true ∧ c.low.isFinite = true)) :
    evaluateMatches c = { greenAbove := false, redBelow := false } := by
  have hvalid : (c.sma.isFinite && c.open_.isFinite && c.close.isFinite &&
      c.high.isFinite && c.low.isFinite) = false := by
    by_contra hne
    apply hv
    simp only [Bool.not_eq_false, Bool.and_eq_true] at hne
    tauto
  simp only [evaluateMatches, hvalid, Bool.not_false, if_true]

/-- C2: `evaluateMatches` reports `greenAbove` exactly when `sma`, `open`,
`close`, `high` and `low` are all finite numbers with `close > open` and
`low > sma`, and `redBelow` exactly when all five are finite with
`close < open` and `high < sma`; as soon as one of the five is missing or not
finite, both flags are false. -/
theorem evaluateMatches_iff (c : Candle) :
    ((evaluateMatches c).greenAbove = true ↔
      ∃ s o cl h l : ℚ, c.sma = JsVal.num (JsNum.fin s) ∧ c.open_ = JsVal.num (JsNum.fin o) ∧
        c.close = JsVal.num (JsNum.fin cl) ∧ c.high = JsVal.num (JsNum.fin h) ∧
        c.low = JsVal.num (JsNum.fin l) ∧ o < cl ∧ s < l) ∧
    ((evaluateMatches c).redBelow = true ↔
      ∃ s o cl h l : ℚ, c.sma = JsVal.num (JsNum.fin s) ∧ c.open_ = JsVal.num (JsNum.fin o) ∧
        c.close = JsVal.num (JsNum.fin cl) ∧ c.high = JsVal.num (JsNum.fin h) ∧
        c.low = JsVal.num (JsNum.fin l) ∧ cl < o ∧ h < s) ∧
    (¬ (c.sma.isFinite = true ∧ c.open_.isFinite = true ∧ c.close.isFinite = true ∧
        c.high.isFinite = true ∧ c.low.isFinite = true) →
      (evaluateMatches c).greenAbove = false ∧ (evaluateMatches c).redBelow = false) := by
  by_cases hv : c.sma.isFinite = true ∧ c.open_.isFinite = true ∧ c.close.isFinite = true ∧
      c.high.isFinite = true ∧ c.low.isFinite = true
  · obtain ⟨h1, h2, h3, h4, h5⟩ := hv
    obtain ⟨s, hs⟩ := (JsVal.isFinite_iff _).mp h1
    obtain ⟨o, ho⟩ := (JsVal.isFinite_iff _).mp h2
    obtain ⟨cl, hcl⟩ := (JsVal.isFinite_iff _).mp h3
    obtain ⟨h, hh⟩ := (JsVal.isFinite_iff _).mp h4
    obtain ⟨l, hl⟩ := (JsVal.isFinite_iff _).mp h5
    rw [evaluateMatches_of_finite c s o cl h l hs ho hcl hh hl]
    refine ⟨?_, ?_, ?_⟩
    · simp [hs, ho, hcl, hh, hl]
    · simp [hs, ho, hcl, hh, hl]
    · intro hn
      exact absurd ⟨h1, h2, h3, h4, h5⟩ hn
  · rw [evaluateMatches_of_not_finite c hv]
    refine ⟨?_, ?_, ?_⟩
    · constructor
      · intro h; cases h
      · rintro ⟨s, o, cl, h, l, hs, ho, hcl, hh, hl, -, -⟩
        exact absurd (by simp [hs, ho, hcl, hh, hl, JsVal.isFinite, JsNum.isFinite]) hv
    · constructor
      · intro h; cases h
      · rintro ⟨s, o, cl, h, l, hs, ho, hcl, hh, hl, -, -⟩
        exact absurd (by simp [hs, ho, hcl, hh, hl, JsVal.isFinite, JsNum.isFinite]) hv
    · intro _
      exact ⟨rfl, rfl⟩

/-- C3: `evaluateMatches` never sets `greenAbove` and `redBelow` together, so
its result is one of the three classes green above the MA, red below the MA,
or neither. -/
theorem evaluateMatches_exclusive (c : Candle) :
    ¬ ((evaluateMatches c).greenAbove = true ∧ (evaluateMatches c).redBelow = true) ∧
    (evaluateMatches c = { greenAbove := true, redBelow := false } ∨
      evaluateMatches c = { greenAbove := false, redBelow := true } ∨
      evaluateMatches c = { greenAbove := false, redBelow := false }) := by
  have hnot : ¬ ((evaluateMatches c).greenAbove = true ∧ (evaluateMatches c).redBelow = true) := by
    by_cases hv : c.sma.isFinite = true ∧ c.open_.isFinite = true ∧ c.close.isFinite = true ∧
        c.high.isFinite = true ∧ c.low.isFinite = true
    · obtain ⟨h1, h2, h3, h4, h5⟩ := hv
      obtain ⟨s, hs⟩ := (JsVal.isFinite_iff _).mp h1
      obtain ⟨o, ho⟩ := (JsVal.isFinite_iff _).mp h2
      obtain ⟨cl, hcl⟩ := (JsVal.isFinite_iff _).mp h3
      obtain ⟨h, hh⟩ := (JsVal.isFinite_iff _).mp h4
      obtain ⟨l, hl⟩ := (JsVal.isFinite_iff _).mp h5
      rw [evaluateMatches_of_finite c s o cl h l hs ho hcl hh hl]
      simp only [Bool.and_eq_true, decide_eq_true_eq]
      rintro ⟨⟨hg, -⟩, ⟨hr, -⟩⟩
      exact absurd hg (not_lt.mpr (le_of_lt hr))
    · rw [evaluateMatches_of_not_finite c hv]
      rintro ⟨hg, -⟩
      cases hg
  refine ⟨hnot, ?_⟩
  rcases hm : evaluateMatches c with ⟨g, r⟩
  rw [hm] at hnot
  cases g <;> cases r <;> simp_all

/-! ### The previous completed candle -/

theorem length_buildCandles (f : String → JsNum) (ps : List Bar) :
    (buildCandles f ps).length = ps.length := by
  simp [buildCandles, List.length_zipWith]

theorem length_attachSMA (cs : List Candle) (sm : List JsVal) :
    (attachSMA cs sm).length = cs.length := by
  simp [attachSMA, List.length_zipWith]

theorem getElem?_buildCandles (f : String → JsNum) (ps : List Bar) (i : ℕ) (bar : Bar)
    (h : ps[i]? = some bar) :
    (buildCandles f ps)[i]? = some
      { index := i
        number := i + 1
        timestamp :=
          JsVal.or (JsVal.or (JsVal.or bar.time JsVal.undefined) JsVal.undefined) JsVal.null
        open_ := toNumber f bar.open_
        high := toNumber f bar.high
        low := toNumber f bar.low
        close := toNumber f bar.close
        volume := toNumber f bar.volume } := by
  have hi : i < ps.length := (List.getElem?_eq_some_iff.mp h).1
  simp only [buildCandles, List.getElem?_zipWith, List.getElem?_range hi, h]

theorem getElem?_attachSMA (cs : List Candle) (sm : List JsVal) (i : ℕ) (c : Candle)
    (h : cs[i]? = some c) :
    (attachSMA cs sm)[i]? = some { c with sma := (sm[i]?).getD JsVal.undefined } := by
  have hi : i < cs.length := (List.getElem?_eq_some_iff.mp h).1
  simp only [attachSMA, List.getElem?_zipWith, List.getElem?_range hi, h]

theorem JsNum.max_fin_one (r : ℚ) :
    JsNum.max (JsNum.fin r) (JsNum.fin 1) = JsNum.fin (Max.max r 1) := by
  by_cases h : r < 1
  · simp [JsNum.max, JsNum.lt, h, max_eq_right (le_of_lt h)]
  · simp [JsNum.max, JsNum.lt, h, max_eq_left (not_lt.mp h)]

theorem JsNum.sliceIndex_neg_of_one_le (len : ℕ) (m : ℚ) (hm : 1 ≤ m) :
    JsNum.sliceIndex len (JsNum.neg (JsNum.fin m)) = len - ⌊m⌋₊ := by
  have hpos : ¬ (0 ≤ -m) := by linarith
  have hfl : (1 : ℤ) ≤ ⌊m⌋ := Int.le_floor.mpr (by exact_mod_cast hm)
  simp only [JsNum.neg, JsNum.sliceIndex, JsNum.truncate, if_neg hpos, Int.ceil_neg]
  rw [if_pos (by omega)]
  have h0 : (0 : ℤ) ≤ ⌊m⌋ := by omega
  have : (⌊m⌋).toNat = ⌊m⌋₊ := Int.floor_toNat m
  omega

theorem recent_window_ge_two (n : ℕ) (m : ℚ) (hm : 1 ≤ m) :
    2 ≤ n - (n - ⌊m⌋₊) ↔ (2 : ℚ) ≤ Min.min (n : ℚ) m := by
  have h0 : (0 : ℚ) ≤ m := by linarith
  have hf : 2 ≤ ⌊m⌋₊ ↔ ((2 : ℕ) : ℚ) ≤ m := Nat.le_floor_iff h0
  have hn : 2 ≤ n ↔ ((2 : ℕ) : ℚ) ≤ (n : ℚ) := by exact_mod_cast Iff.rfl
  rw [le_min_iff]
  push_cast at hf hn
  rw [← hf, ← hn]
  omega

theorem JsVal.or_undefined_chain (v : JsVal) :
    JsVal.or (JsVal.or (JsVal.or v JsVal.undefined) JsVal.undefined) JsVal.null
      = JsVal.or v JsVal.null := by
  have hu : JsVal.undefined.truthy = false := rfl
  by_cases h : v.truthy = true
  · simp only [JsVal.or, h, if_true]
  · simp only [JsVal.or, h, hu, Bool.false_eq_true, if_false]

theorem getElem?_analysisCandles (f : String → JsNum) (sp : JsVal) (ps : List Bar) (i : ℕ)
    (bar : Bar) (h : ps[i]? = some bar) :
    (analysisCandles f sp ps)[i]? = some
      { index := i
        number := i + 1
        timestamp := JsVal.or bar.time JsVal.null
        open_ := toNumber f bar.open_
        high := toNumber f bar.high
        low := toNumber f bar.low
        close := toNumber f bar.close
        volume := toNumber f bar.volume
        sma := ((computeSMA (buildCandles f ps) sp)[i]?).getD JsVal.undefined } := by
  simp only [analysisCandles]
  rw [getElem?_attachSMA _ _ i _ (getElem?_buildCandles f ps i bar h), JsVal.or_undefined_chain]

theorem previousCompletedOf_isSome (rc : List RecentCandle) :
    (previousCompletedOf rc).isSome = true ↔ 2 ≤ rc.length := by
  unfold previousCompletedOf
  by_cases h : 2 ≤ rc.length
  · have hlt : rc.length - 2 < rc.length := by omega
    simp [h, List.getElem?_eq_getElem hlt]
  · simp [h]

theorem recentCount_formula (n : ℕ) (x : JsNum) :
    2 ≤ n - JsNum.sliceIndex n (JsNum.neg (JsNum.max x (JsNum.fin 1))) ↔
      (x = JsNum.nan ∧ 2 ≤ n) ∨
      JsNum.ge (JsNum.min (JsNum.fin (n : ℚ)) (JsNum.max x (JsNum.fin 1))) (JsNum.fin 2)
        = true := by
  cases x with
  | fin r =>
    have hm : (1 : ℚ) ≤ Max.max r 1 := le_max_right r 1
    have hmin : JsNum.min (JsNum.fin (n : ℚ)) (JsNum.fin (Max.max r 1))
        = JsNum.fin (Min.min (n : ℚ) (Max.max r 1)) := by
      by_cases h : Max.max r 1 < (n : ℚ)
      · simp [JsNum.min, JsNum.lt, h, min_eq_right (le_of_lt h)]
      · simp [JsNum.min, JsNum.lt, h, min_eq_left (not_lt.mp h)]
    rw [JsNum.max_fin_one, JsNum.sliceIndex_neg_of_one_le _ _ hm, hmin,
      recent_window_ge_two _ _ hm]
    simp [JsNum.ge, JsNum.le]
  | nan =>
    simp [JsNum.max, JsNum.neg, JsNum.sliceIndex, JsNum.min, JsNum.ge, JsNum.le]
  | posInf =>
    have h1 : JsNum.max JsNum.posInf (JsNum.fin 1) = JsNum.posInf := by
      simp [JsNum.max, JsNum.lt]
    have h2 : JsNum.min (JsNum.fin (n : ℚ)) JsNum.posInf = JsNum.fin (n : ℚ) := by
      simp [JsNum.min, JsNum.lt]
    rw [h1, h2]
    simp only [JsNum.neg, JsNum.sliceIndex, Nat.sub_zero, JsNum.ge, JsNum.le, reduceCtorEq,
      false_and, false_or, decide_eq_true_eq]
    exact_mod_cast Iff.rfl
  | negInf =>
    have h1 : JsNum.max JsNum.negInf (JsNum.fin 1) = JsNum.fin 1 := by
      simp [JsNum.max, JsNum.lt]
    have hmin : JsNum.min (JsNum.fin (n : ℚ)) (JsNum.fin 1)
        = JsNum.fin (Min.min (n : ℚ) 1) := by
      by_cases h : (1 : ℚ) < (n : ℚ)
      · simp [JsNum.min, JsNum.lt, h, min_eq_right (le_of_lt h)]
      · simp [JsNum.min, JsNum.lt, h, min_eq_left (not_lt.mp h)]
    rw [h1, JsNum.sliceIndex_neg_of_one_le _ _ (le_refl 1), hmin]
    simp only [Nat.floor_one, JsNum.ge, JsNum.le, reduceCtorEq, false_and, false_or,
      decide_eq_true_eq]
    constructor
    · intro h; omega
    · intro h
      have : Min.min (n : ℚ) 1 ≤ 1 := min_le_right _ _
      linarith

theorem previousCompleted_isSome_iff (f : String → JsNum) (options : AnalysisOptions)
    (fetched : Fetched) (hne : fetched.periods ≠ []) :
    ∃ a, fetchTradingViewAnalysis f options fetched = Except.ok a ∧
      (a.previousCompleted.isSome = true ↔
        2 ≤ fetched.periods.length - JsNum.sliceIndex fetched.periods.length
          (JsNum.neg (JsNum.max (options.recentCount.toNumeric f) (JsNum.fin 1)))) := by
  have hlen : ¬ (fetched.periods.length = 0) := by
    intro h; exact hne (List.length_eq_zero.mp h)
  have hcl : (analysisCandles f options.smaPeriod fetched.periods).length
      = fetched.periods.length := by
    simp [analysisCandles, length_attachSMA, length_buildCandles]
  unfold fetchTradingViewAnalysis
  rw [if_neg hlen]
  refine ⟨_, rfl, ?_⟩
  dsimp only
  simp only [Option.isSome_map']
  rw [previousCompletedOf_isSome]
  simp only [recentCandlesOf, List.length_map, recentWindow, jsSliceFrom, List.length_drop, hcl]

/-- C4, amended: over `n ≥ 1` fetched bars the analysis resolves, and
`previousCompleted` is non-null exactly when the recent window holds at least
two candles, which is when `min(n, max(recentCount, 1)) ≥ 2`, or when
`recentCount` converts to `NaN` (the window is then all bars) and `n ≥ 2`; when
non-null, its candle is the bar at index `n - 2`, not the forming one, and its
matches are `evaluateMatches` of that bar with the SMA computed for it. -/
theorem fetchTradingViewAnalysis_previousCompleted (f : String → JsNum) (options : AnalysisOptions)
    (fetched : Fetched) (hne : fetched.periods ≠ []) :
    ∃ a, fetchTradingViewAnalysis f options fetched = Except.ok a ∧
      (a.previousCompleted.isSome = true ↔ 2 ≤ a.candles.length) ∧
      (a.previousCompleted.isSome = true ↔
        (options.recentCount.toNumeric f = JsNum.nan ∧ 2 ≤ fetched.periods.length) ∨
        JsNum.ge (JsNum.min (JsNum.fin (fetched.periods.length : ℚ))
          (JsNum.max (options.recentCount.toNumeric f) (JsNum.fin 1))) (JsNum.fin 2) = true) ∧
      (∀ r : ℚ, options.recentCount.toNumeric f = JsNum.fin r →
        (a.previousCompleted.isSome = true ↔
          (2 : ℚ) ≤ Min.min (fetched.periods.length : ℚ) (Max.max r 1))) ∧
      ∀ pc, a.previousCompleted = some pc →
        ∃ bar, fetched.periods[fetched.periods.length - 2]? = some bar ∧
          2 ≤ fetched.periods.length ∧
          pc.candle.index = fetched.periods.length - 2 ∧
          pc.candle.timestamp = JsVal.or bar.time JsVal.null ∧
          pc.candle.open_ = toNumber f bar.open_ ∧
          pc.candle.high = toNumber f bar.high ∧
          pc.candle.low = toNumber f bar.low ∧
          pc.candle.close = toNumber f bar.close ∧
          pc.candle.volume = toNumber f bar.volume ∧
          pc.candle.sma = ((computeSMA (buildCandles f fetched.periods)
            options.smaPeriod)[fetched.periods.length - 2]?).getD JsVal.undefined ∧
          pc.candle.forming = false ∧
          pc.matches_ = evaluateMatches
            { index := fetched.periods.length - 2
              number := fetched.periods.length - 1
              timestamp := JsVal.or bar.time JsVal.null
              open_ := toNumber f bar.open_
              high := toNumber f bar.high
              low := toNumber f bar.low
              close := toNumber f bar.close
              volume := toNumber f bar.volume
              sma := ((computeSMA (buildCandles f fetched.periods)
                options.smaPeriod)[fetched.periods.length - 2]?).getD JsVal.undefined } := by
  have hlen : ¬ (fetched.periods.length = 0) := by
    intro h; exact hne (List.length_eq_zero.mp h)
  have hn : 0 < fetched.periods.length := Nat.pos_of_ne_zero hlen
  obtain ⟨cs, hcs⟩ : ∃ cs, cs = analysisCandles f options.smaPeriod fetched.periods := ⟨_, rfl⟩
  have hcl : cs.length = fetched.periods.length := by
    rw [hcs]; simp [analysisCandles, length_attachSMA, length_buildCandles]
  obtain ⟨k, hk⟩ : ∃ k, k = JsNum.sliceIndex fetched.periods.length
      (JsNum.neg (JsNum.max (options.recentCount.toNumeric f) (JsNum.fin 1))) := ⟨_, rfl⟩
  have hrecent : recentWindow f options.recentCount cs = cs.drop k := by
    simp only [recentWindow, jsSliceFrom, hcl, hk]
  have hrl : (cs.drop k).length = fetched.periods.length - k := by
    rw [List.length_drop, hcl]
  unfold fetchTradingViewAnalysis
  rw [if_neg hlen]
  refine ⟨_, rfl, ?_, ?_, ?_, ?_⟩
  · dsimp only
    rw [← hcs, hrecent]
    simp only [Option.isSome_map']
    rw [previousCompletedOf_isSome]
  · dsimp only
    rw [← hcs, hrecent]
    simp only [Option.isSome_map']
    rw [previousCompletedOf_isSome]
    simp only [recentCandlesOf, List.length_map]
    rw [hrl, hk]
    exact recentCount_formula _ _
  · intro r hrc
    dsimp only
    rw [← hcs, hrecent]
    simp only [Option.isSome_map']
    rw [previousCompletedOf_isSome]
    simp only [recentCandlesOf, List.length_map]
    have hm : (1 : ℚ) ≤ Max.max r 1 := le_max_right r 1
    rw [hrl, hk, hrc, JsNum.max_fin_one, JsNum.sliceIndex_neg_of_one_le _ _ hm]
    exact recent_window_ge_two _ _ hm
  · intro pc hpc
    dsimp only at hpc
    rw [← hcs, hrecent, Option.map_eq_some'] at hpc
    obtain ⟨rcd, hrcd, rfl⟩ := hpc
    have h2 : 2 ≤ (recentCandlesOf (cs.drop k)).length := by
      rw [← previousCompletedOf_isSome, hrcd]; rfl
    have h2' : 2 ≤ fetched.periods.length - k := by
      simpa [recentCandlesOf, hcl] using h2
    have hidx : k + (fetched.periods.length - k - 2) = fetched.periods.length - 2 := by omega
    have hlast : k + (fetched.periods.length - k - 1) = fetched.periods.length - 1 := by omega
    have hb : fetched.periods.length - 2 < fetched.periods.length := by omega
    have hb1 : fetched.periods.length - 1 < fetched.periods.length := by omega
    have hcand := getElem?_analysisCandles f options.smaPeriod fetched.periods _ _
      (List.getElem?_eq_getElem hb)
    have hcand1 := getElem?_analysisCandles f options.smaPeriod fetched.periods _ _
      (List.getElem?_eq_getElem hb1)
    rw [← hcs] at hcand hcand1
    have hlatest : latestOf (cs.drop k) = cs[fetched.periods.length - 1]? := by
      simp only [latestOf, List.getElem?_drop, hrl, hlast]
    simp only [previousCompletedOf, recentCandlesOf, List.length_map, hrl, if_pos h2',
      List.getElem?_map, List.getElem?_drop, hidx, hcand, Option.map_some',
      Option.some.injEq, hlatest, hcand1] at hrcd
    refine ⟨_, List.getElem?_eq_getElem hb, by omega, ?_⟩
    subst hrcd
    have hne2 : ¬ (fetched.periods.length - 1 = fetched.periods.length - 2) := by omega
    have hnum : fetched.periods.length - 2 + 1 = fetched.periods.length - 1 := by omega
    simp [toRecentCandle, hne2, hnum]

/-! ### Polling one symbol -/

theorem JsMap.get?_set_self {α : Type} (m : JsMap α) (k : String) (v : α) :
    JsMap.get? (JsMap.set m k v) k = some v := by
  induction m with
  | nil => simp [JsMap.set, JsMap.get?]
  | cons e m ih =>
    obtain ⟨k0, v0⟩ := e
    by_cases h : k0 = k
    · simp [JsMap.set, JsMap.get?, h]
    · simp [JsMap.set, JsMap.get?, h, ih]

theorem JsMap.get?_set_of_ne {α : Type} (m : JsMap α) (k k1 : String) (v : α) (hk : k ≠ k1) :
    JsMap.get? (JsMap.set m k v) k1 = JsMap.get? m k1 := by
  induction m with
  | nil => simp [JsMap.set, JsMap.get?, hk]
  | cons e m ih =>
    obtain ⟨k0, v0⟩ := e
    by_cases h : k0 = k
    · subst h
      simp [JsMap.set, JsMap.get?, hk]
    · by_cases h1 : k0 = k1
      · simp only [JsMap.set, if_neg h, JsMap.get?, if_pos h1]
      · simp only [JsMap.set, if_neg h, JsMap.get?, if_neg h1, ih]

theorem JsVal.strictEq_getD_iff (x : Option JsVal) (t : JsVal) (ht : t.truthy = true) :
    JsVal.strictEq (x.getD JsVal.undefined) t = true ↔ x = some t := by
  have hu : t ≠ JsVal.undefined := by
    intro h; rw [h] at ht; cases ht
  have hn : t ≠ JsVal.num JsNum.nan := by
    intro h; rw [h] at ht; cases ht
  cases x with
  | none =>
    simp only [Option.getD_none, JsVal.strictEq]
    simp [Ne.symm hu]
  | some v =>
    simp only [Option.getD_some, JsVal.strictEq, Option.some.injEq]
    by_cases hv : v = JsVal.num JsNum.nan
    · simp only [hv, if_true, Bool.false_eq_true, false_iff]
      exact Ne.symm hn
    · simp [hv]

theorem prevTimestampOf_truthy_iff (build : MessageInput → String) (a : Analysis) :
    (prevTimestampOf (prepareWhatsAppAlert build a)).truthy = true ↔
      ∃ pc, a.previousCompleted = some pc ∧ pc.candle.timestamp.truthy = true := by
  have hnull : JsVal.null.truthy = false := rfl
  cases hpc : a.previousCompleted with
  | none => simp [prevTimestampOf, prepareWhatsAppAlert, hpc, hnull]
  | some pc =>
    by_cases ht : pc.candle.timestamp.truthy = true
    · simp [prevTimestampOf, prepareWhatsAppAlert, hpc, JsVal.or, ht]
    · simp only [prevTimestampOf, prepareWhatsAppAlert, hpc, Option.map_some', JsVal.or,
        if_neg ht, hnull, Bool.false_eq_true, false_iff]
      rintro ⟨pc1, h1, h2⟩
      simp only [Option.some.injEq] at h1
      subst h1
      exact ht h2

theorem isVerified_iff (build : MessageInput → String) (a : Analysis) :
    (prepareWhatsAppAlert build a).isVerified = true ↔
      ∃ pc, a.previousCompleted = some pc ∧
        (pc.matches_.greenAbove = true ∨ pc.matches_.redBelow = true) := by
  cases hpc : a.previousCompleted with
  | none => simp [prepareWhatsAppAlert, hpc]
  | some pc => simp [prepareWhatsAppAlert, hpc]

theorem pollSymbol_unverified (up : String → String) (build : MessageInput → String)
    (cred : Credentials) (st : AlertState) (symbol : String) (a : Analysis)
    (d : Except String String)
    (h : ¬ ((prevTimestampOf (prepareWhatsAppAlert build a)).truthy = true ∧
      (prepareWhatsAppAlert build a).isVerified = true ∧
      trimmedMessageOf (prepareWhatsAppAlert build a) ≠ "")) :
    pollSymbol up build cred st symbol (Except.ok a) d
      = (Except.ok { symbol := symbol, verified := false, sent := false }, st) := by
  have hg : (!(prevTimestampOf (prepareWhatsAppAlert build a)).truthy ||
      !(prepareWhatsAppAlert build a).isVerified ||
      decide (trimmedMessageOf (prepareWhatsAppAlert build a) = "")) = true := by
    by_contra hc
    apply h
    simp only [Bool.or_eq_true, Bool.not_eq_true', decide_eq_true_eq, not_or,
      Bool.not_eq_false] at hc
    exact ⟨hc.1.1, hc.1.2, hc.2⟩
  simp only [pollSymbol, hg, if_true]

theorem pollSymbol_verified (up : String → String) (build : MessageInput → String)
    (cred : Credentials) (st : AlertState) (symbol : String) (a : Analysis)
    (d : Except String String)
    (h1 : (prevTimestampOf (prepareWhatsAppAlert build a)).truthy = true)
    (h2 : (prepareWhatsAppAlert build a).isVerified = true)
    (h3 : trimmedMessageOf (prepareWhatsAppAlert build a) ≠ "") :
    pollSymbol up build cred st symbol (Except.ok a) d =
      if st.lastAlertTimestamp.get? (up symbol)
          = some (prevTimestampOf (prepareWhatsAppAlert build a)) then
        (Except.ok { symbol := symbol, verified := true, sent := false }, st)
      else
        match d with
        | Except.error e =>
          (Except.error e,
            { st with sendCalls := st.sendCalls ++
                [{ phone := cred.phone, apiKey := cred.apiKey,
                   text := trimmedMessageOf (prepareWhatsAppAlert build a),
                   delivered := false }] })
        | Except.ok _ =>
          (Except.ok { symbol := symbol, verified := true, sent := true },
            { lastAlertTimestamp := st.lastAlertTimestamp.set (up symbol)
                (prevTimestampOf (prepareWhatsAppAlert build a))
              sendCalls := st.sendCalls ++
                [{ phone := cred.phone, apiKey := cred.apiKey,
                   text := trimmedMessageOf (prepareWhatsAppAlert build a),
                   delivered := true }] }) := by
  have hg : (!(prevTimestampOf (prepareWhatsAppAlert build a)).truthy ||
      !(prepareWhatsAppAlert build a).isVerified ||
      decide (trimmedMessageOf (prepareWhatsAppAlert build a) = "")) = false := by
    simp [h1, h2, h3]
  simp only [pollSymbol, hg, Bool.false_eq_true, if_false]
  by_cases hd : st.lastAlertTimestamp.get? (up symbol)
      = some (prevTimestampOf (prepareWhatsAppAlert build a))
  · rw [if_pos ((JsVal.strictEq_getD_iff _ _ h1).mpr hd), if_pos hd]
  · rw [if_neg (fun hc => hd ((JsVal.strictEq_getD_iff _ _ h1).mp hc)), if_neg hd]

theorem deliveredCount_append (st : AlertState) (c : SendCall) (m : JsMap JsVal) :
    AlertState.deliveredCount { lastAlertTimestamp := m, sendCalls := st.sendCalls ++ [c] }
      = st.deliveredCount + (if c.delivered then 1 else 0) := by
  cases hc : c.delivered <;> simp [AlertState.deliveredCount, List.filter_append, hc]

theorem pollSymbol_effect (up : String → String) (build : MessageInput → String)
    (cred : Credentials) (st : AlertState) (symbol : String) (a : Analysis)
    (d : Except String String) :
    ((pollSymbol up build cred st symbol (Except.ok a) d).2.deliveredCount = st.deliveredCount ∧
      (pollSymbol up build cred st symbol (Except.ok a) d).2.lastAlertTimestamp
        = st.lastAlertTimestamp) ∨
    ((pollSymbol up build cred st symbol (Except.ok a) d).2.deliveredCount
        = st.deliveredCount + 1 ∧
      (pollSymbol up build cred st symbol (Except.ok a) d).2.lastAlertTimestamp.get? (up symbol)
        = some (prevTimestampOf (prepareWhatsAppAlert build a))) := by
  by_cases hv : (prevTimestampOf (prepareWhatsAppAlert build a)).truthy = true ∧
      (prepareWhatsAppAlert build a).isVerified = true ∧
      trimmedMessageOf (prepareWhatsAppAlert build a) ≠ ""
  · obtain ⟨h1, h2, h3⟩ := hv
    rw [pollSymbol_verified up build cred st symbol a d h1 h2 h3]
    by_cases hd : st.lastAlertTimestamp.get? (up symbol)
        = some (prevTimestampOf (prepareWhatsAppAlert build a))
    · rw [if_pos hd]
      exact Or.inl ⟨rfl, rfl⟩
    · rw [if_neg hd]
      cases d with
      | error e =>
        left
        refine ⟨?_, rfl⟩
        simp only
        rw [deliveredCount_append]
        simp
      | ok resp =>
        right
        refine ⟨?_, ?_⟩
        · simp only
          rw [deliveredCount_append]
          simp
        · simp only
          exact JsMap.get?_set_self _ _ _
  · rw [pollSymbol_unverified up build cred st symbol a d hv]
    exact Or.inl ⟨rfl, rfl⟩

theorem pollSymbol_repeat (up : String → String) (build : MessageInput → String)
    (cred : Credentials) (st : AlertState) (symbol : String) (a : Analysis)
    (d : Except String String)
    (h : st.lastAlertTimestamp.get? (up symbol)
      = some (prevTimestampOf (prepareWhatsAppAlert build a))) :
    (pollSymbol up build cred st symbol (Except.ok a) d).2 = st := by
  by_cases hv : (prevTimestampOf (prepareWhatsAppAlert build a)).truthy = true ∧
      (prepareWhatsAppAlert build a).isVerified = true ∧
      trimmedMessageOf (prepareWhatsAppAlert build a) ≠ ""
  · obtain ⟨h1, h2, h3⟩ := hv
    rw [pollSymbol_verified up build cred st symbol a d h1 h2 h3, if_pos h]
  · rw [pollSymbol_unverified up build cred st symbol a d hv]

/-- C5: a poll whose previous candle is verified (its timestamp `t` is present,
the candle is classified and the trimmed message is not empty) and whose
timestamp is already recorded under the upper-cased symbol resolves to
`{verified: true, sent: false}` and leaves the state, hence the record and the
messages sent, as it was; a poll that reports `sent: true` leaves `t` recorded
under that key, and it does so whenever `t` is not recorded yet and the
delivery succeeds; two consecutive polls of a symbol that see the same
completed candle deliver at most one message. -/
theorem pollSymbol_deduplicates (up : String → String) (build : MessageInput → String)
    (cred : Credentials) :
    (∀ (st : AlertState) (symbol : String) (a : Analysis) (d : Except String String),
      (prevTimestampOf (prepareWhatsAppAlert build a)).truthy = true →
      (prepareWhatsAppAlert build a).isVerified = true →
      trimmedMessageOf (prepareWhatsAppAlert build a) ≠ "" →
      st.lastAlertTimestamp.get? (up symbol)
        = some (prevTimestampOf (prepareWhatsAppAlert build a)) →
      pollSymbol up build cred st symbol (Except.ok a) d
        = (Except.ok { symbol := symbol, verified := true, sent := false }, st)) ∧
    (∀ (st : AlertState) (symbol : String) (a : Analysis) (resp : String),
      (prevTimestampOf (prepareWhatsAppAlert build a)).truthy = true →
      (prepareWhatsAppAlert build a).isVerified = true →
      trimmedMessageOf (prepareWhatsAppAlert build a) ≠ "" →
      st.lastAlertTimestamp.get? (up symbol)
        ≠ some (prevTimestampOf (prepareWhatsAppAlert build a)) →
      (pollSymbol up build cred st symbol (Except.ok a) (Except.ok resp)).1
        = Except.ok { symbol := symbol, verified := true, sent := true }) ∧
    (∀ (st : AlertState) (symbol : String) (a : Analysis) (d : Except String String)
      (res : PollResult),
      (pollSymbol up build cred st symbol (Except.ok a) d).1 = Except.ok res →
      res.sent = true →
      (pollSymbol up build cred st symbol (Except.ok a) d).2.lastAlertTimestamp.get? (up symbol)
        = some (prevTimestampOf (prepareWhatsAppAlert build a))) ∧
    (∀ (st : AlertState) (symbol : String) (a1 a2 : Analysis) (d1 d2 : Except String String),
      prevTimestampOf (prepareWhatsAppAlert build a1)
        = prevTimestampOf (prepareWhatsAppAlert build a2) →
      (pollSymbol up build cred
          (pollSymbol up build cred st symbol (Except.ok a1) d1).2 symbol
          (Except.ok a2) d2).2.deliveredCount
        ≤ st.deliveredCount + 1) := by
  refine ⟨?_, ?_, ?_, ?_⟩
  · intro st symbol a d h1 h2 h3 hrec
    rw [pollSymbol_verified up build cred st symbol a d h1 h2 h3, if_pos hrec]
  · intro st symbol a resp h1 h2 h3 hrec
    rw [pollSymbol_verified up build cred st symbol a _ h1 h2 h3, if_neg hrec]
  · intro st symbol a d res hres hsent
    by_cases hv : (prevTimestampOf (prepareWhatsAppAlert build a)).truthy = true ∧
        (prepareWhatsAppAlert build a).isVerified = true ∧
        trimmedMessageOf (prepareWhatsAppAlert build a) ≠ ""
    · obtain ⟨h1, h2, h3⟩ := hv
      rw [pollSymbol_verified up build cred st symbol a d h1 h2 h3] at hres ⊢
      by_cases hd : st.lastAlertTimestamp.get? (up symbol)
          = some (prevTimestampOf (prepareWhatsAppAlert build a))
      · rw [if_pos hd]
        exact hd
      · rw [if_neg hd] at hres ⊢
        cases d with
        | error e => simp at hres
        | ok resp => exact JsMap.get?_set_self _ _ _
    · rw [pollSymbol_unverified up build cred st symbol a d hv] at hres
      simp only [Except.ok.injEq] at hres
      rw [← hres] at hsent
      cases hsent
  · intro st symbol a1 a2 d1 d2 hsame
    rcases pollSymbol_effect up build cred st symbol a1 d1 with ⟨hc, -⟩ | ⟨hc, hrec⟩
    · rcases pollSymbol_effect up build cred
        (pollSymbol up build cred st symbol (Except.ok a1) d1).2 symbol a2 d2
        with ⟨hc2, -⟩ | ⟨hc2, -⟩
      · omega
      · omega
    · rw [hsame] at hrec
      rw [pollSymbol_repeat up build cred _ symbol a2 d2 hrec]
      omega

/-- C6: a poll calls `sendWhatsAppMessage` only if the analysis resolved with a
previous completed candle that has a timestamp and is classified green above or
red below the MA; when the analysis resolved and one of these fails, the poll
resolves to `{verified: false, sent: false}` and the state (the record and the
calls made) is unchanged; when the analysis rejected, the poll rejects with the
same error and the state is unchanged as well. -/
theorem pollSymbol_sends_only_verified (up : String → String) (build : MessageInput → String)
    (cred : Credentials) :
    (∀ (st : AlertState) (symbol : String) (o : Except String Analysis)
      (d : Except String String),
      (pollSymbol up build cred st symbol o d).2.sendCalls ≠ st.sendCalls →
      ∃ a pc, o = Except.ok a ∧ a.previousCompleted = some pc ∧
        pc.candle.timestamp.truthy = true ∧
        (pc.matches_.greenAbove = true ∨ pc.matches_.redBelow = true)) ∧
    (∀ (st : AlertState) (symbol : String) (a : Analysis) (d : Except String String),
      ¬ (∃ pc, a.previousCompleted = some pc ∧ pc.candle.timestamp.truthy = true ∧
        (pc.matches_.greenAbove = true ∨ pc.matches_.redBelow = true)) →
      pollSymbol up build cred st symbol (Except.ok a) d
        = (Except.ok { symbol := symbol, verified := false, sent := false }, st)) ∧
    (∀ (st : AlertState) (symbol : String) (e : String) (d : Except String String),
      pollSymbol up build cred st symbol (Except.error e) d = (Except.error e, st)) := by
  have key : ∀ a : Analysis,
      (prevTimestampOf (prepareWhatsAppAlert build a)).truthy = true →
      (prepareWhatsAppAlert build a).isVerified = true →
      ∃ pc, a.previousCompleted = some pc ∧ pc.candle.timestamp.truthy = true ∧
        (pc.matches_.greenAbove = true ∨ pc.matches_.redBelow = true) := by
    intro a h1 h2
    obtain ⟨pc, hpc, ht⟩ := (prevTimestampOf_truthy_iff build a).mp h1
    obtain ⟨pc2, hpc2, hm⟩ := (isVerified_iff build a).mp h2
    rw [hpc] at hpc2
    simp only [Option.some.injEq] at hpc2
    subst hpc2
    exact ⟨pc, hpc, ht, hm⟩
  refine ⟨?_, ?_, ?_⟩
  · intro st symbol o d hsend
    cases o with
    | error e => exact absurd rfl hsend
    | ok a =>
      by_cases hv : (prevTimestampOf (prepareWhatsAppAlert build a)).truthy = true ∧
          (prepareWhatsAppAlert build a).isVerified = true ∧
          trimmedMessageOf (prepareWhatsAppAlert build a) ≠ ""
      · obtain ⟨pc, hpc, ht, hm⟩ := key a hv.1 hv.2.1
        exact ⟨a, pc, rfl, hpc, ht, hm⟩
      · rw [pollSymbol_unverified up build cred st symbol a d hv] at hsend
        exact absurd rfl hsend
  · intro st symbol a d hno
    apply pollSymbol_unverified
    rintro ⟨h1, h2, -⟩
    exact hno (key a h1 h2)
  · intro st symbol e d
    rfl

/-! ### The alert scheduler -/

theorem scheduleNext_after_fire (st : SchedulerState) (delay : ℕ) (h : Armed st) :
    scheduleNext (fireTimer st) delay =
      { consecutiveFailures := st.consecutiveFailures
        timeoutId := some st.timers.nextId
        timers := { pending := [(st.timers.nextId, delay)], nextId := st.timers.nextId + 1 } } := by
  obtain ⟨id, d0, hid, hp⟩ := h
  simp [scheduleNext, fireTimer, hid, hp, Timers.clearTimeout, Timers.setTimeout]

theorem fireTimer_consecutiveFailures (st : SchedulerState) (c : ℕ) :
    fireTimer { st with consecutiveFailures := c }
      = { fireTimer st with consecutiveFailures := c } := rfl

theorem armed_with_count (st : SchedulerState) (c : ℕ) (h : Armed st) :
    Armed { st with consecutiveFailures := c } := h

theorem runCycle_of_armed (cfg : SchedulerConfig) (st : SchedulerState) (o : PollOutcome)
    (h : Armed st) :
    runCycle cfg st o =
      { consecutiveFailures :=
          if o.failed = true then
            (if st.consecutiveFailures + 1 > cfg.maxRetries then 0
             else st.consecutiveFailures + 1)
          else 0
        timeoutId := some st.timers.nextId
        timers :=
          { pending := [(st.timers.nextId,
              if o.failed = true then
                (if st.consecutiveFailures + 1 > cfg.maxRetries then cfg.baseIntervalMs
                 else cfg.retryIntervalMs * (st.consecutiveFailures + 1))
              else cfg.baseIntervalMs)]
            nextId := st.timers.nextId + 1 } } := by
  have hne : st.timers.pending ≠ [] := by
    obtain ⟨id, d0, -, hp⟩ := h
    rw [hp]; simp
  have hs : ∀ (c delay : ℕ),
      scheduleNext { fireTimer st with consecutiveFailures := c } delay =
        { consecutiveFailures := c
          timeoutId := some st.timers.nextId
          timers := { pending := [(st.timers.nextId, delay)],
                      nextId := st.timers.nextId + 1 } } := by
    intro c delay
    have := scheduleNext_after_fire { st with consecutiveFailures := c } delay
      (armed_with_count st c h)
    simpa [fireTimer] using this
  have hfc : (fireTimer st).consecutiveFailures = st.consecutiveFailures := rfl
  unfold runCycle
  rw [if_neg hne]
  cases o with
  | resolved hadErrors =>
    cases hadErrors with
    | true =>
      by_cases hmax : st.consecutiveFailures + 1 > cfg.maxRetries
      · simp only [timerCallback, hfc, if_pos hmax, PollOutcome.failed, if_true]
        exact hs 0 _
      · simp only [timerCallback, hfc, if_neg hmax, PollOutcome.failed, if_true]
        exact hs _ _
    | false =>
      simp only [timerCallback, PollOutcome.failed, Bool.false_eq_true, if_false]
      exact hs 0 _
  | threw =>
    by_cases hmax : st.consecutiveFailures + 1 > cfg.maxRetries
    · simp only [timerCallback, hfc, if_pos hmax, PollOutcome.failed, if_true]
      exact hs 0 _
    · simp only [timerCallback, hfc, if_neg hmax, PollOutcome.failed, if_true]
      exact hs _ _

theorem armed_runCycle (cfg : SchedulerConfig) (st : SchedulerState) (o : PollOutcome)
    (h : Armed st) : Armed (runCycle cfg st o) := by
  rw [runCycle_of_armed cfg st o h]
  exact ⟨_, _, rfl, rfl⟩

theorem armed_runCycles (cfg : SchedulerConfig) (outs : List PollOutcome) :
    ∀ st : SchedulerState, Armed st → Armed (runCycles cfg st outs) := by
  induction outs with
  | nil => intro st h; exact h
  | cons o os ih =>
    intro st h
    exact ih _ (armed_runCycle cfg st o h)

theorem runCycles_append (cfg : SchedulerConfig) (st : SchedulerState)
    (xs ys : List PollOutcome) :
    runCycles cfg st (xs ++ ys) = runCycles cfg (runCycles cfg st xs) ys := by
  simp [runCycles, List.foldl_append]

theorem runCycles_failing (cfg : SchedulerConfig) (outs : List PollOutcome) :
    ∀ st : SchedulerState, Armed st → (∀ o ∈ outs, o.failed = true) →
      st.consecutiveFailures + outs.length ≤ cfg.maxRetries →
      (runCycles cfg st outs).consecutiveFailures = st.consecutiveFailures + outs.length ∧
      (outs ≠ [] → (runCycles cfg st outs).pendingDelays
        = [cfg.retryIntervalMs * (st.consecutiveFailures + outs.length)]) := by
  induction outs using List.reverseRecOn with
  | nil =>
    intro st _ _ _
    exact ⟨rfl, fun h => absurd rfl h⟩
  | append_singleton os o ih =>
    intro st h hall hlen
    simp only [List.length_append, List.length_singleton] at hlen
    have hos := ih st h (fun x hx => hall x (List.mem_append_left _ hx)) (by omega)
    have ho : o.failed = true := hall o (by simp)
    have harm := armed_runCycles cfg os st h
    rw [runCycles_append]
    have hstep : runCycles cfg (runCycles cfg st os) [o]
        = runCycle cfg (runCycles cfg st os) o := rfl
    rw [hstep, runCycle_of_armed cfg _ o harm, hos.1]
    have hnot : ¬ (st.consecutiveFailures + os.length + 1 > cfg.maxRetries) := by omega
    simp only [ho, if_true, if_neg hnot, List.length_append, List.length_singleton,
      SchedulerState.pendingDelays, List.map_cons, List.map_nil]
    exact ⟨by omega, fun _ => by rw [Nat.add_assoc]⟩

theorem scheduledDelays_append (cfg : SchedulerConfig) (xs ys : List PollOutcome) :
    ∀ st : SchedulerState,
      scheduledDelays cfg st (xs ++ ys)
        = scheduledDelays cfg st xs ++ scheduledDelays cfg (runCycles cfg st xs) ys := by
  induction xs with
  | nil => intro st; rfl
  | cons x xs ih =>
    intro st
    have hr : runCycles cfg st (x :: xs) = runCycles cfg (runCycle cfg st x) xs := rfl
    rw [List.cons_append, hr]
    simp only [scheduledDelays, List.cons_append]
    rw [ih]

theorem scheduledDelays_failing (cfg : SchedulerConfig) (outs : List PollOutcome) :
    ∀ st : SchedulerState, Armed st → (∀ o ∈ outs, o.failed = true) →
      st.consecutiveFailures + outs.length ≤ cfg.maxRetries →
      scheduledDelays cfg st outs = (List.range outs.length).map
        (fun k => [cfg.retryIntervalMs * (st.consecutiveFailures + k + 1)]) := by
  induction outs using List.reverseRecOn with
  | nil => intro st _ _ _; rfl
  | append_singleton os o ih =>
    intro st h hall hlen
    simp only [List.length_append, List.length_singleton] at hlen
    have hall1 : ∀ x ∈ os, x.failed = true := fun x hx => hall x (List.mem_append_left _ hx)
    have hos := ih st h hall1 (by omega)
    have hcnt := (runCycles_failing cfg os st h hall1 (by omega)).1
    have harm := armed_runCycles cfg os st h
    have hlast := (runCycles_failing cfg [o] (runCycles cfg st os) harm
      (fun x hx => hall x (by
        rw [List.mem_singleton] at hx
        rw [hx]; simp)) (by simp only [List.length_singleton]; omega)).2 (by simp)
    rw [scheduledDelays_append, hos, List.length_append, List.length_singleton,
      List.range_succ, List.map_append]
    congr 1
    simp only [scheduledDelays, List.map_cons, List.map_nil]
    have hstep : runCycles cfg (runCycles cfg st os) [o]
        = runCycle cfg (runCycles cfg st os) o := rfl
    rw [hstep] at hlast
    rw [hlast, hcnt, List.length_singleton]

/-- C7: in an armed loop, a failing cycle that is the `k`-th consecutive failing
one with `k ≤ WHATSAPP_MAX_RETRIES` schedules the next cycle after
`retryIntervalMs * k`; a cycle without errors, and a failing cycle that finds
the counter at the maximum (the `(WHATSAPP_MAX_RETRIES + 1)`-th in a row),
schedules it after `baseIntervalMs`. Counted from a state with no failure on
record, `k` failing cycles in a row end with the delay `retryIntervalMs * k`,
and `WHATSAPP_MAX_RETRIES + 1` of them end with `baseIntervalMs`. -/
theorem scheduler_linear_backoff (cfg : SchedulerConfig) (st : SchedulerState)
    (h : Armed st) :
    (∀ (o : PollOutcome) (k : ℕ), o.failed = true → k = st.consecutiveFailures + 1 →
      k ≤ cfg.maxRetries →
      (runCycle cfg st o).pendingDelays = [cfg.retryIntervalMs * k] ∧
      (runCycle cfg st o).consecutiveFailures = k) ∧
    (∀ o : PollOutcome, o.failed = false →
      (runCycle cfg st o).pendingDelays = [cfg.baseIntervalMs] ∧
      (runCycle cfg st o).consecutiveFailures = 0) ∧
    (∀ o : PollOutcome, o.failed = true → st.consecutiveFailures = cfg.maxRetries →
      (runCycle cfg st o).pendingDelays = [cfg.baseIntervalMs] ∧
      (runCycle cfg st o).consecutiveFailures = 0) ∧
    (st.consecutiveFailures = 0 → ∀ outs : List PollOutcome,
      (∀ o ∈ outs, o.failed = true) → 1 ≤ outs.length → outs.length ≤ cfg.maxRetries →
      (runCycles cfg st outs).pendingDelays = [cfg.retryIntervalMs * outs.length]) ∧
    (st.consecutiveFailures = 0 → ∀ outs : List PollOutcome,
      (∀ o ∈ outs, o.failed = true) → outs.length = cfg.maxRetries + 1 →
      (runCycles cfg st outs).pendingDelays = [cfg.baseIntervalMs]) := by
  refine ⟨?_, ?_, ?_, ?_, ?_⟩
  · intro o k ho hk hle
    have hnot : ¬ (st.consecutiveFailures + 1 > cfg.maxRetries) := by omega
    rw [runCycle_of_armed cfg st o h]
    simp only [ho, if_true, if_neg hnot, SchedulerState.pendingDelays, List.map_cons,
      List.map_nil, hk, and_self]
  · intro o ho
    rw [runCycle_of_armed cfg st o h]
    simp [ho, SchedulerState.pendingDelays]
  · intro o ho hmax
    have hgt : st.consecutiveFailures + 1 > cfg.maxRetries := by omega
    rw [runCycle_of_armed cfg st o h]
    simp only [ho, if_true, if_pos hgt, SchedulerState.pendingDelays, List.map_cons,
      List.map_nil, and_self]
  · intro h0 outs hall h1 hle
    have hne : outs ≠ [] := by
      intro he; rw [he] at h1; simp at h1
    have := (runCycles_failing cfg outs st h hall (by omega)).2 hne
    rw [this, h0, Nat.zero_add]
  · intro h0 outs hall hlen
    obtain ⟨os, o, rfl⟩ : ∃ os o, outs = os ++ [o] := by
      cases hr : outs.reverse with
      | nil =>
        have : outs = [] := List.reverse_eq_nil_iff.mp hr
        rw [this] at hlen; simp at hlen
      | cons x xs =>
        exact ⟨xs.reverse, x, by rw [← List.reverse_reverse outs, hr]; simp⟩
    simp only [List.length_append, List.length_singleton, Nat.add_right_cancel_iff] at hlen
    have hall1 : ∀ x ∈ os, x.failed = true := fun x hx => hall x (List.mem_append_left _ hx)
    have hcnt := (runCycles_failing cfg os st h hall1 (by omega)).1
    have harm := armed_runCycles cfg os st h
    rw [runCycles_append]
    have hstep : runCycles cfg (runCycles cfg st os) [o]
        = runCycle cfg (runCycles cfg st os) o := rfl
    have ho : o.failed = true := hall o (by simp)
    have hgt : (runCycles cfg st os).consecutiveFailures + 1 > cfg.maxRetries := by omega
    rw [hstep, runCycle_of_armed cfg _ o harm]
    simp only [ho, if_true, if_pos hgt, SchedulerState.pendingDelays, List.map_cons,
      List.map_nil]

/-- C8: in an armed loop the counter `consecutiveFailures` is at most
`WHATSAPP_MAX_RETRIES` after every cycle, every delay scheduled by any sequence
of cycles is at most `max(baseIntervalMs, retryIntervalMs * WHATSAPP_MAX_RETRIES)`,
and `WHATSAPP_MAX_RETRIES + 1` failing cycles in a row, counted from a state
with no failure on record, schedule the retry delays
`retryIntervalMs * 1, ..., retryIntervalMs * WHATSAPP_MAX_RETRIES` and then
`baseIntervalMs` with the counter back at 0. -/
theorem scheduler_backoff_bounded (cfg : SchedulerConfig) (st : SchedulerState)
    (h : Armed st) :
    (∀ (outs : List PollOutcome) (o : PollOutcome),
      (runCycle cfg (runCycles cfg st outs) o).consecutiveFailures ≤ cfg.maxRetries) ∧
    (∀ (outs : List PollOutcome), ∀ ds ∈ scheduledDelays cfg st outs, ∀ d ∈ ds,
      d ≤ Max.max cfg.baseIntervalMs (cfg.retryIntervalMs * cfg.maxRetries)) ∧
    (st.consecutiveFailures = 0 → ∀ outs : List PollOutcome,
      (∀ o ∈ outs, o.failed = true) → outs.length = cfg.maxRetries + 1 →
      scheduledDelays cfg st outs
        = (List.range cfg.maxRetries).map (fun k => [cfg.retryIntervalMs * (k + 1)])
          ++ [[cfg.baseIntervalMs]] ∧
      (runCycles cfg st outs).consecutiveFailures = 0) := by
  have hstepDelay : ∀ (s : SchedulerState) (o : PollOutcome), Armed s →
      ∀ d ∈ (runCycle cfg s o).pendingDelays,
        d ≤ Max.max cfg.baseIntervalMs (cfg.retryIntervalMs * cfg.maxRetries) := by
    intro s o hs d hd
    rw [runCycle_of_armed cfg s o hs] at hd
    simp only [SchedulerState.pendingDelays, List.map_cons, List.map_nil,
      List.mem_singleton] at hd
    rw [hd]
    by_cases ho : o.failed = true
    · by_cases hgt : s.consecutiveFailures + 1 > cfg.maxRetries
      · simp only [ho, if_true, if_pos hgt]
        exact le_max_left _ _
      · simp only [ho, if_true, if_neg hgt]
        exact le_trans (Nat.mul_le_mul_left _ (by omega)) (le_max_right _ _)
    · simp only [ho, Bool.false_eq_true, if_false]
      exact le_max_left _ _
  refine ⟨?_, ?_, ?_⟩
  · intro outs o
    rw [runCycle_of_armed cfg _ o (armed_runCycles cfg outs st h)]
    by_cases ho : o.failed = true
    · by_cases hgt : (runCycles cfg st outs).consecutiveFailures + 1 > cfg.maxRetries
      · simp [ho, hgt]
      · simp only [ho, if_true, if_neg hgt]
        omega
    · simp [ho]
  · intro outs
    induction outs generalizing st with
    | nil => intro ds hds; cases hds
    | cons o os ih =>
      intro ds hds d hd
      simp only [scheduledDelays, List.mem_cons] at hds
      rcases hds with rfl | hds
      · exact hstepDelay st o h d hd
      · exact ih (runCycle cfg st o) (armed_runCycle cfg st o h) ds hds d hd
  · intro h0 outs hall hlen
    obtain ⟨os, o, rfl⟩ : ∃ os o, outs = os ++ [o] := by
      cases hr : outs.reverse with
      | nil =>
        have : outs = [] := List.reverse_eq_nil_iff.mp hr
        rw [this] at hlen; simp at hlen
      | cons x xs =>
        exact ⟨xs.reverse, x, by rw [← List.reverse_reverse outs, hr]; simp⟩
    simp only [List.length_append, List.length_singleton, Nat.add_right_cancel_iff] at hlen
    have hall1 : ∀ x ∈ os, x.failed = true := fun x hx => hall x (List.mem_append_left _ hx)
    have hcnt := (runCycles_failing cfg os st h hall1 (by omega)).1
    have harm := armed_runCycles cfg os st h
    have ho : o.failed = true := hall o (by simp)
    have hgt : (runCycles cfg st os).consecutiveFailures + 1 > cfg.maxRetries := by omega
    have hstep : runCycles cfg (runCycles cfg st os) [o]
        = runCycle cfg (runCycles cfg st os) o := rfl
    refine ⟨?_, ?_⟩
    · rw [scheduledDelays_append, scheduledDelays_failing cfg os st h hall1 (by omega), hlen, h0]
      congr 1
      · simp only [Nat.zero_add]
      · simp only [scheduledDelays]
        rw [runCycle_of_armed cfg _ o harm]
        simp only [ho, if_true, if_pos hgt, SchedulerState.pendingDelays, List.map_cons,
          List.map_nil]
    · rw [runCycles_append, hstep, runCycle_of_armed cfg _ o harm]
      simp only [ho, if_true, if_pos hgt]

/-- C9: once `startWhatsAppAlerts` has armed the loop on timers with nothing
pending, after any sequence of cycles exactly one timer is pending and it is the
stored one; while a callback runs none is pending; every run of the callback,
whatever its outcome, arms exactly one new timer (one call of `scheduleNext`)
and leaves exactly one pending; and `scheduleNext` removes the stored timer from
the pending ones before it adds the new one. -/
theorem scheduler_single_timer (cfg : SchedulerConfig) (sw : AlertSwitches) (timers : Timers)
    (s0 : SchedulerState) (hstart : startWhatsAppAlerts sw timers = some s0)
    (hclean : timers.pending = []) :
    (∀ outs : List PollOutcome,
      Armed (runCycles cfg s0 outs) ∧
      (runCycles cfg s0 outs).timers.pending.length = 1 ∧
      (fireTimer (runCycles cfg s0 outs)).timers.pending = [] ∧
      ∀ o : PollOutcome,
        (runCycle cfg (runCycles cfg s0 outs) o).timers.nextId
          = (runCycles cfg s0 outs).timers.nextId + 1 ∧
        (runCycle cfg (runCycles cfg s0 outs) o).timers.pending.length = 1) ∧
    (∀ (st : SchedulerState) (id delay : ℕ), st.timeoutId = some id →
      (scheduleNext st delay).timers.pending
        = st.timers.pending.filter (fun e => e.1 ≠ id) ++ [(st.timers.nextId, delay)] ∧
      (scheduleNext st delay).timeoutId = some st.timers.nextId) := by
  have h0 : Armed s0 := by
    unfold startWhatsAppAlerts at hstart
    split at hstart
    · cases hstart
    · split at hstart
      · cases hstart
      · split at hstart
        · cases hstart
        · simp only [Option.some.injEq] at hstart
          rw [← hstart]
          exact ⟨timers.nextId, 0, rfl, by simp [scheduleNext, Timers.setTimeout, hclean]⟩
  refine ⟨?_, ?_⟩
  · intro outs
    have harm := armed_runCycles cfg outs s0 h0
    refine ⟨harm, ?_, ?_, ?_⟩
    · obtain ⟨id, d, -, hp⟩ := harm
      rw [hp]; rfl
    · obtain ⟨id, d, -, hp⟩ := harm
      simp [fireTimer, hp]
    · intro o
      rw [runCycle_of_armed cfg _ o harm]
      exact ⟨rfl, rfl⟩
  · intro st id delay hid
    simp [scheduleNext, hid, Timers.clearTimeout, Timers.setTimeout]

/-! ### The candle cache -/

/-- C10: `getCachedCandles(pair, hours)` returns the cached batch exactly when
an entry for the pair exists, its age `now - cachedAt` is strictly below
`CHART_CACHE_TTL_MS` and its `lookbackHours` is at least the requested hours,
and `null` in every other case; an entry whose age has reached the
time-to-live is never returned. -/
theorem getCachedCandles_iff (ttl : JsNum) (now : ℤ) (chartCache : JsMap CacheEntry)
    (pair : String) (hours : JsNum) :
    (∀ d, getCachedCandles ttl now chartCache pair hours = some d ↔
      ∃ e, chartCache.get? pair = some e ∧ e.data = d ∧
        JsNum.lt (JsNum.fin ((now : ℚ) - (e.cachedAt : ℚ))) ttl = true ∧
        JsNum.ge (JsNum.fin e.data.lookbackHours) hours = true) ∧
    (∀ (T h : ℚ), ttl = JsNum.fin T → hours = JsNum.fin h →
      ∀ d, getCachedCandles ttl now chartCache pair hours = some d ↔
        ∃ e, chartCache.get? pair = some e ∧ e.data = d ∧
          (now : ℚ) - (e.cachedAt : ℚ) < T ∧ h ≤ e.data.lookbackHours) ∧
    (getCachedCandles ttl now chartCache pair hours = none ↔
      ¬ ∃ e, chartCache.get? pair = some e ∧
        JsNum.lt (JsNum.fin ((now : ℚ) - (e.cachedAt : ℚ))) ttl = true ∧
        JsNum.ge (JsNum.fin e.data.lookbackHours) hours = true) ∧
    (∀ (T : ℚ) (e : CacheEntry), ttl = JsNum.fin T → chartCache.get? pair = some e →
      T ≤ (now : ℚ) - (e.cachedAt : ℚ) →
      getCachedCandles ttl now chartCache pair hours = none) := by
  have hgen : ∀ d, getCachedCandles ttl now chartCache pair hours = some d ↔
      ∃ e, chartCache.get? pair = some e ∧ e.data = d ∧
        JsNum.lt (JsNum.fin ((now : ℚ) - (e.cachedAt : ℚ))) ttl = true ∧
        JsNum.ge (JsNum.fin e.data.lookbackHours) hours = true := by
    intro d
    unfold getCachedCandles
    cases hc : chartCache.get? pair with
    | none => simp
    | some e =>
      simp only [Option.some.injEq, exists_eq_left']
      by_cases hf : (JsNum.lt (JsNum.fin ((now : ℚ) - (e.cachedAt : ℚ))) ttl &&
          JsNum.ge (JsNum.fin e.data.lookbackHours) hours) = true
      · rw [if_pos hf]
        simp only [Bool.and_eq_true] at hf
        simp [hf.1, hf.2]
      · rw [if_neg hf]
        simp only [Bool.and_eq_true] at hf
        constructor
        · intro hx; cases hx
        · rintro ⟨-, h1, h2⟩
          exact absurd ⟨h1, h2⟩ hf
  refine ⟨hgen, ?_, ?_, ?_⟩
  · intro T h hT hh d
    rw [hgen d, hT, hh]
    simp [JsNum.lt, JsNum.ge, JsNum.le]
  · constructor
    · rintro hnone ⟨e, he, h1, h2⟩
      have := (hgen e.data).mpr ⟨e, he, rfl, h1, h2⟩
      rw [hnone] at this
      cases this
    · intro hno
      cases hr : getCachedCandles ttl now chartCache pair hours with
      | none => rfl
      | some d =>
        obtain ⟨e, he, -, h1, h2⟩ := (hgen d).mp hr
        exact absurd ⟨e, he, h1, h2⟩ hno
  · intro T e hT he hage
    cases hr : getCachedCandles ttl now chartCache pair hours with
    | none => rfl
    | some d =>
      obtain ⟨e1, he1, -, h1, -⟩ := (hgen d).mp hr
      rw [he] at he1
      simp only [Option.some.injEq] at he1
      subst he1
      rw [hT] at h1
      simp only [JsNum.lt, decide_eq_true_eq] at h1
      exact absurd h1 (not_lt.mpr hage)

/-! ### The null entries of the SMA series -/

theorem length_computeSMA (candles : List Candle) (period : JsVal) :
    (computeSMA candles period).length = candles.length := by
  unfold computeSMA
  split <;> simp

theorem computeSMA_of_not_positive (candles : List Candle) (period : JsVal)
    (h : ¬ ∃ q : ℚ, period = JsVal.num (JsNum.fin q) ∧ 0 < q) (i : ℕ)
    (hi : i < candles.length) :
    (computeSMA candles period)[i]? = some JsVal.null := by
  have hguard : (!period.isFinite || JsNum.le period.asNum (JsNum.fin 0)) = true := by
    cases period with
    | num x =>
      cases x with
      | fin q =>
        have hq : q ≤ 0 := by
          by_contra hc
          exact h ⟨q, rfl, not_le.mp hc⟩
        simp [JsVal.isFinite, JsNum.isFinite, JsVal.asNum, JsNum.le, hq]
      | nan => simp [JsVal.isFinite, JsNum.isFinite]
      | posInf => simp [JsVal.isFinite, JsNum.isFinite]
      | negInf => simp [JsVal.isFinite, JsNum.isFinite]
    | str s => simp [JsVal.isFinite]
    | null => simp [JsVal.isFinite]
    | undefined => simp [JsVal.isFinite]
  unfold computeSMA
  rw [if_pos hguard, List.getElem?_map, List.getElem?_eq_getElem hi, Option.map_some']

theorem computeSMA_of_lt (candles : List Candle) (p i : ℕ) (hip : i < p)
    (hi : i < candles.length) :
    (computeSMA candles (JsVal.num (JsNum.fin (p : ℚ))))[i]? = some JsVal.null := by
  have hp0 : ¬ ((p : ℚ) ≤ 0) := by
    have : (0 : ℚ) < p := by exact_mod_cast (Nat.lt_of_le_of_lt (Nat.zero_le i) hip)
    exact not_le.mpr this
  have hlt : (i : ℚ) < (p : ℚ) := by exact_mod_cast hip
  have hguard : (!(JsVal.num (JsNum.fin (p : ℚ))).isFinite
      || JsNum.le (JsVal.num (JsNum.fin (p : ℚ))).asNum (JsNum.fin 0)) = false := by
    simp [JsVal.isFinite, JsNum.isFinite, JsVal.asNum, JsNum.le, hp0]
  have hidx : JsNum.lt (JsNum.fin (i : ℚ)) (JsNum.fin (p : ℚ)) = true := by
    simp [JsNum.lt, hlt]
  unfold computeSMA
  rw [hguard, if_neg (by simp), List.getElem?_map, List.getElem?_range hi, Option.map_some']
  simp only [JsVal.asNum_num, hidx, if_true]

/-- C20: `computeSMA` returns one entry per candle. A period that is not a
finite positive number, in particular every string such as `"9"`, makes every
entry `null`. For an integer period `p` the entry at index `i` is `null`
exactly when `p` is not positive, or `i < p`, or a close among the candles at
indices `i-p .. i-1` is not a finite number; so the first `p` entries are
`null`. -/
theorem computeSMA_null_iff (candles : List Candle) :
    (∀ period : JsVal, (computeSMA candles period).length = candles.length) ∧
    (∀ period : JsVal, (¬ ∃ q : ℚ, period = JsVal.num (JsNum.fin q) ∧ 0 < q) →
      ∀ i, i < candles.length → (computeSMA candles period)[i]? = some JsVal.null) ∧
    (∀ (s : String) (i : ℕ), i < candles.length →
      (computeSMA candles (JsVal.str s))[i]? = some JsVal.null) ∧
    (∀ (p : ℤ) (i : ℕ), i < candles.length →
      ((computeSMA candles (JsVal.num (JsNum.fin (p : ℚ))))[i]? = some JsVal.null ↔
        p ≤ 0 ∨ (i : ℤ) < p ∨
        ∃ j c, i - p.toNat ≤ j ∧ j < i ∧ candles[j]? = some c ∧ c.close.isFinite = false)) ∧
    (∀ (p : ℤ) (i : ℕ), i < candles.length → (i : ℤ) < p →
      (computeSMA candles (JsVal.num (JsNum.fin (p : ℚ))))[i]? = some JsVal.null) := by
  have hfirst : ∀ (p : ℤ) (i : ℕ), i < candles.length → (i : ℤ) < p →
      (computeSMA candles (JsVal.num (JsNum.fin (p : ℚ))))[i]? = some JsVal.null := by
    intro p i hi hip
    have hp : 0 ≤ p := by omega
    obtain ⟨n, rfl⟩ := Int.eq_ofNat_of_zero_le hp
    have := computeSMA_of_lt candles n i (by exact_mod_cast hip) hi
    simpa using this
  refine ⟨length_computeSMA candles, computeSMA_of_not_positive candles, ?_, ?_, hfirst⟩
  · intro s i hi
    exact computeSMA_of_not_positive candles _ (by rintro ⟨q, hq, -⟩; cases hq) i hi
  · intro p i hi
    by_cases hp : p ≤ 0
    · have hnp : ¬ ∃ q : ℚ, JsVal.num (JsNum.fin (p : ℚ)) = JsVal.num (JsNum.fin q) ∧ 0 < q := by
        rintro ⟨q, hq, hpos⟩
        injection hq with hq
        injection hq with hq
        rw [← hq] at hpos
        have : (0 : ℤ) < p := by exact_mod_cast hpos
        omega
      simp [computeSMA_of_not_positive candles _ hnp i hi, hp]
    · by_cases hip : (i : ℤ) < p
      · simp [hfirst p i hi hip, hip]
      · have hp0 : 0 ≤ p := by omega
        obtain ⟨n, rfl⟩ := Int.eq_ofNat_of_zero_le hp0
        have hn : 0 < n := by omega
        have hni : n ≤ i := by omega
        have hw := computeSMA_getElem_window candles n i hn hni hi
        simp only [Int.cast_natCast, Int.toNat_ofNat] at hw ⊢
        rw [hw]
        by_cases hany : ((candles.drop (i - n)).take n).any
            (fun item => !item.close.isFinite) = true
        · rw [if_pos hany]
          simp only [true_iff]
          right; right
          rw [List.any_eq_true] at hany
          obtain ⟨c, hc, hcf⟩ := hany
          obtain ⟨t, ht, hct⟩ := List.getElem_of_mem hc
          have htn : t < n := by
            simp only [List.length_take, List.length_drop] at ht
            omega
          have hget : ((candles.drop (i - n)).take n)[t]? = some c := by
            rw [List.getElem?_eq_getElem ht, hct]
          rw [List.getElem?_take, if_pos htn, List.getElem?_drop] at hget
          exact ⟨i - n + t, c, by omega, by omega, hget, by simpa using hcf⟩
        · rw [if_neg hany]
          simp only [Option.some.injEq, false_iff, not_or, not_exists, not_and, reduceCtorEq]
          refine ⟨hp, hip, ?_⟩
          intro j c hj1 hj2 hjc hcf
          apply hany
          rw [List.any_eq_true]
          refine ⟨c, ?_, by simp [hcf]⟩
          have hget : ((candles.drop (i - n)).take n)[j - (i - n)]? = some c := by
            rw [List.getElem?_take, if_pos (by omega), List.getElem?_drop]
            have : i - n + (j - (i - n)) = j := by omega
            rw [this]; exact hjc
          obtain ⟨hlt, heq⟩ := List.getElem?_eq_some_iff.mp hget
          rw [← heq]
          exact List.getElem_mem hlt

/-! ### The credential check -/

/-- C15: for a request whose method is not `OPTIONS`, `requireAuth` calls `next`
with the user name recorded exactly when Basic credentials are present and name
and password equal the configured ones (`APP_USERNAME` and `APP_PASSWORD`,
each `"admin"` when unset or empty); in every other case it answers 401 with
`{success: false, error: "Access denied"}` and does not call `next`. A request
with method `OPTIONS` proceeds whatever its credentials are. -/
theorem requireAuth_iff (env : AuthEnv) (req : AuthRequest) :
    (req.method ≠ "OPTIONS" →
      ((∃ recorded, requireAuth env req = AuthOutcome.next recorded) ↔
        ∃ u, req.credentials = some u ∧ u.name = envOr env.appUsername "admin" ∧
          u.pass = envOr env.appPassword "admin") ∧
      (∀ u, req.credentials = some u → u.name = envOr env.appUsername "admin" →
        u.pass = envOr env.appPassword "admin" →
        requireAuth env req = AuthOutcome.next (some u.name)) ∧
      ((¬ ∃ u, req.credentials = some u ∧ u.name = envOr env.appUsername "admin" ∧
          u.pass = envOr env.appPassword "admin") →
        requireAuth env req
          = AuthOutcome.answered 401 "Basic realm=\"Signal Alert\"" false "Access denied")) ∧
    (req.method = "OPTIONS" → requireAuth env req = AuthOutcome.next none) := by
  refine ⟨fun hm => ?_, fun hm => by simp [requireAuth, hm]⟩
  cases hc : req.credentials with
  | none =>
    have hr : requireAuth env req
        = AuthOutcome.answered 401 "Basic realm=\"Signal Alert\"" false "Access denied" := by
      simp [requireAuth, hm, hc]
    refine ⟨?_, ?_, fun _ => hr⟩
    · rw [hr]; simp
    · intro u hu; cases hu
  | some u =>
    by_cases hok : u.name = envOr env.appUsername "admin" ∧ u.pass = envOr env.appPassword "admin"
    · have hr : requireAuth env req = AuthOutcome.next (some u.name) := by
        simp [requireAuth, hm, hc, hok.1, hok.2]
      refine ⟨?_, ?_, ?_⟩
      · rw [hr]
        exact ⟨fun _ => ⟨u, rfl, hok.1, hok.2⟩, fun _ => ⟨_, rfl⟩⟩
      · intro v hv _ _
        simp only [Option.some.injEq] at hv
        rw [← hv]; exact hr
      · intro hno
        exact absurd ⟨u, rfl, hok.1, hok.2⟩ hno
    · have hr : requireAuth env req
          = AuthOutcome.answered 401 "Basic realm=\"Signal Alert\"" false "Access denied" := by
        have hor : u.name ≠ envOr env.appUsername "admin" ∨ u.pass ≠ envOr env.appPassword "admin" := by
          by_contra hc2
          simp only [not_or, not_not] at hc2
          exact hok hc2
        simp only [requireAuth, hm, if_false, hc]
        rw [if_pos hor]
      refine ⟨?_, ?_, fun _ => hr⟩
      · rw [hr]
        constructor
        · rintro ⟨r, hr2⟩; cases hr2
        · rintro ⟨v, hv, h1, h2⟩
          simp only [Option.some.injEq] at hv
          subst hv
          exact absurd ⟨h1, h2⟩ hok
      · intro v hv h1 h2
        simp only [Option.some.injEq] at hv
        subst hv
        exact absurd ⟨h1, h2⟩ hok

/-! ### The delivery of a message -/

theorem regexTestIgnoreCase_iff (pattern text : String) :
    regexTestIgnoreCase pattern text = true ↔
      ∃ a m b : List Char, text.toList = a ++ m ++ b ∧
        m.map Char.toLower = pattern.toList.map Char.toLower := by
  unfold regexTestIgnoreCase
  rw [decide_eq_true_iff]
  constructor
  · rintro ⟨s, t, h⟩
    obtain ⟨l₁, b, h1, h2, h3⟩ := List.map_eq_append_iff.mp h.symm
    obtain ⟨a, m, h4, h5, h6⟩ := List.map_eq_append_iff.mp h2
    refine ⟨a, m, b, ?_, h6⟩
    rw [h1, h4]
  · rintro ⟨a, m, b, h1, h2⟩
    refine ⟨a.map Char.toLower, b.map Char.toLower, ?_⟩
    rw [h1, ← h2]
    simp

/-- C19: `sendWhatsAppMessage` returns, and then the trimmed response text,
exactly when phone, API key and text are non-empty, the request resolved with an
OK response, and the body holds `Message sent` up to the case of the letters; in
every other case it throws. With a credential missing or an empty text no
request is made; otherwise exactly one is. -/
theorem sendWhatsAppMessage_iff (phone apiKey text : String)
    (fetched : Except String HttpResponse) :
    (∀ r, (sendWhatsAppMessage phone apiKey text fetched).1 = Except.ok r ↔
      phone ≠ "" ∧ apiKey ≠ "" ∧ text ≠ "" ∧
      ∃ response, fetched = Except.ok response ∧ response.ok = true ∧
        (∃ a m b : List Char, response.body.toList = a ++ m ++ b ∧
          m.map Char.toLower = "message sent".toList) ∧
        r = jsTrim response.body) ∧
    ((¬ (phone ≠ "" ∧ apiKey ≠ "" ∧ text ≠ "" ∧
        ∃ response, fetched = Except.ok response ∧ response.ok = true ∧
          ∃ a m b : List Char, response.body.toList = a ++ m ++ b ∧
            m.map Char.toLower = "message sent".toList)) →
      ∃ e, (sendWhatsAppMessage phone apiKey text fetched).1 = Except.error e) ∧
    ((phone = "" ∨ apiKey = "" ∨ text = "") →
      (sendWhatsAppMessage phone apiKey text fetched).2 = []) ∧
    ((phone ≠ "" ∧ apiKey ≠ "" ∧ text ≠ "") →
      (sendWhatsAppMessage phone apiKey text fetched).2
        = [{ phone := keepDigitsAndPlus phone, text := text, apikey := jsTrim apiKey }]) := by
  have hpat : ("Message sent".toList.map Char.toLower) = "message sent".toList := by decide
  have hre : ∀ body : String, regexTestIgnoreCase "Message sent" body = true ↔
      ∃ a m b : List Char, body.toList = a ++ m ++ b ∧
        m.map Char.toLower = "message sent".toList := by
    intro body
    rw [regexTestIgnoreCase_iff, hpat]
  by_cases hcred : phone = "" ∨ apiKey = ""
  · have hr : sendWhatsAppMessage phone apiKey text fetched
        = (Except.error "Missing CallMeBot credentials", []) := by
      simp only [sendWhatsAppMessage, if_pos hcred]
    rw [hr]
    refine ⟨?_, ?_, ?_, ?_⟩
    · intro r
      constructor
      · intro h; cases h
      · rintro ⟨h1, h2, -⟩
        rcases hcred with h | h
        · exact absurd h h1
        · exact absurd h h2
    · intro _; exact ⟨_, rfl⟩
    · intro _; rfl
    · rintro ⟨h1, h2, -⟩
      rcases hcred with h | h
      · exact absurd h h1
      · exact absurd h h2
  · have hp : phone ≠ "" := fun h => hcred (Or.inl h)
    have ha : apiKey ≠ "" := fun h => hcred (Or.inr h)
    by_cases ht : text = ""
    · have hr : sendWhatsAppMessage phone apiKey text fetched
          = (Except.error "Cannot send an empty WhatsApp message", []) := by
        simp only [sendWhatsAppMessage, if_neg hcred, if_pos ht]
      rw [hr]
      refine ⟨?_, ?_, ?_, ?_⟩
      · intro r
        constructor
        · intro h; cases h
        · rintro ⟨-, -, h3, -⟩
          exact absurd ht h3
      · intro _; exact ⟨_, rfl⟩
      · intro _; rfl
      · rintro ⟨-, -, h3⟩
        exact absurd ht h3
    · have hno : ¬ (phone = "" ∨ apiKey = "" ∨ text = "") := by
        rintro (h | h | h)
        · exact hp h
        · exact ha h
        · exact ht h
      cases fetched with
      | error e =>
        have hr : sendWhatsAppMessage phone apiKey text (Except.error e)
            = (Except.error e,
                [{ phone := keepDigitsAndPlus phone, text := text, apikey := jsTrim apiKey }]) := by
          simp only [sendWhatsAppMessage, if_neg hcred, if_neg ht]
        rw [hr]
        refine ⟨?_, ?_, ?_, ?_⟩
        · intro r
          constructor
          · intro h; cases h
          · rintro ⟨-, -, -, resp, h, -⟩
            cases h
        · intro _; exact ⟨_, rfl⟩
        · intro h; exact absurd h hno
        · intro _; rfl
      | ok response =>
        by_cases hok : response.ok = true
        · by_cases hm : regexTestIgnoreCase "Message sent" response.body = true
          · have hr : sendWhatsAppMessage phone apiKey text (Except.ok response)
                = (Except.ok (jsTrim response.body),
                    [{ phone := keepDigitsAndPlus phone, text := text,
                       apikey := jsTrim apiKey }]) := by
              simp [sendWhatsAppMessage, hcred, ht, hok, hm]
            rw [hr]
            refine ⟨?_, ?_, ?_, ?_⟩
            · intro r
              constructor
              · intro h
                simp only [Except.ok.injEq] at h
                exact ⟨hp, ha, ht, response, rfl, hok, (hre _).mp hm, h.symm⟩
              · rintro ⟨-, -, -, resp, h, -, -, hr2⟩
                simp only [Except.ok.injEq] at h
                rw [hr2, ← h]
            · intro hnot
              exact absurd ⟨hp, ha, ht, response, rfl, hok, (hre _).mp hm⟩ hnot
            · intro h; exact absurd h hno
            · intro _; rfl
          · have hr : ∃ e, sendWhatsAppMessage phone apiKey text (Except.ok response)
                = (Except.error e,
                    [{ phone := keepDigitsAndPlus phone, text := text,
                       apikey := jsTrim apiKey }]) := by
              simp [sendWhatsAppMessage, hcred, ht, hok, hm]
            obtain ⟨e, hr⟩ := hr
            rw [hr]
            refine ⟨?_, ?_, ?_, ?_⟩
            · intro r
              constructor
              · intro h; cases h
              · rintro ⟨-, -, -, resp, h, -, hc, -⟩
                simp only [Except.ok.injEq] at h
                subst h
                exact absurd ((hre _).mpr hc) hm
            · intro _; exact ⟨_, rfl⟩
            · intro h; exact absurd h hno
            · intro _; rfl
        · have hr : ∃ e, sendWhatsAppMessage phone apiKey text (Except.ok response)
              = (Except.error e,
                  [{ phone := keepDigitsAndPlus phone, text := text,
                     apikey := jsTrim apiKey }]) := by
            simp [sendWhatsAppMessage, hcred, ht, hok]
          obtain ⟨e, hr⟩ := hr
          rw [hr]
          refine ⟨?_, ?_, ?_, ?_⟩
          · intro r
            constructor
            · intro h; cases h
            · rintro ⟨-, -, -, resp, h, hc, -⟩
              simp only [Except.ok.injEq] at h
              subst h
              exact absurd hc hok
          · intro _; exact ⟨_, rfl⟩
          · intro h; exact absurd h hno
          · intro _; rfl

/-! ### One polling cycle over all symbols -/

theorem pollResults_spec (up : String → String) (build : MessageInput → String)
    (cred : Credentials) (symbols : List (String × PollInputs)) :
    ∀ st : AlertState, ∃ results : List PollEntry,
      (pollResults up build cred st symbols).1 = Except.ok results ∧
      results.length = symbols.length ∧
      ∀ k (hk : k < symbols.length),
        (results[k]?).map Except.ok = some (guardedPoll (symbols.get ⟨k, hk⟩).1
          (pollSymbol up build cred (pollResults up build cred st (symbols.take k)).2
            (symbols.get ⟨k, hk⟩).1 (symbols.get ⟨k, hk⟩).2.analysis
            (symbols.get ⟨k, hk⟩).2.delivery).1) := by
  induction symbols with
  | nil =>
    intro st
    exact ⟨[], rfl, rfl, fun k hk => absurd hk (Nat.not_lt_zero k)⟩
  | cons x rest ih =>
    intro st
    obtain ⟨symbol, inputs⟩ := x
    obtain ⟨es, hes, hlen, hget⟩ := ih
      (pollSymbol up build cred st symbol inputs.analysis inputs.delivery).2
    obtain ⟨e0, he0⟩ : ∃ e0, guardedPoll symbol
        (pollSymbol up build cred st symbol inputs.analysis inputs.delivery).1 = Except.ok e0 := by
      cases (pollSymbol up build cred st symbol inputs.analysis inputs.delivery).1 with
      | ok r => exact ⟨_, rfl⟩
      | error e => exact ⟨_, rfl⟩
    refine ⟨e0 :: es, ?_, by simp [hlen], ?_⟩
    · simp only [pollResults, hes, he0]
    · intro k hk
      cases k with
      | zero =>
        simp only [List.getElem?_cons_zero, Option.map_some', List.take_zero, pollResults,
          List.get_eq_getElem, List.getElem_cons_zero, he0]
      | succ k =>
        have hk' : k < rest.length := by simpa using hk
        have := hget k hk'
        simp only [List.getElem?_cons_succ, List.take_succ_cons, pollResults,
          List.get_eq_getElem, List.getElem_cons_succ] at this ⊢
        exact this

theorem pollSymbol_deliveredCount (up : String → String) (build : MessageInput → String)
    (cred : Credentials) (st : AlertState) (symbol : String) (o : Except String Analysis)
    (d : Except String String) (entry : PollEntry)
    (h : guardedPoll symbol (pollSymbol up build cred st symbol o d).1 = Except.ok entry) :
    (pollSymbol up build cred st symbol o d).2.deliveredCount
      = st.deliveredCount + (if entry.sent = true then 1 else 0) := by
  cases o with
  | error e =>
    have hr : pollSymbol up build cred st symbol (Except.error e) d = (Except.error e, st) := rfl
    rw [hr] at h ⊢
    simp only [guardedPoll, Except.ok.injEq] at h
    subst h
    simp
  | ok a =>
    by_cases hv : (prevTimestampOf (prepareWhatsAppAlert build a)).truthy = true ∧
        (prepareWhatsAppAlert build a).isVerified = true ∧
        trimmedMessageOf (prepareWhatsAppAlert build a) ≠ ""
    · obtain ⟨h1, h2, h3⟩ := hv
      rw [pollSymbol_verified up build cred st symbol a d h1 h2 h3] at h ⊢
      by_cases hd : st.lastAlertTimestamp.get? (up symbol)
          = some (prevTimestampOf (prepareWhatsAppAlert build a))
      · rw [if_pos hd] at h ⊢
        simp only [guardedPoll, Except.ok.injEq] at h
        subst h
        simp
      · rw [if_neg hd] at h ⊢
        cases d with
        | error e =>
          simp only [guardedPoll, Except.ok.injEq] at h
          subst h
          have := deliveredCount_append st
            { phone := cred.phone, apiKey := cred.apiKey,
              text := trimmedMessageOf (prepareWhatsAppAlert build a), delivered := false }
            st.lastAlertTimestamp
          simpa using this
        | ok resp =>
          simp only [guardedPoll, Except.ok.injEq] at h
          subst h
          have := deliveredCount_append st
            { phone := cred.phone, apiKey := cred.apiKey,
              text := trimmedMessageOf (prepareWhatsAppAlert build a), delivered := true }
            (st.lastAlertTimestamp.set (up symbol)
              (prevTimestampOf (prepareWhatsAppAlert build a)))
          simpa using this
    · rw [pollSymbol_unverified up build cred st symbol a d hv] at h ⊢
      simp only [guardedPoll, Except.ok.injEq] at h
      subst h
      simp

theorem pollResults_deliveredCount (up : String → String) (build : MessageInput → String)
    (cred : Credentials) (symbols : List (String × PollInputs)) :
    ∀ st : AlertState, ∀ results : List PollEntry,
      (pollResults up build cred st symbols).1 = Except.ok results →
      (pollResults up build cred st symbols).2.deliveredCount
        = st.deliveredCount + (results.filter (fun entry => entry.sent)).length := by
  induction symbols with
  | nil =>
    intro st results h
    simp only [pollResults, Except.ok.injEq] at h
    subst h
    rfl
  | cons x rest ih =>
    intro st results h
    obtain ⟨symbol, inputs⟩ := x
    obtain ⟨es, hes, -, -⟩ := pollResults_spec up build cred rest
      (pollSymbol up build cred st symbol inputs.analysis inputs.delivery).2
    have hrest := ih _ es hes
    obtain ⟨e0, he0⟩ : ∃ e0, guardedPoll symbol
        (pollSymbol up build cred st symbol inputs.analysis inputs.delivery).1 = Except.ok e0 := by
      cases (pollSymbol up build cred st symbol inputs.analysis inputs.delivery).1 with
      | ok r => exact ⟨_, rfl⟩
      | error e => exact ⟨_, rfl⟩
    have hone := pollSymbol_deliveredCount up build cred st symbol inputs.analysis
      inputs.delivery e0 he0
    simp only [pollResults, hes, he0, Except.ok.injEq] at h ⊢
    subst h
    rw [hrest, hone]
    by_cases hs : e0.sent = true
    · simp [List.filter_cons, hs]
      omega
    · simp [List.filter_cons, hs]

/-- C18: `pollAll` never rejects. Its `results` hold one entry per configured
symbol, in order: the entry of a symbol is what its poll resolved to, or the
error entry when its poll threw, whatever the polls of the other symbols did.
`hadErrors` is true exactly when the poll of some symbol threw, `anyVerified`
exactly when the poll of some symbol resolved with `verified: true`, and
`anySent` exactly when the poll of some symbol resolved with `sent: true`, which
is exactly when the cycle delivered a message. -/
theorem pollAll_isolates_failures (up : String → String) (build : MessageInput → String)
    (cred : Credentials) (st : AlertState) (symbols : List (String × PollInputs)) :
    ∃ (summary : PollSummary) (results : List PollEntry),
      (pollAll up build cred st symbols).1 = Except.ok summary ∧
      (pollResults up build cred st symbols).1 = Except.ok results ∧
      results.length = symbols.length ∧
      (∀ k (hk : k < symbols.length),
        (results[k]?).map Except.ok = some (guardedPoll (symbols.get ⟨k, hk⟩).1
          (pollSymbol up build cred (pollResults up build cred st (symbols.take k)).2
            (symbols.get ⟨k, hk⟩).1 (symbols.get ⟨k, hk⟩).2.analysis
            (symbols.get ⟨k, hk⟩).2.delivery).1)) ∧
      (summary.hadErrors = true ↔ ∃ k, ∃ hk : k < symbols.length, ∃ e,
        (pollSymbol up build cred (pollResults up build cred st (symbols.take k)).2
          (symbols.get ⟨k, hk⟩).1 (symbols.get ⟨k, hk⟩).2.analysis
          (symbols.get ⟨k, hk⟩).2.delivery).1 = Except.error e) ∧
      (summary.anyVerified = true ↔ ∃ k, ∃ hk : k < symbols.length, ∃ r,
        (pollSymbol up build cred (pollResults up build cred st (symbols.take k)).2
          (symbols.get ⟨k, hk⟩).1 (symbols.get ⟨k, hk⟩).2.analysis
          (symbols.get ⟨k, hk⟩).2.delivery).1 = Except.ok r ∧ r.verified = true) ∧
      (summary.anySent = true ↔ ∃ k, ∃ hk : k < symbols.length, ∃ r,
        (pollSymbol up build cred (pollResults up build cred st (symbols.take k)).2
          (symbols.get ⟨k, hk⟩).1 (symbols.get ⟨k, hk⟩).2.analysis
          (symbols.get ⟨k, hk⟩).2.delivery).1 = Except.ok r ∧ r.sent = true) ∧
      (summary.anySent = true ↔
        st.deliveredCount < (pollAll up build cred st symbols).2.deliveredCount) := by
  obtain ⟨results, hres, hlen, hget⟩ := pollResults_spec up build cred symbols st
  have hcount := pollResults_deliveredCount up build cred symbols st results hres
  have hentry : ∀ (p : PollEntry → Bool), results.any p = true ↔
      ∃ k, ∃ hk : k < symbols.length, ∃ entry,
        guardedPoll (symbols.get ⟨k, hk⟩).1
          (pollSymbol up build cred (pollResults up build cred st (symbols.take k)).2
            (symbols.get ⟨k, hk⟩).1 (symbols.get ⟨k, hk⟩).2.analysis
            (symbols.get ⟨k, hk⟩).2.delivery).1 = Except.ok entry ∧ p entry = true := by
    intro p
    rw [List.any_eq_true]
    constructor
    · rintro ⟨entry, hmem, hp⟩
      obtain ⟨k, hk, hke⟩ := List.getElem_of_mem hmem
      have hk' : k < symbols.length := by rw [← hlen]; exact hk
      refine ⟨k, hk', entry, ?_, hp⟩
      have := hget k hk'
      rw [List.getElem?_eq_getElem hk, hke, Option.map_some', Option.some.injEq] at this
      exact this.symm
    · rintro ⟨k, hk, entry, hg, hp⟩
      have := hget k hk
      rw [hg] at this
      have hk' : k < results.length := by rw [hlen]; exact hk
      rw [List.getElem?_eq_getElem hk', Option.map_some', Option.some.injEq,
        Except.ok.injEq] at this
      exact ⟨entry, by rw [← this]; exact List.getElem_mem hk', hp⟩
  refine ⟨{ hadErrors := results.any (fun entry => entry.error.isSome)
            anyVerified := results.any (fun entry => entry.verified)
            anySent := results.any (fun entry => entry.sent) },
    results, ?_, hres, hlen, hget, ?_, ?_, ?_, ?_⟩
  · simp only [pollAll, hres]
  · rw [hentry]
    constructor
    · rintro ⟨k, hk, entry, hg, hp⟩
      refine ⟨k, hk, ?_⟩
      revert hg
      cases (pollSymbol up build cred (pollResults up build cred st (symbols.take k)).2
          (symbols.get ⟨k, hk⟩).1 (symbols.get ⟨k, hk⟩).2.analysis
          (symbols.get ⟨k, hk⟩).2.delivery).1 with
      | ok r =>
        intro hg
        simp only [guardedPoll, Except.ok.injEq] at hg
        rw [← hg] at hp
        cases hp
      | error e => intro _; exact ⟨e, rfl⟩
    · rintro ⟨k, hk, e, he⟩
      exact ⟨k, hk, PollEntry.mk (symbols.get ⟨k, hk⟩).1 (some e) false false,
        by rw [he]; rfl, rfl⟩
  · rw [hentry]
    constructor
    · rintro ⟨k, hk, entry, hg, hp⟩
      refine ⟨k, hk, ?_⟩
      revert hg
      cases (pollSymbol up build cred (pollResults up build cred st (symbols.take k)).2
          (symbols.get ⟨k, hk⟩).1 (symbols.get ⟨k, hk⟩).2.analysis
          (symbols.get ⟨k, hk⟩).2.delivery).1 with
      | ok r =>
        intro hg
        simp only [guardedPoll, Except.ok.injEq] at hg
        rw [← hg] at hp
        exact ⟨r, rfl, hp⟩
      | error e =>
        intro hg
        simp only [guardedPoll, Except.ok.injEq] at hg
        rw [← hg] at hp
        cases hp
    · rintro ⟨k, hk, r, hr, hv⟩
      exact ⟨k, hk, PollEntry.mk r.symbol none r.verified r.sent, by rw [hr]; rfl, hv⟩
  · rw [hentry]
    constructor
    · rintro ⟨k, hk, entry, hg, hp⟩
      refine ⟨k, hk, ?_⟩
      revert hg
      cases (pollSymbol up build cred (pollResults up build cred st (symbols.take k)).2
          (symbols.get ⟨k, hk⟩).1 (symbols.get ⟨k, hk⟩).2.analysis
          (symbols.get ⟨k, hk⟩).2.delivery).1 with
      | ok r =>
        intro hg
        simp only [guardedPoll, Except.ok.injEq] at hg
        rw [← hg] at hp
        exact ⟨r, rfl, hp⟩
      | error e =>
        intro hg
        simp only [guardedPoll, Except.ok.injEq] at hg
        rw [← hg] at hp
        cases hp
    · rintro ⟨k, hk, r, hr, hv⟩
      exact ⟨k, hk, PollEntry.mk r.symbol none r.verified r.sent, by rw [hr]; rfl, hv⟩
  · have hst : (pollAll up build cred st symbols).2 = (pollResults up build cred st symbols).2 :=
      rfl
    rw [hst, hcount]
    simp only [pollAll, hres]
    constructor
    · intro hany
      rw [List.any_eq_true] at hany
      obtain ⟨entry, hmem, hp⟩ := hany
      have : 0 < (results.filter (fun entry => entry.sent)).length :=
        List.length_pos_of_mem (List.mem_filter.mpr ⟨hmem, hp⟩)
      omega
    · intro hlt
      have hpos : 0 < (results.filter (fun entry => entry.sent)).length := by omega
      obtain ⟨entry, hmem⟩ := List.exists_mem_of_length_pos hpos
      rw [List.any_eq_true]
      exact ⟨entry, (List.mem_filter.mp hmem).1, (List.mem_filter.mp hmem).2⟩

/-! ### The candle fetcher and its cache -/

theorem requestCandles_ok (rt : JsRuntime) (cfg : TwelveDataConfig) (clock : FetchClock)
    (chartCache : JsMap CacheEntry) (pair : String) (hours : JsVal)
    (fetched : Except String ProviderResponse) (result : CandleBatch)
    (h : (requestCandles rt cfg clock chartCache pair hours fetched).1 = Except.ok result) :
    ∃ symbolMeta response payload values,
      cfg.enabled = true ∧ SYMBOLS pair = some symbolMeta ∧
      fetched = Except.ok response ∧ response.ok = true ∧
      (if response.rawText = "" then Except.ok (some emptyPayload) else response.parsed)
        = Except.ok (some payload) ∧
      payload.values.getD [] = values ∧ providerRowsOf fetched = values ∧ values ≠ [] ∧
      result = candleBatchOf rt cfg clock pair symbolMeta hours payload.providerMeta values ∧
      (requestCandles rt cfg clock chartCache pair hours fetched).2
        = chartCache.set pair { data := result, cachedAt := clock.cachedAt } := by
  unfold requestCandles at h ⊢
  by_cases he : cfg.enabled = true
  swap
  · simp [he] at h
  simp only [he, Bool.not_true, Bool.false_eq_true, if_false] at h ⊢
  cases hs : SYMBOLS pair with
  | none => simp [hs] at h
  | some symbolMeta =>
    simp only [hs] at h ⊢
    cases fetched with
    | error e => simp at h
    | ok response =>
      simp only at h ⊢
      by_cases hok : response.ok = true
      swap
      · simp [hok] at h
      simp only [hok, Bool.not_true, Bool.false_eq_true, if_false] at h ⊢
      cases hp : (if response.rawText = "" then Except.ok (some emptyPayload)
          else response.parsed) with
      | error m => simp [hp] at h
      | ok op =>
        cases op with
        | none => simp [hp] at h
        | some payload =>
          simp only [hp] at h ⊢
          by_cases h1 : (payload.status.truthy &&
              !JsVal.strictEq payload.status (JsVal.str "ok")) = true
          · simp [h1] at h
          · rw [if_neg h1] at h ⊢
            by_cases h2 : (payload.code.truthy && payload.message.truthy &&
                !payload.status.truthy) = true
            · simp [h2] at h
            · rw [if_neg h2] at h ⊢
              by_cases h3 : (payload.values.getD []).length = 0
              · simp [h3] at h
              · simp only [h3, if_false, Except.ok.injEq] at h ⊢
                refine ⟨symbolMeta, response, payload, payload.values.getD [], ?_, ?_, ?_, ?_,
                  ?_, rfl, ?_, ?_, h.symm, ?_⟩
                · trivial
                · trivial
                · trivial
                · trivial
                · trivial
                · simp only [providerRowsOf, hp]
                · intro hnil
                  apply h3
                  rw [hnil]; rfl
                · rw [h]

/-- C11: after a successful `requestCandles({pair, hours})` the cache entry of
the pair holds exactly the returned result, with the time it was cached,
whatever was cached for the pair before, and the entry of every other pair is
as it was. -/
theorem requestCandles_caches_result (rt : JsRuntime) (cfg : TwelveDataConfig)
    (clock : FetchClock) (chartCache : JsMap CacheEntry) (pair : String) (hours : JsVal)
    (fetched : Except String ProviderResponse) (result : CandleBatch)
    (h : (requestCandles rt cfg clock chartCache pair hours fetched).1 = Except.ok result) :
    (requestCandles rt cfg clock chartCache pair hours fetched).2.get? pair
      = some { data := result, cachedAt := clock.cachedAt } ∧
    (∀ other : String, other ≠ pair →
      (requestCandles rt cfg clock chartCache pair hours fetched).2.get? other
        = chartCache.get? other) := by
  obtain ⟨symbolMeta, response, payload, values, -, -, -, -, -, -, -, -, -, hcache⟩ :=
    requestCandles_ok rt cfg clock chartCache pair hours fetched result h
  rw [hcache]
  exact ⟨JsMap.get?_set_self _ _ _,
    fun other hne => JsMap.get?_set_of_ne _ _ _ _ (fun heq => hne heq.symm)⟩

theorem parseFloatOrNull_cases (rt : JsRuntime) (value : JsVal) :
    (parseFloatOrNull rt value = JsVal.null ∨
      ∃ q : ℚ, parseFloatOrNull rt value = JsVal.num (JsNum.fin q)) ∧
    (parseFloatOrNull rt value = JsVal.null ↔
      value = JsVal.null ∨ value = JsVal.undefined ∨
        (jsParseFloat rt value).isFinite = false) := by
  unfold parseFloatOrNull
  by_cases hv : value = JsVal.null ∨ value = JsVal.undefined
  · rw [if_pos hv]
    refine ⟨Or.inl rfl, ?_⟩
    simp only [true_iff]
    rcases hv with h | h
    · exact Or.inl h
    · exact Or.inr (Or.inl h)
  · rw [if_neg hv]
    have hv1 : value ≠ JsVal.null := fun h => hv (Or.inl h)
    have hv2 : value ≠ JsVal.undefined := fun h => hv (Or.inr h)
    cases hx : jsParseFloat rt value with
    | fin q =>
      simp only [hx, JsNum.isFinite, if_true]
      refine ⟨Or.inr ⟨q, rfl⟩, ?_⟩
      simp [hv1, hv2]
    | nan => simp [hx, JsNum.isFinite]
    | posInf => simp [hx, JsNum.isFinite]
    | negInf => simp [hx, JsNum.isFinite]

/-- C14: in the result of a successful `requestCandles` the series `open`,
`high`, `low`, `close` and `volume` have one entry per returned timestamp, the
entries at an index come from the same provider row as the timestamp at that
index, every entry is `null` or a finite number, and an entry is `null`
exactly when the field of the row is `null` or `undefined` or
`Number.parseFloat` does not turn it into a finite number. -/
theorem requestCandles_series (rt : JsRuntime) (cfg : TwelveDataConfig)
    (clock : FetchClock) (chartCache : JsMap CacheEntry) (pair : String) (hours : JsVal)
    (fetched : Except String ProviderResponse) (result : CandleBatch)
    (h : (requestCandles rt cfg clock chartCache pair hours fetched).1 = Except.ok result) :
    result.open_.length = result.timestamps.length ∧
    result.high.length = result.timestamps.length ∧
    result.low.length = result.timestamps.length ∧
    result.close.length = result.timestamps.length ∧
    result.volume.length = result.timestamps.length ∧
    (∃ limited : List ProviderRow,
      (∀ row ∈ limited, row ∈ providerRowsOf fetched) ∧
      limited.length = result.timestamps.length ∧
      ∀ (i : ℕ) (row : ProviderRow), limited[i]? = some row →
        result.timestamps[i]? = some (match row.datetime with
          | some text => JsVal.str text
          | none => JsVal.undefined) ∧
        result.open_[i]? = some (parseFloatOrNull rt row.open_) ∧
        result.high[i]? = some (parseFloatOrNull rt row.high) ∧
        result.low[i]? = some (parseFloatOrNull rt row.low) ∧
        result.close[i]? = some (parseFloatOrNull rt row.close) ∧
        result.volume[i]? = some (parseFloatOrNull rt row.volume)) ∧
    (∀ v, v ∈ result.open_ ∨ v ∈ result.high ∨ v ∈ result.low ∨ v ∈ result.close ∨
        v ∈ result.volume → v = JsVal.null ∨ ∃ q : ℚ, v = JsVal.num (JsNum.fin q)) ∧
    (∀ value : JsVal, parseFloatOrNull rt value = JsVal.null ↔
      value = JsVal.null ∨ value = JsVal.undefined ∨
        (jsParseFloat rt value).isFinite = false) := by
  obtain ⟨symbolMeta, response, payload, values, -, -, -, -, -, -, hrows, -, hresult, -⟩ :=
    requestCandles_ok rt cfg clock chartCache pair hours fetched result h
  have hmem : ∀ (f : ProviderRow → JsVal) (l : List ProviderRow) (v : JsVal),
      v ∈ l.map (fun entry => parseFloatOrNull rt (f entry)) →
      v = JsVal.null ∨ ∃ q : ℚ, v = JsVal.num (JsNum.fin q) := by
    intro f l v hv
    obtain ⟨row, -, rfl⟩ := List.mem_map.mp hv
    exact (parseFloatOrNull_cases rt (f row)).1
  subst hresult
  simp only [candleBatchOf, List.length_map, true_and]
  refine ⟨⟨_, ?_, rfl, ?_⟩, ?_, fun value => (parseFloatOrNull_cases rt value).2⟩
  · intro row hrow
    rw [hrows]
    have hsub : row ∈ sortRows rt values := by
      simp only [limitedValuesOf, jsSliceFrom] at hrow
      exact List.mem_of_mem_drop hrow
    exact (List.mergeSort_perm values _).mem_iff.mp hsub
  · intro i row hi
    simp only [List.getElem?_map, hi, Option.map_some', and_self]
  · rintro v (hv | hv | hv | hv | hv)
    · exact hmem (fun e => e.open_) _ v hv
    · exact hmem (fun e => e.high) _ v hv
    · exact hmem (fun e => e.low) _ v hv
    · exact hmem (fun e => e.close) _ v hv
    · exact hmem (fun e => e.volume) _ v hv

theorem maxOutputSize_pos (cfg : TwelveDataConfig) : 1 ≤ cfg.maxOutputSize := by
  unfold TwelveDataConfig.maxOutputSize
  cases cfg.parsedOutputSize with
  | none => simp
  | some parsed =>
    by_cases hp : 0 < parsed
    · simp only [hp, if_true]
      omega
    · simp [hp]

theorem pointsNeeded_pos (requestedHours : ℚ) (intervalMinutes : ℕ) :
    1 ≤ pointsNeededOf requestedHours intervalMinutes := by
  unfold pointsNeededOf
  have : (1 : ℤ) ≤ Max.max (Int.ceil (requestedHours * 60 / (intervalMinutes : ℚ))) 1 :=
    le_max_right _ _
  omega

theorem outputSize_bounds (cfg : TwelveDataConfig) (requestedHours : ℚ) (intervalMinutes : ℕ) :
    1 ≤ outputSizeOf cfg (pointsNeededOf requestedHours intervalMinutes) ∧
    outputSizeOf cfg (pointsNeededOf requestedHours intervalMinutes) ≤ cfg.maxOutputSize := by
  unfold outputSizeOf
  have h1 := maxOutputSize_pos cfg
  have h2 := pointsNeeded_pos requestedHours intervalMinutes
  exact ⟨Nat.le_min.mpr ⟨h2, h1⟩, Nat.min_le_right _ _⟩

theorem length_sortRows (rt : JsRuntime) (values : List ProviderRow) :
    (sortRows rt values).length = values.length := by
  simp [sortRows]

theorem limitedValuesOf_eq_drop (rt : JsRuntime) (outputsize : ℕ) (values : List ProviderRow)
    (h : 1 ≤ outputsize) :
    limitedValuesOf rt outputsize values
      = (sortRows rt values).drop (values.length - outputsize) := by
  have hq : (1 : ℚ) ≤ (outputsize : ℚ) := by exact_mod_cast h
  simp only [limitedValuesOf, jsSliceFrom, JsNum.sliceIndex_neg_of_one_le _ _ hq,
    Nat.floor_natCast, length_sortRows]

theorem length_limitedValuesOf (rt : JsRuntime) (outputsize : ℕ) (values : List ProviderRow)
    (h : 1 ≤ outputsize) :
    (limitedValuesOf rt outputsize values).length = Nat.min values.length outputsize := by
  rw [limitedValuesOf_eq_drop rt outputsize values h, List.length_drop, length_sortRows]
  simp only [Nat.min_def]
  split <;> omega

theorem intervalMinutes_pos (rt : JsRuntime) (cfg : TwelveDataConfig) (symbolMeta : SymbolMeta) :
    1 ≤ intervalMinutesOf rt cfg symbolMeta := by
  unfold intervalMinutesOf
  split
  · exact Nat.le_max_right _ _
  · exact Nat.one_le_iff_ne_zero.mpr (pow_ne_zero _ (by norm_num))

theorem requestedHoursOf_pos (hours : JsVal) : 0 < requestedHoursOf hours := by
  unfold requestedHoursOf
  split
  · split
    · assumption
    · norm_num
  · norm_num

theorem requestCandles_result (rt : JsRuntime) (cfg : TwelveDataConfig)
    (clock : FetchClock) (chartCache : JsMap CacheEntry) (pair : String) (hours : JsVal)
    (fetched : Except String ProviderResponse) (result : CandleBatch)
    (symbolMeta : SymbolMeta) (hmeta : SYMBOLS pair = some symbolMeta)
    (h : (requestCandles rt cfg clock chartCache pair hours fetched).1 = Except.ok result) :
    ∃ payloadMeta, providerRowsOf fetched ≠ [] ∧
      result = candleBatchOf rt cfg clock pair symbolMeta hours payloadMeta
        (providerRowsOf fetched) ∧
      (requestCandles rt cfg clock chartCache pair hours fetched).2
        = chartCache.set pair { data := result, cachedAt := clock.cachedAt } := by
  obtain ⟨meta2, response, payload, values, -, hm2, -, -, -, -, hrows, hne, hresult, hcache⟩ :=
    requestCandles_ok rt cfg clock chartCache pair hours fetched result h
  rw [hmeta] at hm2
  simp only [Option.some.injEq] at hm2
  subst hm2
  rw [hrows]
  exact ⟨payload.providerMeta, hne, hresult, hcache⟩

theorem sortRows_sorted (rt : JsRuntime) (values : List ProviderRow)
    (hdt : ∀ row ∈ values, hasDatetime row = true)
    (htrans : ∀ a b c : String, rt.localeCompare a b ≤ 0 → rt.localeCompare b c ≤ 0 →
      rt.localeCompare a c ≤ 0)
    (htotal : ∀ a b : String, rt.localeCompare a b ≤ 0 ∨ rt.localeCompare b a ≤ 0) :
    (sortRows rt values).Pairwise (fun a b =>
      rt.localeCompare (a.datetime.getD "") (b.datetime.getD "") ≤ 0) := by
  have hcongr : sortRows rt values = values.mergeSort (fun a b =>
      decide (rt.localeCompare (a.datetime.getD "") (b.datetime.getD "") ≤ 0)) := by
    have := @List.map_mergeSort ProviderRow ProviderRow
      (fun a b => decide (compareRows rt a b ≤ 0))
      (fun a b => decide (rt.localeCompare (a.datetime.getD "") (b.datetime.getD "") ≤ 0))
      id values (by
        intro a ha b hb
        simp [compareRows, hdt a ha, hdt b hb])
    simpa [sortRows] using this
  rw [hcongr]
  have hs := @List.sorted_mergeSort ProviderRow
    (fun a b : ProviderRow =>
      decide (rt.localeCompare (a.datetime.getD "") (b.datetime.getD "") ≤ 0))
    (by
      intro a b c hab hbc
      simp only [decide_eq_true_eq] at hab hbc ⊢
      exact htrans _ _ _ hab hbc)
    (by
      intro a b
      simp only [Bool.or_eq_true, decide_eq_true_eq]
      exact htotal _ _) values
  exact hs.imp (fun h => by simpa using h)

theorem getIntervalMinutes_1h (rt : JsRuntime) :
    getIntervalMinutes rt (JsVal.str "1h") = JsNum.fin 60 := by
  have ht : jsTrim "1h" = "1h" := by decide
  have hl : (jsToLowerCase rt "1h").toList = ['1', 'h'] := rfl
  have hd : (['1', 'h'] : List Char).takeWhile Char.isDigit = ['1'] := by decide
  have hu : String.mk ((['1', 'h'] : List Char).dropWhile Char.isDigit) = "h" := by decide
  have hv : digitsValue ['1'] = 1 := by decide
  have h1 : JsNum.roundDouble ((1 : ℕ) : ℚ) = JsNum.fin 1 := by
    have := JsNum.roundDouble_of_lt 1 (by norm_num)
    simpa using this
  have h60 : JsNum.roundDouble (1 * 60 : ℚ) = JsNum.fin 60 := by
    have := JsNum.roundDouble_of_lt 60 (by norm_num)
    norm_num at this ⊢
    exact this
  simp only [getIntervalMinutes, ht, hl, hd, hu, hv, h1]
  rw [if_neg (by decide), if_neg (by decide)]
  simp only [JsNum.isFinite, JsNum.le, JsNum.mul, h60]
  rw [if_neg (by norm_num), if_neg (by decide)]
  simp

theorem intervalMinutes_of_key (rt : JsRuntime) (cfg : TwelveDataConfig) (pair : String)
    (symbolMeta : SymbolMeta) (hmeta : SYMBOLS pair = some symbolMeta)
    (hkey : pair ∈ symbolKeys) : intervalMinutesOf rt cfg symbolMeta = 60 := by
  simp only [symbolKeys, List.mem_cons, List.mem_singleton, List.not_mem_nil, or_false] at hkey
  have hint : symbolMeta.interval = some "1h" := by
    rcases hkey with rfl | rfl | rfl
    · have h1 : (SYMBOLS "XAUUSD").map SymbolMeta.interval = some (some "1h") := by decide
      rw [hmeta] at h1
      simpa using h1
    · have h1 : (SYMBOLS "USDJPY").map SymbolMeta.interval = some (some "1h") := by decide
      rw [hmeta] at h1
      simpa using h1
    · have h1 : (SYMBOLS "US30").map SymbolMeta.interval = some (some "1h") := by decide
      rw [hmeta] at h1
      simpa using h1
  have h1 : intervalOf cfg symbolMeta = "1h" := by
    simp [intervalOf, hint]
  simp only [intervalMinutesOf, h1, getIntervalMinutes_1h]
  norm_num

/-- C12: for a pair of the table, a finite `h > 0`, a provider that returned at
least `ceil(h*60/intervalMinutes)` rows and that number within
`TWELVEDATA_MAX_OUTPUTSIZE`, a successful `requestCandles({pair, hours: h})`
caches a batch with `lookbackHours = h`, and `getCachedCandles(pair, h1)` on the
cache it leaves returns that batch for every `h1 ≤ h` while the age of the entry
is below `CHART_CACHE_TTL_MS`. -/
theorem requestCandles_round_trip (rt : JsRuntime) (cfg : TwelveDataConfig)
    (clock : FetchClock) (chartCache : JsMap CacheEntry) (pair : String) (h : ℚ)
    (fetched : Except String ProviderResponse) (result : CandleBatch)
    (symbolMeta : SymbolMeta) (hmeta : SYMBOLS pair = some symbolMeta) (hpos : 0 < h)
    (hres : (requestCandles rt cfg clock chartCache pair (JsVal.num (JsNum.fin h)) fetched).1
      = Except.ok result)
    (hrows : Int.ceil (h * 60 / (intervalMinutesOf rt cfg symbolMeta : ℚ))
      ≤ ((providerRowsOf fetched).length : ℤ))
    (hmax : Int.ceil (h * 60 / (intervalMinutesOf rt cfg symbolMeta : ℚ))
      ≤ (cfg.maxOutputSize : ℤ)) :
    result.lookbackHours = h ∧
    (pair ∈ symbolKeys → intervalMinutesOf rt cfg symbolMeta = 60) ∧
    ∀ (h1 : ℚ) (now : ℤ) (ttl : JsNum), h1 ≤ h →
      JsNum.lt (JsNum.fin ((now : ℚ) - (clock.cachedAt : ℚ))) ttl = true →
      getCachedCandles ttl now
        (requestCandles rt cfg clock chartCache pair (JsVal.num (JsNum.fin h)) fetched).2
        pair (JsNum.fin h1) = some result := by
  obtain ⟨payloadMeta, -, hresult, hcache⟩ :=
    requestCandles_result rt cfg clock chartCache pair _ fetched result symbolMeta hmeta hres
  have him := intervalMinutes_pos rt cfg symbolMeta
  have himq : (0 : ℚ) < (intervalMinutesOf rt cfg symbolMeta : ℚ) := by
    exact_mod_cast him
  have hC1 : 1 ≤ Int.ceil (h * 60 / (intervalMinutesOf rt cfg symbolMeta : ℚ)) := by
    have : (0 : ℚ) < h * 60 / (intervalMinutesOf rt cfg symbolMeta : ℚ) := by positivity
    exact Int.one_le_ceil_iff.mpr this
  have hpts : pointsNeededOf h (intervalMinutesOf rt cfg symbolMeta)
      = (Int.ceil (h * 60 / (intervalMinutesOf rt cfg symbolMeta : ℚ))).toNat := by
    unfold pointsNeededOf
    rw [max_eq_left hC1]
  have hout : outputSizeOf cfg (pointsNeededOf h (intervalMinutesOf rt cfg symbolMeta))
      = (Int.ceil (h * 60 / (intervalMinutesOf rt cfg symbolMeta : ℚ))).toNat := by
    unfold outputSizeOf
    rw [hpts]
    exact Nat.min_eq_left (by omega)
  have hlen : (limitedValuesOf rt
      (outputSizeOf cfg (pointsNeededOf h (intervalMinutesOf rt cfg symbolMeta)))
      (providerRowsOf fetched)).length
      = (Int.ceil (h * 60 / (intervalMinutesOf rt cfg symbolMeta : ℚ))).toNat := by
    rw [length_limitedValuesOf _ _ _ (outputSize_bounds cfg _ _).1, hout]
    exact Nat.min_eq_right (by omega)
  have hcast : (((Int.ceil (h * 60 / (intervalMinutesOf rt cfg symbolMeta : ℚ))).toNat : ℕ) : ℚ)
      = ((Int.ceil (h * 60 / (intervalMinutesOf rt cfg symbolMeta : ℚ)) : ℤ) : ℚ) := by
    have h0 : (0 : ℤ) ≤ Int.ceil (h * 60 / (intervalMinutesOf rt cfg symbolMeta : ℚ)) := by omega
    have := Int.toNat_of_nonneg h0
    exact_mod_cast this
  have hge : h ≤ ((Int.ceil (h * 60 / (intervalMinutesOf rt cfg symbolMeta : ℚ)) : ℤ) : ℚ)
      * (intervalMinutesOf rt cfg symbolMeta : ℚ) / 60 := by
    have hle := Int.le_ceil (h * 60 / (intervalMinutesOf rt cfg symbolMeta : ℚ))
    rw [div_le_iff₀ himq] at hle
    rw [le_div_iff₀ (by norm_num : (0 : ℚ) < 60)]
    exact hle
  have hlook : result.lookbackHours = h := by
    rw [hresult]
    simp only [candleBatchOf, requestedHoursOf, hpos, if_true, hlen, hcast]
    exact min_eq_left (le_trans hge (le_max_left _ _))
  refine ⟨hlook, intervalMinutes_of_key rt cfg pair symbolMeta hmeta, ?_⟩
  · intro h1 now ttl hle hfresh
    rw [hcache]
    simp only [getCachedCandles, JsMap.get?_set_self, hfresh, Bool.true_and]
    rw [hlook]
    simp [JsNum.ge, JsNum.le, hle]

theorem candleBatchOf_timestamps (rt : JsRuntime) (cfg : TwelveDataConfig) (clock : FetchClock)
    (pair : String) (symbolMeta : SymbolMeta) (hours : JsVal) (payloadMeta : JsVal)
    (values : List ProviderRow) :
    (candleBatchOf rt cfg clock pair symbolMeta hours payloadMeta values).timestamps
      = ((sortRows rt values).drop (values.length - outputSizeOf cfg
          (pointsNeededOf (requestedHoursOf hours) (intervalMinutesOf rt cfg symbolMeta)))).map
        (fun entry => match entry.datetime with
          | some text => JsVal.str text
          | none => JsVal.undefined) ∧
    (candleBatchOf rt cfg clock pair symbolMeta hours payloadMeta values).requestedOutputSize
      = outputSizeOf cfg
          (pointsNeededOf (requestedHoursOf hours) (intervalMinutesOf rt cfg symbolMeta)) := by
  simp only [candleBatchOf,
    limitedValuesOf_eq_drop rt _ values (outputSize_bounds cfg _ _).1, and_self]

/-- C13, amended: in the result of a successful `requestCandles` over provider
rows that all carry a `datetime`, with `localeCompare` a total preorder, the
timestamps are in non-decreasing `datetime` order and are those of the
`outputsize` latest provider rows (of all rows when there are fewer), where
`outputsize = min(max(ceil(requestedHours*60/intervalMinutes), 1),
TWELVEDATA_MAX_OUTPUTSIZE)` and `requestedHours` is `hours` when `hours` is a
finite positive number and 24 otherwise; so
`1 ≤ number of candles ≤ outputsize ≤ TWELVEDATA_MAX_OUTPUTSIZE`. -/
theorem requestCandles_window (rt : JsRuntime) (cfg : TwelveDataConfig)
    (clock : FetchClock) (chartCache : JsMap CacheEntry) (pair : String) (hours : JsVal)
    (fetched : Except String ProviderResponse) (result : CandleBatch)
    (symbolMeta : SymbolMeta) (hmeta : SYMBOLS pair = some symbolMeta)
    (hres : (requestCandles rt cfg clock chartCache pair hours fetched).1 = Except.ok result)
    (hdt : ∀ row ∈ providerRowsOf fetched, hasDatetime row = true)
    (htrans : ∀ a b c : String, rt.localeCompare a b ≤ 0 → rt.localeCompare b c ≤ 0 →
      rt.localeCompare a c ≤ 0)
    (htotal : ∀ a b : String, rt.localeCompare a b ≤ 0 ∨ rt.localeCompare b a ≤ 0) :
    result.requestedOutputSize
      = Nat.min (Max.max (Int.ceil (requestedHoursOf hours * 60
          / (intervalMinutesOf rt cfg symbolMeta : ℚ))) 1).toNat cfg.maxOutputSize ∧
    (∀ h : ℚ, hours = JsVal.num (JsNum.fin h) → 0 < h → requestedHoursOf hours = h) ∧
    ((¬ ∃ h : ℚ, hours = JsVal.num (JsNum.fin h) ∧ 0 < h) → requestedHoursOf hours = 24) ∧
    result.timestamps.Pairwise (fun x y =>
      ∃ s t, x = JsVal.str s ∧ y = JsVal.str t ∧ rt.localeCompare s t ≤ 0) ∧
    (∃ earlier latest : List ProviderRow,
      (earlier ++ latest).Perm (providerRowsOf fetched) ∧
      (earlier ++ latest).Pairwise (fun a b =>
        rt.localeCompare (a.datetime.getD "") (b.datetime.getD "") ≤ 0) ∧
      latest.length = Nat.min (providerRowsOf fetched).length result.requestedOutputSize ∧
      result.timestamps = latest.map (fun row => JsVal.str (row.datetime.getD ""))) ∧
    1 ≤ result.timestamps.length ∧
    result.timestamps.length ≤ result.requestedOutputSize ∧
    result.requestedOutputSize ≤ cfg.maxOutputSize := by
  obtain ⟨payloadMeta, hne, hresult, -⟩ :=
    requestCandles_result rt cfg clock chartCache pair hours fetched result symbolMeta hmeta hres
  obtain ⟨hts, hout⟩ := candleBatchOf_timestamps rt cfg clock pair symbolMeta hours payloadMeta
    (providerRowsOf fetched)
  rw [← hresult] at hts hout
  have hb := outputSize_bounds cfg (requestedHoursOf hours) (intervalMinutesOf rt cfg symbolMeta)
  rw [← hout] at hb
  have hsorted := sortRows_sorted rt (providerRowsOf fetched) hdt htrans htotal
  have hperm : (sortRows rt (providerRowsOf fetched)).Perm (providerRowsOf fetched) :=
    List.mergeSort_perm _ _
  have hdtmap : ∀ l : List ProviderRow, (∀ row ∈ l, hasDatetime row = true) →
      l.map (fun entry => match entry.datetime with
        | some text => JsVal.str text
        | none => JsVal.undefined) = l.map (fun row => JsVal.str (row.datetime.getD "")) := by
    intro l hl
    apply List.map_congr_left
    intro row hrow
    have := hl row hrow
    unfold hasDatetime at this
    cases hd : row.datetime with
    | none => rw [hd] at this; cases this
    | some text => rfl
  have hdrop_dt : ∀ row ∈ (sortRows rt (providerRowsOf fetched)).drop
      ((providerRowsOf fetched).length - result.requestedOutputSize),
      hasDatetime row = true := by
    intro row hrow
    exact hdt row (hperm.mem_iff.mp (List.mem_of_mem_drop hrow))
  have hlen : result.timestamps.length
      = Nat.min (providerRowsOf fetched).length result.requestedOutputSize := by
    rw [hts, ← hout, List.length_map, List.length_drop, length_sortRows]
    simp only [Nat.min_def]
    split <;> omega
  have hpos : 1 ≤ (providerRowsOf fetched).length := by
    cases hr : providerRowsOf fetched with
    | nil => exact absurd hr hne
    | cons a l => simp
  refine ⟨?_, ?_, ?_, ?_, ?_, ?_, ?_, hb.2⟩
  · rw [hout]; rfl
  · intro h hh hpos
    simp [requestedHoursOf, hh, hpos]
  · intro hno
    unfold requestedHoursOf
    split
    · rename_i h
      split
      · rename_i hp
        exact absurd ⟨h, rfl, hp⟩ hno
      · rfl
    · rfl
  · rw [hts, ← hout, hdtmap _ hdrop_dt, List.pairwise_map]
    have hsub : ((sortRows rt (providerRowsOf fetched)).drop
        ((providerRowsOf fetched).length - result.requestedOutputSize)).Pairwise (fun a b =>
          rt.localeCompare (a.datetime.getD "") (b.datetime.getD "") ≤ 0) :=
      hsorted.sublist (List.drop_sublist _ _)
    exact hsub.imp (fun h => ⟨_, _, rfl, rfl, h⟩)
  · refine ⟨(sortRows rt (providerRowsOf fetched)).take
        ((providerRowsOf fetched).length - result.requestedOutputSize),
      (sortRows rt (providerRowsOf fetched)).drop
        ((providerRowsOf fetched).length - result.requestedOutputSize), ?_, ?_, ?_, ?_⟩
    · rw [List.take_append_drop]; exact hperm
    · rw [List.take_append_drop]; exact hsorted
    · rw [List.length_drop, length_sortRows]
      simp only [Nat.min_def]
      split <;> omega
    · rw [hts, ← hout, hdtmap _ hdrop_dt]
  · rw [hlen]
    exact Nat.le_min.mpr ⟨hpos, hb.1⟩
  · rw [hlen]
    exact Nat.min_le_right _ _

/-! ### The text of the alert -/

theorem toList_append (a b : String) : (a ++ b).toList = a.toList ++ b.toList := rfl

theorem ne_empty_of_toList {a : String} (h : a.toList ≠ []) : a ≠ "" := by
  intro h2
  rw [h2] at h
  exact h rfl

theorem toList_jsJoin_cons (separator part : String) (rest : List String) :
    ∃ tail : List Char, (jsJoin separator (part :: rest)).toList = part.toList ++ tail := by
  cases rest with
  | nil => exact ⟨[], by simp [jsJoin]⟩
  | cons q rest =>
    exact ⟨separator.toList ++ (jsJoin separator (q :: rest)).toList, by
      simp [jsJoin, toList_append]⟩

theorem headlineOf_ne_empty (rt : JsRuntime) (options : FriendlyOptions)
    (previousCandle : MessageCandle) (m : Matches) :
    headlineOf rt options previousCandle m ≠ "" := by
  apply ne_empty_of_toList
  simp [headlineOf, toList_append]

theorem pushedSentence_ne_empty (before : String) (value : Option String) :
    ∀ part ∈ pushedSentence before value, part ≠ "" := by
  intro part hpart
  cases value with
  | none => simp [pushedSentence] at hpart
  | some text =>
    by_cases ht : text = ""
    · simp [pushedSentence, ht] at hpart
    · simp only [pushedSentence, ne_eq, ht, not_false_eq_true, if_true,
        List.mem_singleton] at hpart
      rw [hpart]
      apply ne_empty_of_toList
      intro h
      simp only [toList_append, List.append_eq_nil] at h
      exact h.2 |> fun h2 => by cases h2

theorem messageParts_filter (rt : JsRuntime) (options : FriendlyOptions)
    (previousCandle : MessageCandle) (m : Matches) :
    (messageParts rt options previousCandle m).filter (fun part => part ≠ "")
      = messageParts rt options previousCandle m := by
  rw [List.filter_eq_self]
  intro part hpart
  simp only [messageParts, List.mem_cons, List.mem_append, List.mem_singleton,
    List.not_mem_nil, or_false] at hpart
  simp only [decide_eq_true_eq]
  rcases hpart with h | h | h | h
  · rw [h]; exact headlineOf_ne_empty rt options previousCandle m
  · exact pushedSentence_ne_empty _ _ part h
  · exact pushedSentence_ne_empty _ _ part h
  · rw [h]; decide

theorem buildFriendlyWhatsAppMessage_of_verified (rt : JsRuntime) (options : FriendlyOptions)
    (previousCandle : MessageCandle) (m : Matches)
    (hprev : options.previousCandle = some previousCandle)
    (hm : previousCandle.matches_ = some m)
    (hv : (m.greenAbove || m.redBelow) = true) :
    buildFriendlyWhatsAppMessage rt options
      = jsJoin " " (messageParts rt options previousCandle m) := by
  simp only [buildFriendlyWhatsAppMessage, hprev, hm, hv, messageParts_filter]
  rfl

theorem buildFriendlyWhatsAppMessage_ne_empty (rt : JsRuntime) (options : FriendlyOptions)
    (previousCandle : MessageCandle) (m : Matches)
    (hprev : options.previousCandle = some previousCandle)
    (hm : previousCandle.matches_ = some m)
    (hv : (m.greenAbove || m.redBelow) = true) :
    buildFriendlyWhatsAppMessage rt options ≠ "" := by
  rw [buildFriendlyWhatsAppMessage_of_verified rt options previousCandle m hprev hm hv]
  apply ne_empty_of_toList
  simp only [messageParts]
  obtain ⟨tail, ht⟩ := toList_jsJoin_cons " " (headlineOf rt options previousCandle m)
    (pushedSentence "It closed around " (closeText rt (some previousCandle)) ++
      (pushedSentence "The one forming now is hovering close to "
        (closeText rt options.formingCandle) ++ ["Please do well to check it out."]))
  rw [ht]
  intro h
  have h1 := (List.append_eq_nil.mp h).1
  exact headlineOf_ne_empty rt options previousCandle m (by
    cases hh : headlineOf rt options previousCandle m with
    | mk data =>
      rw [hh] at h1
      simp only [String.toList] at h1
      rw [h1])

/-- C16: `buildFriendlyWhatsAppMessage` returns the empty text exactly when
`previousCandle` is missing, has no `matches`, or has neither `greenAbove` nor
`redBelow` set; and the message of `prepareWhatsAppAlert`, built with it, is
non-empty exactly when `isVerified` is true. -/
theorem buildFriendlyWhatsAppMessage_empty_iff (rt : JsRuntime) :
    (∀ options : FriendlyOptions,
      buildFriendlyWhatsAppMessage rt options = "" ↔
        (options.previousCandle = none ∨
          ∃ c, options.previousCandle = some c ∧
            (c.matches_ = none ∨
              ∃ m, c.matches_ = some m ∧ m.greenAbove = false ∧ m.redBelow = false))) ∧
    (∀ analysis : Analysis,
      (prepareWhatsAppAlert (friendlyMessage rt) analysis).message ≠ "" ↔
        (prepareWhatsAppAlert (friendlyMessage rt) analysis).isVerified = true) := by
  constructor
  · intro options
    cases hprev : options.previousCandle with
    | none => simp [buildFriendlyWhatsAppMessage, hprev]
    | some c =>
      cases hm : c.matches_ with
      | none =>
        simp only [buildFriendlyWhatsAppMessage, hprev, hm, true_iff]
        exact Or.inr ⟨c, rfl, Or.inl hm⟩
      | some m =>
        by_cases hv : (m.greenAbove || m.redBelow) = true
        · have hne := buildFriendlyWhatsAppMessage_ne_empty rt options c m hprev hm hv
          constructor
          · intro h; exact absurd h hne
          · rintro (h | ⟨c2, hc2, h | ⟨m2, hm2, hg, hr⟩⟩)
            · cases h
            · simp only [Option.some.injEq] at hc2
              subst hc2
              rw [hm] at h; cases h
            · simp only [Option.some.injEq] at hc2
              subst hc2
              rw [hm] at hm2
              simp only [Option.some.injEq] at hm2
              subst hm2
              rw [hg, hr] at hv
              cases hv
        · have hv2 : (m.greenAbove || m.redBelow) = false := by
            simpa using hv
          have hempty : buildFriendlyWhatsAppMessage rt options = "" := by
            simp only [buildFriendlyWhatsAppMessage, hprev, hm, hv2]
            rfl
          simp only [hempty, true_iff]
          refine Or.inr ⟨c, rfl, Or.inr ⟨m, hm, ?_, ?_⟩⟩
          · cases hg : m.greenAbove
            · rfl
            · rw [hg] at hv2; cases hv2
          · cases hr : m.redBelow
            · rfl
            · rw [hr, Bool.or_true] at hv2; cases hv2
  · intro analysis
    cases hprev : analysis.previousCompleted with
    | none => simp [prepareWhatsAppAlert, hprev]
    | some info =>
      by_cases hv : (info.matches_.greenAbove || info.matches_.redBelow) = true
      · have hne := buildFriendlyWhatsAppMessage_ne_empty rt
          (MessageInput.toOptions
            { symbol := analysis.symbol
              timeframe := analysis.timeframe
              previousCandle := some { info.candle with matches_ := info.matches_ }
              formingCandle := analysis.candles[analysis.candles.length - 1]? })
          (RecentCandle.toMessageCandle { info.candle with matches_ := info.matches_ })
          info.matches_ rfl rfl hv
        simp only [prepareWhatsAppAlert, hprev, Option.map_some', hv, if_true, friendlyMessage]
        exact ⟨fun _ => trivial, fun _ => hne⟩
      · have hv2 : (info.matches_.greenAbove || info.matches_.redBelow) = false := by
          simpa using hv
        simp [prepareWhatsAppAlert, hprev, hv2]

/-! ### The pattern named in the alert -/

theorem toLower_ne_M (c : Char) (h : c.toNat < 128) : c.toLower ≠ 'M' := by
  have key : ∀ n : Fin 128, (Char.ofNat n.val).toLower ≠ 'M' := by decide
  have := key ⟨c.toNat, h⟩
  simpa [Char.ofNat_toNat] using this

theorem digitChar_ne_M (n : ℕ) : Nat.digitChar (n % 10) ≠ 'M' := by
  have key : ∀ k : Fin 10, Nat.digitChar k.val ≠ 'M' := by decide
  exact key ⟨n % 10, Nat.mod_lt _ (by norm_num)⟩

theorem toDigitsCore_ne_M (fuel : ℕ) : ∀ (n : ℕ) (ds : List Char), 'M' ∉ ds →
    'M' ∉ Nat.toDigitsCore 10 fuel n ds := by
  induction fuel with
  | zero => intro n ds h; simpa [Nat.toDigitsCore] using h
  | succ fuel ih =>
    intro n ds h
    have hd : 'M' ∉ Nat.digitChar (n % 10) :: ds := by
      intro hm
      rcases List.mem_cons.mp hm with h1 | h1
      · exact digitChar_ne_M n h1.symm
      · exact h h1
    simp only [Nat.toDigitsCore]
    split_ifs
    · exact hd
    · exact ih _ _ hd

theorem natRepr_ne_M (n : ℕ) : 'M' ∉ (Nat.repr n).toList := by
  simp only [Nat.repr, Nat.toDigits, List.asString, String.toList]
  exact toDigitsCore_ne_M _ _ _ (by simp)

theorem jsNumberText_ne_M (value : ℤ) : 'M' ∉ (jsNumberText value).toList := by
  have hsign : 'M' ∉ (if value < 0 then "-" else "").toList := by
    split_ifs <;> decide
  have hdigits := natRepr_ne_M value.natAbs
  simp only [jsNumberText]
  generalize (if value < 0 then "-" else "") = sign at hsign ⊢
  by_cases hlt : value.natAbs < 10 ^ 21
  · rw [if_pos hlt]
    simp only [toList_append, List.mem_append, not_or]
    exact ⟨hsign, hdigits⟩
  · rw [if_neg hlt]
    have hsig : 'M' ∉ ((Nat.repr value.natAbs).toList.reverse.dropWhile
        (fun c => c = '0')).reverse := by
      intro h
      exact hdigits (List.mem_reverse.mp
        ((List.dropWhile_sublist _).subset (List.mem_reverse.mp h)))
    have hmant : 'M' ∉ (match ((Nat.repr value.natAbs).toList.reverse.dropWhile
        (fun c => c = '0')).reverse with
        | [] => ([] : List Char)
        | [d] => [d]
        | d :: rest => d :: '.' :: rest) := by
      revert hsig
      generalize ((Nat.repr value.natAbs).toList.reverse.dropWhile
        (fun c => c = '0')).reverse = significant
      intro hsig
      cases significant with
      | nil => simp
      | cons d rest =>
        cases rest with
        | nil => simpa using hsig
        | cons r rest =>
          simp only [List.mem_cons, not_or] at hsig ⊢
          exact ⟨hsig.1, by decide, hsig.2.1, hsig.2.2⟩
    simp only [toList_append, List.mem_append, not_or]
    exact ⟨⟨⟨hsign, hmant⟩, by decide⟩, natRepr_ne_M _⟩

theorem not_mem_append_toList {a b : String} {c : Char} (ha : c ∉ a.toList)
    (hb : c ∉ b.toList) : c ∉ (a ++ b).toList := by
  rw [toList_append]
  intro h
  rcases List.mem_append.mp h with h1 | h1
  · exact ha h1
  · exact hb h1

theorem jsToLowerCase_ne_M (rt : JsRuntime) (s : String)
    (hlower : ∀ c, 'M' ∉ (rt.lowerNonAscii c).toList) :
    'M' ∉ (jsToLowerCase rt s).toList := by
  simp only [jsToLowerCase, String.toList]
  intro h
  obtain ⟨c, -, hc⟩ := List.mem_flatMap.mp h
  by_cases hascii : c.toNat < 128
  · rw [if_pos hascii] at hc
    exact toLower_ne_M c hascii (List.mem_singleton.mp hc).symm
  · rw [if_neg hascii] at hc
    exact hlower c hc

theorem lookupTimeframe_ne_M (normalized label : String)
    (h : lookupTimeframe normalized = some label) : 'M' ∉ label.toList := by
  have htable : ∀ (table : List (String × String)),
      (∀ p ∈ table, 'M' ∉ p.2.toList) → ∀ l, table.lookup normalized = some l →
        'M' ∉ l.toList := by
    intro table
    induction table with
    | nil => intro _ l hl; simp [List.lookup] at hl
    | cons p rest ih =>
      intro hall l hl
      obtain ⟨k, v⟩ := p
      simp only [List.lookup] at hl
      split at hl
      · simp only [Option.some.injEq] at hl
        rw [← hl]
        exact hall (k, v) (List.mem_cons_self _ _)
      · exact ih (fun q hq => hall q (List.mem_cons_of_mem _ hq)) l hl
  simp only [lookupTimeframe] at h
  split at h
  · rename_i l hl
    simp only [Option.some.injEq] at h
    rw [← h]
    exact htable timeframeLookup (by decide) l hl
  · split_ifs at h
    · simp only [Option.some.injEq] at h
      rw [← h]; decide
    · simp only [Option.some.injEq] at h
      rw [← h]; decide

theorem describeTimeframe_ne_M (rt : JsRuntime) (code : String)
    (hlower : ∀ c, 'M' ∉ (rt.lowerNonAscii c).toList) :
    'M' ∉ (describeTimeframe rt code).toList := by
  have aux : ∀ (lk : Option String) (ph pm : Option ℤ) (nz : String),
      (∀ l, lk = some l → 'M' ∉ l.toList) → 'M' ∉ nz.toList →
      'M' ∉ (match lk with
        | some label => label
        | none =>
          match ph with
          | some hours => if hours = 1 then "1 hour" else jsNumberText hours ++ " hours"
          | none =>
            match pm with
            | some minutes =>
              if minutes = 1 then "1 minute" else jsNumberText minutes ++ " minutes"
            | none => nz).toList := by
    intro lk ph pm nz h1 h2
    cases lk with
    | some l => exact h1 l rfl
    | none =>
      cases ph with
      | some hours =>
        simp only
        split_ifs
        · decide
        · exact not_mem_append_toList (jsNumberText_ne_M _) (by decide)
      | none =>
        cases pm with
        | some minutes =>
          simp only
          split_ifs
          · decide
          · exact not_mem_append_toList (jsNumberText_ne_M _) (by decide)
        | none => exact h2
  simp only [describeTimeframe]
  by_cases hc : code = ""
  · rw [if_pos hc]; decide
  · rw [if_neg hc]
    exact aux _ _ _ _ (fun l hl => lookupTimeframe_ne_M _ _ hl)
      (jsToLowerCase_ne_M rt _ hlower)

theorem normalizePairName_ne_M (rt : JsRuntime) (symbol : String)
    (hlower : ∀ c, 'M' ∉ (rt.lowerNonAscii c).toList) :
    'M' ∉ (normalizePairName rt symbol).toList := by
  simp only [normalizePairName]
  split_ifs
  · decide
  · exact jsToLowerCase_ne_M rt _ hlower
  · exact jsToLowerCase_ne_M rt _ hlower

theorem timeframeTextOf_ne_M (rt : JsRuntime) (timeframe : String)
    (hlower : ∀ c, 'M' ∉ (rt.lowerNonAscii c).toList) :
    'M' ∉ (timeframeTextOf rt timeframe).toList := by
  simp only [timeframeTextOf]
  split_ifs
  · exact not_mem_append_toList
      (not_mem_append_toList (by decide) (describeTimeframe_ne_M rt _ hlower)) (by decide)
  · decide

theorem closeText_eq_some (rt : JsRuntime) (candle : Option MessageCandle) (text : String)
    (h : closeText rt candle = some text) :
    ∃ c q, candle = some c ∧ c.close = JsVal.num (JsNum.fin q) ∧ text = rt.toFixed q 2 := by
  cases candle with
  | none => simp [closeText] at h
  | some c =>
    simp only [closeText] at h
    split_ifs at h with hfin
    obtain ⟨q, hq⟩ := (JsVal.isFinite_iff c.close).mp hfin
    simp only [Option.some.injEq] at h
    exact ⟨c, q, rfl, hq, by rw [← h, hq]; rfl⟩

theorem pushedSentence_ne_M (rt : JsRuntime) (before : String) (candle : Option MessageCandle)
    (hbefore : 'M' ∉ before.toList)
    (hfixed : ∀ q, 'M' ∉ (rt.toFixed q 2).toList) :
    ∀ part ∈ pushedSentence before (closeText rt candle), 'M' ∉ part.toList := by
  intro part hpart
  cases hct : closeText rt candle with
  | none => simp [pushedSentence, hct] at hpart
  | some text =>
    obtain ⟨c, q, -, -, htext⟩ := closeText_eq_some rt candle text hct
    simp only [pushedSentence, hct] at hpart
    split_ifs at hpart
    · simp only [List.mem_singleton] at hpart
      rw [hpart, htext]
      exact not_mem_append_toList (not_mem_append_toList hbefore (hfixed q)) (by decide)
    · cases hpart

theorem pair_not_infix_of_ne_M {l : List Char} (h : 'M' ∉ l) : ¬ ['M', 'A'] <:+: l := by
  rintro ⟨s, t, rfl⟩
  exact h (by simp)

theorem pair_not_infix_append_left {x v : List Char} (hx : 'M' ∉ x)
    (hv : ¬ ['M', 'A'] <:+: v) : ¬ ['M', 'A'] <:+: x ++ v := by
  induction x with
  | nil => simpa using hv
  | cons a x ih =>
    intro h
    rw [List.cons_append, List.infix_cons_iff] at h
    rcases h with h | h
    · obtain ⟨t, ht⟩ := h
      simp only [List.cons_append, List.cons.injEq] at ht
      exact hx (by rw [← ht.1]; exact List.mem_cons_self _ _)
    · exact ih (fun hm => hx (List.mem_cons_of_mem _ hm)) h

theorem pair_not_infix_append_right {v y : List Char} (hv : ¬ ['M', 'A'] <:+: v)
    (hy : 'M' ∉ y) (hhead : y.head? ≠ some 'A') : ¬ ['M', 'A'] <:+: v ++ y := by
  induction v with
  | nil => simpa using pair_not_infix_of_ne_M hy
  | cons a v ih =>
    intro h
    rw [List.cons_append, List.infix_cons_iff] at h
    rcases h with h | h
    · obtain ⟨t, ht⟩ := h
      simp only [List.cons_append, List.cons.injEq, List.nil_append] at ht
      obtain ⟨ha, ht2⟩ := ht
      cases v with
      | nil =>
        simp only [List.nil_append] at ht2
        apply hhead
        rw [← ht2]; rfl
      | cons b v =>
        simp only [List.cons_append, List.cons.injEq] at ht2
        apply hv
        rw [← ha, ← ht2.1]
        exact ⟨[], v, rfl⟩
    · exact ih (fun hin => hv (List.infix_cons hin)) h

theorem pair_unique {x y : Char} (hxy : x ≠ y) :
    ∀ (p s a b : List Char), ¬ [x, y] <:+: p → ¬ [x, y] <:+: s →
      p ++ ([x, y] ++ s) = a ++ ([x, y] ++ b) → a = p := by
  have key : ∀ (p s a b c : List Char), ¬ [x, y] <:+: s →
      [x, y] ++ s = c ++ ([x, y] ++ b) → c = [] := by
    intro p s a b c hs h
    cases c with
    | nil => rfl
    | cons c1 c =>
      cases c with
      | nil =>
        simp only [List.cons_append, List.nil_append, List.cons.injEq] at h
        exact absurd h.2.1.symm hxy
      | cons c2 c =>
        simp only [List.cons_append, List.nil_append, List.cons.injEq] at h
        exact absurd ⟨c, b, by rw [h.2.2]; simp⟩ hs
  intro p s a b hp hs h
  rcases List.append_eq_append_iff.mp h with ⟨c, hc, h2⟩ | ⟨c, hc, h2⟩
  · have := key p s a b c hs h2
    rw [hc, this, List.append_nil]
  · have hb : ¬ [x, y] <:+: b → c = [] := fun hb => key a b p s c hb h2
    by_cases hnil : c = []
    · rw [hc, hnil, List.append_nil]
    · exfalso
      cases c with
      | nil => exact hnil rfl
      | cons c1 c =>
        cases c with
        | nil =>
          simp only [List.cons_append, List.nil_append, List.cons.injEq] at h2
          exact hxy h2.2.1.symm
        | cons c2 c =>
          simp only [List.cons_append, List.nil_append, List.cons.injEq] at h2
          apply hp
          rw [hc, ← h2.1, ← h2.2.1]
          exact ⟨a, c, by simp⟩

theorem fragment_not_infix (p f n s : List Char) (hp : ¬ ['M', 'A'] <:+: p ++ f)
    (hs : ¬ ['M', 'A'] <:+: s) (hnf : ¬ n <:+ f) (hfn : ¬ f <:+ n) :
    ¬ (n ++ ['M', 'A']) <:+: (p ++ f) ++ (['M', 'A'] ++ s) := by
  rintro ⟨a, b, hab⟩
  have h2 : (p ++ f) ++ (['M', 'A'] ++ s) = (a ++ n) ++ (['M', 'A'] ++ b) := by
    rw [← hab]; simp
  have h3 := pair_unique (by decide) (p ++ f) s (a ++ n) b hp hs h2
  have hn : n <:+ p ++ f := ⟨a, h3⟩
  have hf : f <:+ p ++ f := ⟨p, rfl⟩
  rcases Nat.le_total n.length f.length with hle | hle
  · exact hnf (List.suffix_of_suffix_length_le hn hf hle)
  · exact hfn (List.suffix_of_suffix_length_le hf hn hle)

theorem toList_jsJoin_cons_cons (separator part next : String) (rest : List String) :
    (jsJoin separator (part :: next :: rest)).toList
      = part.toList ++ (separator.toList ++ (jsJoin separator (next :: rest)).toList) := by
  simp [jsJoin, toList_append]

theorem mem_toList_jsJoin (separator : String) (parts : List String) (c : Char)
    (h : c ∈ (jsJoin separator parts).toList) :
    c ∈ separator.toList ∨ ∃ part ∈ parts, c ∈ part.toList := by
  induction parts with
  | nil => simp [jsJoin] at h
  | cons part rest ih =>
    cases rest with
    | nil => exact Or.inr ⟨part, List.mem_cons_self _ _, by simpa [jsJoin] using h⟩
    | cons next rest =>
      rw [toList_jsJoin_cons_cons] at h
      rcases List.mem_append.mp h with h1 | h1
      · exact Or.inr ⟨part, List.mem_cons_self _ _, h1⟩
      · rcases List.mem_append.mp h1 with h2 | h2
        · exact Or.inl h2
        · rcases ih h2 with h3 | ⟨q, hq, hc⟩
          · exact Or.inl h3
          · exact Or.inr ⟨q, List.mem_cons_of_mem _ hq, hc⟩

theorem infix_toList_jsJoin (separator : String) (parts : List String) (part : String)
    (h : part ∈ parts) : part.toList <:+: (jsJoin separator parts).toList := by
  induction parts with
  | nil => cases h
  | cons first rest ih =>
    cases rest with
    | nil =>
      simp only [List.mem_singleton] at h
      rw [h]
      exact List.infix_refl _
    | cons next rest =>
      rw [toList_jsJoin_cons_cons]
      rcases List.mem_cons.mp h with h1 | h1
      · rw [h1]
        exact List.infix_append' [] _ _
      · exact ((ih h1).trans (List.infix_append' separator.toList _ [] |> fun hh => by
          simpa using hh)).trans (List.infix_append' first.toList _ [] |> fun hh => by
            simpa using hh)

theorem suffix_toList_jsJoin (separator last : String) (parts : List String) :
    last.toList <:+ (jsJoin separator (parts ++ [last])).toList := by
  induction parts with
  | nil => exact List.suffix_refl _
  | cons first rest ih =>
    have hne : ∃ next more, rest ++ [last] = next :: more := by
      cases rest with
      | nil => exact ⟨last, [], rfl⟩
      | cons r rs => exact ⟨r, rs ++ [last], rfl⟩
    obtain ⟨next, more, hm⟩ := hne
    rw [List.cons_append, hm, toList_jsJoin_cons_cons, ← hm, ← List.append_assoc]
    exact ih.trans (List.suffix_append _ _)

theorem evaluateMatches_verified (c : Candle)
    (hv : ((evaluateMatches c).greenAbove || (evaluateMatches c).redBelow) = true) :
    (∃ q, c.close = JsVal.num (JsNum.fin q)) ∧
      ((evaluateMatches c).greenAbove = true → (evaluateMatches c).redBelow = false) := by
  by_cases hvalid : c.sma.isFinite = true ∧ c.open_.isFinite = true ∧ c.close.isFinite = true ∧
      c.high.isFinite = true ∧ c.low.isFinite = true
  · obtain ⟨h1, h2, h3, h4, h5⟩ := hvalid
    obtain ⟨s, hs⟩ := (JsVal.isFinite_iff _).mp h1
    obtain ⟨o, ho⟩ := (JsVal.isFinite_iff _).mp h2
    obtain ⟨cl, hcl⟩ := (JsVal.isFinite_iff _).mp h3
    obtain ⟨h, hh⟩ := (JsVal.isFinite_iff _).mp h4
    obtain ⟨l, hl⟩ := (JsVal.isFinite_iff _).mp h5
    refine ⟨⟨cl, hcl⟩, ?_⟩
    rw [evaluateMatches_of_finite c s o cl h l hs ho hcl hh hl]
    simp only [Bool.and_eq_true, decide_eq_true_eq, Bool.and_eq_false_imp, decide_eq_false_iff_not]
    rintro ⟨hlt, -⟩ hlt2
    exact absurd hlt (not_lt.mpr hlt2.le)
  · rw [evaluateMatches_of_not_finite c hvalid] at hv
    cases hv

theorem candleTimeOf_safe (rt : JsRuntime) (c : MessageCandle)
    (hlocale : ∀ v, ¬ ['M', 'A'] <:+: (rt.toLocaleString v).toList) :
    ¬ ['M', 'A'] <:+: (candleTimeOf rt c).toList := by
  simp only [candleTimeOf]
  split_ifs
  · exact hlocale _
  · decide

theorem timeNoteOf_safe (rt : JsRuntime) (c : MessageCandle)
    (hlocale : ∀ v, ¬ ['M', 'A'] <:+: (rt.toLocaleString v).toList) :
    ¬ ['M', 'A'] <:+: (timeNoteOf rt c).toList := by
  simp only [timeNoteOf]
  split_ifs
  · rw [toList_append, toList_append, List.append_assoc]
    exact pair_not_infix_append_left (by decide)
      (pair_not_infix_append_right (candleTimeOf_safe rt c hlocale) (by decide) (by decide))
  · decide

theorem toList_headlineOf (rt : JsRuntime) (options : FriendlyOptions) (c : MessageCandle)
    (m : Matches) :
    (headlineOf rt options c m).toList
      = ((("I juust spotted a candle on the " ++ normalizePairName rt options.symbol ++
            " pair similar to your pattern" ++ timeframeTextOf rt options.timeframe).toList ++
          ((timeNoteOf rt c).toList ++ ", ".toList)) ++
          (if m.greenAbove then "it's a green above the ".toList
            else "it's a red below the ".toList)) ++ (['M', 'A'] ++ ['.']) := by
  have hfrag : (patternFragmentOf m).toList
      = (if m.greenAbove then "it's a green above the ".toList
          else "it's a red below the ".toList) ++ ['M', 'A'] := by
    simp only [patternFragmentOf]
    cases m.greenAbove <;> rfl
  have hdot : ".".toList = ['.'] := rfl
  simp only [headlineOf, toList_append, hfrag, hdot, List.append_assoc]

theorem headlineOf_prefix_safe (rt : JsRuntime) (options : FriendlyOptions) (c : MessageCandle)
    (m : Matches)
    (hlower : ∀ ch, 'M' ∉ (rt.lowerNonAscii ch).toList)
    (hlocale : ∀ v, ¬ ['M', 'A'] <:+: (rt.toLocaleString v).toList) :
    ¬ ['M', 'A'] <:+:
      (("I juust spotted a candle on the " ++ normalizePairName rt options.symbol ++
            " pair similar to your pattern" ++ timeframeTextOf rt options.timeframe).toList ++
          ((timeNoteOf rt c).toList ++ ", ".toList)) ++
        (if m.greenAbove then "it's a green above the ".toList
          else "it's a red below the ".toList) := by
  rw [List.append_assoc, List.append_assoc]
  apply pair_not_infix_append_left
  · exact not_mem_append_toList
      (not_mem_append_toList
        (not_mem_append_toList (by decide) (normalizePairName_ne_M rt _ hlower)) (by decide))
      (timeframeTextOf_ne_M rt _ hlower)
  · apply pair_not_infix_append_right (timeNoteOf_safe rt c hlocale)
    · cases m.greenAbove <;> decide
    · cases m.greenAbove <;> decide

theorem messageParts_tail_ne_M (rt : JsRuntime) (options : FriendlyOptions) (c : MessageCandle)
    (hfixed : ∀ q, 'M' ∉ (rt.toFixed q 2).toList) :
    'M' ∉ ['.'] ++ (" ".toList ++ (jsJoin " "
      (pushedSentence "It closed around " (closeText rt (some c)) ++
        (pushedSentence "The one forming now is hovering close to "
          (closeText rt options.formingCandle) ++
        ["Please do well to check it out."]))).toList) := by
  intro h
  rcases List.mem_append.mp h with h1 | h1
  · revert h1; decide
  · rcases List.mem_append.mp h1 with h2 | h2
    · revert h2; decide
    · rcases mem_toList_jsJoin _ _ _ h2 with h3 | ⟨part, hpart, hc⟩
      · revert h3; decide
      · simp only [List.mem_append, List.mem_singleton] at hpart
        rcases hpart with hp | hp | hp
        · exact pushedSentence_ne_M rt _ _ (by decide) hfixed part hp hc
        · exact pushedSentence_ne_M rt _ _ (by decide) hfixed part hp hc
        · rw [hp] at hc
          revert hc; decide

theorem toList_message (rt : JsRuntime) (options : FriendlyOptions) (c : MessageCandle)
    (m : Matches) :
    (jsJoin " " (messageParts rt options c m)).toList
      = (headlineOf rt options c m).toList ++ (" ".toList ++ (jsJoin " "
        (pushedSentence "It closed around " (closeText rt (some c)) ++
          (pushedSentence "The one forming now is hovering close to "
            (closeText rt options.formingCandle) ++
          ["Please do well to check it out."]))).toList) := by
  have hne : ∃ next more,
      pushedSentence "It closed around " (closeText rt (some c)) ++
        (pushedSentence "The one forming now is hovering close to "
          (closeText rt options.formingCandle) ++
        ["Please do well to check it out."]) = next :: more := by
    generalize pushedSentence "It closed around " (closeText rt (some c)) = p1
    generalize pushedSentence "The one forming now is hovering close to "
      (closeText rt options.formingCandle) = p2
    cases p1 with
    | nil =>
      cases p2 with
      | nil => exact ⟨_, _, rfl⟩
      | cons a p2 => exact ⟨_, _, rfl⟩
    | cons a p1 => exact ⟨_, _, rfl⟩
  obtain ⟨next, more, hnm⟩ := hne
  simp only [messageParts]
  rw [hnm, toList_jsJoin_cons_cons]

/-- C17: for a verified previous candle whose flags are those `evaluateMatches`
gives to a candle with the same close, the text of
`buildFriendlyWhatsAppMessage` contains `it's a green above the MA` when the
candle is green above the MA and `it's a red below the MA` when it is red below
the MA, ends with `Please do well to check it out.`, and, the close being a
finite number, contains `It closed around ` followed by the close with two
decimals (the text `toFixed` gives, unless that is empty) and a full stop. When
the texts of the runtime hold no capital `M` (lower-casing, `toFixed`) and no
`MA` (`toLocaleString`), each of the two fragments occurs only for its own
pattern. A close that is not a finite number adds no sentence on the close. -/
theorem buildFriendlyWhatsAppMessage_names_pattern (rt : JsRuntime) (options : FriendlyOptions)
    (previousCandle : MessageCandle) (candle : Candle)
    (hprev : options.previousCandle = some previousCandle)
    (hclass : previousCandle.matches_ = some (evaluateMatches candle))
    (hclose : previousCandle.close = candle.close)
    (hv : ((evaluateMatches candle).greenAbove || (evaluateMatches candle).redBelow) = true) :
    ((evaluateMatches candle).greenAbove = true →
      "it's a green above the MA".toList <:+:
        (buildFriendlyWhatsAppMessage rt options).toList) ∧
    ((evaluateMatches candle).redBelow = true →
      "it's a red below the MA".toList <:+:
        (buildFriendlyWhatsAppMessage rt options).toList) ∧
    "Please do well to check it out.".toList <:+
      (buildFriendlyWhatsAppMessage rt options).toList ∧
    (∃ q, candle.close = JsVal.num (JsNum.fin q) ∧
      (rt.toFixed q 2 ≠ "" →
        ("It closed around " ++ rt.toFixed q 2 ++ ".").toList <:+:
          (buildFriendlyWhatsAppMessage rt options).toList)) ∧
    ((∀ ch, 'M' ∉ (rt.lowerNonAscii ch).toList) → (∀ q, 'M' ∉ (rt.toFixed q 2).toList) →
      (∀ v, ¬ ['M', 'A'] <:+: (rt.toLocaleString v).toList) →
      ("it's a green above the MA".toList <:+:
          (buildFriendlyWhatsAppMessage rt options).toList ↔
        (evaluateMatches candle).greenAbove = true) ∧
      ("it's a red below the MA".toList <:+:
          (buildFriendlyWhatsAppMessage rt options).toList ↔
        (evaluateMatches candle).redBelow = true)) ∧
    (∀ (c : MessageCandle), c.close.isFinite = false →
      pushedSentence "It closed around " (closeText rt (some c)) = []) := by
  obtain ⟨⟨q, hq⟩, hexcl⟩ := evaluateMatches_verified candle hv
  have hmsg := buildFriendlyWhatsAppMessage_of_verified rt options previousCandle
    (evaluateMatches candle) hprev hclass hv
  have hhead : (headlineOf rt options previousCandle (evaluateMatches candle)).toList <:+:
      (buildFriendlyWhatsAppMessage rt options).toList := by
    rw [hmsg]
    exact infix_toList_jsJoin _ _ _ (by simp [messageParts])
  have hfrag : (patternFragmentOf (evaluateMatches candle)).toList <:+:
      (buildFriendlyWhatsAppMessage rt options).toList := by
    refine List.IsInfix.trans ⟨("I juust spotted a candle on the " ++
      normalizePairName rt options.symbol ++ " pair similar to your pattern" ++
      timeframeTextOf rt options.timeframe ++ timeNoteOf rt previousCandle ++ ", ").toList,
      ".".toList, ?_⟩ hhead
    simp only [headlineOf, toList_append, List.append_assoc]
  have hgreen : (evaluateMatches candle).greenAbove = true →
      "it's a green above the MA".toList <:+:
        (buildFriendlyWhatsAppMessage rt options).toList := by
    intro hg
    simpa [patternFragmentOf, hg] using hfrag
  have hred : (evaluateMatches candle).redBelow = true →
      "it's a red below the MA".toList <:+:
        (buildFriendlyWhatsAppMessage rt options).toList := by
    intro hr
    have hg : (evaluateMatches candle).greenAbove = false := by
      cases hg : (evaluateMatches candle).greenAbove
      · rfl
      · rw [hexcl hg] at hr; cases hr
    simpa [patternFragmentOf, hg] using hfrag
  refine ⟨hgreen, hred, ?_, ⟨q, hq, ?_⟩, ?_, ?_⟩
  · rw [hmsg]
    have hshape : messageParts rt options previousCandle (evaluateMatches candle)
        = (headlineOf rt options previousCandle (evaluateMatches candle) ::
            (pushedSentence "It closed around " (closeText rt (some previousCandle)) ++
              pushedSentence "The one forming now is hovering close to "
                (closeText rt options.formingCandle))) ++
          ["Please do well to check it out."] := by
      simp [messageParts]
    rw [hshape]
    exact suffix_toList_jsJoin _ _ _
  · intro hne
    rw [hmsg]
    apply infix_toList_jsJoin
    have hct : closeText rt (some previousCandle) = some (rt.toFixed q 2) := by
      simp [closeText, hclose, hq, JsVal.isFinite, JsNum.isFinite, formatDecimal]
    simp [messageParts, hct, pushedSentence, hne]
  · intro hlower hfixed hlocale
    have hsafe := headlineOf_prefix_safe rt options previousCandle (evaluateMatches candle)
      hlower hlocale
    have htail := pair_not_infix_of_ne_M
      (messageParts_tail_ne_M rt options previousCandle hfixed)
    have hlist : (buildFriendlyWhatsAppMessage rt options).toList
        = ((("I juust spotted a candle on the " ++ normalizePairName rt options.symbol ++
              " pair similar to your pattern" ++
              timeframeTextOf rt options.timeframe).toList ++
            ((timeNoteOf rt previousCandle).toList ++ ", ".toList)) ++
            (if (evaluateMatches candle).greenAbove then "it's a green above the ".toList
              else "it's a red below the ".toList)) ++
          (['M', 'A'] ++ (['.'] ++ (" ".toList ++ (jsJoin " "
            (pushedSentence "It closed around " (closeText rt (some previousCandle)) ++
              (pushedSentence "The one forming now is hovering close to "
                (closeText rt options.formingCandle) ++
              ["Please do well to check it out."]))).toList))) := by
      rw [hmsg, toList_message, toList_headlineOf]
      simp only [List.append_assoc]
    cases hg : (evaluateMatches candle).greenAbove with
    | true =>
      have hr := hexcl hg
      rw [hg] at hsafe hlist
      simp only [if_true] at hsafe hlist
      refine ⟨⟨fun _ => rfl, fun _ => hgreen hg⟩, ?_⟩
      rw [hr]
      refine ⟨fun h => ?_, fun h => by cases h⟩
      exfalso
      rw [hlist] at h
      exact fragment_not_infix _ _ "it's a red below the ".toList _ hsafe htail
        (by decide) (by decide) h
    | false =>
      have hr : (evaluateMatches candle).redBelow = true := by
        rw [hg] at hv
        simpa using hv
      rw [hg] at hsafe hlist
      simp only [Bool.false_eq_true, if_false] at hsafe hlist
      refine ⟨⟨fun h => ?_, fun h => by cases h⟩, ⟨fun _ => hr, fun _ => hred hr⟩⟩
      exfalso
      rw [hlist] at h
      exact fragment_not_infix _ _ "it's a green above the ".toList _ hsafe htail
        (by decide) (by decide) h
  · intro c hc
    simp [closeText, hc, pushedSentence]

/-! ### The closes behind the reported SMA -/

theorem recentStart_lt (n : ℕ) (x : JsNum) (hn : 0 < n) :
    JsNum.sliceIndex n (JsNum.neg (JsNum.max x (JsNum.fin 1))) < n := by
  cases x with
  | fin r =>
    rw [JsNum.max_fin_one, JsNum.sliceIndex_neg_of_one_le _ _ (le_max_right r 1)]
    have : 1 ≤ ⌊Max.max r 1⌋₊ := Nat.le_floor (by simp)
    omega
  | nan => simpa [JsNum.max, JsNum.neg, JsNum.sliceIndex] using hn
  | posInf => simpa [JsNum.max, JsNum.lt, JsNum.neg, JsNum.sliceIndex] using hn
  | negInf =>
    have h1 : JsNum.max JsNum.negInf (JsNum.fin 1) = JsNum.fin 1 := by
      simp [JsNum.max, JsNum.lt]
    rw [h1, JsNum.sliceIndex_neg_of_one_le _ _ (le_refl 1)]
    simp only [Nat.floor_one]
    omega

theorem length_analysisCandles (f : String → JsNum) (sp : JsVal) (ps : List Bar) :
    (analysisCandles f sp ps).length = ps.length := by
  simp [analysisCandles, length_attachSMA, length_buildCandles]

theorem latestOf_recentWindow (f : String → JsNum) (rc : JsVal) (cs : List Candle)
    (hn : 0 < cs.length) :
    latestOf (recentWindow f rc cs) = cs[cs.length - 1]? := by
  have hk := recentStart_lt cs.length (rc.toNumeric f) hn
  simp only [latestOf, recentWindow, jsSliceFrom, List.getElem?_drop, List.length_drop]
  congr 1
  omega

theorem computeSMA_finite_window (candles : List Candle) (p i : ℕ) (hp : 0 < p)
    (hi : i < candles.length) (v : JsVal)
    (hv : (computeSMA candles (JsVal.num (JsNum.fin (p : ℚ))))[i]? = some v)
    (hfin : v.isFinite = true) :
    p ≤ i ∧ ∃ c : ℕ → ℚ,
      (∀ j, i - p ≤ j → j < i →
        (candles[j]?).map Candle.close = some (JsVal.num (JsNum.fin (c j)))) ∧
      v = JsVal.num (JsNum.div
        (((List.range p).map (fun t => c (i - p + t))).foldl
          (fun acc x => JsNum.add acc (JsNum.fin x)) (JsNum.fin 0))
        (JsNum.fin (p : ℚ))) := by
  have hpi : p ≤ i := by
    by_contra hlt
    rw [computeSMA_of_lt candles p i (not_le.mp hlt) hi] at hv
    simp only [Option.some.injEq] at hv
    rw [← hv] at hfin
    cases hfin
  refine ⟨hpi, ?_⟩
  rw [computeSMA_getElem_window candles p i hp hpi hi] at hv
  simp only [Option.some.injEq] at hv
  by_cases hany : ((candles.drop (i - p)).take p).any (fun item => !item.close.isFinite) = true
  · rw [if_pos hany] at hv
    rw [← hv] at hfin
    cases hfin
  · rw [if_neg hany] at hv
    have hall : ∀ j, i - p ≤ j → j < i →
        ∃ q, (candles[j]?).map Candle.close = some (JsVal.num (JsNum.fin q)) := by
      intro j hj1 hj2
      have hjl : j < candles.length := by omega
      have hmem : candles[j] ∈ (candles.drop (i - p)).take p := by
        rw [List.mem_iff_getElem?]
        refine ⟨j - (i - p), ?_⟩
        rw [List.getElem?_take, if_pos (by omega), List.getElem?_drop]
        have : i - p + (j - (i - p)) = j := by omega
        rw [this, List.getElem?_eq_getElem hjl]
      have hf : candles[j].close.isFinite = true := by
        by_contra hnf
        apply hany
        rw [List.any_eq_true]
        exact ⟨_, hmem, by simpa using hnf⟩
      obtain ⟨q, hq⟩ := (JsVal.isFinite_iff _).mp hf
      exact ⟨q, by rw [List.getElem?_eq_getElem hjl, Option.map_some', hq]⟩
    choose! c hc using hall
    refine ⟨c, hc, ?_⟩
    have hlen : ((candles.drop (i - p)).take p).length = p := by
      simp only [List.length_take, List.length_drop]; omega
    have hget : ∀ t, t < ((candles.drop (i - p)).take p).length →
        (((candles.drop (i - p)).take p)[t]?).map Candle.close
          = some (JsVal.num (JsNum.fin (c ((i - p) + t)))) := by
      intro t ht
      rw [hlen] at ht
      rw [List.getElem?_take, if_pos ht, List.getElem?_drop]
      exact hc _ (by omega) (by omega)
    have hsum := foldl_close_eq _ c (i - p) (JsNum.fin 0) hget
    rw [hsum, hlen] at hv
    rw [← hv]

theorem closesUsedOf_of_finite (cs : List Candle) (p : ℕ) (hp1 : p + 1 ≤ cs.length) :
    closesUsedOf (JsVal.num (JsNum.fin (p : ℚ))) cs true
      = ((cs.drop (cs.length - 1 - p)).take p).map
          (fun c => ({ timestamp := c.timestamp, close := c.close } : CloseUsed)) := by
  have hsub : JsNum.sub (JsNum.fin ((cs.length : ℚ) - 1)) (JsNum.fin (p : ℚ))
      = JsNum.fin ((cs.length - 1 - p : ℕ) : ℚ) := by
    simp only [JsNum.sub]
    congr 1
    have h1 : 1 ≤ cs.length := by omega
    have h2 : p ≤ cs.length - 1 := by omega
    rw [Nat.cast_sub h2, Nat.cast_sub h1]
    push_cast
    ring
  have hlast : JsNum.fin ((cs.length : ℚ) - 1) = JsNum.fin ((cs.length - 1 : ℕ) : ℚ) := by
    congr 1
    have h1 : 1 ≤ cs.length := by omega
    rw [Nat.cast_sub h1]
    push_cast
    ring
  have hge : JsNum.ge (JsNum.fin ((cs.length - 1 - p : ℕ) : ℚ)) (JsNum.fin 0) = true := by
    simp [JsNum.ge, JsNum.le]
  simp only [closesUsedOf, if_true, JsVal.asNum_num, hsub, hge, Bool.and_self]
  rw [hlast]
  simp only [jsSlice, JsNum.sliceIndex_natCast]
  have h1 : Nat.min (cs.length - 1 - p) cs.length = cs.length - 1 - p :=
    Nat.min_eq_left (by omega)
  have h2 : Nat.min (cs.length - 1) cs.length = cs.length - 1 := Nat.min_eq_left (by omega)
  rw [h1, h2]
  have h3 : cs.length - 1 - (cs.length - 1 - p) = p := by omega
  rw [h3]

theorem fetchTradingViewAnalysis_sma (f : String → JsNum) (options : AnalysisOptions)
    (fetched : Fetched) (hne : fetched.periods ≠ []) :
    ∃ a, fetchTradingViewAnalysis f options fetched = Except.ok a ∧
      a.sma =
        if (((computeSMA (buildCandles f fetched.periods) options.smaPeriod)[
            fetched.periods.length - 1]?).getD JsVal.undefined).isFinite
        then ((computeSMA (buildCandles f fetched.periods) options.smaPeriod)[
            fetched.periods.length - 1]?).getD JsVal.undefined
        else JsVal.null := by
  have hlen : ¬ (fetched.periods.length = 0) := by
    intro h; exact hne (List.length_eq_zero.mp h)
  have hn : 0 < fetched.periods.length := Nat.pos_of_ne_zero hlen
  obtain ⟨cs, hcs⟩ : ∃ cs, cs = analysisCandles f options.smaPeriod fetched.periods := ⟨_, rfl⟩
  have hcl : cs.length = fetched.periods.length := by
    rw [hcs]; exact length_analysisCandles _ _ _
  have hb1 : fetched.periods.length - 1 < fetched.periods.length := by omega
  have hlast := getElem?_analysisCandles f options.smaPeriod fetched.periods _ _
    (List.getElem?_eq_getElem hb1)
  rw [← hcs] at hlast
  have hlatest : latestOf (recentWindow f options.recentCount cs)
      = cs[fetched.periods.length - 1]? := by
    rw [latestOf_recentWindow f options.recentCount cs (by rw [hcl]; exact hn), hcl]
  unfold fetchTradingViewAnalysis
  rw [if_neg hlen]
  refine ⟨_, rfl, ?_⟩
  dsimp only
  rw [← hcs, hlatest, hlast]
  simp only [hasSMAOf]

theorem toNumber_fin (f : String → JsNum) (q : ℚ) :
    toNumber f (JsVal.num (JsNum.fin q)) = JsVal.num (JsNum.fin q) := by
  simp [toNumber, JsVal.toNumeric, JsNum.isFinite]

/-- C24, amended: with a positive integer `smaPeriod` `p` over `n` bars, a
reported `sma` that is not `null` comes with exactly `p` reported closes, the
timestamps and closes of the bars at indices `n-1-p .. n-2` in order, and is
made of those closes: they are added from the left with the operator `+`,
every partial sum rounded to a double, and the sum is divided by `p` with the
operator `/`, the quotient rounded to a double. When every partial sum and the
arithmetic mean of those closes are doubles, the reported `sma` is that mean.
The reported `sma` is not `null` exactly when the SMA of the latest bar is a
finite number, and otherwise `sma` is `null` and `closes` is empty. -/
theorem fetchTradingViewAnalysis_closes (f : String → JsNum) (options : AnalysisOptions)
    (fetched : Fetched) (p : ℕ) (hp : 0 < p)
    (hsp : options.smaPeriod = JsVal.num (JsNum.fin (p : ℚ)))
    (hne : fetched.periods ≠ []) :
    ∃ a, fetchTradingViewAnalysis f options fetched = Except.ok a ∧
      (a.sma ≠ JsVal.null →
        p + 1 ≤ fetched.periods.length ∧ a.closes.length = p ∧
        ∃ c : ℕ → ℚ,
          (∀ j, j < p → ∃ bar,
            fetched.periods[fetched.periods.length - 1 - p + j]? = some bar ∧
            toNumber f bar.close
              = JsVal.num (JsNum.fin (c (fetched.periods.length - 1 - p + j))) ∧
            a.closes[j]? = some
              { timestamp := JsVal.or bar.time JsVal.null
                close := JsVal.num (JsNum.fin (c (fetched.periods.length - 1 - p + j))) }) ∧
          a.sma = JsVal.num (JsNum.div
            (((List.range p).map (fun t => c (fetched.periods.length - 1 - p + t))).foldl
              (fun acc x => JsNum.add acc (JsNum.fin x)) (JsNum.fin 0))
            (JsNum.fin (p : ℚ))) ∧
          ((∀ t, t < p →
              JsNum.roundDouble (∑ j in Finset.Ico (fetched.periods.length - 1 - p)
                  (fetched.periods.length - 1 - p + t + 1), c j)
                = JsNum.fin (∑ j in Finset.Ico (fetched.periods.length - 1 - p)
                  (fetched.periods.length - 1 - p + t + 1), c j)) →
            JsNum.roundDouble
                ((∑ j in Finset.Ico (fetched.periods.length - 1 - p)
                  (fetched.periods.length - 1), c j) / (p : ℚ))
              = JsNum.fin
                ((∑ j in Finset.Ico (fetched.periods.length - 1 - p)
                  (fetched.periods.length - 1), c j) / (p : ℚ)) →
            a.sma = JsVal.num (JsNum.fin
              ((∑ j in Finset.Ico (fetched.periods.length - 1 - p)
                (fetched.periods.length - 1), c j) / (p : ℚ))))) ∧
      (a.sma ≠ JsVal.null ↔
        (((computeSMA (buildCandles f fetched.periods) options.smaPeriod)[
          fetched.periods.length - 1]?).getD JsVal.undefined).isFinite = true) ∧
      ((((computeSMA (buildCandles f fetched.periods) options.smaPeriod)[
          fetched.periods.length - 1]?).getD JsVal.undefined).isFinite = false →
        a.sma = JsVal.null ∧ a.closes = []) := by
  have hlen : ¬ (fetched.periods.length = 0) := by
    intro h; exact hne (List.length_eq_zero.mp h)
  have hn : 0 < fetched.periods.length := Nat.pos_of_ne_zero hlen
  obtain ⟨cs, hcs⟩ : ∃ cs, cs = analysisCandles f options.smaPeriod fetched.periods := ⟨_, rfl⟩
  have hcl : cs.length = fetched.periods.length := by
    rw [hcs]; exact length_analysisCandles _ _ _
  have hb1 : fetched.periods.length - 1 < fetched.periods.length := by omega
  have hbl : (buildCandles f fetched.periods).length = fetched.periods.length :=
    length_buildCandles _ _
  obtain ⟨s, hs⟩ : ∃ s, s = ((computeSMA (buildCandles f fetched.periods)
      options.smaPeriod)[fetched.periods.length - 1]?).getD JsVal.undefined := ⟨_, rfl⟩
  have hsv : (computeSMA (buildCandles f fetched.periods)
      (JsVal.num (JsNum.fin (p : ℚ))))[fetched.periods.length - 1]? = some s := by
    have hlt : fetched.periods.length - 1 < (computeSMA (buildCandles f fetched.periods)
        (JsVal.num (JsNum.fin (p : ℚ)))).length := by
      rw [length_computeSMA, hbl]; exact hb1
    rw [hs, hsp, List.getElem?_eq_getElem hlt]
    rfl
  have hlast := getElem?_analysisCandles f options.smaPeriod fetched.periods _ _
    (List.getElem?_eq_getElem hb1)
  rw [← hcs, ← hs] at hlast
  have hlatest : latestOf (recentWindow f options.recentCount cs)
      = cs[fetched.periods.length - 1]? := by
    rw [latestOf_recentWindow f options.recentCount cs (by rw [hcl]; exact hn), hcl]
  unfold fetchTradingViewAnalysis
  rw [if_neg hlen]
  refine ⟨_, rfl, ?_⟩
  dsimp only
  rw [← hcs, hlatest, hlast, ← hs]
  simp only [hasSMAOf]
  cases hfin : s.isFinite with
  | false =>
    simp only [Bool.false_eq_true, if_false, ne_eq, not_true_eq_false, false_implies,
      iff_self, true_and]
    intro _
    simp [closesUsedOf]
  | true =>
    have hsn : s ≠ JsVal.null := by
      intro h; rw [h] at hfin; cases hfin
    simp only [if_true, ne_eq, hsn, not_false_eq_true, true_implies, iff_self,
      Bool.true_eq_false, false_implies, and_true]
    obtain ⟨hpi, c, hc, hvalue⟩ := computeSMA_finite_window (buildCandles f fetched.periods)
      p (fetched.periods.length - 1) hp (by rw [hbl]; exact hb1) s hsv hfin
    have hp1 : p + 1 ≤ cs.length := by rw [hcl]; omega
    rw [hsp, closesUsedOf_of_finite cs p hp1, hcl]
    refine ⟨by omega, ?_, c, ?_, hvalue, ?_⟩
    rotate_left 2
    · intro hsums hmean
      rw [hvalue, div_of_exact_sum c p (fetched.periods.length - 1) hp hpi hsums hmean]
    · simp only [List.length_map, List.length_take, List.length_drop, hcl]
      omega
    · intro j hj
      have hjl : fetched.periods.length - 1 - p + j < fetched.periods.length := by omega
      refine ⟨fetched.periods[fetched.periods.length - 1 - p + j],
        List.getElem?_eq_getElem hjl, ?_, ?_⟩
      · have hb := getElem?_buildCandles f fetched.periods _ _ (List.getElem?_eq_getElem hjl)
        have := hc (fetched.periods.length - 1 - p + j) (by omega) (by omega)
        rw [hb] at this
        simpa using this
      · have hcand := getElem?_analysisCandles f options.smaPeriod fetched.periods _ _
          (List.getElem?_eq_getElem hjl)
        rw [← hcs] at hcand
        have hb := getElem?_buildCandles f fetched.periods _ _ (List.getElem?_eq_getElem hjl)
        have hcj := hc (fetched.periods.length - 1 - p + j) (by omega) (by omega)
        rw [hb] at hcj
        simp only [Option.map_some', Option.some.injEq] at hcj
        rw [List.getElem?_map, List.getElem?_take, if_pos hj, List.getElem?_drop, hcand]
        simp only [Option.map_some', hcj]

/-! ### The returned window of candles -/

theorem fetchTradingViewAnalysis_ok (f : String → JsNum) (options : AnalysisOptions)
    (fetched : Fetched) (hne : fetched.periods ≠ []) :
    ∃ a, fetchTradingViewAnalysis f options fetched = Except.ok a ∧
      a.candles = (recentWindow f options.recentCount
        (analysisCandles f options.smaPeriod fetched.periods)).map
          (toRecentCandle ((analysisCandles f options.smaPeriod fetched.periods)[
            fetched.periods.length - 1]?)) ∧
      a.recentCount = a.candles.length ∧
      a.totalBarsFetched = fetched.periods.length := by
  have hlen : ¬ (fetched.periods.length = 0) := by
    intro h; exact hne (List.length_eq_zero.mp h)
  have hn : 0 < fetched.periods.length := Nat.pos_of_ne_zero hlen
  have hcl := length_analysisCandles f options.smaPeriod fetched.periods
  have hlatest := latestOf_recentWindow f options.recentCount
    (analysisCandles f options.smaPeriod fetched.periods) (by rw [hcl]; exact hn)
  rw [hcl] at hlatest
  unfold fetchTradingViewAnalysis
  rw [if_neg hlen]
  refine ⟨_, rfl, ?_, rfl, hcl⟩
  simp only [recentCandlesOf, hlatest]

theorem length_recentWindow (f : String → JsNum) (rc : JsVal) (cs : List Candle) :
    (recentWindow f rc cs).length
      = cs.length - JsNum.sliceIndex cs.length
          (JsNum.neg (JsNum.max (rc.toNumeric f) (JsNum.fin 1))) := by
  simp [recentWindow, jsSliceFrom]

theorem recentStart_fin (n : ℕ) (r : ℚ) :
    n - JsNum.sliceIndex n (JsNum.neg (JsNum.max (JsNum.fin r) (JsNum.fin 1)))
      = Nat.min n ⌊Max.max r 1⌋₊ := by
  rw [JsNum.max_fin_one, JsNum.sliceIndex_neg_of_one_le _ _ (le_max_right r 1)]
  simp only [Nat.min_def]
  split_ifs <;> omega

/-- C25, amended: over `n ≥ 1` bars and a `recentCount` that is a number, the
returned candles are the last `count` fetched bars in order, where `count` is
`min(n, floor(max(recentCount, 1)))` for a finite `recentCount` (for an integer
one `min(n, max(recentCount, 1))`), `n` for `NaN` and `Infinity` and 1 for
`-Infinity`; the field `recentCount` is `count`, `totalBarsFetched` is `n`, and
the last returned candle is the only one with `forming = true`. -/
theorem fetchTradingViewAnalysis_window (f : String → JsNum) (options : AnalysisOptions)
    (fetched : Fetched) (x : JsNum)
    (hrc : options.recentCount = JsVal.num x) (hne : fetched.periods ≠ []) :
    ∃ a, fetchTradingViewAnalysis f options fetched = Except.ok a ∧
      (∀ r : ℚ, x = JsNum.fin r →
        a.candles.length = Nat.min fetched.periods.length ⌊Max.max r 1⌋₊) ∧
      (∀ z : ℤ, x = JsNum.fin (z : ℚ) →
        (a.candles.length : ℤ) = Min.min (fetched.periods.length : ℤ) (Max.max z 1)) ∧
      (x = JsNum.nan ∨ x = JsNum.posInf → a.candles.length = fetched.periods.length) ∧
      (x = JsNum.negInf → a.candles.length = 1) ∧
      1 ≤ a.candles.length ∧ a.candles.length ≤ fetched.periods.length ∧
      a.recentCount = a.candles.length ∧
      a.totalBarsFetched = fetched.periods.length ∧
      (∀ j, j < a.candles.length → ∃ bar rcd,
        fetched.periods[fetched.periods.length - a.candles.length + j]? = some bar ∧
        a.candles[j]? = some rcd ∧
        rcd.index = fetched.periods.length - a.candles.length + j ∧
        rcd.number = fetched.periods.length - a.candles.length + j + 1 ∧
        rcd.timestamp = JsVal.or bar.time JsVal.null ∧
        rcd.open_ = toNumber f bar.open_ ∧
        rcd.high = toNumber f bar.high ∧
        rcd.low = toNumber f bar.low ∧
        rcd.close = toNumber f bar.close ∧
        rcd.volume = toNumber f bar.volume ∧
        (rcd.forming = true ↔ j = a.candles.length - 1)) := by
  have hlen : ¬ (fetched.periods.length = 0) := by
    intro h; exact hne (List.length_eq_zero.mp h)
  have hn : 0 < fetched.periods.length := Nat.pos_of_ne_zero hlen
  obtain ⟨a, ha, hcandles, hcount, htotal⟩ := fetchTradingViewAnalysis_ok f options fetched hne
  obtain ⟨cs, hcs⟩ : ∃ cs, cs = analysisCandles f options.smaPeriod fetched.periods := ⟨_, rfl⟩
  have hcl : cs.length = fetched.periods.length := by
    rw [hcs]; exact length_analysisCandles _ _ _
  obtain ⟨k, hk⟩ : ∃ k, k = JsNum.sliceIndex fetched.periods.length
      (JsNum.neg (JsNum.max x (JsNum.fin 1))) := ⟨_, rfl⟩
  have hklt : k < fetched.periods.length := by
    rw [hk]; exact recentStart_lt _ _ hn
  rw [← hcs] at hcandles
  have hrecent : recentWindow f options.recentCount cs = cs.drop k := by
    simp only [recentWindow, jsSliceFrom, hrc, JsVal.toNumeric, hcl, hk]
  have hal : a.candles.length = fetched.periods.length - k := by
    rw [hcandles, hrecent, List.length_map, List.length_drop, hcl]
  refine ⟨a, ha, ?_, ?_, ?_, ?_, by omega, by omega, hcount, htotal, ?_⟩
  · intro r hr
    rw [hal, hk, hr]
    exact recentStart_fin _ _
  · intro z hz
    rw [hal, hk, hz, recentStart_fin]
    have hfloor : ⌊Max.max (z : ℚ) 1⌋₊ = (Max.max z 1).toNat := by
      have : Max.max (z : ℚ) 1 = ((Max.max z 1 : ℤ) : ℚ) := by push_cast; rfl
      rw [this, ← Int.floor_toNat, Int.floor_intCast]
    rw [hfloor]
    have h1 : (1 : ℤ) ≤ Max.max z 1 := le_max_right _ _
    simp only [Nat.min_def, min_def]
    split_ifs <;> omega
  · rintro (hx | hx)
    · rw [hal, hk, hx]
      simp [JsNum.max, JsNum.neg, JsNum.sliceIndex]
    · rw [hal, hk, hx]
      simp [JsNum.max, JsNum.lt, JsNum.neg, JsNum.sliceIndex]
  · intro hx
    have h1 : JsNum.max JsNum.negInf (JsNum.fin 1) = JsNum.fin 1 := by
      simp [JsNum.max, JsNum.lt]
    rw [hal, hk, hx, h1, JsNum.sliceIndex_neg_of_one_le _ _ (le_refl 1)]
    simp only [Nat.floor_one]
    omega
  · intro j hj
    have hidx : fetched.periods.length - a.candles.length + j = k + j := by omega
    have hjl : k + j < fetched.periods.length := by omega
    have hb1 : fetched.periods.length - 1 < fetched.periods.length := by omega
    have hcand := getElem?_analysisCandles f options.smaPeriod fetched.periods _ _
      (List.getElem?_eq_getElem hjl)
    have hcand1 := getElem?_analysisCandles f options.smaPeriod fetched.periods _ _
      (List.getElem?_eq_getElem hb1)
    rw [← hcs] at hcand hcand1
    rw [hidx]
    have hget : a.candles[j]? = some (toRecentCandle
        (some
          { index := fetched.periods.length - 1
            number := fetched.periods.length - 1 + 1
            timestamp := JsVal.or fetched.periods[fetched.periods.length - 1].time JsVal.null
            open_ := toNumber f fetched.periods[fetched.periods.length - 1].open_
            high := toNumber f fetched.periods[fetched.periods.length - 1].high
            low := toNumber f fetched.periods[fetched.periods.length - 1].low
            close := toNumber f fetched.periods[fetched.periods.length - 1].close
            volume := toNumber f fetched.periods[fetched.periods.length - 1].volume
            sma := ((computeSMA (buildCandles f fetched.periods) options.smaPeriod)[
              fetched.periods.length - 1]?).getD JsVal.undefined })
        { index := k + j
          number := k + j + 1
          timestamp := JsVal.or fetched.periods[k + j].time JsVal.null
          open_ := toNumber f fetched.periods[k + j].open_
          high := toNumber f fetched.periods[k + j].high
          low := toNumber f fetched.periods[k + j].low
          close := toNumber f fetched.periods[k + j].close
          volume := toNumber f fetched.periods[k + j].volume
          sma := ((computeSMA (buildCandles f fetched.periods) options.smaPeriod)[
            k + j]?).getD JsVal.undefined }) := by
      rw [hcandles, hrecent, List.getElem?_map, List.getElem?_drop, hcand, hcand1,
        Option.map_some']
    refine ⟨fetched.periods[k + j], _, List.getElem?_eq_getElem hjl, hget, ?_⟩
    · simp only [toRecentCandle, Option.map_some', Option.some.injEq, decide_eq_true_eq,
        true_and]
      omega

/-! ### A failed delivery and the retrying cycle -/

theorem pollSymbol_cases (up : String → String) (build : MessageInput → String)
    (cred : Credentials) (st : AlertState) (symbol : String) (a : Analysis)
    (d : Except String String) :
    (pollSymbol up build cred st symbol (Except.ok a) d
        = (Except.ok { symbol := symbol, verified := false, sent := false }, st)) ∨
    (((prevTimestampOf (prepareWhatsAppAlert build a)).truthy = true ∧
        (prepareWhatsAppAlert build a).isVerified = true ∧
        trimmedMessageOf (prepareWhatsAppAlert build a) ≠ "") ∧
      ((st.lastAlertTimestamp.get? (up symbol)
            = some (prevTimestampOf (prepareWhatsAppAlert build a)) ∧
          pollSymbol up build cred st symbol (Except.ok a) d
            = (Except.ok { symbol := symbol, verified := true, sent := false }, st)) ∨
        (st.lastAlertTimestamp.get? (up symbol)
            ≠ some (prevTimestampOf (prepareWhatsAppAlert build a)) ∧
          ((∃ e, d = Except.error e ∧
              pollSymbol up build cred st symbol (Except.ok a) d
                = (Except.error e,
                    { st with sendCalls := st.sendCalls ++
                        [{ phone := cred.phone, apiKey := cred.apiKey,
                           text := trimmedMessageOf (prepareWhatsAppAlert build a),
                           delivered := false }] })) ∨
            (∃ resp, d = Except.ok resp ∧
              pollSymbol up build cred st symbol (Except.ok a) d
                = (Except.ok { symbol := symbol, verified := true, sent := true },
                    { lastAlertTimestamp := st.lastAlertTimestamp.set (up symbol)
                        (prevTimestampOf (prepareWhatsAppAlert build a))
                      sendCalls := st.sendCalls ++
                        [{ phone := cred.phone, apiKey := cred.apiKey,
                           text := trimmedMessageOf (prepareWhatsAppAlert build a),
                           delivered := true }] })))))) := by
  by_cases h : (prevTimestampOf (prepareWhatsAppAlert build a)).truthy = true ∧
      (prepareWhatsAppAlert build a).isVerified = true ∧
      trimmedMessageOf (prepareWhatsAppAlert build a) ≠ ""
  · refine Or.inr ⟨h, ?_⟩
    have hv := pollSymbol_verified up build cred st symbol a d h.1 h.2.1 h.2.2
    by_cases hrec : st.lastAlertTimestamp.get? (up symbol)
        = some (prevTimestampOf (prepareWhatsAppAlert build a))
    · rw [if_pos hrec] at hv
      exact Or.inl ⟨hrec, hv⟩
    · rw [if_neg hrec] at hv
      refine Or.inr ⟨hrec, ?_⟩
      cases d with
      | error e => exact Or.inl ⟨e, rfl, hv⟩
      | ok resp => exact Or.inr ⟨resp, rfl, hv⟩
  · exact Or.inl (pollSymbol_unverified up build cred st symbol a d h)

theorem pollSymbol_get?_other (up : String → String) (build : MessageInput → String)
    (cred : Credentials) (st : AlertState) (symbol : String) (o : Except String Analysis)
    (d : Except String String) (key : String) (hkey : up symbol ≠ key) :
    (pollSymbol up build cred st symbol o d).2.lastAlertTimestamp.get? key
      = st.lastAlertTimestamp.get? key := by
  cases o with
  | error e => rfl
  | ok a =>
    rcases pollSymbol_cases up build cred st symbol a d with
      h | ⟨-, ⟨-, h⟩ | ⟨-, ⟨e, -, h⟩ | ⟨resp, -, h⟩⟩⟩
    · rw [h]
    · rw [h]
    · rw [h]
    · rw [h]
      exact JsMap.get?_set_of_ne _ _ _ _ hkey

theorem pollResults_cons_state (up : String → String) (build : MessageInput → String)
    (cred : Credentials) (st : AlertState) (x : String × PollInputs)
    (rest : List (String × PollInputs)) :
    (pollResults up build cred st (x :: rest)).2
      = (pollResults up build cred
          (pollSymbol up build cred st x.1 x.2.analysis x.2.delivery).2 rest).2 := by
  obtain ⟨symbol, inputs⟩ := x
  simp only [pollResults]

theorem pollResults_get?_other (up : String → String) (build : MessageInput → String)
    (cred : Credentials) (key : String) (symbols : List (String × PollInputs)) :
    ∀ st : AlertState, (∀ x ∈ symbols, up x.1 ≠ key) →
      (pollResults up build cred st symbols).2.lastAlertTimestamp.get? key
        = st.lastAlertTimestamp.get? key := by
  induction symbols with
  | nil => intro st _; rfl
  | cons x rest ih =>
    intro st h
    rw [pollResults_cons_state, ih _ (fun y hy => h y (List.mem_cons_of_mem _ hy))]
    exact pollSymbol_get?_other up build cred st x.1 x.2.analysis x.2.delivery key
      (h x (List.mem_cons_self _ _))

theorem pollResults_append_state (up : String → String) (build : MessageInput → String)
    (cred : Credentials) (xs ys : List (String × PollInputs)) :
    ∀ st : AlertState, (pollResults up build cred st (xs ++ ys)).2
      = (pollResults up build cred (pollResults up build cred st xs).2 ys).2 := by
  induction xs with
  | nil => intro st; rfl
  | cons x xs ih =>
    intro st
    rw [List.cons_append, pollResults_cons_state, pollResults_cons_state, ih]

theorem list_split_at {α : Type} (l : List α) (k : ℕ) (x : α) (h : l[k]? = some x) :
    l = l.take k ++ x :: l.drop (k + 1) := by
  obtain ⟨hk, hx⟩ := List.getElem?_eq_some_iff.mp h
  rw [← hx, ← List.drop_eq_getElem_cons hk, List.take_append_drop]

theorem keys_apart (up : String → String) (symbols : List (String × PollInputs)) (k : ℕ)
    (s : String) (i : PollInputs) (h : symbols[k]? = some (s, i))
    (hnodup : (symbols.map (fun x => up x.1)).Nodup) :
    (∀ x ∈ symbols.take k, up x.1 ≠ up s) ∧ (∀ x ∈ symbols.drop (k + 1), up x.1 ≠ up s) := by
  have hsplit := list_split_at symbols k (s, i) h
  rw [hsplit, List.map_append, List.map_cons, List.nodup_append] at hnodup
  obtain ⟨-, hright, hdisj⟩ := hnodup
  rw [List.nodup_cons] at hright
  constructor
  · intro x hx heq
    exact hdisj (List.mem_map.mpr ⟨x, hx, rfl⟩) (by rw [heq]; exact List.mem_cons_self _ _)
  · intro x hx heq
    exact hright.1 (by rw [← heq]; exact List.mem_map.mpr ⟨x, hx, rfl⟩)

theorem pollSymbol_phases (up : String → String) (build : MessageInput → String)
    (cred : Credentials) (st : AlertState) (symbol : String) (analysis : Except String Analysis)
    (delivery : Except String String) :
    (∀ o, pollSymbolToSend up build st symbol analysis = PollProgress.settled o →
      pollSymbol up build cred st symbol analysis delivery = (o, st)) ∧
    (∀ ts text,
      pollSymbolToSend up build st symbol analysis = PollProgress.awaitingDelivery ts text →
      pollSymbol up build cred st symbol analysis delivery
        = pollSymbolAfterSend up cred st symbol ts text delivery) ∧
    pollSymbolToSend up build st symbol analysis ≠ PollProgress.awaitingAnalysis := by
  cases analysis with
  | error e =>
    simp only [pollSymbolToSend, pollSymbol]
    refine ⟨?_, ?_, ?_⟩
    · intro o ho
      rw [← PollProgress.settled.inj ho]
    · intro ts text h
      cases h
    · intro h
      cases h
  | ok a =>
    simp only [pollSymbolToSend, pollSymbol, pollSymbolAfterSend]
    split_ifs with hg hd
    · refine ⟨?_, ?_, ?_⟩
      · intro o ho
        rw [← PollProgress.settled.inj ho]
      · intro ts text h
        cases h
      · intro h
        cases h
    · refine ⟨?_, ?_, ?_⟩
      · intro o ho
        rw [← PollProgress.settled.inj ho]
      · intro ts text h
        cases h
      · intro h
        cases h
    · refine ⟨?_, ?_, ?_⟩
      · intro o ho
        cases ho
      · intro ts text h
        cases h
        rfl
      · intro h
        cases h

theorem pollSymbolToSend_congr (up : String → String) (build : MessageInput → String)
    (st st2 : AlertState) (symbol : String) (analysis : Except String Analysis)
    (h : st.lastAlertTimestamp.get? (up symbol) = st2.lastAlertTimestamp.get? (up symbol)) :
    pollSymbolToSend up build st symbol analysis
      = pollSymbolToSend up build st2 symbol analysis := by
  simp only [pollSymbolToSend, h]

theorem pollSymbolAfterSend_record (up : String → String) (cred : Credentials)
    (st st2 : AlertState) (symbol : String) (ts : JsVal) (text : String)
    (delivery : Except String String)
    (h : st.lastAlertTimestamp.get? (up symbol) = st2.lastAlertTimestamp.get? (up symbol)) :
    (pollSymbolAfterSend up cred st symbol ts text delivery).1
      = (pollSymbolAfterSend up cred st2 symbol ts text delivery).1 ∧
    (pollSymbolAfterSend up cred st symbol ts text delivery).2.lastAlertTimestamp.get?
        (up symbol)
      = (pollSymbolAfterSend up cred st2 symbol ts text delivery).2.lastAlertTimestamp.get?
        (up symbol) := by
  cases delivery with
  | error e => exact ⟨rfl, h⟩
  | ok r =>
    refine ⟨rfl, ?_⟩
    simp only [pollSymbolAfterSend, JsMap.get?_set_self]

theorem pollSymbolAfterSend_other (up : String → String) (cred : Credentials)
    (st : AlertState) (symbol : String) (ts : JsVal) (text : String)
    (delivery : Except String String) (key : String) (hkey : up symbol ≠ key) :
    (pollSymbolAfterSend up cred st symbol ts text delivery).2.lastAlertTimestamp.get? key
      = st.lastAlertTimestamp.get? key := by
  cases delivery with
  | error e => rfl
  | ok r =>
    simp only [pollSymbolAfterSend]
    exact JsMap.get?_set_of_ne _ _ _ _ hkey

theorem pollAllStep_other (up : String → String) (build : MessageInput → String)
    (cred : Credentials) (symbols : List (String × PollInputs)) (cycle : PollCycle)
    (i k : ℕ) (key : String) (hik : i ≠ k)
    (hkey : ∀ sym inputs, symbols[i]? = some (sym, inputs) → up sym ≠ key) :
    (pollAllStep up build cred symbols cycle i).progress[k]? = cycle.progress[k]? ∧
    (pollAllStep up build cred symbols cycle i).alert.lastAlertTimestamp.get? key
      = cycle.alert.lastAlertTimestamp.get? key := by
  unfold pollAllStep
  cases hs : symbols[i]? with
  | none => exact ⟨rfl, rfl⟩
  | some entry =>
    obtain ⟨sym, inputs⟩ := entry
    cases hp : cycle.progress[i]? with
    | none => exact ⟨rfl, rfl⟩
    | some progress =>
      cases progress with
      | awaitingAnalysis =>
        exact ⟨List.getElem?_set_ne hik, rfl⟩
      | awaitingDelivery ts text =>
        exact ⟨List.getElem?_set_ne hik,
          pollSymbolAfterSend_other up cred _ sym ts text _ key (hkey sym inputs hs)⟩
      | settled o => exact ⟨rfl, rfl⟩

theorem pollAllStep_invariant (up : String → String) (build : MessageInput → String)
    (cred : Credentials) (st : AlertState) (symbols : List (String × PollInputs))
    (k : ℕ) (s : String) (inputs : PollInputs) (hk : symbols[k]? = some (s, inputs))
    (hkeys : ∀ j sym inp, j ≠ k → symbols[j]? = some (sym, inp) → up sym ≠ up s)
    (cycle : PollCycle) (i n : ℕ)
    (hinv : (n = 0 ∧ cycle.progress[k]? = some PollProgress.awaitingAnalysis ∧
        cycle.alert.lastAlertTimestamp.get? (up s) = st.lastAlertTimestamp.get? (up s)) ∨
      (n = 1 ∧ cycle.progress[k]? = some (pollSymbolToSend up build st s inputs.analysis) ∧
        cycle.alert.lastAlertTimestamp.get? (up s) = st.lastAlertTimestamp.get? (up s)) ∨
      (2 ≤ n ∧ cycle.progress[k]? = some (PollProgress.settled
          (pollSymbol up build cred st s inputs.analysis inputs.delivery).1) ∧
        cycle.alert.lastAlertTimestamp.get? (up s)
          = (pollSymbol up build cred st s inputs.analysis
              inputs.delivery).2.lastAlertTimestamp.get? (up s))) :
    ((n + (if i = k then 1 else 0) = 0 ∧
        (pollAllStep up build cred symbols cycle i).progress[k]?
          = some PollProgress.awaitingAnalysis ∧
        (pollAllStep up build cred symbols cycle i).alert.lastAlertTimestamp.get? (up s)
          = st.lastAlertTimestamp.get? (up s)) ∨
      (n + (if i = k then 1 else 0) = 1 ∧
        (pollAllStep up build cred symbols cycle i).progress[k]?
          = some (pollSymbolToSend up build st s inputs.analysis) ∧
        (pollAllStep up build cred symbols cycle i).alert.lastAlertTimestamp.get? (up s)
          = st.lastAlertTimestamp.get? (up s)) ∨
      (2 ≤ n + (if i = k then 1 else 0) ∧
        (pollAllStep up build cred symbols cycle i).progress[k]?
          = some (PollProgress.settled
            (pollSymbol up build cred st s inputs.analysis inputs.delivery).1) ∧
        (pollAllStep up build cred symbols cycle i).alert.lastAlertTimestamp.get? (up s)
          = (pollSymbol up build cred st s inputs.analysis
              inputs.delivery).2.lastAlertTimestamp.get? (up s))) := by
  obtain ⟨hsettled, hsend, hnot⟩ := pollSymbol_phases up build cred st s inputs.analysis
    inputs.delivery
  by_cases hik : i = k
  · subst hik
    rw [if_pos rfl]
    rcases hinv with ⟨hn, hp, hrec⟩ | ⟨hn, hp, hrec⟩ | ⟨hn, hp, hrec⟩
    · right; left
      have hlt : i < cycle.progress.length := (List.getElem?_eq_some_iff.mp hp).1
      refine ⟨by omega, ?_, ?_⟩
      · simp only [pollAllStep, hk, hp]
        rw [List.getElem?_set_self hlt, pollSymbolToSend_congr up build _ st s _ hrec]
      · simp only [pollAllStep, hk, hp]
        exact hrec
    · right; right
      have hlt : i < cycle.progress.length := (List.getElem?_eq_some_iff.mp hp).1
      cases hx : pollSymbolToSend up build st s inputs.analysis with
      | awaitingAnalysis => exact absurd hx hnot
      | awaitingDelivery ts text =>
        rw [hx] at hp
        have hP := hsend ts text hx
        obtain ⟨h1, h2⟩ := pollSymbolAfterSend_record up cred cycle.alert st s ts text
          inputs.delivery hrec
        refine ⟨by omega, ?_, ?_⟩
        · simp only [pollAllStep, hk, hp]
          rw [List.getElem?_set_self hlt, hP, h1]
        · simp only [pollAllStep, hk, hp]
          rw [hP, h2]
      | settled o =>
        rw [hx] at hp
        have hP := hsettled o hx
        refine ⟨by omega, ?_, ?_⟩
        · simp only [pollAllStep, hk, hp]
          rw [hP]
        · simp only [pollAllStep, hk, hp]
          rw [hP]; exact hrec
    · right; right
      refine ⟨by omega, ?_, ?_⟩
      · simp only [pollAllStep, hk, hp]
      · simp only [pollAllStep, hk, hp]
        exact hrec
  · rw [if_neg hik, Nat.add_zero]
    obtain ⟨h1, h2⟩ := pollAllStep_other up build cred symbols cycle i k (up s) hik
      (fun sym inp hs => hkeys i sym inp hik hs)
    rw [h1, h2]
    exact hinv

theorem pollAllRun_invariant (up : String → String) (build : MessageInput → String)
    (cred : Credentials) (st : AlertState) (symbols : List (String × PollInputs))
    (k : ℕ) (s : String) (inputs : PollInputs) (hk : symbols[k]? = some (s, inputs))
    (hkeys : ∀ j sym inp, j ≠ k → symbols[j]? = some (sym, inp) → up sym ≠ up s) :
    ∀ (schedule : List ℕ) (cycle : PollCycle) (n : ℕ),
      ((n = 0 ∧ cycle.progress[k]? = some PollProgress.awaitingAnalysis ∧
          cycle.alert.lastAlertTimestamp.get? (up s) = st.lastAlertTimestamp.get? (up s)) ∨
        (n = 1 ∧ cycle.progress[k]? = some (pollSymbolToSend up build st s inputs.analysis) ∧
          cycle.alert.lastAlertTimestamp.get? (up s) = st.lastAlertTimestamp.get? (up s)) ∨
        (2 ≤ n ∧ cycle.progress[k]? = some (PollProgress.settled
            (pollSymbol up build cred st s inputs.analysis inputs.delivery).1) ∧
          cycle.alert.lastAlertTimestamp.get? (up s)
            = (pollSymbol up build cred st s inputs.analysis
                inputs.delivery).2.lastAlertTimestamp.get? (up s))) →
      2 ≤ n + schedule.count k →
      (schedule.foldl (pollAllStep up build cred symbols) cycle).progress[k]?
          = some (PollProgress.settled
            (pollSymbol up build cred st s inputs.analysis inputs.delivery).1) ∧
        (schedule.foldl (pollAllStep up build cred symbols) cycle).alert.lastAlertTimestamp.get?
            (up s)
          = (pollSymbol up build cred st s inputs.analysis
              inputs.delivery).2.lastAlertTimestamp.get? (up s) := by
  intro schedule
  induction schedule with
  | nil =>
    intro cycle n hinv hcount
    simp only [List.count_nil, Nat.add_zero] at hcount
    rcases hinv with ⟨hn, -, -⟩ | ⟨hn, -, -⟩ | ⟨-, hp, hrec⟩
    · omega
    · omega
    · exact ⟨hp, hrec⟩
  | cons i schedule ih =>
    intro cycle n hinv hcount
    rw [List.foldl_cons]
    apply ih _ (n + (if i = k then 1 else 0))
      (pollAllStep_invariant up build cred st symbols k s inputs hk hkeys cycle i n hinv)
    rw [List.count_cons] at hcount
    by_cases hik : i = k
    · subst hik
      simp only [if_true, beq_self_eq_true] at hcount ⊢
      omega
    · have hne : (i == k) = false := by simpa using hik
      simp only [hne, Bool.false_eq_true, if_false, hik, Nat.add_zero] at hcount ⊢
      omega

theorem pollAllRun_settled (up : String → String) (build : MessageInput → String)
    (cred : Credentials) (st : AlertState) (symbols : List (String × PollInputs))
    (schedule : List ℕ) (k : ℕ) (s : String) (inputs : PollInputs)
    (hk : symbols[k]? = some (s, inputs))
    (hkeys : ∀ j sym inp, j ≠ k → symbols[j]? = some (sym, inp) → up sym ≠ up s)
    (hcount : 2 ≤ schedule.count k) :
    (pollAllRun up build cred st symbols schedule).progress[k]?
        = some (PollProgress.settled
          (pollSymbol up build cred st s inputs.analysis inputs.delivery).1) ∧
      (pollAllRun up build cred st symbols schedule).alert.lastAlertTimestamp.get? (up s)
        = (pollSymbol up build cred st s inputs.analysis
            inputs.delivery).2.lastAlertTimestamp.get? (up s) := by
  unfold pollAllRun
  apply pollAllRun_invariant up build cred st symbols k s inputs hk hkeys schedule _ 0
  · left
    refine ⟨rfl, ?_, rfl⟩
    simp only [pollAllStart, List.getElem?_map, hk, Option.map_some']
  · omega

theorem keys_apart_at (up : String → String) (symbols : List (String × PollInputs)) (k : ℕ)
    (s : String) (i : PollInputs) (h : symbols[k]? = some (s, i))
    (hnodup : (symbols.map (fun x => up x.1)).Nodup) :
    ∀ j sym inp, j ≠ k → symbols[j]? = some (sym, inp) → up sym ≠ up s := by
  intro j sym inp hjk hj heq
  have hjl : j < (symbols.map (fun x => up x.1)).length := by
    rw [List.length_map]; exact (List.getElem?_eq_some_iff.mp hj).1
  have hkl : k < (symbols.map (fun x => up x.1)).length := by
    rw [List.length_map]; exact (List.getElem?_eq_some_iff.mp h).1
  have h1 : (symbols.map (fun x => up x.1))[j]? = some (up sym) := by
    rw [List.getElem?_map, hj]; rfl
  have h2 : (symbols.map (fun x => up x.1))[k]? = some (up s) := by
    rw [List.getElem?_map, h]; rfl
  rw [List.getElem?_eq_getElem hjl] at h1
  rw [List.getElem?_eq_getElem hkl] at h2
  have h3 : (symbols.map (fun x => up x.1))[j] = (symbols.map (fun x => up x.1))[k] := by
    rw [Option.some.inj h1, Option.some.inj h2, heq]
  exact hjk ((List.Nodup.getElem_inj_iff hnodup).mp h3)

theorem pollSymbol_outcome_congr (up : String → String) (build : MessageInput → String)
    (cred : Credentials) (st st2 : AlertState) (symbol : String)
    (analysis : Except String Analysis) (delivery : Except String String)
    (h : st.lastAlertTimestamp.get? (up symbol) = st2.lastAlertTimestamp.get? (up symbol)) :
    (pollSymbol up build cred st symbol analysis delivery).1
      = (pollSymbol up build cred st2 symbol analysis delivery).1 := by
  obtain ⟨hsettled, hsend, hnot⟩ := pollSymbol_phases up build cred st symbol analysis delivery
  obtain ⟨hsettled2, hsend2, -⟩ := pollSymbol_phases up build cred st2 symbol analysis delivery
  rw [← pollSymbolToSend_congr up build st st2 symbol analysis h] at hsettled2 hsend2
  cases hx : pollSymbolToSend up build st symbol analysis with
  | awaitingAnalysis => exact absurd hx hnot
  | awaitingDelivery ts text =>
    rw [hsend ts text hx, hsend2 ts text hx]
    exact (pollSymbolAfterSend_record up cred st st2 symbol ts text delivery h).1
  | settled o => rw [hsettled o hx, hsettled2 o hx]

/-- For configured symbols with pairwise different keys, every order in which the
awaited calls of a cycle settle ends with the entries that `pollResults` gives:
the poll of each symbol settles, and what it settled with, passed through the
`catch` of `pollAll`, is the entry at its position. -/
theorem pollAllRun_entries (up : String → String) (build : MessageInput → String)
    (cred : Credentials) (st : AlertState) (symbols : List (String × PollInputs))
    (schedule : List ℕ) (hnodup : (symbols.map (fun x => up x.1)).Nodup)
    (hall : ∀ k, k < symbols.length → 2 ≤ schedule.count k) :
    ∃ results, (pollResults up build cred st symbols).1 = Except.ok results ∧
      ∀ k (hk : k < symbols.length), ∃ o,
        (pollAllRun up build cred st symbols schedule).progress[k]?
          = some (PollProgress.settled o) ∧
        (results[k]?).map Except.ok = some (guardedPoll (symbols.get ⟨k, hk⟩).1 o) := by
  obtain ⟨results, hres, -, hget⟩ := pollResults_spec up build cred symbols st
  refine ⟨results, hres, ?_⟩
  intro k hk
  have hsym : symbols[k]? = some ((symbols.get ⟨k, hk⟩).1, (symbols.get ⟨k, hk⟩).2) := by
    rw [List.getElem?_eq_getElem hk]; rfl
  obtain ⟨hp, -⟩ := pollAllRun_settled up build cred st symbols schedule k _ _ hsym
    (keys_apart_at up symbols k _ _ hsym hnodup) (hall k hk)
  refine ⟨_, hp, ?_⟩
  rw [hget k hk]
  obtain ⟨hbefore, -⟩ := keys_apart up symbols k _ _ hsym hnodup
  rw [pollSymbol_outcome_congr up build cred _ st _ _ _
    (pollResults_get?_other up build cred _ _ st hbefore)]

theorem pollSymbol_retry (up : String → String) (build : MessageInput → String)
    (cred : Credentials) (st st2 : AlertState) (s : String) (a : Analysis)
    (d1 d2 : Except String String)
    (hrec : st2.lastAlertTimestamp.get? (up s)
      = (pollSymbol up build cred st s (Except.ok a) d1).2.lastAlertTimestamp.get? (up s)) :
    (∀ res, (pollSymbol up build cred st s (Except.ok a) d1).1 = Except.ok res →
      res.sent = true →
      pollSymbol up build cred st2 s (Except.ok a) d2
        = (Except.ok { symbol := s, verified := true, sent := false }, st2)) ∧
    (∀ e, (pollSymbol up build cred st s (Except.ok a) d1).1 = Except.error e →
      (pollSymbol up build cred st2 s (Except.ok a) d2).1
        = match d2 with
          | Except.error e2 => Except.error e2
          | Except.ok _ => Except.ok { symbol := s, verified := true, sent := true }) := by
  rcases pollSymbol_cases up build cred st s a d1 with
    h | ⟨hver, ⟨-, h⟩ | ⟨hne, ⟨e1, -, h⟩ | ⟨resp, -, h⟩⟩⟩
  · rw [h]
    refine ⟨?_, ?_⟩
    · intro res hres hsent
      simp only [Except.ok.injEq] at hres
      rw [← hres] at hsent; cases hsent
    · intro e he; cases he
  · rw [h]
    refine ⟨?_, ?_⟩
    · intro res hres hsent
      simp only [Except.ok.injEq] at hres
      rw [← hres] at hsent; cases hsent
    · intro e he; cases he
  · rw [h] at hrec ⊢
    have hv := pollSymbol_verified up build cred st2 s a d2 hver.1 hver.2.1 hver.2.2
    have hne2 : st2.lastAlertTimestamp.get? (up s)
        ≠ some (prevTimestampOf (prepareWhatsAppAlert build a)) := by
      rw [hrec]; exact hne
    rw [if_neg hne2] at hv
    refine ⟨?_, ?_⟩
    · intro res hres; cases hres
    · intro e _
      rw [hv]
      cases d2 with
      | error e3 => rfl
      | ok resp => rfl
  · rw [h] at hrec ⊢
    simp only [JsMap.get?_set_self] at hrec
    have hv := pollSymbol_verified up build cred st2 s a d2 hver.1 hver.2.1 hver.2.2
    rw [if_pos hrec] at hv
    refine ⟨?_, ?_⟩
    · intro res _ _
      exact hv
    · intro e he; cases he

theorem pollSymbolToSend_verified (up : String → String) (build : MessageInput → String)
    (st : AlertState) (symbol : String) (a : Analysis)
    (h1 : (prevTimestampOf (prepareWhatsAppAlert build a)).truthy = true)
    (h2 : (prepareWhatsAppAlert build a).isVerified = true)
    (h3 : trimmedMessageOf (prepareWhatsAppAlert build a) ≠ "") :
    pollSymbolToSend up build st symbol (Except.ok a) =
      if st.lastAlertTimestamp.get? (up symbol)
          = some (prevTimestampOf (prepareWhatsAppAlert build a)) then
        PollProgress.settled (Except.ok { symbol := symbol, verified := true, sent := false })
      else
        PollProgress.awaitingDelivery (prevTimestampOf (prepareWhatsAppAlert build a))
          (trimmedMessageOf (prepareWhatsAppAlert build a)) := by
  have hg : (!(prevTimestampOf (prepareWhatsAppAlert build a)).truthy ||
      !(prepareWhatsAppAlert build a).isVerified ||
      decide (trimmedMessageOf (prepareWhatsAppAlert build a) = "")) = false := by
    simp [h1, h2, h3]
  simp only [pollSymbolToSend, hg, Bool.false_eq_true, if_false]
  by_cases hd : st.lastAlertTimestamp.get? (up symbol)
      = some (prevTimestampOf (prepareWhatsAppAlert build a))
  · rw [if_pos ((JsVal.strictEq_getD_iff _ _ h1).mpr hd), if_pos hd]
  · rw [if_neg (fun hc => hd ((JsVal.strictEq_getD_iff _ _ h1).mp hc)), if_neg hd]

theorem pollSymbolToSend_retry (up : String → String) (build : MessageInput → String)
    (cred : Credentials) (st st2 : AlertState) (s : String) (a : Analysis)
    (d1 : Except String String)
    (hrec : st2.lastAlertTimestamp.get? (up s)
      = (pollSymbol up build cred st s (Except.ok a) d1).2.lastAlertTimestamp.get? (up s)) :
    (∀ res, (pollSymbol up build cred st s (Except.ok a) d1).1 = Except.ok res →
      res.sent = true →
      pollSymbolToSend up build st2 s (Except.ok a)
        = PollProgress.settled (Except.ok { symbol := s, verified := true, sent := false })) ∧
    (∀ e, (pollSymbol up build cred st s (Except.ok a) d1).1 = Except.error e →
      pollSymbolToSend up build st2 s (Except.ok a)
        = PollProgress.awaitingDelivery (prevTimestampOf (prepareWhatsAppAlert build a))
            (trimmedMessageOf (prepareWhatsAppAlert build a))) := by
  rcases pollSymbol_cases up build cred st s a d1 with
    h | ⟨hver, ⟨-, h⟩ | ⟨hne, ⟨e1, -, h⟩ | ⟨resp, -, h⟩⟩⟩
  · rw [h]
    refine ⟨?_, ?_⟩
    · intro res hres hsent
      simp only [Except.ok.injEq] at hres
      rw [← hres] at hsent; cases hsent
    · intro e he; cases he
  · rw [h]
    refine ⟨?_, ?_⟩
    · intro res hres hsent
      simp only [Except.ok.injEq] at hres
      rw [← hres] at hsent; cases hsent
    · intro e he; cases he
  · rw [h] at hrec ⊢
    have hv := pollSymbolToSend_verified up build st2 s a hver.1 hver.2.1 hver.2.2
    have hne2 : st2.lastAlertTimestamp.get? (up s)
        ≠ some (prevTimestampOf (prepareWhatsAppAlert build a)) := by
      rw [hrec]; exact hne
    rw [if_neg hne2] at hv
    refine ⟨?_, ?_⟩
    · intro res hres; cases hres
    · intro e _
      exact hv
  · rw [h] at hrec ⊢
    simp only [JsMap.get?_set_self] at hrec
    have hv := pollSymbolToSend_verified up build st2 s a hver.1 hver.2.1 hver.2.2
    rw [if_pos hrec] at hv
    refine ⟨?_, ?_⟩
    · intro res _ _
      exact hv
    · intro e he; cases he

/-- C23, amended: a delivery that throws leaves the map of last-alerted timestamps
as it was, for every key, and the poll rejects with the error of the delivery; a
later poll of the symbol on the same analysis, from a state with the same record
under the key of the symbol, calls `sendWhatsAppMessage` again with the same
text. Over cycles of `pollAll`, whatever the order in which the awaited calls
settle: for a symbol whose upper-cased key no other configured symbol shares,
the poll settles in both the failed cycle and the retrying cycle on the same
analyses; if it reported `sent: true` in the failed cycle it ends in the retry
with `{verified: true, sent: false}` before any delivery, and if its delivery
threw in the failed cycle the retry delivers again, so that its outcome in the
retry is that of the new delivery. -/
theorem pollSymbol_failed_delivery (up : String → String) (build : MessageInput → String)
    (cred : Credentials) :
    (∀ (st : AlertState) (symbol : String) (o : Except String Analysis) (e : String),
      (pollSymbol up build cred st symbol o (Except.error e)).2.lastAlertTimestamp
        = st.lastAlertTimestamp) ∧
    (∀ (st st2 : AlertState) (symbol : String) (a : Analysis) (e : String)
      (d2 : Except String String),
      (pollSymbol up build cred st symbol (Except.ok a) (Except.error e)).2.sendCalls
        ≠ st.sendCalls →
      st2.lastAlertTimestamp.get? (up symbol) = st.lastAlertTimestamp.get? (up symbol) →
      (pollSymbol up build cred st symbol (Except.ok a) (Except.error e)).1 = Except.error e ∧
      ∃ call, (pollSymbol up build cred st2 symbol (Except.ok a) d2).2.sendCalls
          = st2.sendCalls ++ [call] ∧
        call.text = trimmedMessageOf (prepareWhatsAppAlert build a)) ∧
    (∀ (st : AlertState) (symbols1 symbols2 : List (String × PollInputs))
      (schedule1 schedule2 : List ℕ),
      symbols1.map (fun x => (x.1, x.2.analysis)) = symbols2.map (fun x => (x.1, x.2.analysis)) →
      ∀ (k : ℕ) (s : String) (i1 i2 : PollInputs),
        symbols1[k]? = some (s, i1) → symbols2[k]? = some (s, i2) →
        (∀ j sym inp, j ≠ k → symbols1[j]? = some (sym, inp) → up sym ≠ up s) →
        2 ≤ schedule1.count k → 2 ≤ schedule2.count k →
        (∃ o1, (pollAllRun up build cred st symbols1 schedule1).progress[k]?
            = some (PollProgress.settled o1)) ∧
        (∃ o2, (pollAllRun up build cred (pollAllRun up build cred st symbols1 schedule1).alert
              symbols2 schedule2).progress[k]? = some (PollProgress.settled o2)) ∧
        (∀ res, (pollAllRun up build cred st symbols1 schedule1).progress[k]?
            = some (PollProgress.settled (Except.ok res)) → res.sent = true →
          (pollAllRun up build cred (pollAllRun up build cred st symbols1 schedule1).alert
              symbols2 schedule2).progress[k]?
            = some (PollProgress.settled
                (Except.ok { symbol := s, verified := true, sent := false })) ∧
          ∀ st2 : AlertState, st2.lastAlertTimestamp.get? (up s)
              = (pollAllRun up build cred st symbols1 schedule1).alert.lastAlertTimestamp.get?
                  (up s) →
            pollSymbolToSend up build st2 s i2.analysis
              = PollProgress.settled
                  (Except.ok { symbol := s, verified := true, sent := false })) ∧
        (∀ a e, i1.analysis = Except.ok a →
          (pollAllRun up build cred st symbols1 schedule1).progress[k]?
            = some (PollProgress.settled (Except.error e)) →
          (pollAllRun up build cred (pollAllRun up build cred st symbols1 schedule1).alert
              symbols2 schedule2).progress[k]?
            = some (PollProgress.settled
                (match i2.delivery with
                  | Except.error e2 => Except.error e2
                  | Except.ok _ => Except.ok { symbol := s, verified := true, sent := true })) ∧
          ∀ st2 : AlertState, st2.lastAlertTimestamp.get? (up s)
              = (pollAllRun up build cred st symbols1 schedule1).alert.lastAlertTimestamp.get?
                  (up s) →
            pollSymbolToSend up build st2 s i2.analysis
              = PollProgress.awaitingDelivery (prevTimestampOf (prepareWhatsAppAlert build a))
                  (trimmedMessageOf (prepareWhatsAppAlert build a)))) := by
  refine ⟨?_, ?_, ?_⟩
  · intro st symbol o e
    cases o with
    | error e2 => rfl
    | ok a =>
      rcases pollSymbol_cases up build cred st symbol a (Except.error e) with
        h | ⟨-, ⟨-, h⟩ | ⟨-, ⟨e2, -, h⟩ | ⟨resp, hd, -⟩⟩⟩
      · rw [h]
      · rw [h]
      · rw [h]
      · cases hd
  · intro st st2 symbol a e d2 hcalls hrec
    rcases pollSymbol_cases up build cred st symbol a (Except.error e) with
      h | ⟨hver, ⟨-, h⟩ | ⟨hne, ⟨e2, hd, h⟩ | ⟨resp, hd, -⟩⟩⟩
    · rw [h] at hcalls; exact absurd rfl hcalls
    · rw [h] at hcalls; exact absurd rfl hcalls
    · simp only [Except.error.injEq] at hd
      subst hd
      refine ⟨by rw [h], ?_⟩
      have hne2 : st2.lastAlertTimestamp.get? (up symbol)
          ≠ some (prevTimestampOf (prepareWhatsAppAlert build a)) := by
        rw [hrec]; exact hne
      rcases pollSymbol_cases up build cred st2 symbol a d2 with
        h2 | ⟨-, ⟨heq, -⟩ | ⟨-, ⟨e3, -, h2⟩ | ⟨resp, -, h2⟩⟩⟩
      · exfalso
        have hv := pollSymbol_verified up build cred st2 symbol a d2 hver.1 hver.2.1 hver.2.2
        rw [if_neg hne2] at hv
        rw [hv] at h2
        cases d2 with
        | error e3 =>
          simp only [Prod.mk.injEq] at h2
          exact absurd h2.1 (by simp)
        | ok resp =>
          simp only [Prod.mk.injEq, Except.ok.injEq, PollResult.mk.injEq] at h2
          exact absurd h2.1.2.1 (by simp)
      · exact absurd heq hne2
      · exact ⟨_, by rw [h2], rfl⟩
      · exact ⟨_, by rw [h2], rfl⟩
    · cases hd
  · intro st symbols1 symbols2 schedule1 schedule2 hsame k s i1 i2 h1 h2 hkeys hc1 hc2
    have hana : i1.analysis = i2.analysis := by
      have := congrArg (fun l => l[k]?) hsame
      simp only [List.getElem?_map, h1, h2, Option.map_some', Option.some.injEq,
        Prod.mk.injEq, true_and] at this
      exact this
    have hkeys2 : ∀ j sym inp, j ≠ k → symbols2[j]? = some (sym, inp) → up sym ≠ up s := by
      intro j sym inp hjk hj
      have := congrArg (fun l => l[j]?) hsame
      simp only [List.getElem?_map, hj, Option.map_some'] at this
      cases hj1 : symbols1[j]? with
      | none => rw [hj1] at this; cases this
      | some x =>
        rw [hj1] at this
        simp only [Option.map_some', Option.some.injEq, Prod.mk.injEq] at this
        have hx := hkeys j x.1 x.2 hjk hj1
        rw [this.1] at hx
        exact hx
    obtain ⟨hp1, hr1⟩ := pollAllRun_settled up build cred st symbols1 schedule1 k s i1 h1
      hkeys hc1
    obtain ⟨hp2, -⟩ := pollAllRun_settled up build cred
      (pollAllRun up build cred st symbols1 schedule1).alert symbols2 schedule2 k s i2 h2
      hkeys2 hc2
    refine ⟨⟨_, hp1⟩, ⟨_, hp2⟩, ?_, ?_⟩
    · intro res hres hsent
      rw [hp1] at hres
      have hres1 := PollProgress.settled.inj (Option.some.inj hres)
      cases ha : i1.analysis with
      | error e =>
        rw [ha] at hres1
        cases hres1
      | ok a =>
        rw [ha] at hres1 hr1
        rw [← hana, ha] at hp2 ⊢
        refine ⟨?_, ?_⟩
        · rw [hp2, (pollSymbol_retry up build cred st _ s a i1.delivery i2.delivery hr1).1
            res hres1 hsent]
        · intro st2 hst2
          exact (pollSymbolToSend_retry up build cred st st2 s a i1.delivery
            (hst2.trans hr1)).1 res hres1 hsent
    · intro a e ha hres
      rw [hp1] at hres
      have hres1 := PollProgress.settled.inj (Option.some.inj hres)
      rw [ha] at hres1 hr1
      rw [← hana, ha] at hp2 ⊢
      refine ⟨?_, ?_⟩
      · rw [hp2, (pollSymbol_retry up build cred st _ s a i1.delivery i2.delivery hr1).2
          e hres1]
      · intro st2 hst2
        exact (pollSymbolToSend_retry up build cred st st2 s a i1.delivery
          (hst2.trans hr1)).2 e hres1

/-! ### The failures of the candle fetcher -/

theorem SYMBOLS_eq_none_iff (pair : String) :
    SYMBOLS pair = none ↔ pair ∉ symbolKeys ∧ pair ∉ objectPrototypeNames := by
  simp only [SYMBOLS, symbolKeys, List.mem_cons, List.mem_singleton, List.not_mem_nil,
    or_false, not_or]
  by_cases h1 : pair = "XAUUSD"
  · simp [h1]
  · by_cases h2 : pair = "USDJPY"
    · simp [h2]
    · by_cases h3 : pair = "US30"
      · simp [h3]
      · by_cases h4 : pair ∈ objectPrototypeNames
        · simp [h1, h2, h3, h4]
        · simp [h1, h2, h3, h4]

theorem requestCandles_failure_status (rt : JsRuntime) (cfg : TwelveDataConfig)
    (clock : FetchClock) (chartCache : JsMap CacheEntry) (pair : String) (hours : JsVal)
    (fetched : Except String ProviderResponse) (err : RequestError)
    (h : (requestCandles rt cfg clock chartCache pair hours fetched).1 = Except.error err) :
    (requestCandles rt cfg clock chartCache pair hours fetched).2 = chartCache ∧
    (cfg.enabled = false → err.statusCode = JsVal.num (JsNum.fin 503)) ∧
    (cfg.enabled = true → pair ∉ symbolKeys → pair ∉ objectPrototypeNames →
      err.statusCode = JsVal.num (JsNum.fin 400)) ∧
    (∀ response, cfg.enabled = true → SYMBOLS pair ≠ none → fetched = Except.ok response →
      (response.ok = false → err.statusCode = JsVal.num (JsNum.fin (response.status : ℚ))) ∧
      (response.ok = true → response.rawText ≠ "" →
        (∃ parseMessage, response.parsed = Except.error parseMessage) →
        err.statusCode = JsVal.num (JsNum.fin 502)) ∧
      (∀ payload, response.ok = true →
        (if response.rawText = "" then Except.ok (some emptyPayload) else response.parsed)
          = Except.ok (some payload) →
        ((payload.status.truthy = true ∧
            JsVal.strictEq payload.status (JsVal.str "ok") = false) →
          err.statusCode = JsVal.or payload.code (JsVal.num (JsNum.fin 502))) ∧
        (¬ (payload.status.truthy = true ∧
            JsVal.strictEq payload.status (JsVal.str "ok") = false) →
          (payload.code.truthy = true ∧ payload.message.truthy = true ∧
            payload.status.truthy = false) →
          err.statusCode = payload.code) ∧
        (¬ (payload.status.truthy = true ∧
            JsVal.strictEq payload.status (JsVal.str "ok") = false) →
          ¬ (payload.code.truthy = true ∧ payload.message.truthy = true ∧
            payload.status.truthy = false) →
          payload.values.getD [] = [] ∧ err.statusCode = JsVal.num (JsNum.fin 404)))) := by
  unfold requestCandles at h ⊢
  cases hen : cfg.enabled with
  | false =>
    simp only [hen, Bool.not_false, if_true, Except.error.injEq] at h ⊢
    subst h
    simp
  | true =>
    simp only [hen, Bool.not_true, Bool.false_eq_true, if_false] at h ⊢
    cases hsym : SYMBOLS pair with
    | none =>
      simp only [hsym] at h ⊢
      simp only [Except.error.injEq] at h
      subst h
      simp
    | some symbolMeta =>
      have hnot : ¬ (pair ∉ symbolKeys ∧ pair ∉ objectPrototypeNames) := by
        rw [← SYMBOLS_eq_none_iff, hsym]; simp
      simp only [hsym] at h ⊢
      cases fetched with
      | error e =>
        simp only at h ⊢
        refine ⟨trivial, by simp, fun _ h1 h2 => absurd ⟨h1, h2⟩ hnot, ?_⟩
        intro response _ _ hf
        cases hf
      | ok response =>
        simp only at h ⊢
        cases hok : response.ok with
        | false =>
          simp only [hok, Bool.not_false, if_true, Except.error.injEq] at h ⊢
          subst h
          refine ⟨trivial, by simp, fun _ h1 h2 => absurd ⟨h1, h2⟩ hnot, ?_⟩
          intro response2 _ _ hf
          simp only [Except.ok.injEq] at hf
          subst hf
          simp [hok]
        | true =>
          simp only [hok, Bool.not_true, Bool.false_eq_true, if_false] at h ⊢
          cases hp : (if response.rawText = "" then Except.ok (some emptyPayload)
              else response.parsed) with
          | error parseMessage =>
            simp only [hp, Except.error.injEq] at h ⊢
            subst h
            refine ⟨trivial, by simp, fun _ h1 h2 => absurd ⟨h1, h2⟩ hnot, ?_⟩
            intro response2 _ _ hf
            simp only [Except.ok.injEq] at hf
            subst hf
            refine ⟨by simp [hok], fun _ _ _ => rfl, ?_⟩
            intro payload _ hp2
            rw [hp] at hp2
            cases hp2
          | ok parsed =>
            cases parsed with
            | none =>
              simp only [hp] at h ⊢
              refine ⟨trivial, by simp, fun _ h1 h2 => absurd ⟨h1, h2⟩ hnot, ?_⟩
              intro response2 _ _ hf
              simp only [Except.ok.injEq] at hf
              subst hf
              refine ⟨by simp [hok], ?_, ?_⟩
              · rintro _ hraw ⟨m, hm⟩
                rw [if_neg hraw, hm] at hp
                cases hp
              · intro payload _ hp2
                rw [hp] at hp2
                cases hp2
            | some payload =>
              simp only [hp] at h ⊢
              have hparse : ∀ response2 : ProviderResponse,
                  (Except.ok response : Except String ProviderResponse) = Except.ok response2 →
                  response2.ok = true → response2.rawText ≠ "" →
                  ¬ ∃ m, response2.parsed = Except.error m := by
                intro response2 hf _ hraw
                simp only [Except.ok.injEq] at hf
                subst hf
                rintro ⟨m, hm⟩
                rw [if_neg hraw, hm] at hp
                cases hp
              by_cases hc1 : (payload.status.truthy
                  && !JsVal.strictEq payload.status (JsVal.str "ok")) = true
              · have hc1' : payload.status.truthy = true ∧
                    JsVal.strictEq payload.status (JsVal.str "ok") = false := by
                  simpa using hc1
                simp only [hc1, if_true, Except.error.injEq] at h ⊢
                subst h
                refine ⟨trivial, by simp, fun _ h1 h2 => absurd ⟨h1, h2⟩ hnot, ?_⟩
                intro response2 _ _ hf
                refine ⟨?_, fun h1 h2 h3 => absurd h3 (hparse response2 hf h1 h2), ?_⟩
                · simp only [Except.ok.injEq] at hf
                  subst hf
                  simp [hok]
                · simp only [Except.ok.injEq] at hf
                  subst hf
                  intro payload2 _ hp2
                  rw [hp] at hp2
                  simp only [Except.ok.injEq, Option.some.injEq] at hp2
                  subst hp2
                  exact ⟨fun _ => rfl, fun hn => absurd hc1' hn, fun hn => absurd hc1' hn⟩
              · have hc1' : ¬ (payload.status.truthy = true ∧
                    JsVal.strictEq payload.status (JsVal.str "ok") = false) := by
                  simpa using hc1
                simp only [hc1, Bool.false_eq_true, if_false] at h ⊢
                by_cases hc2 : (payload.code.truthy && payload.message.truthy
                    && !payload.status.truthy) = true
                · have hc2' : payload.code.truthy = true ∧ payload.message.truthy = true ∧
                      payload.status.truthy = false := by
                    simpa [and_assoc] using hc2
                  simp only [hc2, if_true, Except.error.injEq] at h ⊢
                  subst h
                  refine ⟨trivial, by simp, fun _ h1 h2 => absurd ⟨h1, h2⟩ hnot, ?_⟩
                  intro response2 _ _ hf
                  refine ⟨?_, fun h1 h2 h3 => absurd h3 (hparse response2 hf h1 h2), ?_⟩
                  · simp only [Except.ok.injEq] at hf
                    subst hf
                    simp [hok]
                  · simp only [Except.ok.injEq] at hf
                    subst hf
                    intro payload2 _ hp2
                    rw [hp] at hp2
                    simp only [Except.ok.injEq, Option.some.injEq] at hp2
                    subst hp2
                    exact ⟨fun hn => absurd hn hc1', fun _ _ => rfl,
                      fun _ hn => absurd hc2' hn⟩
                · have hc2' : ¬ (payload.code.truthy = true ∧ payload.message.truthy = true ∧
                      payload.status.truthy = false) := by
                    simpa [and_assoc] using hc2
                  simp only [hc2, Bool.false_eq_true, if_false] at h ⊢
                  by_cases hc3 : (payload.values.getD []).length = 0
                  · simp only [hc3, if_true, Except.error.injEq] at h ⊢
                    subst h
                    refine ⟨trivial, by simp, fun _ h1 h2 => absurd ⟨h1, h2⟩ hnot, ?_⟩
                    intro response2 _ _ hf
                    refine ⟨?_, fun h1 h2 h3 => absurd h3 (hparse response2 hf h1 h2), ?_⟩
                    · simp only [Except.ok.injEq] at hf
                      subst hf
                      simp [hok]
                    · simp only [Except.ok.injEq] at hf
                      subst hf
                      intro payload2 _ hp2
                      rw [hp] at hp2
                      simp only [Except.ok.injEq, Option.some.injEq] at hp2
                      subst hp2
                      exact ⟨fun hn => absurd hn hc1', fun _ hn => absurd hn hc2',
                        fun _ _ => ⟨List.length_eq_zero.mp hc3, rfl⟩⟩
                  · simp only [hc3, if_false] at h
                    cases h

theorem requestCandles_failure_cases (rt : JsRuntime) (cfg : TwelveDataConfig)
    (clock : FetchClock) (chartCache : JsMap CacheEntry) (pair : String) (hours : JsVal)
    (fetched : Except String ProviderResponse) (err : RequestError)
    (h : (requestCandles rt cfg clock chartCache pair hours fetched).1 = Except.error err) :
    (cfg.enabled = false ∧ err.statusCode = JsVal.num (JsNum.fin 503)) ∨
    (cfg.enabled = true ∧ SYMBOLS pair = none ∧ err.statusCode = JsVal.num (JsNum.fin 400)) ∨
    (cfg.enabled = true ∧ SYMBOLS pair ≠ none ∧
      ((∃ e, fetched = Except.error e ∧ err.statusCode = JsVal.undefined) ∨
       ∃ response, fetched = Except.ok response ∧
        ((response.ok = false ∧
            err.statusCode = JsVal.num (JsNum.fin (response.status : ℚ))) ∨
         (response.ok = true ∧
          ((∃ parseMessage,
              (if response.rawText = "" then Except.ok (some emptyPayload)
                else response.parsed) = Except.error parseMessage ∧
              response.rawText ≠ "" ∧
              err.statusCode = JsVal.num (JsNum.fin 502)) ∨
           ((if response.rawText = "" then Except.ok (some emptyPayload)
                else response.parsed) = Except.ok none ∧
              response.rawText ≠ "" ∧
              err.statusCode = JsVal.undefined) ∨
           ∃ payload,
              (if response.rawText = "" then Except.ok (some emptyPayload)
                else response.parsed) = Except.ok (some payload) ∧
              ((payload.status.truthy = true ∧
                  JsVal.strictEq payload.status (JsVal.str "ok") = false ∧
                  err.statusCode = JsVal.or payload.code (JsVal.num (JsNum.fin 502))) ∨
               (¬ (payload.status.truthy = true ∧
                    JsVal.strictEq payload.status (JsVal.str "ok") = false) ∧
                  payload.code.truthy = true ∧ payload.message.truthy = true ∧
                  payload.status.truthy = false ∧ err.statusCode = payload.code) ∨
               (¬ (payload.status.truthy = true ∧
                    JsVal.strictEq payload.status (JsVal.str "ok") = false) ∧
                  ¬ (payload.code.truthy = true ∧ payload.message.truthy = true ∧
                    payload.status.truthy = false) ∧
                  payload.values.getD [] = [] ∧
                  err.statusCode = JsVal.num (JsNum.fin 404)))))))) := by
  unfold requestCandles at h
  cases hen : cfg.enabled with
  | false =>
    simp only [hen, Bool.not_false, if_true, Except.error.injEq] at h
    subst h
    exact Or.inl ⟨rfl, rfl⟩
  | true =>
    simp only [hen, Bool.not_true, Bool.false_eq_true, if_false] at h
    cases hsym : SYMBOLS pair with
    | none =>
      simp only [hsym, Except.error.injEq] at h
      subst h
      exact Or.inr (Or.inl ⟨rfl, rfl, rfl⟩)
    | some symbolMeta =>
      simp only [hsym] at h
      refine Or.inr (Or.inr ⟨rfl, by simp, ?_⟩)
      cases fetched with
      | error e =>
        simp only [Except.error.injEq] at h
        subst h
        exact Or.inl ⟨e, rfl, rfl⟩
      | ok response =>
        simp only at h
        refine Or.inr ⟨response, rfl, ?_⟩
        cases hok : response.ok with
        | false =>
          simp only [hok, Bool.not_false, if_true, Except.error.injEq] at h
          subst h
          exact Or.inl ⟨rfl, rfl⟩
        | true =>
          simp only [hok, Bool.not_true, Bool.false_eq_true, if_false] at h
          refine Or.inr ⟨rfl, ?_⟩
          have hraw : ∀ body : Option Payload, body ≠ some emptyPayload →
              (if response.rawText = "" then Except.ok (some emptyPayload)
                else response.parsed) = Except.ok body → response.rawText ≠ "" := by
            intro body hb hp hr
            rw [if_pos hr] at hp
            simp only [Except.ok.injEq] at hp
            exact hb hp.symm
          cases hp : (if response.rawText = "" then Except.ok (some emptyPayload)
              else response.parsed) with
          | error parseMessage =>
            simp only [hp, Except.error.injEq] at h
            subst h
            refine Or.inl ⟨parseMessage, rfl, ?_, rfl⟩
            intro hr
            rw [if_pos hr] at hp
            cases hp
          | ok parsed =>
            cases parsed with
            | none =>
              simp only [hp, Except.error.injEq] at h
              subst h
              exact Or.inr (Or.inl ⟨rfl, hraw none (by simp) hp, rfl⟩)
            | some payload =>
              simp only [hp] at h
              refine Or.inr (Or.inr ⟨payload, rfl, ?_⟩)
              by_cases hc1 : (payload.status.truthy
                  && !JsVal.strictEq payload.status (JsVal.str "ok")) = true
              · have hc1' : payload.status.truthy = true ∧
                    JsVal.strictEq payload.status (JsVal.str "ok") = false := by
                  simpa using hc1
                simp only [hc1, if_true, Except.error.injEq] at h
                subst h
                exact Or.inl ⟨hc1'.1, hc1'.2, rfl⟩
              · have hc1' : ¬ (payload.status.truthy = true ∧
                    JsVal.strictEq payload.status (JsVal.str "ok") = false) := by
                  simpa using hc1
                simp only [hc1, Bool.false_eq_true, if_false] at h
                by_cases hc2 : (payload.code.truthy && payload.message.truthy
                    && !payload.status.truthy) = true
                · have hc2' : payload.code.truthy = true ∧ payload.message.truthy = true ∧
                      payload.status.truthy = false := by
                    simpa [and_assoc] using hc2
                  simp only [hc2, if_true, Except.error.injEq] at h
                  subst h
                  exact Or.inr (Or.inl ⟨hc1', hc2'.1, hc2'.2.1, hc2'.2.2, rfl⟩)
                · have hc2' : ¬ (payload.code.truthy = true ∧ payload.message.truthy = true ∧
                      payload.status.truthy = false) := by
                    simpa [and_assoc] using hc2
                  simp only [hc2, Bool.false_eq_true, if_false] at h
                  by_cases hc3 : (payload.values.getD []).length = 0
                  · simp only [hc3, if_true, Except.error.injEq] at h
                    subst h
                    exact Or.inr (Or.inr ⟨hc1', hc2', List.length_eq_zero.mp hc3, rfl⟩)
                  · simp only [hc3, if_false] at h
                    cases h

/-- C26, amended: a failing `requestCandles` leaves the chart cache as it was,
and exactly one of these cases holds, in this order: the integration is
disabled and the error carries 503; `SYMBOLS[pair]` is `undefined`, that is the
pair is neither a key of `SYMBOLS` nor a name inherited from
`Object.prototype`, and it carries 400; the request itself rejected and the
error carries no status code; the response is not OK and it carries the HTTP
status; a non-empty body is not valid JSON and it carries 502; the body is the
JSON value `null` and the error, a `TypeError`, carries no status code;
`payload.status` is set and is not `"ok"` and it carries `payload.code` or else
502; the payload has a code and a message but no status and it carries
`payload.code`; and otherwise the payload has no candle values and the error
carries 404. -/
theorem requestCandles_failure (rt : JsRuntime) (cfg : TwelveDataConfig)
    (clock : FetchClock) (chartCache : JsMap CacheEntry) (pair : String) (hours : JsVal)
    (fetched : Except String ProviderResponse) (err : RequestError)
    (h : (requestCandles rt cfg clock chartCache pair hours fetched).1 = Except.error err) :
    (requestCandles rt cfg clock chartCache pair hours fetched).2 = chartCache ∧
    (SYMBOLS pair = none ↔ pair ∉ symbolKeys ∧ pair ∉ objectPrototypeNames) ∧
    ((cfg.enabled = false ∧ err.statusCode = JsVal.num (JsNum.fin 503)) ∨
    (cfg.enabled = true ∧ SYMBOLS pair = none ∧ err.statusCode = JsVal.num (JsNum.fin 400)) ∨
    (cfg.enabled = true ∧ SYMBOLS pair ≠ none ∧
      ((∃ e, fetched = Except.error e ∧ err.statusCode = JsVal.undefined) ∨
       ∃ response, fetched = Except.ok response ∧
        ((response.ok = false ∧
            err.statusCode = JsVal.num (JsNum.fin (response.status : ℚ))) ∨
         (response.ok = true ∧
          ((∃ parseMessage,
              (if response.rawText = "" then Except.ok (some emptyPayload)
                else response.parsed) = Except.error parseMessage ∧
              response.rawText ≠ "" ∧
              err.statusCode = JsVal.num (JsNum.fin 502)) ∨
           ((if response.rawText = "" then Except.ok (some emptyPayload)
                else response.parsed) = Except.ok none ∧
              response.rawText ≠ "" ∧
              err.statusCode = JsVal.undefined) ∨
           ∃ payload,
              (if response.rawText = "" then Except.ok (some emptyPayload)
                else response.parsed) = Except.ok (some payload) ∧
              ((payload.status.truthy = true ∧
                  JsVal.strictEq payload.status (JsVal.str "ok") = false ∧
                  err.statusCode = JsVal.or payload.code (JsVal.num (JsNum.fin 502))) ∨
               (¬ (payload.status.truthy = true ∧
                    JsVal.strictEq payload.status (JsVal.str "ok") = false) ∧
                  payload.code.truthy = true ∧ payload.message.truthy = true ∧
                  payload.status.truthy = false ∧ err.statusCode = payload.code) ∨
               (¬ (payload.status.truthy = true ∧
                    JsVal.strictEq payload.status (JsVal.str "ok") = false) ∧
                  ¬ (payload.code.truthy = true ∧ payload.message.truthy = true ∧
                    payload.status.truthy = false) ∧
                  payload.values.getD [] = [] ∧
                  err.statusCode = JsVal.num (JsNum.fin 404))))))))) :=
  ⟨(requestCandles_failure_status rt cfg clock chartCache pair hours fetched err h).1,
    SYMBOLS_eq_none_iff pair,
    requestCandles_failure_cases rt cfg clock chartCache pair hours fetched err h⟩

/-! ### The size of the chart cache -/

theorem JsMap.keys_set {α : Type} (m : JsMap α) (k : String) (v : α) :
    (JsMap.set m k v).map Prod.fst
      = if k ∈ m.map Prod.fst then m.map Prod.fst else m.map Prod.fst ++ [k] := by
  induction m with
  | nil => simp [JsMap.set]
  | cons x m ih =>
    obtain ⟨k0, v0⟩ := x
    by_cases h : k0 = k
    · simp [JsMap.set, h]
    · have h2 : ¬ k = k0 := fun e => h e.symm
      simp only [JsMap.set, if_neg h, List.map_cons, ih, List.mem_cons, h2, false_or]
      split_ifs <;> simp

theorem JsMap.keys_set_inv {α : Type} (allowed : List String) (m : JsMap α) (k : String)
    (v : α) (hk : k ∈ allowed)
    (h : (∀ key ∈ m.map Prod.fst, key ∈ allowed) ∧ (m.map Prod.fst).Nodup) :
    (∀ key ∈ (JsMap.set m k v).map Prod.fst, key ∈ allowed) ∧
      ((JsMap.set m k v).map Prod.fst).Nodup := by
  rw [JsMap.keys_set]
  split_ifs with hmem
  · exact h
  · constructor
    · intro key hkey
      rcases List.mem_append.mp hkey with h1 | h1
      · exact h.1 key h1
      · rw [List.mem_singleton.mp h1]; exact hk
    · rw [List.nodup_append]
      refine ⟨h.2, List.nodup_singleton k, ?_⟩
      intro a ha hb
      rw [List.mem_singleton.mp hb] at ha
      exact hmem ha

theorem requestCandles_unchanged_or_ok (rt : JsRuntime) (cfg : TwelveDataConfig)
    (clock : FetchClock) (chartCache : JsMap CacheEntry) (pair : String) (hours : JsVal)
    (fetched : Except String ProviderResponse) :
    (requestCandles rt cfg clock chartCache pair hours fetched).2 = chartCache ∨
    ∃ result, (requestCandles rt cfg clock chartCache pair hours fetched).1
      = Except.ok result := by
  unfold requestCandles
  repeat' split
  all_goals first
    | exact Or.inl rfl
    | (simp only []
       split
       · exact Or.inl rfl
       · exact Or.inr ⟨_, rfl⟩)

theorem requestCandles_cache_cases (rt : JsRuntime) (cfg : TwelveDataConfig)
    (clock : FetchClock) (chartCache : JsMap CacheEntry) (pair : String) (hours : JsVal)
    (fetched : Except String ProviderResponse) :
    (requestCandles rt cfg clock chartCache pair hours fetched).2 = chartCache ∨
    (SYMBOLS pair ≠ none ∧ ∃ entry,
      (requestCandles rt cfg clock chartCache pair hours fetched).2
        = chartCache.set pair entry) := by
  rcases requestCandles_unchanged_or_ok rt cfg clock chartCache pair hours fetched with
    h | ⟨result, hres⟩
  · exact Or.inl h
  · obtain ⟨symbolMeta, -, -, -, -, hsym, -, -, -, -, -, -, -, hcache⟩ :=
      requestCandles_ok rt cfg clock chartCache pair hours fetched result hres
    exact Or.inr ⟨by rw [hsym]; simp, _, hcache⟩

theorem requestCandles_keys_inv (rt : JsRuntime) (cfg : TwelveDataConfig)
    (clock : FetchClock) (chartCache : JsMap CacheEntry) (pair : String) (hours : JsVal)
    (fetched : Except String ProviderResponse) (allowed : List String)
    (hpair : SYMBOLS pair ≠ none → pair ∈ allowed)
    (h : (∀ key ∈ chartCache.map Prod.fst, key ∈ allowed) ∧ (chartCache.map Prod.fst).Nodup) :
    (∀ key ∈ (requestCandles rt cfg clock chartCache pair hours fetched).2.map Prod.fst,
        key ∈ allowed) ∧
      ((requestCandles rt cfg clock chartCache pair hours fetched).2.map Prod.fst).Nodup := by
  rcases requestCandles_cache_cases rt cfg clock chartCache pair hours fetched with
    hc | ⟨hsym, entry, hc⟩
  · rw [hc]; exact h
  · rw [hc]; exact JsMap.keys_set_inv allowed chartCache pair entry (hpair hsym) h

theorem getCandles_keys_inv (rt : JsRuntime) (cfg : TwelveDataConfig) (ttl : JsNum) (now : ℤ)
    (clock : FetchClock) (chartCache : JsMap CacheEntry) (pair : String) (hours : JsVal)
    (fetched : Except String ProviderResponse) (allowed : List String)
    (hpair : SYMBOLS pair ≠ none → pair ∈ allowed)
    (h : (∀ key ∈ chartCache.map Prod.fst, key ∈ allowed) ∧ (chartCache.map Prod.fst).Nodup) :
    (∀ key ∈ (getCandles rt cfg ttl now clock chartCache pair hours fetched).2.map Prod.fst,
        key ∈ allowed) ∧
      ((getCandles rt cfg ttl now clock chartCache pair hours fetched).2.map Prod.fst).Nodup := by
  unfold getCandles
  simp only
  split
  · exact h
  · exact requestCandles_keys_inv rt cfg clock chartCache pair _ fetched allowed hpair h

theorem pollOHLC_keys_inv (rt : JsRuntime) (cfg : TwelveDataConfig) (pollLookbackHours : JsVal)
    (chartCache : JsMap CacheEntry)
    (outcomes : String → FetchClock × Except String ProviderResponse) (allowed : List String)
    (hkeys : ∀ key ∈ symbolKeys, key ∈ allowed)
    (h : (∀ key ∈ chartCache.map Prod.fst, key ∈ allowed) ∧ (chartCache.map Prod.fst).Nodup) :
    (∀ key ∈ (pollOHLC rt cfg pollLookbackHours chartCache outcomes).map Prod.fst,
        key ∈ allowed) ∧
      ((pollOHLC rt cfg pollLookbackHours chartCache outcomes).map Prod.fst).Nodup := by
  unfold pollOHLC
  split
  · exact h
  · have hfold : ∀ (pairs : List String) (cache : JsMap CacheEntry),
        (∀ key ∈ pairs, key ∈ allowed) →
        ((∀ key ∈ cache.map Prod.fst, key ∈ allowed) ∧ (cache.map Prod.fst).Nodup) →
        (∀ key ∈ (pairs.foldl (fun cache pair =>
            (requestCandles rt cfg (outcomes pair).1 cache pair pollLookbackHours
              (outcomes pair).2).2) cache).map Prod.fst, key ∈ allowed) ∧
          ((pairs.foldl (fun cache pair =>
            (requestCandles rt cfg (outcomes pair).1 cache pair pollLookbackHours
              (outcomes pair).2).2) cache).map Prod.fst).Nodup := by
      intro pairs
      induction pairs with
      | nil => intro cache _ hc; exact hc
      | cons pair pairs ih =>
        intro cache hp hc
        rw [List.foldl_cons]
        exact ih _ (fun key hk => hp key (List.mem_cons_of_mem _ hk))
          (requestCandles_keys_inv rt cfg _ cache pair _ _ allowed
            (fun _ => hp pair (List.mem_cons_self _ _)) hc)
    exact hfold symbolKeys chartCache hkeys h

theorem runChartRequests_keys_inv (rt : JsRuntime) (cfg : TwelveDataConfig) (ttl : JsNum)
    (pollLookbackHours : JsVal) (allowed : List String)
    (hkeys : ∀ key ∈ symbolKeys, key ∈ allowed) (requests : List ChartRequest) :
    ∀ chartCache : JsMap CacheEntry,
      (∀ request ∈ requests, ∀ pair, request.pair? = some pair → SYMBOLS pair ≠ none →
        pair ∈ allowed) →
      ((∀ key ∈ chartCache.map Prod.fst, key ∈ allowed) ∧ (chartCache.map Prod.fst).Nodup) →
      (∀ key ∈ (runChartRequests rt cfg ttl pollLookbackHours chartCache requests).map Prod.fst,
          key ∈ allowed) ∧
        ((runChartRequests rt cfg ttl pollLookbackHours chartCache requests).map
          Prod.fst).Nodup := by
  induction requests with
  | nil => intro chartCache _ h; exact h
  | cons request requests ih =>
    intro chartCache hreq h
    simp only [runChartRequests, List.foldl_cons]
    refine ih _ (fun r hr => hreq r (List.mem_cons_of_mem _ hr)) ?_
    have hfirst := hreq request (List.mem_cons_self _ _)
    cases request with
    | getCandles pair hours now clock fetched =>
      exact getCandles_keys_inv rt cfg ttl now clock chartCache pair hours fetched allowed
        (hfirst pair rfl) h
    | requestCandles pair hours clock fetched =>
      exact requestCandles_keys_inv rt cfg clock chartCache pair hours fetched allowed
        (hfirst pair rfl) h
    | pollOHLC outcomes =>
      exact pollOHLC_keys_inv rt cfg pollLookbackHours chartCache outcomes allowed hkeys h

theorem length_le_of_keys {α : Type} (allowed : List String) (m : JsMap α)
    (h : (∀ key ∈ m.map Prod.fst, key ∈ allowed) ∧ (m.map Prod.fst).Nodup) :
    m.length ≤ allowed.length := by
  have := (List.subperm_of_subset h.2 h.1).length_le
  simpa using this

/-- C21, amended: the chart cache is bounded. After every sequence of calls of
`getCandles`, `requestCandles` and `pollOHLC` that starts from the empty cache,
every key of the cache is a pair for which `SYMBOLS[pair]` is defined, no key
occurs twice, and the cache holds at most 15 entries (the three keys of
`SYMBOLS` and the twelve names inherited from `Object.prototype`); when every
call is made for a key of `SYMBOLS`, it holds at most three. -/
theorem chartCache_bounded (rt : JsRuntime) (cfg : TwelveDataConfig) (ttl : JsNum)
    (pollLookbackHours : JsVal) (requests : List ChartRequest) :
    (∀ entry ∈ runChartRequests rt cfg ttl pollLookbackHours [] requests,
      SYMBOLS entry.1 ≠ none) ∧
    ((runChartRequests rt cfg ttl pollLookbackHours [] requests).map Prod.fst).Nodup ∧
    (runChartRequests rt cfg ttl pollLookbackHours [] requests).length ≤ 15 ∧
    ((∀ request ∈ requests, ∀ pair, request.pair? = some pair → pair ∈ symbolKeys) →
      (runChartRequests rt cfg ttl pollLookbackHours [] requests).length ≤ 3) := by
  have hall : ∀ pair, SYMBOLS pair ≠ none → pair ∈ symbolKeys ++ objectPrototypeNames := by
    intro pair hp
    by_contra hmem
    apply hp
    rw [SYMBOLS_eq_none_iff]
    simpa [List.mem_append, not_or] using hmem
  have hinv := runChartRequests_keys_inv rt cfg ttl pollLookbackHours
    (symbolKeys ++ objectPrototypeNames) (fun key hk => List.mem_append_left _ hk) requests []
    (fun _ _ pair _ hp => hall pair hp) ⟨by simp, by simp⟩
  refine ⟨?_, hinv.2, ?_, ?_⟩
  · intro entry hentry
    have hmem := hinv.1 entry.1 (List.mem_map.mpr ⟨entry, hentry, rfl⟩)
    intro hnone
    rw [SYMBOLS_eq_none_iff] at hnone
    rcases List.mem_append.mp hmem with h1 | h1
    · exact hnone.1 h1
    · exact hnone.2 h1
  · exact length_le_of_keys _ _ hinv
  · intro hreq
    have hinv3 := runChartRequests_keys_inv rt cfg ttl pollLookbackHours symbolKeys
      (fun key hk => hk) requests [] (fun r hr pair hp _ => hreq r hr pair hp)
      ⟨by simp, by simp⟩
    exact length_le_of_keys _ _ hinv3

/-! ### The floors of the scheduler's intervals -/

theorem JsNum.roundPositive_large (n : ℕ) (h : 2 ^ 53 ≤ n) :
    JsNum.roundPositive n 1 = JsNum.posInf ∨
      ∃ m : ℕ, 2 ^ 53 ≤ m ∧ JsNum.roundPositive n 1 = JsNum.fin (m : ℚ) := by
  have hn : n ≠ 0 :=
    Nat.pos_iff_ne_zero.mp (lt_of_lt_of_le (pow_pos (by norm_num) _) h)
  have hk : 53 ≤ Nat.log2 n := le_log2_of_pow_le n 53 hn h
  have he : Max.max ((Nat.log2 n : ℤ) - 52) (-1074) = (Nat.log2 n : ℤ) - 52 :=
    max_eq_left (by omega)
  have hpos : 0 ≤ (Nat.log2 n : ℤ) - 52 := by omega
  have hto : ((Nat.log2 n : ℤ) - 52).toNat = Nat.log2 n - 52 := by omega
  have hm : 2 ^ 52 ≤ JsNum.roundHalfEven n (1 * 2 ^ (Nat.log2 n - 52)) := by
    refine le_trans ?_ (JsNum.roundHalfEven_ge _ _)
    rw [one_mul]
    apply (Nat.le_div_iff_mul_le (by positivity)).mpr
    rw [← pow_add]
    have : 52 + (Nat.log2 n - 52) = Nat.log2 n := by omega
    rw [this]
    exact Nat.log2_self_le hn
  have hbig : 2 ^ 53
      ≤ JsNum.roundHalfEven n (1 * 2 ^ (Nat.log2 n - 52)) * 2 ^ (Nat.log2 n - 52) := by
    calc 2 ^ 53 ≤ 2 ^ Nat.log2 n := pow_le_pow_right₀ (by norm_num) hk
      _ = 2 ^ 52 * 2 ^ (Nat.log2 n - 52) := by rw [← pow_add]; congr 1; omega
      _ ≤ _ := Nat.mul_le_mul_right _ hm
  unfold JsNum.roundPositive
  rw [JsNum.binaryExponent_one n hn]
  simp only [he, hpos, if_true, hto]
  split_ifs
  · exact Or.inl rfl
  · exact Or.inr ⟨_, hbig, rfl⟩

theorem JsNum.roundDouble_neg_natCast (n : ℕ) :
    JsNum.roundDouble (-(n : ℚ)) = JsNum.neg (JsNum.roundDouble (n : ℚ)) := by
  by_cases hn : n = 0
  · subst hn
    simp [JsNum.roundDouble, JsNum.neg]
  · have hpos : (0 : ℚ) < (n : ℚ) := by
      have : 0 < n := Nat.pos_of_ne_zero hn
      exact_mod_cast this
    have hne : ¬ (-(n : ℚ) = 0) := by
      intro h
      have := neg_eq_zero.mp h
      exact absurd this (ne_of_gt hpos)
    have hnot : ¬ ((0 : ℚ) < -(n : ℚ)) := by
      intro h
      linarith
    have hnum : (-(n : ℚ)).num.natAbs = n := by simp
    have hden : (-(n : ℚ)).den = 1 := by simp
    rw [JsNum.roundDouble_natCast, if_neg hn]
    unfold JsNum.roundDouble
    rw [if_neg hne, if_neg hnot, hnum, hden]

theorem JsNum.roundDouble_intCast_nonpos (z : ℤ) (hz : z ≤ 0) :
    ∀ q : ℚ, JsNum.roundDouble (z : ℚ) = JsNum.fin q → q ≤ 0 := by
  intro q hq
  obtain ⟨n, hn⟩ : ∃ n : ℕ, z = -(n : ℤ) := ⟨(-z).toNat, by omega⟩
  have hcast : (z : ℚ) = -(n : ℚ) := by rw [hn]; push_cast; rfl
  rw [hcast, JsNum.roundDouble_neg_natCast] at hq
  by_cases h0 : n = 0
  · subst h0
    simp [JsNum.roundDouble, JsNum.neg] at hq
    rw [← hq]
  · rcases JsNum.roundDouble_natural n h0 with hi | ⟨m, hm1, hm⟩
    · rw [hi] at hq
      cases hq
    · rw [hm] at hq
      simp only [JsNum.neg, JsNum.fin.injEq] at hq
      rw [← hq]
      have : (0 : ℚ) ≤ (m : ℚ) := Nat.cast_nonneg m
      linarith

theorem parsePositiveInt_cases (value : Option String) (fallback : ℤ) :
    (∃ m : ℕ, 1 ≤ m ∧ value.map jsParseInt = some (JsNum.fin (m : ℚ)) ∧
      parsePositiveInt value fallback = (m : ℤ)) ∨
    ((∀ q : ℚ, value.map jsParseInt = some (JsNum.fin q) → q ≤ 0) ∧
      parsePositiveInt value fallback = fallback) := by
  unfold parsePositiveInt
  cases value with
  | none => exact Or.inr ⟨(by intro q h; cases h), rfl⟩
  | some text =>
    simp only [Option.map_some']
    unfold jsParseInt
    cases hp : parseInt10 text with
    | none => exact Or.inr ⟨(by intro q h; cases h), rfl⟩
    | some parsed =>
      simp only []
      by_cases hpos : 0 < parsed
      · obtain ⟨n, hn⟩ : ∃ n : ℕ, parsed = (n : ℤ) := ⟨parsed.toNat, by omega⟩
        have hn0 : n ≠ 0 := by omega
        have hcast : (parsed : ℚ) = (n : ℚ) := by rw [hn]; push_cast; rfl
        rw [hcast]
        rcases JsNum.roundDouble_natural n hn0 with hi | ⟨m, hm1, hm⟩
        · rw [hi]
          exact Or.inr ⟨(by intro q h; cases h), rfl⟩
        · rw [hm]
          have hmq : (0 : ℚ) < (m : ℚ) := by
            have : 0 < m := hm1
            exact_mod_cast this
          exact Or.inl ⟨m, hm1, rfl, by simp [hmq]⟩
      · have hle := JsNum.roundDouble_intCast_nonpos parsed (not_lt.mp hpos)
        cases hr : JsNum.roundDouble (parsed : ℚ) with
        | fin q =>
          have hq := hle q hr
          refine Or.inr ⟨?_, ?_⟩
          · intro q2 h2
            simp only [Option.some.injEq, JsNum.fin.injEq] at h2
            rw [← h2]; exact hq
          · simp [not_lt.mpr hq]
        | nan => exact Or.inr ⟨(by intro q h; cases h), rfl⟩
        | posInf => exact Or.inr ⟨(by intro q h; cases h), rfl⟩
        | negInf => exact Or.inr ⟨(by intro q h; cases h), rfl⟩

theorem parsePositiveInt_of_parsed (value : Option String) (fallback parsed : ℤ)
    (hp : value.bind parseInt10 = some parsed) :
    (parsed ≤ 0 → parsePositiveInt value fallback = fallback) ∧
    (0 < parsed → parsed ≤ 2 ^ 53 → parsePositiveInt value fallback = parsed) ∧
    (2 ^ 1024 ≤ parsed → parsePositiveInt value fallback = fallback) ∧
    (2 ^ 53 ≤ parsed →
      (JsNum.roundDouble (parsed : ℚ) = JsNum.posInf ∧
        parsePositiveInt value fallback = fallback) ∨
      ∃ m : ℕ, 2 ^ 53 ≤ m ∧ JsNum.roundDouble (parsed : ℚ) = JsNum.fin (m : ℚ) ∧
        parsePositiveInt value fallback = (m : ℤ)) := by
  cases value with
  | none => cases hp
  | some text =>
    have hp2 : parseInt10 text = some parsed := hp
    have hparse : parsePositiveInt (some text) fallback
        = match JsNum.roundDouble (parsed : ℚ) with
          | JsNum.fin q => if 0 < q then Int.floor q else fallback
          | _ => fallback := by
      simp only [parsePositiveInt, Option.map_some', jsParseInt, hp2]
      cases JsNum.roundDouble (parsed : ℚ) <;> rfl
    have hnat : ∀ n : ℕ, parsed = (n : ℤ) → (parsed : ℚ) = (n : ℚ) := by
      intro n hn; rw [hn]; push_cast; rfl
    refine ⟨?_, ?_, ?_, ?_⟩
    · intro hle
      have hq := JsNum.roundDouble_intCast_nonpos parsed hle
      rw [hparse]
      cases hr : JsNum.roundDouble (parsed : ℚ) with
      | fin q => simp [not_lt.mpr (hq q hr)]
      | nan => rfl
      | posInf => rfl
      | negInf => rfl
    · intro hpos hle
      obtain ⟨n, hn⟩ : ∃ n : ℕ, parsed = (n : ℤ) := ⟨parsed.toNat, by omega⟩
      have hn53 : n ≤ 2 ^ 53 := by
        have : (n : ℤ) ≤ 2 ^ 53 := by rw [← hn]; exact hle
        exact_mod_cast this
      have hq : (0 : ℚ) < (n : ℚ) := by
        have : 0 < n := by omega
        exact_mod_cast this
      rw [hparse, hnat n hn, JsNum.roundDouble_of_le n hn53]
      simp [hq, hn]
    · intro hhuge
      obtain ⟨n, hn⟩ : ∃ n : ℕ, parsed = (n : ℤ) := ⟨parsed.toNat, by
        have : (0 : ℤ) ≤ 2 ^ 1024 := by positivity
        have h0 : 0 ≤ parsed := le_trans this hhuge
        exact (Int.toNat_of_nonneg h0).symm⟩
      have hnh : 2 ^ 1024 ≤ n := by
        have : (2 : ℤ) ^ 1024 ≤ (n : ℤ) := by rw [← hn]; exact hhuge
        exact_mod_cast this
      rw [hparse, hnat n hn, JsNum.roundDouble_of_huge n hnh]
    · intro hbig
      obtain ⟨n, hn⟩ : ∃ n : ℕ, parsed = (n : ℤ) := ⟨parsed.toNat, by
        have : (0 : ℤ) ≤ 2 ^ 53 := by positivity
        have h0 : 0 ≤ parsed := le_trans this hbig
        exact (Int.toNat_of_nonneg h0).symm⟩
      have hnb : 2 ^ 53 ≤ n := by
        have : (2 : ℤ) ^ 53 ≤ (n : ℤ) := by rw [← hn]; exact hbig
        exact_mod_cast this
      have hn0 : n ≠ 0 :=
        Nat.pos_iff_ne_zero.mp (lt_of_lt_of_le (pow_pos (by norm_num) _) hnb)
      rw [hparse, hnat n hn, JsNum.roundDouble_natCast, if_neg hn0]
      rcases JsNum.roundPositive_large n hnb with hi | ⟨m, hm, hmv⟩
      · exact Or.inl ⟨hi, by rw [hi]⟩
      · refine Or.inr ⟨m, hm, hmv, ?_⟩
        rw [hmv]
        have hmq : (0 : ℚ) < (m : ℚ) := by
          have : 0 < m := lt_of_lt_of_le (pow_pos (by norm_num) _) hm
          exact_mod_cast this
        simp [hmq]

/-- C28: whatever the environment holds, `baseIntervalMs` is
`max(WHATSAPP_POLL_INTERVAL_MS, 3600000)`, at least one hour, `retryIntervalMs`
is `max(WHATSAPP_RETRY_INTERVAL_MS, 60000)`, at least one minute, and
`WHATSAPP_MAX_RETRIES` is at least 1. A poll interval that parses to a positive
number below one hour gives one hour; a setting that is missing, does not parse
to a number or parses to a number that is not positive gives one hour, five
minutes and three retries. A poll interval that parses to one hour or more is
kept as the double nearest to it, which is the number itself up to `2^53`, and
gives one hour when that double is `Infinity`, as it is from `2^1024` on. -/
theorem scheduler_interval_floors (env : AlertEnv) :
    baseIntervalMsOf env = Max.max (WHATSAPP_POLL_INTERVAL_MS env) 3600000 ∧
    retryIntervalMsOf env = Max.max (WHATSAPP_RETRY_INTERVAL_MS env) 60000 ∧
    3600000 ≤ baseIntervalMsOf env ∧ 60000 ≤ retryIntervalMsOf env ∧
    1 ≤ WHATSAPP_MAX_RETRIES env ∧
    3600000 ≤ (schedulerConfigOf env).baseIntervalMs ∧
    60000 ≤ (schedulerConfigOf env).retryIntervalMs ∧
    1 ≤ (schedulerConfigOf env).maxRetries ∧
    (∀ parsed, env.pollIntervalMs.bind parseInt10 = some parsed → 0 < parsed →
      parsed < 3600000 → baseIntervalMsOf env = 3600000) ∧
    (∀ parsed, env.pollIntervalMs.bind parseInt10 = some parsed → 3600000 ≤ parsed →
      (parsed ≤ 2 ^ 53 → baseIntervalMsOf env = parsed) ∧
      (2 ^ 1024 ≤ parsed → baseIntervalMsOf env = 3600000) ∧
      ((JsNum.roundDouble (parsed : ℚ) = JsNum.posInf ∧ baseIntervalMsOf env = 3600000) ∨
        ∃ m : ℕ, JsNum.roundDouble (parsed : ℚ) = JsNum.fin (m : ℚ) ∧
          baseIntervalMsOf env = (m : ℤ))) ∧
    ((env.pollIntervalMs = none ∨ env.pollIntervalMs.bind parseInt10 = none ∨
        ∃ parsed, env.pollIntervalMs.bind parseInt10 = some parsed ∧ parsed ≤ 0) →
      baseIntervalMsOf env = 3600000) ∧
    ((env.retryIntervalMs = none ∨ env.retryIntervalMs.bind parseInt10 = none ∨
        ∃ parsed, env.retryIntervalMs.bind parseInt10 = some parsed ∧ parsed ≤ 0) →
      retryIntervalMsOf env = 300000) ∧
    ((env.maxRetries = none ∨ env.maxRetries.bind parseInt10 = none ∨
        ∃ parsed, env.maxRetries.bind parseInt10 = some parsed ∧ parsed ≤ 0) →
      WHATSAPP_MAX_RETRIES env = 3) := by
  have hfall : ∀ (value : Option String) (fallback : ℤ),
      (value = none ∨ value.bind parseInt10 = none ∨
        ∃ parsed, value.bind parseInt10 = some parsed ∧ parsed ≤ 0) →
      parsePositiveInt value fallback = fallback := by
    intro value fallback h
    rcases h with h | h | ⟨parsed, hp, hle⟩
    · rw [h]; rfl
    · cases value with
      | none => rfl
      | some text =>
        have h2 : parseInt10 text = none := h
        simp [parsePositiveInt, jsParseInt, h2]
    · exact (parsePositiveInt_of_parsed value fallback parsed hp).1 hle
  have hbase : (3600000 : ℤ) ≤ baseIntervalMsOf env := by
    simp only [baseIntervalMsOf]
    exact le_max_of_le_right (by norm_num)
  have hretry : (60000 : ℤ) ≤ retryIntervalMsOf env := by
    simp only [retryIntervalMsOf]
    exact le_max_of_le_right (by norm_num)
  have hmax : (1 : ℤ) ≤ WHATSAPP_MAX_RETRIES env := by
    simp only [WHATSAPP_MAX_RETRIES]
    exact le_max_left _ _
  refine ⟨by simp only [baseIntervalMsOf]; norm_num,
    by simp only [retryIntervalMsOf]; norm_num, hbase, hretry, hmax, ?_, ?_, ?_, ?_, ?_, ?_,
    ?_, ?_⟩
  · simp only [schedulerConfigOf]; omega
  · simp only [schedulerConfigOf]; omega
  · simp only [schedulerConfigOf]; omega
  · intro parsed hp hpos hlt
    have hle : parsed ≤ 2 ^ 53 := by
      have : (3600000 : ℤ) ≤ 2 ^ 53 := by norm_num
      omega
    simp only [baseIntervalMsOf, WHATSAPP_POLL_INTERVAL_MS,
      (parsePositiveInt_of_parsed _ _ parsed hp).2.1 hpos hle]
    rw [max_eq_right (by omega)]
    norm_num
  · intro parsed hp hge
    have hpos : 0 < parsed := by omega
    obtain ⟨-, hsmall, hhuge, hlarge⟩ := parsePositiveInt_of_parsed env.pollIntervalMs
      (60 * 60 * 1000) parsed hp
    refine ⟨?_, ?_, ?_⟩
    · intro hle
      simp only [baseIntervalMsOf, WHATSAPP_POLL_INTERVAL_MS, hsmall hpos hle]
      rw [max_eq_left (by omega)]
    · intro hh
      simp only [baseIntervalMsOf, WHATSAPP_POLL_INTERVAL_MS, hhuge hh]
      norm_num
    · by_cases hle : parsed ≤ 2 ^ 53
      · right
        obtain ⟨n, hn⟩ : ∃ n : ℕ, parsed = (n : ℤ) := ⟨parsed.toNat, by omega⟩
        have hn53 : n ≤ 2 ^ 53 := by
          have : (n : ℤ) ≤ 2 ^ 53 := by rw [← hn]; exact hle
          exact_mod_cast this
        refine ⟨n, ?_, ?_⟩
        · have hcast : (parsed : ℚ) = (n : ℚ) := by rw [hn]; push_cast; rfl
          rw [hcast]
          exact JsNum.roundDouble_of_le n hn53
        · simp only [baseIntervalMsOf, WHATSAPP_POLL_INTERVAL_MS, hsmall hpos hle]
          rw [max_eq_left (by omega), hn]
      · rcases hlarge (le_of_lt (not_le.mp hle)) with ⟨hi, hf⟩ | ⟨m, hm, hmv, hf⟩
        · left
          refine ⟨hi, ?_⟩
          simp only [baseIntervalMsOf, WHATSAPP_POLL_INTERVAL_MS, hf]
          norm_num
        · right
          refine ⟨m, hmv, ?_⟩
          simp only [baseIntervalMsOf, WHATSAPP_POLL_INTERVAL_MS, hf]
          have hmz : (2 : ℤ) ^ 53 ≤ (m : ℤ) := by exact_mod_cast hm
          have : (3600000 : ℤ) ≤ 2 ^ 53 := by norm_num
          exact max_eq_left (by omega)
  · intro h
    simp only [baseIntervalMsOf, WHATSAPP_POLL_INTERVAL_MS, hfall _ _ h]
    norm_num
  · intro h
    simp only [retryIntervalMsOf, WHATSAPP_RETRY_INTERVAL_MS, hfall _ _ h]
    norm_num
  · intro h
    simp only [WHATSAPP_MAX_RETRIES, hfall _ _ h]
    norm_num

/-! ### Decimal texts -/

theorem digitsValue_append_singleton (digits : List Char) (d : Char) :
    digitsValue (digits ++ [d]) = digitsValue digits * 10 + (d.toNat - 48) := by
  simp [digitsValue, List.foldl_append]

theorem digitChar_spec (n : ℕ) :
    (Nat.digitChar (n % 10)).isDigit = true ∧ (Nat.digitChar (n % 10)).toNat - 48 = n % 10 := by
  have key : ∀ k : Fin 10, (Nat.digitChar k.val).isDigit = true ∧
      (Nat.digitChar k.val).toNat - 48 = k.val := by decide
  exact key ⟨n % 10, Nat.mod_lt _ (by norm_num)⟩

theorem toDigitsCore_append (fuel : ℕ) : ∀ (n : ℕ) (ds : List Char),
    Nat.toDigitsCore 10 fuel n ds = Nat.toDigitsCore 10 fuel n [] ++ ds := by
  induction fuel with
  | zero => intro n ds; simp [Nat.toDigitsCore]
  | succ fuel ih =>
    intro n ds
    simp only [Nat.toDigitsCore]
    split_ifs
    · simp
    · rw [ih _ (Nat.digitChar (n % 10) :: ds), ih _ [Nat.digitChar (n % 10)]]
      simp

theorem toDigitsCore_spec (fuel : ℕ) : ∀ n : ℕ, n < fuel →
    Nat.toDigitsCore 10 fuel n [] ≠ [] ∧
    (∀ c ∈ Nat.toDigitsCore 10 fuel n [], c.isDigit = true) ∧
    digitsValue (Nat.toDigitsCore 10 fuel n []) = n := by
  induction fuel with
  | zero => intro n h; omega
  | succ fuel ih =>
    intro n hn
    obtain ⟨hd1, hd2⟩ := digitChar_spec n
    simp only [Nat.toDigitsCore]
    split_ifs with h0
    · refine ⟨by simp, ?_, ?_⟩
      · intro c hc
        rw [List.mem_singleton.mp hc]; exact hd1
      · have : digitsValue [Nat.digitChar (n % 10)] = (Nat.digitChar (n % 10)).toNat - 48 := by
          simp [digitsValue]
        rw [this, hd2]
        omega
    · have hlt : n / 10 < fuel := by omega
      obtain ⟨h1, h2, h3⟩ := ih (n / 10) hlt
      rw [toDigitsCore_append]
      refine ⟨by simp, ?_, ?_⟩
      · intro c hc
        rcases List.mem_append.mp hc with hc | hc
        · exact h2 c hc
        · rw [List.mem_singleton.mp hc]; exact hd1
      · rw [digitsValue_append_singleton, h3, hd2]
        omega

theorem natRepr_spec (n : ℕ) :
    (Nat.repr n).toList ≠ [] ∧ (∀ c ∈ (Nat.repr n).toList, c.isDigit = true) ∧
    digitsValue (Nat.repr n).toList = n := by
  have := toDigitsCore_spec (n + 1) n (by omega)
  simpa [Nat.repr, Nat.toDigits, List.asString, String.toList] using this

/-! ### Trimming and lower-casing -/

theorem dropWhile_append_of_all {α : Type} (p : α → Bool) (xs ys : List α)
    (h : ∀ x ∈ xs, p x = true) : (xs ++ ys).dropWhile p = ys.dropWhile p := by
  induction xs with
  | nil => rfl
  | cons x xs ih =>
    rw [List.cons_append, List.dropWhile_cons, if_pos (h x (List.mem_cons_self _ _))]
    exact ih (fun y hy => h y (List.mem_cons_of_mem _ hy))

theorem dropWhile_of_head {α : Type} (p : α → Bool) (x : α) (xs : List α)
    (h : p x = false) : (x :: xs).dropWhile p = x :: xs := by
  rw [List.dropWhile_cons, if_neg (by simp [h])]

theorem jsTrim_of_padded (pre core post : List Char)
    (hpre : ∀ c ∈ pre, isJsWhiteSpace c = true) (hpost : ∀ c ∈ post, isJsWhiteSpace c = true)
    (hcore : ∀ c ∈ core, isJsWhiteSpace c = false) :
    jsTrim (String.mk (pre ++ core ++ post)) = String.mk core := by
  have hdrop : ∀ (ws rest : List Char), (∀ c ∈ ws, isJsWhiteSpace c = true) →
      (∀ c ∈ rest, isJsWhiteSpace c = false) →
      (ws ++ rest).dropWhile isJsWhiteSpace = rest := by
    intro ws rest h1 h2
    rw [dropWhile_append_of_all _ _ _ h1]
    cases rest with
    | nil => rfl
    | cons c rest => exact dropWhile_of_head _ _ _ (h2 c (List.mem_cons_self _ _))
  simp only [jsTrim, String.toList]
  congr 1
  rw [List.append_assoc, dropWhile_append_of_all _ _ _ hpre]
  cases core with
  | nil =>
    simp only [List.nil_append]
    have h1 : post.dropWhile isJsWhiteSpace = [] := by
      have := dropWhile_append_of_all isJsWhiteSpace post [] hpost
      simpa using this
    rw [h1]; rfl
  | cons c core =>
    rw [List.cons_append, dropWhile_of_head _ _ _ (hcore c (List.mem_cons_self _ _)),
      ← List.cons_append, List.reverse_append,
      hdrop post.reverse (c :: core).reverse (fun x hx => hpost x (List.mem_reverse.mp hx))
        (fun x hx => hcore x (List.mem_reverse.mp hx)), List.reverse_reverse]

theorem jsToLowerCase_of_ascii (rt : JsRuntime) (cs : List Char)
    (h : ∀ c ∈ cs, c.toNat < 128) :
    jsToLowerCase rt (String.mk cs) = String.mk (cs.map Char.toLower) := by
  simp only [jsToLowerCase, String.toList]
  congr 1
  induction cs with
  | nil => rfl
  | cons c cs ih =>
    rw [List.flatMap_cons, if_pos (h c (List.mem_cons_self _ _)), List.map_cons,
      ih (fun x hx => h x (List.mem_cons_of_mem _ hx))]
    rfl

theorem isDigit_facts (c : Char) (h : c.isDigit = true) :
    c.toNat < 128 ∧ c.toLower = c ∧ isJsWhiteSpace c = false ∧ c ≠ '-' ∧ c ≠ '+' := by
  have hr : 48 ≤ c.toNat ∧ c.toNat ≤ 57 := by
    simp only [Char.isDigit, Bool.and_eq_true, decide_eq_true_eq, ge_iff_le] at h
    have h1 : (48 : UInt32) ≤ c.val := h.1
    have h2 : c.val ≤ (57 : UInt32) := h.2
    rw [UInt32.le_def] at h1 h2
    exact ⟨h1, h2⟩
  have key : ∀ n : Fin 128, 48 ≤ n.val → n.val ≤ 57 →
      (Char.ofNat n.val).toLower = Char.ofNat n.val ∧
      isJsWhiteSpace (Char.ofNat n.val) = false ∧ Char.ofNat n.val ≠ '-' ∧
      Char.ofNat n.val ≠ '+' := by decide
  have := key ⟨c.toNat, by omega⟩ hr.1 hr.2
  simp only [Char.ofNat_toNat] at this
  exact ⟨by omega, this⟩

/-! ### The configured alert symbols -/

theorem jsUnique_fold (entries : List String) :
    ∀ seen : List String, seen.Nodup →
      (entries.foldl (fun seen entry => if entry ∈ seen then seen else seen ++ [entry])
          seen).Nodup ∧
      (∀ x, x ∈ entries.foldl (fun seen entry => if entry ∈ seen then seen else seen ++ [entry])
          seen ↔ x ∈ seen ∨ x ∈ entries) ∧
      ∃ added, entries.foldl (fun seen entry => if entry ∈ seen then seen else seen ++ [entry])
          seen = seen ++ added ∧ added.Sublist entries := by
  induction entries with
  | nil =>
    intro seen h
    exact ⟨h, fun x => by simp, [], by simp, List.Sublist.refl _⟩
  | cons e entries ih =>
    intro seen h
    rw [List.foldl_cons]
    by_cases he : e ∈ seen
    · rw [if_pos he]
      obtain ⟨h1, h2, added, h3, h4⟩ := ih seen h
      refine ⟨h1, fun x => ?_, added, h3, h4.cons e⟩
      rw [h2 x, List.mem_cons]
      constructor
      · rintro (hx | hx)
        · exact Or.inl hx
        · exact Or.inr (Or.inr hx)
      · rintro (hx | hx | hx)
        · exact Or.inl hx
        · exact Or.inl (hx ▸ he)
        · exact Or.inr hx
    · rw [if_neg he]
      have hn : (seen ++ [e]).Nodup := by
        rw [List.nodup_append]
        refine ⟨h, List.nodup_singleton e, ?_⟩
        intro a ha hb
        rw [List.mem_singleton.mp hb] at ha
        exact he ha
      obtain ⟨h1, h2, added, h3, h4⟩ := ih (seen ++ [e]) hn
      refine ⟨h1, fun x => ?_, e :: added, ?_, h4.cons₂ e⟩
      · rw [h2 x, List.mem_append, List.mem_singleton, List.mem_cons]
        tauto
      · rw [h3]; simp

theorem jsUnique_spec (entries : List String) :
    (jsUnique entries).Nodup ∧ (∀ x, x ∈ jsUnique entries ↔ x ∈ entries) ∧
      (jsUnique entries).Sublist entries := by
  obtain ⟨h1, h2, added, h3, h4⟩ := jsUnique_fold entries [] List.nodup_nil
  refine ⟨h1, fun x => by simpa using h2 x, ?_⟩
  unfold jsUnique
  rw [h3]
  simpa using h4

theorem DEFAULT_TV_SYMBOL_ne_empty (tradingViewSymbol : Option String) :
    DEFAULT_TV_SYMBOL tradingViewSymbol ≠ "" := by
  unfold DEFAULT_TV_SYMBOL
  cases tradingViewSymbol with
  | none => decide
  | some text =>
    simp only
    split_ifs with h
    · exact h.2
    · decide

theorem splitRunsFrom_token (t : List Char) :
    ∀ (c : Char) (rest cur : List Char) (inRun : Bool),
      (∀ x ∈ c :: t, isListSeparator x = false) →
      splitRunsFrom (c :: t ++ rest) cur inRun
        = splitRunsFrom rest ((c :: t).reverse ++ cur) false := by
  induction t with
  | nil =>
    intro c rest cur inRun h
    have hc : isListSeparator c = false := h c (List.mem_cons_self _ _)
    simp [splitRunsFrom, hc]
  | cons d t ih =>
    intro c rest cur inRun h
    have hc : isListSeparator c = false := h c (List.mem_cons_self _ _)
    have hrest : ∀ x ∈ d :: t, isListSeparator x = false :=
      fun x hx => h x (List.mem_cons_of_mem _ hx)
    have hstep : splitRunsFrom (c :: (d :: t) ++ rest) cur inRun
        = splitRunsFrom (d :: t ++ rest) (c :: cur) false := by
      simp [splitRunsFrom, hc]
    rw [hstep, ih d rest (c :: cur) false hrest]
    simp

theorem splitRunsFrom_run (s : List Char) (hs : ∀ c ∈ s, isListSeparator c = true) :
    ∀ rest cur : List Char,
      splitRunsFrom (s ++ rest) cur true = splitRunsFrom rest cur true := by
  induction s with
  | nil => intro rest cur; rfl
  | cons c s ih =>
    intro rest cur
    have hc : isListSeparator c = true := hs c (List.mem_cons_self _ _)
    have hstep : splitRunsFrom (c :: s ++ rest) cur true
        = splitRunsFrom (s ++ rest) cur true := by
      simp [splitRunsFrom, hc]
    rw [hstep, ih (fun x hx => hs x (List.mem_cons_of_mem _ hx))]

theorem splitRunsFrom_run_first (c : Char) (s rest cur : List Char)
    (hs : ∀ x ∈ c :: s, isListSeparator x = true) :
    splitRunsFrom (c :: s ++ rest) cur false
      = String.mk cur.reverse :: splitRunsFrom rest [] true := by
  have hc : isListSeparator c = true := hs c (List.mem_cons_self _ _)
  have hstep : splitRunsFrom (c :: s ++ rest) cur false
      = String.mk cur.reverse :: splitRunsFrom (s ++ rest) [] true := by
    simp [splitRunsFrom, hc]
  rw [hstep, splitRunsFrom_run s (fun x hx => hs x (List.mem_cons_of_mem _ hx))]

theorem jsTrim_of_entry (t : List Char) (ht : ∀ c ∈ t, isListSeparator c = false) :
    jsTrim (String.mk t) = String.mk t := by
  have h := jsTrim_of_padded [] t [] (by simp) (by simp) (by
    intro c hc
    have := ht c hc
    simp only [isListSeparator, Bool.or_eq_false_iff] at this
    exact this.1)
  simpa using h

theorem mk_ne_empty (t : List Char) (ht : t ≠ []) : String.mk t ≠ "" := by
  intro h
  exact ht (congrArg String.toList h)

theorem splitRuns_parts : ∀ (parts : List (List Char × List Char)) (inRun : Bool),
    (∀ p ∈ parts, p.1 ≠ [] ∧ (∀ c ∈ p.1, isListSeparator c = false) ∧
      (∀ c ∈ p.2, isListSeparator c = true)) →
    (∀ p ∈ parts.dropLast, p.2 ≠ []) →
    ((splitRunsFrom (parts.flatMap (fun p => p.1 ++ p.2)) [] inRun).map jsTrim).filter
        (fun entry => entry ≠ "")
      = parts.map (fun p => String.mk p.1) := by
  intro parts
  induction parts with
  | nil =>
    intro inRun _ _
    have h : jsTrim (String.mk []) = "" := by decide
    simp [splitRunsFrom, h]
  | cons p ps ih =>
    intro inRun hvalid hruns
    obtain ⟨t, s⟩ := p
    obtain ⟨htne, ht, hs⟩ := hvalid (t, s) (List.mem_cons_self _ _)
    simp only at htne ht hs
    have hvalid2 : ∀ q ∈ ps, q.1 ≠ [] ∧ (∀ c ∈ q.1, isListSeparator c = false) ∧
        (∀ c ∈ q.2, isListSeparator c = true) :=
      fun q hq => hvalid q (List.mem_cons_of_mem _ hq)
    have hkeep : (List.filter (fun entry => decide (entry ≠ "")) [jsTrim (String.mk t)])
        = [String.mk t] := by
      rw [jsTrim_of_entry t ht]
      simp [mk_ne_empty t htne]
    cases t with
    | nil => exact absurd rfl htne
    | cons c t =>
      have hflat : ((c :: t, s) :: ps).flatMap (fun p : List Char × List Char => p.1 ++ p.2)
          = c :: t ++ (s ++ ps.flatMap (fun p : List Char × List Char => p.1 ++ p.2)) := by
        simp [List.flatMap_cons]
      rw [hflat, splitRunsFrom_token t c _ [] inRun ht, List.append_nil]
      cases s with
      | nil =>
        have hps : ps = [] := by
          by_contra hne
          have hmem : (c :: t, ([] : List Char)) ∈ ((c :: t, []) :: ps).dropLast := by
            rw [List.dropLast_cons_of_ne_nil hne]
            exact List.mem_cons_self _ _
          exact hruns _ hmem rfl
        subst hps
        simp only [List.flatMap_nil, List.append_nil, splitRunsFrom, List.reverse_reverse,
          List.map_cons, List.map_nil]
        exact hkeep
      | cons d s =>
        have hruns2 : ∀ q ∈ ps.dropLast, q.2 ≠ [] := by
          intro q hq
          by_cases hne : ps = []
          · subst hne; simp at hq
          · apply hruns q
            rw [List.dropLast_cons_of_ne_nil hne]
            exact List.mem_cons_of_mem _ hq
        rw [splitRunsFrom_run_first d s _ _ hs, List.reverse_reverse, List.map_cons,
          List.filter_cons, List.map_cons]
        rw [jsTrim_of_entry (c :: t) ht]
        simp only [mk_ne_empty (c :: t) htne, ne_eq, not_false_eq_true, decide_True, if_true]
        congr 1
        exact ih true hvalid2 hruns2

theorem parseSymbolList_parts (lead : List Char) (parts : List (List Char × List Char))
    (hlead : ∀ c ∈ lead, isListSeparator c = true)
    (hvalid : ∀ p ∈ parts, p.1 ≠ [] ∧ (∀ c ∈ p.1, isListSeparator c = false) ∧
      (∀ c ∈ p.2, isListSeparator c = true))
    (hruns : ∀ p ∈ parts.dropLast, p.2 ≠ []) :
    parseSymbolList (some (String.mk (lead ++ parts.flatMap (fun p => p.1 ++ p.2))))
      = parts.map (fun p => String.mk p.1) := by
  unfold parseSymbolList
  simp only
  by_cases hempty : String.mk (lead ++ parts.flatMap (fun p => p.1 ++ p.2)) = ""
  · rw [if_pos hempty]
    have hnil : lead ++ parts.flatMap (fun p => p.1 ++ p.2) = [] := congrArg String.toList hempty
    obtain ⟨-, hflat⟩ := List.append_eq_nil.mp hnil
    cases parts with
    | nil => rfl
    | cons p ps =>
      exfalso
      obtain ⟨htne, -, -⟩ := hvalid p (List.mem_cons_self _ _)
      rw [List.flatMap_cons] at hflat
      exact htne (List.append_eq_nil.mp (List.append_eq_nil.mp hflat).1).1
  · rw [if_neg hempty]
    simp only [splitRuns, String.toList]
    cases lead with
    | nil =>
      rw [List.nil_append]
      exact splitRuns_parts parts false hvalid hruns
    | cons d lead =>
      rw [splitRunsFrom_run_first d lead _ _ hlead]
      have h : jsTrim (String.mk ([] : List Char).reverse) = "" := by decide
      rw [List.map_cons, h, List.filter_cons]
      simp only [ne_eq, not_true_eq_false, decide_False, Bool.false_eq_true, if_false]
      exact splitRuns_parts parts true hvalid hruns

theorem parts_of_text : ∀ cs : List Char,
    ∃ (lead : List Char) (parts : List (List Char × List Char)),
      (∀ c ∈ lead, isListSeparator c = true) ∧
      (∀ p ∈ parts, p.1 ≠ [] ∧ (∀ c ∈ p.1, isListSeparator c = false) ∧
        (∀ c ∈ p.2, isListSeparator c = true)) ∧
      (∀ p ∈ parts.dropLast, p.2 ≠ []) ∧
      cs = lead ++ parts.flatMap (fun p => p.1 ++ p.2) := by
  intro cs
  induction cs with
  | nil => exact ⟨[], [], by simp, by simp, by simp, by simp⟩
  | cons c cs ih =>
    obtain ⟨lead, parts, hlead, hvalid, hruns, hcs⟩ := ih
    by_cases hc : isListSeparator c = true
    · refine ⟨c :: lead, parts, ?_, hvalid, hruns, by rw [hcs]; rfl⟩
      intro x hx
      rcases List.mem_cons.mp hx with rfl | hx
      · exact hc
      · exact hlead x hx
    · have hc2 : isListSeparator c = false := by simpa using hc
      cases lead with
      | cons d lead =>
        refine ⟨[], ([c], d :: lead) :: parts, by simp, ?_, ?_, ?_⟩
        · intro p hp
          rcases List.mem_cons.mp hp with rfl | hp
          · refine ⟨by simp, ?_, hlead⟩
            intro x hx
            rw [List.mem_singleton.mp hx]; exact hc2
          · exact hvalid p hp
        · intro p hp
          by_cases hne : parts = []
          · subst hne; simp at hp
          · rw [List.dropLast_cons_of_ne_nil hne] at hp
            rcases List.mem_cons.mp hp with rfl | hp
            · simp
            · exact hruns p hp
        · rw [hcs]; simp [List.flatMap_cons]
      | nil =>
        cases parts with
        | nil =>
          refine ⟨[], [([c], [])], by simp, ?_, by simp, ?_⟩
          · intro p hp
            rw [List.mem_singleton.mp hp]
            refine ⟨by simp, ?_, by simp⟩
            intro x hx
            rw [List.mem_singleton.mp hx]; exact hc2
          · rw [hcs]; simp
        | cons p ps =>
          obtain ⟨t, s⟩ := p
          obtain ⟨htne, ht, hs⟩ := hvalid (t, s) (List.mem_cons_self _ _)
          refine ⟨[], (c :: t, s) :: ps, by simp, ?_, ?_, ?_⟩
          · intro q hq
            rcases List.mem_cons.mp hq with rfl | hq
            · refine ⟨by simp, ?_, hs⟩
              intro x hx
              rcases List.mem_cons.mp hx with rfl | hx
              · exact hc2
              · exact ht x hx
            · exact hvalid q (List.mem_cons_of_mem _ hq)
          · intro q hq
            by_cases hne : ps = []
            · subst hne; simp at hq
            · rw [List.dropLast_cons_of_ne_nil hne] at hq
              rcases List.mem_cons.mp hq with rfl | hq
              · apply hruns (t, s)
                rw [List.dropLast_cons_of_ne_nil hne]
                exact List.mem_cons_self _ _
              · apply hruns q
                rw [List.dropLast_cons_of_ne_nil hne]
                exact List.mem_cons_of_mem _ hq
          · rw [hcs]; simp [List.flatMap_cons]

/-- C29: whatever the three environment variables hold, `WHATSAPP_ALERT_SYMBOLS`
is non-empty and without duplicates. It is the list of the entries of
`WHATSAPP_ALERT_SYMBOLS` followed by those of `WHATSAPP_ALERT_SYMBOL`, every
entry kept once in the order of first occurrence, or the single symbol
`DEFAULT_TV_SYMBOL`, itself never empty, when that list is empty. The entries
of a variable are its pieces between commas and white space, in order and
without the empty ones: a variable that is not set has none, and a text made of
a run of separators, then entries that are non-empty and free of separators,
each followed by a run of separators that is non-empty unless the entry is the
last, has exactly these entries; every text is of this form, with a separator
being a white-space character or the comma. So `startWhatsAppAlerts` never stops
at the guard on the symbols: with alerts enabled and both credentials set it
arms the loop. -/
theorem WHATSAPP_ALERT_SYMBOLS_nonempty (alertSymbols alertSymbol tradingViewSymbol :
    Option String) :
    WHATSAPP_ALERT_SYMBOLS alertSymbols alertSymbol tradingViewSymbol ≠ [] ∧
    (WHATSAPP_ALERT_SYMBOLS alertSymbols alertSymbol tradingViewSymbol).Nodup ∧
    (parseSymbolList alertSymbols ++ parseSymbolList alertSymbol ≠ [] →
      (∀ x, x ∈ WHATSAPP_ALERT_SYMBOLS alertSymbols alertSymbol tradingViewSymbol ↔
        x ∈ parseSymbolList alertSymbols ++ parseSymbolList alertSymbol) ∧
      (WHATSAPP_ALERT_SYMBOLS alertSymbols alertSymbol tradingViewSymbol).Sublist
        (parseSymbolList alertSymbols ++ parseSymbolList alertSymbol) ∧
      WHATSAPP_ALERT_SYMBOLS alertSymbols alertSymbol tradingViewSymbol
        = jsUnique (parseSymbolList alertSymbols ++ parseSymbolList alertSymbol)) ∧
    (parseSymbolList alertSymbols ++ parseSymbolList alertSymbol = [] →
      WHATSAPP_ALERT_SYMBOLS alertSymbols alertSymbol tradingViewSymbol
        = [DEFAULT_TV_SYMBOL tradingViewSymbol]) ∧
    (∀ x ∈ parseSymbolList alertSymbols ++ parseSymbolList alertSymbol, x ≠ "") ∧
    parseSymbolList none = [] ∧
    (∀ (lead : List Char) (parts : List (List Char × List Char)),
      (∀ c ∈ lead, isListSeparator c = true) →
      (∀ p ∈ parts, p.1 ≠ [] ∧ (∀ c ∈ p.1, isListSeparator c = false) ∧
        (∀ c ∈ p.2, isListSeparator c = true)) →
      (∀ p ∈ parts.dropLast, p.2 ≠ []) →
      parseSymbolList (some (String.mk (lead ++ parts.flatMap (fun p => p.1 ++ p.2))))
        = parts.map (fun p => String.mk p.1)) ∧
    (∀ text : String, ∃ (lead : List Char) (parts : List (List Char × List Char)),
      (∀ c ∈ lead, isListSeparator c = true) ∧
      (∀ p ∈ parts, p.1 ≠ [] ∧ (∀ c ∈ p.1, isListSeparator c = false) ∧
        (∀ c ∈ p.2, isListSeparator c = true)) ∧
      (∀ p ∈ parts.dropLast, p.2 ≠ []) ∧
      text = String.mk (lead ++ parts.flatMap (fun p => p.1 ++ p.2)) ∧
      parseSymbolList (some text) = parts.map (fun p => String.mk p.1)) ∧
    (∀ c : Char, isListSeparator c = true ↔ (isJsWhiteSpace c = true ∨ c = ',')) ∧
    (∀ (alertEnabled : Bool) (phone apiKey : String) (timers : Timers),
      alertEnabled = true → phone ≠ "" → apiKey ≠ "" →
      (startWhatsAppAlerts
        { alertEnabled := alertEnabled, callmebotPhone := phone, callmebotApiKey := apiKey,
          symbols := WHATSAPP_ALERT_SYMBOLS alertSymbols alertSymbol tradingViewSymbol }
        timers).isSome = true) := by
  obtain ⟨hnodup, hmem, hsub⟩ :=
    jsUnique_spec (parseSymbolList alertSymbols ++ parseSymbolList alertSymbol)
  have hdef := DEFAULT_TV_SYMBOL_ne_empty tradingViewSymbol
  have hcases : (parseSymbolList alertSymbols ++ parseSymbolList alertSymbol ≠ [] ∧
        WHATSAPP_ALERT_SYMBOLS alertSymbols alertSymbol tradingViewSymbol
          = jsUnique (parseSymbolList alertSymbols ++ parseSymbolList alertSymbol)) ∨
      (parseSymbolList alertSymbols ++ parseSymbolList alertSymbol = [] ∧
        WHATSAPP_ALERT_SYMBOLS alertSymbols alertSymbol tradingViewSymbol
          = [DEFAULT_TV_SYMBOL tradingViewSymbol]) := by
    by_cases hl : (jsUnique (parseSymbolList alertSymbols
        ++ parseSymbolList alertSymbol)).length ≠ 0
    · left
      refine ⟨?_, by simp only [WHATSAPP_ALERT_SYMBOLS, if_pos hl]⟩
      intro hnil
      rw [hnil] at hl
      exact hl rfl
    · right
      have hu : jsUnique (parseSymbolList alertSymbols ++ parseSymbolList alertSymbol) = [] :=
        List.length_eq_zero.mp (not_not.mp hl)
      refine ⟨?_, by simp only [WHATSAPP_ALERT_SYMBOLS, if_neg hl, if_pos hdef]⟩
      apply List.eq_nil_iff_forall_not_mem.mpr
      intro x hx
      have := (hmem x).mpr hx
      rw [hu] at this
      cases this
  have hne : WHATSAPP_ALERT_SYMBOLS alertSymbols alertSymbol tradingViewSymbol ≠ [] := by
    rcases hcases with ⟨hl, he⟩ | ⟨-, he⟩
    · rw [he]
      intro hnil
      apply hl
      apply List.eq_nil_iff_forall_not_mem.mpr
      intro x hx
      have := (hmem x).mpr hx
      rw [hnil] at this
      cases this
    · rw [he]; simp
  refine ⟨hne, ?_, ?_, ?_, ?_, rfl, parseSymbolList_parts, ?_, ?_, ?_⟩
  · rcases hcases with ⟨-, he⟩ | ⟨-, he⟩
    · rw [he]; exact hnodup
    · rw [he]; exact List.nodup_singleton _
  · intro hl
    rcases hcases with ⟨-, he⟩ | ⟨hnil, -⟩
    · rw [he]; exact ⟨hmem, hsub, rfl⟩
    · exact absurd hnil hl
  · intro hnil
    rcases hcases with ⟨hl, -⟩ | ⟨-, he⟩
    · exact absurd hnil hl
    · exact he
  · intro x hx
    have hparse : ∀ input : Option String, ∀ y ∈ parseSymbolList input, y ≠ "" := by
      intro input y hy
      cases input with
      | none => simp [parseSymbolList] at hy
      | some text =>
        simp only [parseSymbolList] at hy
        split_ifs at hy
        · cases hy
        · have := (List.mem_filter.mp hy).2
          simpa using this
    rcases List.mem_append.mp hx with h | h
    · exact hparse _ x h
    · exact hparse _ x h
  · intro text
    obtain ⟨lead, parts, hlead, hvalid, hruns, hcs⟩ := parts_of_text text.toList
    have htext : text = String.mk (lead ++ parts.flatMap (fun p => p.1 ++ p.2)) :=
      String.ext hcs
    refine ⟨lead, parts, hlead, hvalid, hruns, htext, ?_⟩
    rw [htext]
    exact parseSymbolList_parts lead parts hlead hvalid hruns
  · intro c
    simp [isListSeparator]
  · intro alertEnabled phone apiKey timers hen hphone hkey
    have hlen : (WHATSAPP_ALERT_SYMBOLS alertSymbols alertSymbol tradingViewSymbol).length
        ≠ 0 := fun h => hne (List.length_eq_zero.mp h)
    simp [startWhatsAppAlerts, hen, hphone, hkey, hlen]

/-! ### The minutes of an interval -/

theorem takeWhile_append_of_all {α : Type} (p : α → Bool) (xs ys : List α)
    (h : ∀ x ∈ xs, p x = true) (hy : ∀ y, ys.head? = some y → p y = false) :
    (xs ++ ys).takeWhile p = xs ∧ (xs ++ ys).dropWhile p = ys := by
  induction xs with
  | nil =>
    cases ys with
    | nil => exact ⟨rfl, rfl⟩
    | cons y ys =>
      have hp := hy y rfl
      simp [List.takeWhile_cons, List.dropWhile_cons, hp]
  | cons x xs ih =>
    have hx := h x (List.mem_cons_self _ _)
    obtain ⟨h1, h2⟩ := ih (fun z hz => h z (List.mem_cons_of_mem _ hz))
    simp [List.takeWhile_cons, List.dropWhile_cons, hx, h1, h2]

theorem unit_letter_facts (c : Char) (h : c.toNat < 128)
    (hl : c.toLower ∈ ['m', 'i', 'n', 'h', 'd', 'a', 'y', 'w', 'e', 'k', 'o', 't']) :
    isJsWhiteSpace c = false ∧ c.isDigit = false ∧ c.toLower.isDigit = false := by
  have key : ∀ n : Fin 128,
      (Char.ofNat n.val).toLower ∈ ['m', 'i', 'n', 'h', 'd', 'a', 'y', 'w', 'e', 'k', 'o', 't'] →
      isJsWhiteSpace (Char.ofNat n.val) = false ∧ (Char.ofNat n.val).isDigit = false ∧
        (Char.ofNat n.val).toLower.isDigit = false := by decide
  have := key ⟨c.toNat, h⟩
  simp only [Char.ofNat_toNat] at this
  exact this hl

theorem normalized_of_padded (rt : JsRuntime) (n : ℕ) (pre u post : String) (unit : String)
    (hunit : unit ∈ ["min", "h", "day", "week", "month"])
    (hpre : ∀ c ∈ pre.toList, isJsWhiteSpace c = true)
    (hpost : ∀ c ∈ post.toList, isJsWhiteSpace c = true)
    (hascii : ∀ c ∈ u.toList, c.toNat < 128)
    (hlower : u.toList.map Char.toLower = unit.toList) :
    jsTrim (pre ++ Nat.repr n ++ u ++ post) ≠ "" ∧
    (jsToLowerCase rt (jsTrim (pre ++ Nat.repr n ++ u ++ post))).toList
      = (Nat.repr n).toList ++ unit.toList := by
  obtain ⟨hne, hdig, -⟩ := natRepr_spec n
  have hletters : ∀ c ∈ unit.toList,
      c ∈ ['m', 'i', 'n', 'h', 'd', 'a', 'y', 'w', 'e', 'k', 'o', 't'] := by
    simp only [List.mem_cons, List.mem_singleton, List.not_mem_nil, or_false] at hunit
    rcases hunit with rfl | rfl | rfl | rfl | rfl <;> decide
  have hu : ∀ c ∈ u.toList, isJsWhiteSpace c = false := by
    intro c hc
    have hm : c.toLower ∈ unit.toList := by
      rw [← hlower]; exact List.mem_map.mpr ⟨c, hc, rfl⟩
    exact (unit_letter_facts c (hascii c hc) (hletters _ hm)).1
  have hcore : ∀ c ∈ (Nat.repr n).toList ++ u.toList, isJsWhiteSpace c = false := by
    intro c hc
    rcases List.mem_append.mp hc with h | h
    · exact (isDigit_facts c (hdig c h)).2.2.1
    · exact hu c h
  have hshape : pre ++ Nat.repr n ++ u ++ post
      = String.mk (pre.toList ++ ((Nat.repr n).toList ++ u.toList) ++ post.toList) := by
    apply String.ext
    simp [toList_append, String.toList]
  have htrim := jsTrim_of_padded pre.toList ((Nat.repr n).toList ++ u.toList) post.toList
    hpre hpost hcore
  rw [hshape, htrim]
  constructor
  · intro h
    have := congrArg String.toList h
    simp only [String.toList] at this
    exact hne (List.append_eq_nil.mp this).1
  · rw [jsToLowerCase_of_ascii rt _ (by
      intro c hc
      rcases List.mem_append.mp hc with h | h
      · exact (isDigit_facts c (hdig c h)).1
      · exact hascii c h)]
    simp only [String.toList, List.map_append, hlower]
    congr 1
    have : ∀ (l : List Char), (∀ c ∈ l, c.isDigit = true) → l.map Char.toLower = l := by
      intro l hl
      induction l with
      | nil => rfl
      | cons c l ih =>
        rw [List.map_cons, (isDigit_facts c (hl c (List.mem_cons_self _ _))).2.1,
          ih (fun x hx => hl x (List.mem_cons_of_mem _ hx))]
    exact this _ hdig

theorem getIntervalMinutes_of_normalized (rt : JsRuntime) (text : String)
    (digits unit : List Char) (htrim : jsTrim text ≠ "")
    (hnorm : (jsToLowerCase rt (jsTrim text)).toList = digits ++ unit)
    (hd : ∀ c ∈ digits, c.isDigit = true)
    (hu : ∀ c, unit.head? = some c → c.isDigit = false) :
    getIntervalMinutes rt (JsVal.str text)
      = if digits = [] ∨ String.mk unit ∉ intervalUnits then JsNum.fin 60
        else if !(JsNum.roundDouble (digitsValue digits : ℚ)).isFinite
            || JsNum.le (JsNum.roundDouble (digitsValue digits : ℚ)) (JsNum.fin 0)
          then JsNum.fin 60
        else if String.mk unit = "min" then JsNum.roundDouble (digitsValue digits : ℚ)
        else if String.mk unit = "h" then
          JsNum.mul (JsNum.roundDouble (digitsValue digits : ℚ)) (JsNum.fin 60)
        else if String.mk unit = "day" then
          JsNum.mul (JsNum.roundDouble (digitsValue digits : ℚ)) (JsNum.fin 1440)
        else if String.mk unit = "week" then
          JsNum.mul (JsNum.roundDouble (digitsValue digits : ℚ)) (JsNum.fin 10080)
        else if String.mk unit = "month" then
          JsNum.mul (JsNum.roundDouble (digitsValue digits : ℚ)) (JsNum.fin 43200)
        else JsNum.fin 60 := by
  obtain ⟨h1, h2⟩ := takeWhile_append_of_all Char.isDigit digits unit hd hu
  simp only [getIntervalMinutes, if_neg htrim, hnorm, h1, h2]

theorem unitFactor_cases (unit : String) (factor : ℕ)
    (hmem : (unit, factor) ∈ [("min", 1), ("h", 60), ("day", 1440), ("week", 10080),
      ("month", 43200)]) :
    unit ∈ intervalUnits ∧ 0 < factor ∧
    ((unit = "min" ∧ factor = 1) ∨ (unit = "h" ∧ factor = 60) ∨ (unit = "day" ∧ factor = 1440) ∨
      (unit = "week" ∧ factor = 10080) ∨ (unit = "month" ∧ factor = 43200)) := by
  simp only [List.mem_cons, Prod.mk.injEq, List.mem_singleton, List.not_mem_nil,
    or_false] at hmem
  rcases hmem with ⟨rfl, rfl⟩ | ⟨rfl, rfl⟩ | ⟨rfl, rfl⟩ | ⟨rfl, rfl⟩ | ⟨rfl, rfl⟩ <;>
    simp [intervalUnits]

theorem unit_of_mem (unit : String) (h : unit ∈ intervalUnits) :
    ∃ factor : ℕ, (unit, factor) ∈ [("min", 1), ("h", 60), ("day", 1440), ("week", 10080),
      ("month", 43200)] := by
  simp only [intervalUnits, List.mem_cons, List.mem_singleton, List.not_mem_nil,
    or_false] at h
  rcases h with rfl | rfl | rfl | rfl | rfl
  · exact ⟨1, by simp⟩
  · exact ⟨60, by simp⟩
  · exact ⟨1440, by simp⟩
  · exact ⟨10080, by simp⟩
  · exact ⟨43200, by simp⟩

theorem getIntervalMinutes_of_value (rt : JsRuntime) (text : String)
    (digits : List Char) (unit : String) (factor : ℕ) (htrim : jsTrim text ≠ "")
    (hnorm : (jsToLowerCase rt (jsTrim text)).toList = digits ++ unit.toList)
    (hd : ∀ c ∈ digits, c.isDigit = true) (hne : digits ≠ [])
    (hmem : (unit, factor) ∈ [("min", 1), ("h", 60), ("day", 1440), ("week", 10080),
      ("month", 43200)]) :
    (digitsValue digits = 0 → getIntervalMinutes rt (JsVal.str text) = JsNum.fin 60) ∧
    (JsNum.roundDouble (digitsValue digits : ℚ) = JsNum.posInf →
      getIntervalMinutes rt (JsVal.str text) = JsNum.fin 60) ∧
    (∀ v : ℚ, 0 < v → JsNum.roundDouble (digitsValue digits : ℚ) = JsNum.fin v →
      getIntervalMinutes rt (JsVal.str text)
        = if unit = "min" then JsNum.fin v else JsNum.mul (JsNum.fin v) (JsNum.fin (factor : ℚ))) := by
  obtain ⟨hunit, -, hcases⟩ := unitFactor_cases unit factor hmem
  have hhead : ∀ c, unit.toList.head? = some c → c.isDigit = false := by
    intro c hc
    simp only [intervalUnits, List.mem_cons, List.mem_singleton, List.not_mem_nil,
      or_false] at hunit
    rcases hunit with rfl | rfl | rfl | rfl | rfl <;>
      (simp only [String.toList, List.head?_cons, Option.some.injEq] at hc
       rw [← hc]
       decide)
  have hmk : String.mk unit.toList = unit := rfl
  have hshape := getIntervalMinutes_of_normalized rt text digits unit.toList htrim hnorm hd hhead
  rw [hmk, if_neg (by simp [hne, hunit])] at hshape
  refine ⟨?_, ?_, ?_⟩
  · intro h0
    rw [hshape, h0]
    simp [JsNum.roundDouble, JsNum.isFinite, JsNum.le]
  · intro hinf
    rw [hshape, hinf]
    simp [JsNum.isFinite]
  · intro v hv hfin
    have hnle : ¬ (v ≤ 0) := not_le.mpr hv
    rw [hshape, hfin]
    simp only [JsNum.isFinite, Bool.not_true, JsNum.le, hnle, decide_False, Bool.or_self,
      Bool.false_eq_true, if_false]
    rcases hcases with ⟨rfl, rfl⟩ | ⟨rfl, rfl⟩ | ⟨rfl, rfl⟩ | ⟨rfl, rfl⟩ | ⟨rfl, rfl⟩
    · simp
    · rw [if_neg (by decide), if_pos (by decide), if_neg (by decide)]
      norm_num
    · rw [if_neg (by decide), if_neg (by decide), if_pos (by decide), if_neg (by decide)]
      norm_num
    · rw [if_neg (by decide), if_neg (by decide), if_neg (by decide), if_pos (by decide),
        if_neg (by decide)]
      norm_num
    · rw [if_neg (by decide), if_neg (by decide), if_neg (by decide), if_neg (by decide),
        if_pos (by decide), if_neg (by decide)]
      norm_num

theorem getIntervalMinutes_cases (rt : JsRuntime) (interval : JsVal) :
    getIntervalMinutes rt interval = JsNum.fin 60 ∨
      ∃ (text : String) (digits : List Char) (unit : String) (factor : ℕ) (v : ℕ),
        interval = JsVal.str text ∧
        (jsToLowerCase rt (jsTrim text)).toList = digits ++ unit.toList ∧
        digits ≠ [] ∧ (∀ c ∈ digits, c.isDigit = true) ∧ 0 < digitsValue digits ∧
        (unit, factor) ∈ [("min", 1), ("h", 60), ("day", 1440), ("week", 10080),
          ("month", 43200)] ∧
        1 ≤ v ∧ JsNum.roundDouble (digitsValue digits : ℚ) = JsNum.fin (v : ℚ) ∧
        getIntervalMinutes rt interval
          = if unit = "min" then JsNum.fin (v : ℚ)
            else JsNum.mul (JsNum.fin (v : ℚ)) (JsNum.fin (factor : ℚ)) := by
  cases interval with
  | num x => exact Or.inl rfl
  | null => exact Or.inl rfl
  | undefined => exact Or.inl rfl
  | str text =>
    by_cases htrim : jsTrim text = ""
    · left; simp [getIntervalMinutes, htrim]
    · have hsplit := (List.takeWhile_append_dropWhile Char.isDigit
        (jsToLowerCase rt (jsTrim text)).toList).symm
      have hdig : ∀ c ∈ (jsToLowerCase rt (jsTrim text)).toList.takeWhile Char.isDigit,
          c.isDigit = true := fun c hc => List.mem_takeWhile_imp hc
      by_cases hguard : (jsToLowerCase rt (jsTrim text)).toList.takeWhile Char.isDigit = [] ∨
          String.mk ((jsToLowerCase rt (jsTrim text)).toList.dropWhile Char.isDigit)
            ∉ intervalUnits
      · left
        simp only [getIntervalMinutes, if_neg htrim, if_pos hguard]
      · rw [not_or, not_not] at hguard
        obtain ⟨hne, hunit⟩ := hguard
        obtain ⟨factor, hmem⟩ := unit_of_mem _ hunit
        obtain ⟨h0, hinf, hfin⟩ := getIntervalMinutes_of_value rt text _ _ factor htrim
          hsplit hdig hne hmem
        by_cases hzero : digitsValue
            ((jsToLowerCase rt (jsTrim text)).toList.takeWhile Char.isDigit) = 0
        · exact Or.inl (h0 hzero)
        · rcases JsNum.roundDouble_natural _ hzero with hi | ⟨m, hm1, hm⟩
          · exact Or.inl (hinf hi)
          · right
            have hmq : (0 : ℚ) < (m : ℚ) := by
              have : 0 < m := hm1
              exact_mod_cast this
            exact ⟨text, _, _, factor, m, rfl, hsplit, hne, hdig, Nat.pos_of_ne_zero hzero,
              hmem, hm1, hm, hfin _ hmq hm⟩

theorem getIntervalMinutes_of_decimal (rt : JsRuntime) (n : ℕ) (unit : String) (factor : ℕ)
    (pre u post : String)
    (hmem : (unit, factor) ∈ [("min", 1), ("h", 60), ("day", 1440), ("week", 10080),
      ("month", 43200)])
    (hpre : ∀ c ∈ pre.toList, isJsWhiteSpace c = true)
    (hpost : ∀ c ∈ post.toList, isJsWhiteSpace c = true)
    (hascii : ∀ c ∈ u.toList, c.toNat < 128) (hlower : u.toList.map Char.toLower = unit.toList) :
    (n = 0 → getIntervalMinutes rt (JsVal.str (pre ++ Nat.repr n ++ u ++ post)) = JsNum.fin 60) ∧
    (JsNum.roundDouble (n : ℚ) = JsNum.posInf →
      getIntervalMinutes rt (JsVal.str (pre ++ Nat.repr n ++ u ++ post)) = JsNum.fin 60) ∧
    (∀ v : ℚ, 0 < v → JsNum.roundDouble (n : ℚ) = JsNum.fin v →
      getIntervalMinutes rt (JsVal.str (pre ++ Nat.repr n ++ u ++ post))
        = if unit = "min" then JsNum.fin v
          else JsNum.mul (JsNum.fin v) (JsNum.fin (factor : ℚ))) := by
  obtain ⟨hunit, -, -⟩ := unitFactor_cases unit factor hmem
  obtain ⟨htrim, hnorm⟩ := normalized_of_padded rt n pre u post unit hunit hpre hpost
    hascii hlower
  obtain ⟨hne, hdig, hvalue⟩ := natRepr_spec n
  have h := getIntervalMinutes_of_value rt _ _ unit factor htrim hnorm hdig hne hmem
  rw [hvalue] at h
  exact h

/-- C30, amended: for a number `n` written in decimal and one of the units
`min`, `h`, `day`, `week`, `month`, in any case of its ASCII letters and with
white space around, `getIntervalMinutes` returns `n` times the minutes of the
unit (1, 60, 1440, 10080, 43200) when `n` is positive and that product is at
most `2^53`, and 60 when `n = 0`. In general the digits are read as the nearest
double and the product is rounded to a double: digits of value `2^1024` or more
read as `Infinity` and give 60, and on every input the result is 60 unless the
trimmed, lower-cased text is a run of digits of positive value followed by one
of the five units, so a value that is no string, an empty text and an unknown
unit give 60. The result is always a positive integer or `Infinity`. -/
theorem getIntervalMinutes_spec (rt : JsRuntime) :
    (∀ (n : ℕ) (unit : String) (factor : ℕ) (pre u post : String),
      (unit, factor) ∈ [("min", 1), ("h", 60), ("day", 1440), ("week", 10080),
        ("month", 43200)] →
      (∀ c ∈ pre.toList, isJsWhiteSpace c = true) →
      (∀ c ∈ post.toList, isJsWhiteSpace c = true) →
      (∀ c ∈ u.toList, c.toNat < 128) → u.toList.map Char.toLower = unit.toList →
      n * factor ≤ 2 ^ 53 →
      getIntervalMinutes rt (JsVal.str (pre ++ Nat.repr n ++ u ++ post))
        = JsNum.fin (if n = 0 then 60 else ((n * factor : ℕ) : ℚ))) ∧
    (∀ (n : ℕ) (unit : String) (factor : ℕ) (pre u post : String),
      (unit, factor) ∈ [("min", 1), ("h", 60), ("day", 1440), ("week", 10080),
        ("month", 43200)] →
      (∀ c ∈ pre.toList, isJsWhiteSpace c = true) →
      (∀ c ∈ post.toList, isJsWhiteSpace c = true) →
      (∀ c ∈ u.toList, c.toNat < 128) → u.toList.map Char.toLower = unit.toList →
      2 ^ 1024 ≤ n →
      getIntervalMinutes rt (JsVal.str (pre ++ Nat.repr n ++ u ++ post)) = JsNum.fin 60) ∧
    (∀ interval : JsVal, getIntervalMinutes rt interval = JsNum.fin 60 ∨
      ∃ (text : String) (digits : List Char) (unit : String) (factor : ℕ) (v : ℕ),
        interval = JsVal.str text ∧
        (jsToLowerCase rt (jsTrim text)).toList = digits ++ unit.toList ∧
        digits ≠ [] ∧ (∀ c ∈ digits, c.isDigit = true) ∧ 0 < digitsValue digits ∧
        (unit, factor) ∈ [("min", 1), ("h", 60), ("day", 1440), ("week", 10080),
          ("month", 43200)] ∧
        1 ≤ v ∧ JsNum.roundDouble (digitsValue digits : ℚ) = JsNum.fin (v : ℚ) ∧
        getIntervalMinutes rt interval
          = if unit = "min" then JsNum.fin (v : ℚ)
            else JsNum.roundDouble (((v * factor : ℕ) : ℚ))) ∧
    (∀ interval : JsVal, (∀ text, interval ≠ JsVal.str text) →
      getIntervalMinutes rt interval = JsNum.fin 60) ∧
    (∀ text : String, jsTrim text = "" →
      getIntervalMinutes rt (JsVal.str text) = JsNum.fin 60) ∧
    (∀ interval : JsVal, getIntervalMinutes rt interval = JsNum.posInf ∨
      ∃ m : ℕ, 1 ≤ m ∧ getIntervalMinutes rt interval = JsNum.fin (m : ℚ)) := by
  have hmul : ∀ v factor : ℕ, JsNum.mul (JsNum.fin (v : ℚ)) (JsNum.fin (factor : ℚ))
      = JsNum.roundDouble (((v * factor : ℕ) : ℚ)) := by
    intro v factor
    simp only [JsNum.mul, Nat.cast_mul]
  refine ⟨?_, ?_, ?_, ?_, ?_, ?_⟩
  · intro n unit factor pre u post hmem hpre hpost hascii hlower hbound
    obtain ⟨h0, -, hfin⟩ := getIntervalMinutes_of_decimal rt n unit factor pre u post hmem
      hpre hpost hascii hlower
    obtain ⟨-, hfpos, hcases⟩ := unitFactor_cases unit factor hmem
    by_cases hn : n = 0
    · rw [h0 hn, if_pos hn]
    · have hnpos : 0 < n := Nat.pos_of_ne_zero hn
      have hnle : n ≤ 2 ^ 53 := le_trans (Nat.le_mul_of_pos_right n hfpos) hbound
      have hq : (0 : ℚ) < (n : ℚ) := by exact_mod_cast hnpos
      rw [hfin (n : ℚ) hq (JsNum.roundDouble_of_le n hnle), if_neg hn, hmul,
        JsNum.roundDouble_of_le _ hbound]
      rcases hcases with ⟨rfl, rfl⟩ | ⟨h1, -⟩ | ⟨h1, -⟩ | ⟨h1, -⟩ | ⟨h1, -⟩
      · simp
      · rw [if_neg (by rw [h1]; decide)]
      · rw [if_neg (by rw [h1]; decide)]
      · rw [if_neg (by rw [h1]; decide)]
      · rw [if_neg (by rw [h1]; decide)]
  · intro n unit factor pre u post hmem hpre hpost hascii hlower hhuge
    exact (getIntervalMinutes_of_decimal rt n unit factor pre u post hmem hpre hpost hascii
      hlower).2.1 (JsNum.roundDouble_of_huge n hhuge)
  · intro interval
    rcases getIntervalMinutes_cases rt interval with h |
      ⟨text, digits, unit, factor, v, h1, h2, h3, h4, h5, h6, h7, h8, h9⟩
    · exact Or.inl h
    · exact Or.inr ⟨text, digits, unit, factor, v, h1, h2, h3, h4, h5, h6, h7, h8, by
        rw [h9, hmul]⟩
  · intro interval hns
    cases interval with
    | str text => exact absurd rfl (hns text)
    | num x => rfl
    | null => rfl
    | undefined => rfl
  · intro text htrim
    simp [getIntervalMinutes, htrim]
  · intro interval
    rcases getIntervalMinutes_cases rt interval with h |
      ⟨text, digits, unit, factor, v, -, -, -, -, -, hmem, hv1, -, h9⟩
    · exact Or.inr ⟨60, by norm_num, by rw [h]; norm_num⟩
    · obtain ⟨-, hfpos, -⟩ := unitFactor_cases unit factor hmem
      rw [h9]
      by_cases hmin : unit = "min"
      · rw [if_pos hmin]
        exact Or.inr ⟨v, hv1, rfl⟩
      · rw [if_neg hmin, hmul]
        have hne : v * factor ≠ 0 := Nat.pos_iff_ne_zero.mp (Nat.mul_pos hv1 hfpos)
        exact JsNum.roundDouble_natural _ hne

/-! ### The timeframe handed to the chart -/

theorem parseInt10_of_decimal (n : ℕ) (suffix : List Char)
    (hs : ∀ c, suffix.head? = some c → c.isDigit = false) :
    parseInt10 (String.mk ((Nat.repr n).toList ++ suffix)) = some (n : ℤ) := by
  obtain ⟨hne, hdig, hvalue⟩ := natRepr_spec n
  obtain ⟨d, ds, hd⟩ : ∃ d ds, (Nat.repr n).toList = d :: ds := by
    cases h : (Nat.repr n).toList with
    | nil => exact absurd h hne
    | cons d ds => exact ⟨d, ds, rfl⟩
  have hfacts := isDigit_facts d (hdig d (by rw [hd]; exact List.mem_cons_self _ _))
  have htake := takeWhile_append_of_all Char.isDigit (Nat.repr n).toList suffix hdig hs
  have hdrop : ((Nat.repr n).toList ++ suffix).dropWhile isJsWhiteSpace
      = (Nat.repr n).toList ++ suffix := by
    rw [hd, List.cons_append]
    exact dropWhile_of_head _ _ _ hfacts.2.2.1
  have hl : (String.mk ((Nat.repr n).toList ++ suffix)).toList
      = (Nat.repr n).toList ++ suffix := rfl
  have hsigned : (match (Nat.repr n).toList ++ suffix with
      | '-' :: rest => (true, rest)
      | '+' :: rest => (false, rest)
      | rest => (false, rest)) = (false, (Nat.repr n).toList ++ suffix) := by
    rw [hd, List.cons_append]
    split
    · rename_i heq
      simp only [List.cons.injEq] at heq
      exact absurd heq.1 hfacts.2.2.2.1
    · rename_i heq
      simp only [List.cons.injEq] at heq
      exact absurd heq.1 hfacts.2.2.2.2
    · rfl
  simp only [parseInt10, hl, hdrop, hsigned, htake.1, hvalue, if_neg hne, Bool.false_eq_true,
    if_false]

theorem lower_of_decimal (rt : JsRuntime) (n : ℕ) (suffix : String)
    (hsuffix : suffix ∈ ["h", "min", "m"]) :
    jsToLowerCase rt (jsTrim (Nat.repr n ++ suffix))
      = String.mk ((Nat.repr n).toList ++ suffix.toList) := by
  obtain ⟨-, hdig, -⟩ := natRepr_spec n
  have hletters : ∀ c ∈ suffix.toList, c.toNat < 128 ∧ c.toLower = c ∧
      isJsWhiteSpace c = false := by
    simp only [List.mem_cons, List.mem_singleton, List.not_mem_nil, or_false] at hsuffix
    rcases hsuffix with rfl | rfl | rfl <;> decide
  have hshape : Nat.repr n ++ suffix
      = String.mk ([] ++ ((Nat.repr n).toList ++ suffix.toList) ++ []) := by
    apply String.ext
    simp [toList_append, String.toList]
  rw [hshape, jsTrim_of_padded [] _ [] (by simp) (by simp) (by
      intro c hc
      rcases List.mem_append.mp hc with h | h
      · exact (isDigit_facts c (hdig c h)).2.2.1
      · exact (hletters c h).2.2),
    jsToLowerCase_of_ascii rt _ (by
      intro c hc
      rcases List.mem_append.mp hc with h | h
      · exact (isDigit_facts c (hdig c h)).1
      · exact (hletters c h).1)]
  congr 1
  have : ∀ (l : List Char), (∀ c ∈ l, c.toLower = c) → l.map Char.toLower = l := by
    intro l hl
    induction l with
    | nil => rfl
    | cons c l ih =>
      rw [List.map_cons, hl c (List.mem_cons_self _ _),
        ih (fun x hx => hl x (List.mem_cons_of_mem _ hx))]
  apply this
  intro c hc
  rcases List.mem_append.mp hc with h | h
  · exact (isDigit_facts c (hdig c h)).2.1
  · exact (hletters c h).2.1

theorem decimal_eq_name (n : ℕ) (suffix name : List Char)
    (hs : ∀ c, suffix.head? = some c → c.isDigit = false)
    (h : String.mk ((Nat.repr n).toList ++ suffix) = String.mk name) :
    (Nat.repr n).toList = name.takeWhile Char.isDigit ∧
      suffix = name.dropWhile Char.isDigit := by
  obtain ⟨-, hdig, -⟩ := natRepr_spec n
  have htake := takeWhile_append_of_all Char.isDigit (Nat.repr n).toList suffix hdig hs
  have hl : (Nat.repr n).toList ++ suffix = name := by
    simpa using congrArg String.toList h
  rw [← hl]
  exact ⟨htake.1.symm, htake.2.symm⟩

theorem jsEndsWith_decimal (n : ℕ) (suffix ending : String)
    (hsuffix : suffix ∈ ["h", "min", "m"]) (hending : ending ∈ ["h", "min", "m"]) :
    jsEndsWith (String.mk ((Nat.repr n).toList ++ suffix.toList)) ending
      = decide (ending.toList <:+ suffix.toList) := by
  obtain ⟨-, hdig, -⟩ := natRepr_spec n
  simp only [jsEndsWith, String.toList]
  apply decide_eq_decide.mpr
  constructor
  · intro h
    have hlen : ending.toList.length ≤ suffix.toList.length ∨
        suffix.toList.length < ending.toList.length := le_or_lt _ _
    rcases hlen with hle | hlt
    · exact List.suffix_of_suffix_length_le h (List.suffix_append _ _) hle
    · exfalso
      have hsuf : suffix.toList <:+ ending.toList :=
        List.suffix_of_suffix_length_le (List.suffix_append _ _) h (Nat.le_of_lt hlt)
      simp only [List.mem_cons, List.mem_singleton, List.not_mem_nil, or_false]
        at hsuffix hending
      have hcases : suffix = "m" ∧ ending = "min" ∨ suffix = "h" ∧ ending = "min" := by
        rcases hsuffix with rfl | rfl | rfl <;> rcases hending with rfl | rfl | rfl <;>
          first
            | (exfalso; revert hlt; decide)
            | (left; exact ⟨rfl, rfl⟩)
            | (right; exact ⟨rfl, rfl⟩)
      rcases hcases with ⟨rfl, rfl⟩ | ⟨rfl, rfl⟩
      · revert hsuf; decide
      · revert hsuf; decide
  · intro h
    exact h.trans (List.suffix_append _ _)

theorem jsNumberText_of_small (v : ℕ) (h : v < 10 ^ 21) :
    jsNumberText (v : ℤ) = Nat.repr v := by
  have hneg : ¬ ((v : ℤ) < 0) := by omega
  simp only [jsNumberText, Int.natAbs_ofNat, if_pos h, if_neg hneg]
  apply String.ext
  simp [toList_append, String.toList]

theorem normalizeChartTimeframe_decimal (rt : JsRuntime) (n : ℕ) (suffix : String)
    (hsuffix : suffix ∈ ["h", "min", "m"]) (hn : 0 < n) (h1m : suffix = "m" → n ≠ 1) :
    normalizeChartTimeframe rt (Nat.repr n ++ suffix)
      = jsNumberText (if suffix = "h" then (n : ℤ) * 60 else (n : ℤ)) := by
  obtain ⟨hne, hdig, hvalue⟩ := natRepr_spec n
  have hhead : ∀ c, suffix.toList.head? = some c → c.isDigit = false := by
    intro c hc
    simp only [List.mem_cons, List.mem_singleton, List.not_mem_nil, or_false] at hsuffix
    rcases hsuffix with rfl | rfl | rfl <;>
      (simp only [String.toList, List.head?_cons, Option.some.injEq] at hc
       rw [← hc]
       decide)
  have htf : Nat.repr n ++ suffix ≠ "" := by
    intro h
    have := congrArg String.toList h
    rw [toList_append] at this
    exact hne (List.append_eq_nil.mp this).1
  have hname : ∀ name : String,
      name ∈ ["d", "1d", "day", "w", "1w", "week", "m", "1m", "month"] →
      String.mk ((Nat.repr n).toList ++ suffix.toList) ≠ name := by
    intro name hmem heq
    obtain ⟨h1, h2⟩ := decimal_eq_name n suffix.toList name.toList hhead heq
    simp only [List.mem_cons, List.mem_singleton, List.not_mem_nil, or_false] at hmem hsuffix
    rcases hmem with rfl | rfl | rfl | rfl | rfl | rfl | rfl | rfl | rfl
    · exact hne h1
    · rcases hsuffix with rfl | rfl | rfl <;> exact absurd h2 (by decide)
    · exact hne h1
    · exact hne h1
    · rcases hsuffix with rfl | rfl | rfl <;> exact absurd h2 (by decide)
    · exact hne h1
    · exact hne h1
    · rcases hsuffix with rfl | rfl | rfl
      · exact absurd h2 (by decide)
      · exact absurd h2 (by decide)
      · apply h1m rfl
        rw [← hvalue, h1]
        decide
    · exact hne h1
  have hparse := parseInt10_of_decimal n suffix.toList hhead
  have hpos : (0 : ℤ) < (n : ℤ) := by exact_mod_cast hn
  simp only [normalizeChartTimeframe, if_neg htf, lower_of_decimal rt n suffix hsuffix]
  rw [if_neg (by
      rintro (h | h | h)
      · exact hname "d" (by simp) h
      · exact hname "1d" (by simp) h
      · exact hname "day" (by simp) h),
    if_neg (by
      rintro (h | h | h)
      · exact hname "w" (by simp) h
      · exact hname "1w" (by simp) h
      · exact hname "week" (by simp) h),
    if_neg (by
      rintro (h | h | h)
      · exact hname "m" (by simp) h
      · exact hname "1m" (by simp) h
      · exact hname "month" (by simp) h)]
  rw [jsEndsWith_decimal n suffix "h" hsuffix (by simp),
    jsEndsWith_decimal n suffix "min" hsuffix (by simp),
    jsEndsWith_decimal n suffix "m" hsuffix (by simp), hparse]
  simp only [List.mem_cons, List.mem_singleton, List.not_mem_nil, or_false] at hsuffix
  rcases hsuffix with rfl | rfl | rfl
  · rw [if_pos (by decide)]
    simp only [hpos, if_true]
  · rw [if_neg (by decide), if_pos (by decide), if_neg (by decide)]
    simp only [hpos, if_true]
  · rw [if_neg (by decide), if_neg (by decide), if_pos (by decide), if_neg (by decide)]
    simp only [hpos, if_true]

theorem natRepr_digits (v : ℕ) :
    Nat.repr v ≠ "" ∧ (Nat.repr v).toList.all Char.isDigit = true := by
  obtain ⟨hne, hdig, -⟩ := natRepr_spec v
  refine ⟨fun h => hne (by rw [h]; rfl), ?_⟩
  rw [List.all_eq_true]
  exact hdig

theorem jsNumberText_digits (value : ℤ) (hpos : 0 < value) (hlt : value < 10 ^ 21) :
    jsNumberText value ≠ "" ∧ (jsNumberText value).toList.all Char.isDigit = true := by
  have hcast : value = ((value.toNat : ℕ) : ℤ) := by omega
  have hsmall : value.toNat < 10 ^ 21 := by omega
  rw [hcast, jsNumberText_of_small _ hsmall]
  exact natRepr_digits _

theorem normalizeChartTimeframe_range (rt : JsRuntime) (tf : String) :
    normalizeChartTimeframe rt tf = "D" ∨ normalizeChartTimeframe rt tf = "W" ∨
    normalizeChartTimeframe rt tf = "M" ∨
    (normalizeChartTimeframe rt tf ≠ "" ∧
      (normalizeChartTimeframe rt tf).toList.all Char.isDigit = true) ∨
    ∃ value, parseInt10 (jsToLowerCase rt (jsTrim tf)) = some value ∧
      (2 : ℤ) ^ 53 < value * 60 := by
  have hparsed : ∀ (parsed : Option ℤ) (factor : ℤ) (fallback : String),
      (factor = 60 ∨ factor = 1) → (fallback = "60" ∨ fallback = "1") →
      ((match parsed with
        | some value => if 0 < value then jsNumberText (value * factor) else fallback
        | none => fallback) ≠ "" ∧
        (match parsed with
        | some value => if 0 < value then jsNumberText (value * factor) else fallback
        | none => fallback).toList.all Char.isDigit = true) ∨
      ∃ value, parsed = some value ∧ (2 : ℤ) ^ 53 < value * 60 := by
    intro parsed factor fallback hf hfb
    have hfall : fallback ≠ "" ∧ fallback.toList.all Char.isDigit = true := by
      rcases hfb with rfl | rfl <;> decide
    cases parsed with
    | none => exact Or.inl hfall
    | some value =>
      by_cases hpos : 0 < value
      · by_cases hlt : value * factor < 10 ^ 21
        · left
          simp only [hpos, if_true]
          exact jsNumberText_digits _ (by rcases hf with rfl | rfl <;> omega) hlt
        · right
          refine ⟨value, rfl, ?_⟩
          have h53 : (2 : ℤ) ^ 53 < 10 ^ 21 := by norm_num
          rcases hf with rfl | rfl <;> omega
      · left
        simp only [hpos, if_false]
        exact hfall
  unfold normalizeChartTimeframe
  by_cases h0 : tf = ""
  · rw [if_pos h0]
    exact Or.inr (Or.inr (Or.inr (Or.inl (by decide))))
  · rw [if_neg h0]
    simp only
    split_ifs with h1 h2 h3 h4 h5 h6 h7
    · exact Or.inl rfl
    · exact Or.inr (Or.inl rfl)
    · exact Or.inr (Or.inr (Or.inl rfl))
    · exact Or.inr (Or.inr (Or.inr (hparsed _ 60 "60" (Or.inl rfl) (Or.inl rfl))))
    · have := hparsed (parseInt10 (jsToLowerCase rt (jsTrim tf))) 1 "1" (Or.inr rfl)
        (Or.inr rfl)
      simp only [mul_one] at this
      exact Or.inr (Or.inr (Or.inr this))
    · have := hparsed (parseInt10 (jsToLowerCase rt (jsTrim tf))) 1 "1" (Or.inr rfl)
        (Or.inr rfl)
      simp only [mul_one] at this
      exact Or.inr (Or.inr (Or.inr this))
    · exact Or.inr (Or.inr (Or.inr (Or.inl ⟨h7.1, h7.2⟩)))
    · exact Or.inr (Or.inr (Or.inr (Or.inl (by decide))))

/-- C27, amended: for every integer `n ≥ 1` with `60*n` at most `2^53`,
`normalizeChartTimeframe` maps the timeframe `<n>h` to the decimal text of
`60*n`; for `n ≥ 1` at most `2^53` it maps `<n>min`, and for `n ≥ 2` also
`<n>m`, to the decimal text of `n`; it maps `1m` to `M`, while
`describeTimeframe("1m")` is `1 minute`. Its result is `D`, `W`, `M` or a
non-empty text of decimal digits unless the number read from the timeframe,
times 60, exceeds `2^53`; it is `60` for the empty timeframe and for a
timeframe of no recognised form. -/
theorem normalizeChartTimeframe_spec (rt : JsRuntime) :
    (∀ n : ℕ, 1 ≤ n → 60 * n ≤ 2 ^ 53 →
      normalizeChartTimeframe rt (Nat.repr n ++ "h") = Nat.repr (60 * n)) ∧
    (∀ n : ℕ, 1 ≤ n → n ≤ 2 ^ 53 →
      normalizeChartTimeframe rt (Nat.repr n ++ "min") = Nat.repr n) ∧
    (∀ n : ℕ, 2 ≤ n → n ≤ 2 ^ 53 →
      normalizeChartTimeframe rt (Nat.repr n ++ "m") = Nat.repr n) ∧
    normalizeChartTimeframe rt "1m" = "M" ∧
    describeTimeframe rt "1m" = "1 minute" ∧
    (∀ tf : String,
      normalizeChartTimeframe rt tf = "D" ∨ normalizeChartTimeframe rt tf = "W" ∨
      normalizeChartTimeframe rt tf = "M" ∨
      (normalizeChartTimeframe rt tf ≠ "" ∧
        (normalizeChartTimeframe rt tf).toList.all Char.isDigit = true) ∨
      ∃ value, parseInt10 (jsToLowerCase rt (jsTrim tf)) = some value ∧
        (2 : ℤ) ^ 53 < value * 60) ∧
    normalizeChartTimeframe rt "" = "60" ∧
    (∀ tf : String,
      jsToLowerCase rt (jsTrim tf)
        ∉ ["d", "1d", "day", "w", "1w", "week", "m", "1m", "month"] →
      jsEndsWith (jsToLowerCase rt (jsTrim tf)) "h" = false →
      jsEndsWith (jsToLowerCase rt (jsTrim tf)) "m" = false →
      jsEndsWith (jsToLowerCase rt (jsTrim tf)) "min" = false →
      (jsToLowerCase rt (jsTrim tf)).toList.all Char.isDigit = false →
      normalizeChartTimeframe rt tf = "60") := by
  have h53 : (2 : ℕ) ^ 53 < 10 ^ 21 := by norm_num
  have hlow : jsToLowerCase rt (jsTrim "1m") = "1m" := by
    have := lower_of_decimal rt 1 "m" (by simp)
    exact this
  refine ⟨?_, ?_, ?_, ?_, ?_, normalizeChartTimeframe_range rt, ?_, ?_⟩
  · intro n h1 hle
    rw [normalizeChartTimeframe_decimal rt n "h" (by simp) (by omega)
        (fun h => absurd h (by decide)),
      if_pos rfl]
    have hcast : (n : ℤ) * 60 = ((60 * n : ℕ) : ℤ) := by push_cast; ring
    rw [hcast, jsNumberText_of_small _ (by omega)]
  · intro n h1 hle
    rw [normalizeChartTimeframe_decimal rt n "min" (by simp) (by omega)
        (fun h => absurd h (by decide)),
      if_neg (by decide), jsNumberText_of_small _ (by omega)]
  · intro n h2 hle
    rw [normalizeChartTimeframe_decimal rt n "m" (by simp) (by omega) (fun _ => by omega),
      if_neg (by decide), jsNumberText_of_small _ (by omega)]
  · have htf : ("1m" : String) ≠ "" := by decide
    simp only [normalizeChartTimeframe, if_neg htf, hlow]
    decide
  · have htf : ("1m" : String) ≠ "" := by decide
    simp only [describeTimeframe, if_neg htf, hlow]
    decide
  · simp [normalizeChartTimeframe]
  · intro tf hnot hh hm hmin hdig
    have hne : ∀ name ∈ ["d", "1d", "day", "w", "1w", "week", "m", "1m", "month"],
        jsToLowerCase rt (jsTrim tf) ≠ name := by
      intro name hname heq
      exact hnot (heq ▸ hname)
    unfold normalizeChartTimeframe
    by_cases h0 : tf = ""
    · rw [if_pos h0]
    · rw [if_neg h0]
      simp only [hh, hm, hmin, hdig, Bool.false_eq_true, if_false, and_false]
      rw [if_neg (by
          rintro (h | h | h)
          · exact hne "d" (by simp) h
          · exact hne "1d" (by simp) h
          · exact hne "day" (by simp) h),
        if_neg (by
          rintro (h | h | h)
          · exact hne "w" (by simp) h
          · exact hne "1w" (by simp) h
          · exact hne "week" (by simp) h),
        if_neg (by
          rintro (h | h | h)
          · exact hne "m" (by simp) h
          · exact hne "1m" (by simp) h
          · exact hne "month" (by simp) h)]

/-! ### The resolution of a TradingView symbol -/

theorem searchStep_of_failed (trimmed symbolOnly query : String) (outcome : SearchOutcome)
    (h : outcome = SearchOutcome.threw ∨ outcome = SearchOutcome.notArray ∨
      outcome = SearchOutcome.results []) :
    searchStep trimmed symbolOnly query outcome = none := by
  rcases h with rfl | rfl | rfl <;> rfl

theorem searchStep_of_exact (trimmed symbolOnly query : String) (items : List SearchItem)
    (h : SearchItem.object (JsVal.str trimmed) ∈ items) :
    searchStep trimmed symbolOnly query (SearchOutcome.results items)
      = some (JsVal.str trimmed) := by
  have hlen : ¬ (items.length = 0) := by
    intro h0
    rw [List.length_eq_zero.mp h0] at h
    cases h
  have hsome : (items.find? (fun item =>
      match item with
      | SearchItem.object id => JsVal.strictEq id (JsVal.str trimmed)
      | SearchItem.falsy => false)).isSome = true := by
    rw [List.find?_isSome]
    exact ⟨_, h, by simp [JsVal.strictEq]⟩
  obtain ⟨found, hfound⟩ := Option.isSome_iff_exists.mp hsome
  have hp := List.find?_some hfound
  simp only [searchStep, if_neg hlen, hfound]
  cases found with
  | falsy => simp at hp
  | object id =>
    simp only [JsVal.strictEq] at hp
    split_ifs at hp
    simp only [decide_eq_true_eq] at hp
    rw [hp]

/-- C22, amended: for a requested symbol that is not empty,
`resolveTradingViewSymbol` resolves to the trimmed symbol whenever the library
has no search function or every call of a search throws, resolves to something
that is no array or resolves to an empty list; and whenever the first call that
resolves to a list that is not empty has in its list an item whose `id` is the
trimmed symbol, it resolves to that `id`. For an empty symbol it throws
`Missing TradingView symbol`. -/
theorem resolveTradingViewSymbol_spec (lib : SearchLib) (rawSymbol : String) :
    (rawSymbol ≠ "" →
      (∀ call ∈ searchCallsOf lib (jsTrim rawSymbol),
        call.2 = SearchOutcome.threw ∨ call.2 = SearchOutcome.notArray ∨
          call.2 = SearchOutcome.results []) →
      resolveTradingViewSymbol lib rawSymbol = Except.ok (JsVal.str (jsTrim rawSymbol))) ∧
    (rawSymbol ≠ "" → lib.searchMarketV3 = none → lib.searchMarket = none →
      resolveTradingViewSymbol lib rawSymbol = Except.ok (JsVal.str (jsTrim rawSymbol))) ∧
    (rawSymbol ≠ "" →
      ∀ (before after : List (String × SearchOutcome)) (query : String)
        (items : List SearchItem),
        searchCallsOf lib (jsTrim rawSymbol)
          = before ++ (query, SearchOutcome.results items) :: after →
        (∀ call ∈ before, call.2 = SearchOutcome.threw ∨ call.2 = SearchOutcome.notArray ∨
          call.2 = SearchOutcome.results []) →
        SearchItem.object (JsVal.str (jsTrim rawSymbol)) ∈ items →
        resolveTradingViewSymbol lib rawSymbol = Except.ok (JsVal.str (jsTrim rawSymbol))) ∧
    (rawSymbol = "" →
      resolveTradingViewSymbol lib rawSymbol = Except.error "Missing TradingView symbol") := by
  have hnone : ∀ (calls : List (String × SearchOutcome)),
      (∀ call ∈ calls, call.2 = SearchOutcome.threw ∨ call.2 = SearchOutcome.notArray ∨
        call.2 = SearchOutcome.results []) →
      calls.findSome? (fun call =>
        searchStep (jsTrim rawSymbol) (symbolOnlyOf (jsTrim rawSymbol)) call.1 call.2)
        = none := by
    intro calls hcalls
    rw [List.findSome?_eq_none_iff]
    intro call hcall
    exact searchStep_of_failed _ _ _ _ (hcalls call hcall)
  refine ⟨?_, ?_, ?_, ?_⟩
  · intro hraw hcalls
    simp only [resolveTradingViewSymbol, if_neg hraw, hnone _ hcalls]
    split_ifs <;> rfl
  · intro hraw h1 h2
    simp [resolveTradingViewSymbol, if_neg hraw, searchFnsOf, h1, h2]
  · intro hraw before after query items hcalls hbefore hitem
    have hfns : ¬ ((searchFnsOf lib).length = 0) := by
      intro h0
      have hempty : searchCallsOf lib (jsTrim rawSymbol) = [] := by
        simp [searchCallsOf, List.length_eq_zero.mp h0]
      rw [hempty] at hcalls
      cases before <;> cases hcalls
    simp only [resolveTradingViewSymbol, if_neg hraw, if_neg hfns, hcalls,
      List.findSome?_append, hnone before hbefore, List.findSome?_cons,
      searchStep_of_exact _ _ _ _ hitem, Option.none_or]
  · intro hraw
    simp [resolveTradingViewSymbol, hraw]

/-! ### Instances on sample data -/

/-- Instance of C1: with closes 1, 2, 4 and period 2 the partial sums 1 and 3
and the mean 3/2 are doubles, and the entry at index 2 is the mean 3/2 of the
closes at indices 0 and 1. -/
theorem computeSMA_trailing_mean_witness :
    (computeSMA [sampleCandle 0 1, sampleCandle 1 2, sampleCandle 2 4]
      (JsVal.num (JsNum.fin 2)))[2]? = some (JsVal.num (JsNum.fin (3 / 2))) := by
  have h := (computeSMA_trailing_mean
    [sampleCandle 0 1, sampleCandle 1 2, sampleCandle 2 4] 2 2
    (fun j => if j = 0 then 1 else 2) (by decide) (by decide) (by decide)
    (by
      intro j _ hj
      interval_cases j <;> simp [sampleCandle])).2
    (by
      intro t ht
      interval_cases t
      · exact JsNum.roundDouble_small 1 (by norm_num) _
          (by simp [Finset.sum_Ico_eq_sum_range, Finset.sum_range_succ])
      · exact JsNum.roundDouble_small 3 (by norm_num) _
          (by simp [Finset.sum_Ico_eq_sum_range, Finset.sum_range_succ]; norm_num))
    (by
      have hs : (∑ j in Finset.Ico (2 - 2) 2, (fun j : ℕ => if j = 0 then (1 : ℚ) else 2) j)
          / ((2 : ℕ) : ℚ) = 3 / 2 := by
        simp [Finset.sum_Ico_eq_sum_range, Finset.sum_range_succ]; norm_num
      rw [hs]
      exact JsNum.roundDouble_three_halves)
  have hs : (∑ j in Finset.Ico (2 - 2) 2, (fun j : ℕ => if j = 0 then (1 : ℚ) else 2) j)
      = 3 := by
    simp [Finset.sum_Ico_eq_sum_range, Finset.sum_range_succ]; norm_num
  rw [hs] at h
  simpa using h

/-- C1, as stated, fails: with closes 1, 1, 2 and period 3 the entry at index 3
is the double nearest to 4/3, which is 6004799503160661 / 2^52 and not the
arithmetic mean 4/3 of the three closes. -/
theorem computeSMA_trailing_mean_counterexample :
    (computeSMA [sampleCandle 0 1, sampleCandle 1 1, sampleCandle 2 2, sampleCandle 3 5]
      (JsVal.num (JsNum.fin 3)))[3]?
      = some (JsVal.num (JsNum.fin (6004799503160661 / 4503599627370496))) ∧
    (6004799503160661 / 4503599627370496 : ℚ) ≠ (1 + 1 + 2) / 3 := by
  have h := computeSMA_of_closes
    [sampleCandle 0 1, sampleCandle 1 1, sampleCandle 2 2, sampleCandle 3 5] 3 3
    (fun j => if j = 2 then 2 else 1) (by decide) (by decide) (by decide)
    (by
      intro j _ hj
      interval_cases j <;> simp [sampleCandle])
  have h1 : JsNum.roundDouble 1 = JsNum.fin 1 :=
    JsNum.roundDouble_small 1 (by norm_num) _ (by norm_num)
  have h2 : JsNum.roundDouble 2 = JsNum.fin 2 :=
    JsNum.roundDouble_small 2 (by norm_num) _ (by norm_num)
  have h4 : JsNum.roundDouble 4 = JsNum.fin 4 :=
    JsNum.roundDouble_small 4 (by norm_num) _ (by norm_num)
  have hfold : ((List.range 3).map (fun t => (fun j : ℕ => if j = 2 then (2 : ℚ) else 1)
      (3 - 3 + t))).foldl (fun acc x => JsNum.add acc (JsNum.fin x)) (JsNum.fin 0)
      = JsNum.fin 4 := by
    simp only [List.range_succ, List.range_zero, List.nil_append, List.map_append,
      List.map_cons, List.map_nil, List.cons_append, List.foldl_cons, List.foldl_nil,
      JsNum.add_fin]
    norm_num [JsNum.add_fin, h1, h2, h4]
  rw [hfold] at h
  have hdiv : JsNum.div (JsNum.fin 4) (JsNum.fin ((3 : ℕ) : ℚ))
      = JsNum.fin (6004799503160661 / 4503599627370496) := by
    simp only [JsNum.div]
    rw [if_neg (by norm_num)]
    have : (4 : ℚ) / ((3 : ℕ) : ℚ) = 4 / 3 := by norm_num
    rw [this]
    exact JsNum.roundDouble_four_thirds
  rw [hdiv] at h
  exact ⟨h, by norm_num⟩

/-- Instance of C2: a candle without an SMA is in neither class. -/
theorem evaluateMatches_iff_witness :
    (evaluateMatches (sampleCandle 0 1)).greenAbove = false ∧
    (evaluateMatches (sampleCandle 0 1)).redBelow = false :=
  (evaluateMatches_iff (sampleCandle 0 1)).2.2 (by simp [sampleCandle, JsVal.isFinite])

/-- Instance of C4: three bars and `recentCount = 2` give a previous completed
candle. -/
theorem fetchTradingViewAnalysis_previousCompleted_witness :
    ∃ a, fetchTradingViewAnalysis (fun _ => JsNum.nan) sampleOptions sampleFetched
        = Except.ok a ∧ a.previousCompleted.isSome = true := by
  obtain ⟨a, h1, -, -, h2, -⟩ := fetchTradingViewAnalysis_previousCompleted (fun _ => JsNum.nan)
    sampleOptions sampleFetched (by simp [sampleFetched])
  refine ⟨a, h1, (h2 2 rfl).mpr ?_⟩
  simp [sampleFetched]
  norm_num

/-- C4, as stated, fails: with `recentCount = "abc"`, which converts to `NaN`,
over three bars the recent window is all three bars and `previousCompleted` is
not `null`, while `min(3, max(NaN, 1)) >= 2` is false. -/
theorem fetchTradingViewAnalysis_previousCompleted_counterexample :
    ∃ a, fetchTradingViewAnalysis (fun _ => JsNum.nan)
        { sampleOptions with recentCount := JsVal.str "abc" } sampleFetched = Except.ok a ∧
      a.previousCompleted.isSome = true ∧
      JsNum.ge (JsNum.min (JsNum.fin 3)
        (JsNum.max ((JsVal.str "abc").toNumeric (fun _ => JsNum.nan)) (JsNum.fin 1)))
        (JsNum.fin 2) = false := by
  obtain ⟨a, h1, h2⟩ := previousCompleted_isSome_iff (fun _ => JsNum.nan)
    { sampleOptions with recentCount := JsVal.str "abc" } sampleFetched
    (by simp [sampleFetched])
  refine ⟨a, h1, h2.mpr ?_, ?_⟩
  · simp [sampleFetched, JsVal.toNumeric, JsNum.max, JsNum.neg, JsNum.sliceIndex]
  · simp [JsVal.toNumeric, JsNum.max, JsNum.min, JsNum.ge, JsNum.le]

/-- Instance of C5: on a verified candle that is not recorded yet a poll with a
working delivery reports `sent: true`, and two such polls of the same symbol on
the same candle deliver one message in total. -/
theorem pollSymbol_deduplicates_witness :
    (pollSymbol String.toUpper (fun _ => "alert") { phone := "+15550100", apiKey := "key" }
        sampleAlertState "oanda:xauusd" (Except.ok (sampleAnalysis (some sampleGreen)))
        (Except.ok "Message sent")).1
      = Except.ok { symbol := "oanda:xauusd", verified := true, sent := true } ∧
    (pollSymbol String.toUpper (fun _ => "alert") { phone := "+15550100", apiKey := "key" }
        (pollSymbol String.toUpper (fun _ => "alert") { phone := "+15550100", apiKey := "key" }
          sampleAlertState "oanda:xauusd" (Except.ok (sampleAnalysis (some sampleGreen)))
          (Except.ok "Message sent")).2
        "oanda:xauusd" (Except.ok (sampleAnalysis (some sampleGreen)))
        (Except.ok "Message sent")).2.deliveredCount
      ≤ sampleAlertState.deliveredCount + 1 :=
  ⟨(pollSymbol_deduplicates String.toUpper (fun _ => "alert")
      { phone := "+15550100", apiKey := "key" }).2.1 sampleAlertState "oanda:xauusd"
      (sampleAnalysis (some sampleGreen)) "Message sent" (by decide) (by decide) (by decide)
      (by decide),
    (pollSymbol_deduplicates String.toUpper (fun _ => "alert")
      { phone := "+15550100", apiKey := "key" }).2.2.2 sampleAlertState "oanda:xauusd"
      (sampleAnalysis (some sampleGreen)) (sampleAnalysis (some sampleGreen))
      (Except.ok "Message sent") (Except.ok "Message sent") rfl⟩

/-- Instance of C6: without a previous completed candle the poll resolves to
`{verified: false, sent: false}` and changes nothing. -/
theorem pollSymbol_sends_only_verified_witness :
    pollSymbol String.toUpper (fun _ => "alert") { phone := "+15550100", apiKey := "key" }
        sampleAlertState "oanda:xauusd" (Except.ok (sampleAnalysis none))
        (Except.ok "Message sent")
      = (Except.ok { symbol := "oanda:xauusd", verified := false, sent := false },
          sampleAlertState) :=
  (pollSymbol_sends_only_verified String.toUpper (fun _ => "alert")
    { phone := "+15550100", apiKey := "key" }).2.1 sampleAlertState "oanda:xauusd"
    (sampleAnalysis none) (Except.ok "Message sent") (by simp [sampleAnalysis])

/-- Instance of C7: the first failing cycle of the armed loop schedules the next
one after one retry interval. -/
theorem scheduler_linear_backoff_witness :
    Armed sampleArmed ∧
    (runCycle sampleConfig sampleArmed PollOutcome.threw).pendingDelays
      = [sampleConfig.retryIntervalMs * 1] :=
  ⟨⟨1, 0, rfl, rfl⟩,
    ((scheduler_linear_backoff sampleConfig sampleArmed ⟨1, 0, rfl, rfl⟩).1
      PollOutcome.threw 1 rfl rfl (by decide)).1⟩

/-- Instance of C8: after a failing cycle of the armed loop the counter is
within the maximum. -/
theorem scheduler_backoff_bounded_witness :
    Armed sampleArmed ∧
    (runCycle sampleConfig (runCycles sampleConfig sampleArmed [PollOutcome.threw])
      (PollOutcome.resolved true)).consecutiveFailures ≤ sampleConfig.maxRetries :=
  ⟨⟨1, 0, rfl, rfl⟩,
    (scheduler_backoff_bounded sampleConfig sampleArmed ⟨1, 0, rfl, rfl⟩).1
      [PollOutcome.threw] (PollOutcome.resolved true)⟩

/-- Instance of C9: the loop started on fresh timers has one pending timer after
a failing and a clean cycle. -/
theorem scheduler_single_timer_witness :
    startWhatsAppAlerts sampleSwitches { pending := [], nextId := 1 } = some sampleArmed ∧
    (runCycles sampleConfig sampleArmed
      [PollOutcome.threw, PollOutcome.resolved false]).timers.pending.length = 1 :=
  ⟨by decide,
    ((scheduler_single_timer sampleConfig sampleSwitches { pending := [], nextId := 1 }
      sampleArmed (by decide) rfl).1 [PollOutcome.threw, PollOutcome.resolved false]).2.1⟩

/-- Instance of C10: the sample batch, stored at time 1000 with a time-to-live
of 300000 ms, is not returned at time 301000. -/
theorem getCachedCandles_iff_witness :
    getCachedCandles (JsNum.fin 300000) 301000 sampleCache "XAUUSD" (JsNum.fin 24) = none :=
  (getCachedCandles_iff (JsNum.fin 300000) 301000 sampleCache "XAUUSD" (JsNum.fin 24)).2.2.2
    300000 { data := sampleBatch, cachedAt := 1000 } rfl
    (by simp [sampleCache, JsMap.get?]) (by norm_num)

/-- Instance of C20: a period passed as the string `"9"` gives `null` at every
index, here at index 2 of three candles. -/
theorem computeSMA_null_iff_witness :
    (computeSMA [sampleCandle 0 1, sampleCandle 1 2, sampleCandle 2 4] (JsVal.str "9"))[2]?
      = some JsVal.null :=
  (computeSMA_null_iff [sampleCandle 0 1, sampleCandle 1 2, sampleCandle 2 4]).2.2.1 "9" 2
    (by decide)

theorem sampleRequest_ok (hours : JsVal) :
    (requestCandles sampleRuntime sampleTwelveData sampleClock [] "XAUUSD" hours
        (Except.ok sampleProviderResponse)).1
      = Except.ok (candleBatchOf sampleRuntime sampleTwelveData sampleClock "XAUUSD"
          { providerSymbol := JsVal.str "XAU/USD", label := JsVal.str "Gold / XAUUSD",
            interval := some "1h" } hours JsVal.undefined
          [sampleRow "2024-01-01 11:00:00" 2, sampleRow "2024-01-01 10:00:00" 1]) := by
  simp [requestCandles, sampleTwelveData, SYMBOLS, sampleProviderResponse, JsVal.truthy,
    JsVal.strictEq]

theorem sampleRows_eq :
    providerRowsOf (Except.ok sampleProviderResponse)
      = [sampleRow "2024-01-01 11:00:00" 2, sampleRow "2024-01-01 10:00:00" 1] := by
  simp [providerRowsOf, sampleProviderResponse]

theorem sampleMeta_eq :
    SYMBOLS "XAUUSD" = some
      { providerSymbol := JsVal.str "XAU/USD", label := JsVal.str "Gold / XAUUSD",
        interval := some "1h" } := by
  decide

theorem sampleLocaleCompare_le (a b : String) :
    sampleRuntime.localeCompare a b ≤ 0 ↔ a ≤ b := by
  simp only [sampleRuntime]
  by_cases h1 : a < b
  · simp [h1, le_of_lt h1]
  · by_cases h2 : a = b
    · simp [h2]
    · simp only [h1, h2, if_false]
      constructor
      · intro h; norm_num at h
      · intro h
        exact absurd (lt_of_le_of_ne h h2) h1

theorem sampleOutputSize_negative_hours :
    outputSizeOf sampleTwelveData
      (pointsNeededOf (requestedHoursOf (JsVal.num (JsNum.fin (-5))))
        (intervalMinutesOf sampleRuntime sampleTwelveData
          { providerSymbol := JsVal.str "XAU/USD", label := JsVal.str "Gold / XAUUSD",
            interval := some "1h" })) = 24 := by
  have him := intervalMinutes_of_key sampleRuntime sampleTwelveData "XAUUSD" _ sampleMeta_eq
    (by decide)
  have hrh : requestedHoursOf (JsVal.num (JsNum.fin (-5))) = 24 := by
    simp [requestedHoursOf]
  have hceil : Int.ceil ((24 : ℚ) * 60 / ((60 : ℕ) : ℚ)) = 24 := by
    have : (24 : ℚ) * 60 / ((60 : ℕ) : ℚ) = ((24 : ℤ) : ℚ) := by norm_num
    rw [this, Int.ceil_intCast]
  rw [him, hrh]
  simp only [pointsNeededOf, hceil, outputSizeOf]
  decide

/-- C13, as stated, fails: with `hours = -5` the formula of the claim gives
`outputsize = min(max(ceil(-5*60/60), 1), 5000) = 1`, while the call, which
replaces such hours by 24, succeeds and returns both provider rows. -/
theorem requestCandles_window_counterexample :
    ∃ result,
      (requestCandles sampleRuntime sampleTwelveData sampleClock [] "XAUUSD"
        (JsVal.num (JsNum.fin (-5))) (Except.ok sampleProviderResponse)).1 = Except.ok result ∧
      (∀ row ∈ providerRowsOf (Except.ok sampleProviderResponse), hasDatetime row = true) ∧
      Nat.min (Max.max (Int.ceil ((-5 : ℚ) * 60 / 60)) 1).toNat sampleTwelveData.maxOutputSize
        = 1 ∧
      result.timestamps.length = 2 := by
  refine ⟨_, sampleRequest_ok _, ?_, ?_, ?_⟩
  · rw [sampleRows_eq]
    decide
  · have hceil : Int.ceil ((-5 : ℚ) * 60 / 60) = -5 := by
      have : (-5 : ℚ) * 60 / 60 = ((-5 : ℤ) : ℚ) := by norm_num
      rw [this, Int.ceil_intCast]
    rw [hceil]
    decide
  · rw [(candleBatchOf_timestamps _ _ _ _ _ _ _ _).1, sampleOutputSize_negative_hours]
    simp [length_sortRows]

/-- Instance of C11: the sample request on an empty cache leaves its result
cached under the pair. -/
theorem requestCandles_caches_result_witness :
    (requestCandles sampleRuntime sampleTwelveData sampleClock [] "XAUUSD"
        (JsVal.num (JsNum.fin 1)) (Except.ok sampleProviderResponse)).2.get? "XAUUSD"
      = some
        { data := candleBatchOf sampleRuntime sampleTwelveData sampleClock "XAUUSD"
            { providerSymbol := JsVal.str "XAU/USD", label := JsVal.str "Gold / XAUUSD",
              interval := some "1h" } (JsVal.num (JsNum.fin 1)) JsVal.undefined
            [sampleRow "2024-01-01 11:00:00" 2, sampleRow "2024-01-01 10:00:00" 1]
          cachedAt := sampleClock.cachedAt } :=
  (requestCandles_caches_result sampleRuntime sampleTwelveData sampleClock [] "XAUUSD"
    (JsVal.num (JsNum.fin 1)) (Except.ok sampleProviderResponse) _ (sampleRequest_ok _)).1

/-- Instance of C12: the sample request for one hour caches a batch whose
`lookbackHours` is 1. -/
theorem requestCandles_round_trip_witness :
    (candleBatchOf sampleRuntime sampleTwelveData sampleClock "XAUUSD"
        { providerSymbol := JsVal.str "XAU/USD", label := JsVal.str "Gold / XAUUSD",
          interval := some "1h" } (JsVal.num (JsNum.fin 1)) JsVal.undefined
        [sampleRow "2024-01-01 11:00:00" 2, sampleRow "2024-01-01 10:00:00" 1]).lookbackHours
      = 1 := by
  have him := intervalMinutes_of_key sampleRuntime sampleTwelveData "XAUUSD" _ sampleMeta_eq
    (by decide)
  have hceil : Int.ceil ((1 : ℚ) * 60 / ((60 : ℕ) : ℚ)) = 1 := by
    have : (1 : ℚ) * 60 / ((60 : ℕ) : ℚ) = ((1 : ℤ) : ℚ) := by norm_num
    rw [this, Int.ceil_intCast]
  exact (requestCandles_round_trip sampleRuntime sampleTwelveData sampleClock [] "XAUUSD" 1
    (Except.ok sampleProviderResponse) _ _ sampleMeta_eq (by norm_num) (sampleRequest_ok _)
    (by rw [him, hceil, sampleRows_eq]; decide)
    (by rw [him, hceil]; decide)).1

/-- Instance of the amended C13: the sample request returns at least one
candle. -/
theorem requestCandles_window_witness :
    1 ≤ (candleBatchOf sampleRuntime sampleTwelveData sampleClock "XAUUSD"
        { providerSymbol := JsVal.str "XAU/USD", label := JsVal.str "Gold / XAUUSD",
          interval := some "1h" } (JsVal.num (JsNum.fin 1)) JsVal.undefined
        [sampleRow "2024-01-01 11:00:00" 2,
         sampleRow "2024-01-01 10:00:00" 1]).timestamps.length :=
  (requestCandles_window sampleRuntime sampleTwelveData sampleClock [] "XAUUSD"
    (JsVal.num (JsNum.fin 1)) (Except.ok sampleProviderResponse) _ _ sampleMeta_eq
    (sampleRequest_ok _)
    (by rw [sampleRows_eq]; decide)
    (fun a b c hab hbc => (sampleLocaleCompare_le a c).mpr
      (le_trans ((sampleLocaleCompare_le a b).mp hab) ((sampleLocaleCompare_le b c).mp hbc)))
    (fun a b => (le_total a b).imp (sampleLocaleCompare_le a b).mpr
      (sampleLocaleCompare_le b a).mpr)).2.2.2.2.2.1

/-- Instance of C14: in the result of the sample request the series of opens has
one entry per timestamp. -/
theorem requestCandles_series_witness :
    (candleBatchOf sampleRuntime sampleTwelveData sampleClock "XAUUSD"
        { providerSymbol := JsVal.str "XAU/USD", label := JsVal.str "Gold / XAUUSD",
          interval := some "1h" } (JsVal.num (JsNum.fin 1)) JsVal.undefined
        [sampleRow "2024-01-01 11:00:00" 2, sampleRow "2024-01-01 10:00:00" 1]).open_.length
      = (candleBatchOf sampleRuntime sampleTwelveData sampleClock "XAUUSD"
        { providerSymbol := JsVal.str "XAU/USD", label := JsVal.str "Gold / XAUUSD",
          interval := some "1h" } (JsVal.num (JsNum.fin 1)) JsVal.undefined
        [sampleRow "2024-01-01 11:00:00" 2,
         sampleRow "2024-01-01 10:00:00" 1]).timestamps.length :=
  (requestCandles_series sampleRuntime sampleTwelveData sampleClock [] "XAUUSD"
    (JsVal.num (JsNum.fin 1)) (Except.ok sampleProviderResponse) _ (sampleRequest_ok _)).1

theorem sampleGreenCandle_matches :
    evaluateMatches sampleGreenCandle = { greenAbove := true, redBelow := false } := by
  rw [evaluateMatches_of_finite sampleGreenCandle (1 / 2) 1 2 3 1 rfl rfl rfl rfl rfl]
  norm_num

set_option maxRecDepth 100000 in
theorem sampleFriendlyMessage_eq :
    buildFriendlyWhatsAppMessage sampleRuntime sampleFriendlyOptions
      = "I juust spotted a candle on the xauusd pair similar to your pattern on the 1 hour chart (closed 1/1/2024, 10:00:00 AM), it's a green above the MA. It closed around 2.00. Please do well to check it out." := by
  decide

/-- Instance of C17: the alert on the sample green candle ends with the closing
sentence. -/
theorem buildFriendlyWhatsAppMessage_names_pattern_witness :
    "Please do well to check it out.".toList <:+
      (buildFriendlyWhatsAppMessage sampleRuntime sampleFriendlyOptions).toList :=
  (buildFriendlyWhatsAppMessage_names_pattern sampleRuntime sampleFriendlyOptions
    sampleMessageCandle sampleGreenCandle rfl
    (by rw [sampleGreenCandle_matches]; rfl) rfl
    (by rw [sampleGreenCandle_matches]; rfl)).2.2.1

/-- Instance of C15: with the default credentials configured, a `GET` request
carrying `admin`/`admin` proceeds with the user name recorded. -/
theorem requireAuth_iff_witness :
    requireAuth { appUsername := none, appPassword := none }
        { method := "GET", credentials := some { name := "admin", pass := "admin" } }
      = AuthOutcome.next (some "admin") :=
  ((requireAuth_iff { appUsername := none, appPassword := none }
    { method := "GET", credentials := some { name := "admin", pass := "admin" } }).1
    (by decide)).2.1 { name := "admin", pass := "admin" } rfl rfl rfl

/-- Instance of C16: the alert prepared from the sample analysis with a green
previous candle is verified. -/
theorem buildFriendlyWhatsAppMessage_empty_iff_witness :
    (prepareWhatsAppAlert (friendlyMessage sampleRuntime)
        (sampleAnalysis (some sampleGreen))).message ≠ "" :=
  ((buildFriendlyWhatsAppMessage_empty_iff sampleRuntime).2
    (sampleAnalysis (some sampleGreen))).mpr (by decide)

/-- Instance of C18: a cycle over one symbol whose analysis fails resolves to a
summary. -/
theorem pollAll_isolates_failures_witness :
    ∃ summary,
      (pollAll String.toUpper (fun _ => "alert") { phone := "+15550100", apiKey := "key" }
        sampleAlertState
        [("oanda:xauusd",
          { analysis := Except.error "fetch failed", delivery := Except.ok "Message sent" })]).1
        = Except.ok summary ∧ summary.hadErrors = true :=
  match pollAll_isolates_failures String.toUpper (fun _ => "alert")
      { phone := "+15550100", apiKey := "key" } sampleAlertState
      [("oanda:xauusd",
        { analysis := Except.error "fetch failed", delivery := Except.ok "Message sent" })] with
  | ⟨summary, _, hsum, _, _, _, herr, _⟩ =>
    ⟨summary, hsum, herr.mpr ⟨0, by decide, "fetch failed", rfl⟩⟩

/-- Instance of C19: with credentials and a text, one request is made, carrying
the digits of the phone number, the text and the trimmed key. -/
theorem sendWhatsAppMessage_iff_witness :
    (sendWhatsAppMessage "+1 555 0100" " key " "alert"
        (Except.ok { ok := true, status := 200, body := "Message sent" })).2
      = [{ phone := keepDigitsAndPlus "+1 555 0100", text := "alert", apikey := jsTrim " key " }] :=
  (sendWhatsAppMessage_iff "+1 555 0100" " key " "alert"
    (Except.ok { ok := true, status := 200, body := "Message sent" })).2.2.2
    ⟨by decide, by decide, by decide⟩

/-- Instance of C24: over the three sample bars with closes 1, 2, 4 and an SMA
over two bars, the reported SMA is not `null`, it comes with two closes, and it
is 3/2, the mean of the closes 1 and 2. -/
theorem fetchTradingViewAnalysis_closes_witness :
    ∃ a, fetchTradingViewAnalysis (fun _ => JsNum.nan) sampleOptions sampleFetched
        = Except.ok a ∧ a.sma ≠ JsVal.null ∧ a.closes.length = 2 ∧
      a.sma = JsVal.num (JsNum.fin (3 / 2)) := by
  obtain ⟨a, h1, h2, h3, _⟩ := fetchTradingViewAnalysis_closes (fun _ => JsNum.nan)
    sampleOptions sampleFetched 2 (by decide) (by simp [sampleOptions])
    (by simp [sampleFetched])
  have hr1 : JsNum.roundDouble 1 = JsNum.fin 1 :=
    JsNum.roundDouble_small 1 (by norm_num) _ (by norm_num)
  have hr3 : JsNum.roundDouble 3 = JsNum.fin 3 :=
    JsNum.roundDouble_small 3 (by norm_num) _ (by norm_num)
  have hentry := computeSMA_of_closes
    (buildCandles (fun _ => JsNum.nan) sampleFetched.periods) 2 2
    (fun j => if j = 0 then 1 else 2) (by decide) (by decide) (by simp [length_buildCandles, sampleFetched])
    (by
      intro j _ hj
      interval_cases j
      · rw [getElem?_buildCandles (fun _ => JsNum.nan) sampleFetched.periods 0 (sampleBar 1) rfl]
        simp [sampleBar, toNumber_fin]
      · rw [getElem?_buildCandles (fun _ => JsNum.nan) sampleFetched.periods 1 (sampleBar 2) rfl]
        simp [sampleBar, toNumber_fin])
  have hfold : JsNum.div (((List.range 2).map (fun t => (fun j : ℕ => if j = 0 then (1 : ℚ) else 2)
      (2 - 2 + t))).foldl (fun acc x => JsNum.add acc (JsNum.fin x)) (JsNum.fin 0))
      (JsNum.fin ((2 : ℕ) : ℚ)) = JsNum.fin (3 / 2) := by
    simp only [List.range_succ, List.range_zero, List.nil_append, List.map_append,
      List.map_cons, List.map_nil, List.cons_append, List.foldl_cons, List.foldl_nil,
      JsNum.add_fin]
    norm_num [JsNum.add_fin, JsNum.div, hr1, hr3, JsNum.roundDouble_three_halves]
  rw [hfold] at hentry
  have hnn : a.sma ≠ JsVal.null := by
    rw [h3]
    have hsp : sampleOptions.smaPeriod = JsVal.num (JsNum.fin ((2 : ℕ) : ℚ)) := by
      simp [sampleOptions]
    have hl : sampleFetched.periods.length - 1 = 2 := rfl
    rw [hsp, hl, hentry]
    rfl
  obtain ⟨-, hlen, c, hc, hsma, -⟩ := h2 hnn
  refine ⟨a, h1, hnn, hlen, ?_⟩
  have hl : sampleFetched.periods.length - 1 - 2 = 0 := rfl
  obtain ⟨bar0, hb0, hc0, -⟩ := hc 0 (by decide)
  obtain ⟨bar1, hb1, hc1, -⟩ := hc 1 (by decide)
  rw [hl] at hb0 hc0 hb1 hc1
  have hbar0 : bar0 = sampleBar 1 := by
    have : sampleFetched.periods[0 + 0]? = some (sampleBar 1) := rfl
    rw [this] at hb0
    exact (Option.some.inj hb0).symm
  have hbar1 : bar1 = sampleBar 2 := by
    have : sampleFetched.periods[0 + 1]? = some (sampleBar 2) := rfl
    rw [this] at hb1
    exact (Option.some.inj hb1).symm
  have hv0 : c 0 = 1 := by
    rw [hbar0] at hc0
    simp only [sampleBar, toNumber_fin, JsVal.num.injEq, JsNum.fin.injEq] at hc0
    simpa using hc0.symm
  have hv1 : c 1 = 2 := by
    rw [hbar1] at hc1
    simp only [sampleBar, toNumber_fin, JsVal.num.injEq, JsNum.fin.injEq] at hc1
    simpa using hc1.symm
  rw [hsma, hl]
  simp only [List.range_succ, List.range_zero, List.nil_append, List.map_append,
    List.map_cons, List.map_nil, List.cons_append, List.foldl_cons, List.foldl_nil,
    JsNum.add_fin, Nat.zero_add, hv0, hv1]
  norm_num [JsNum.add_fin, JsNum.div, hr1, hr3, JsNum.roundDouble_three_halves]

/-- C24, as stated, fails: over four bars with closes 1, 1, 2, 5 and an SMA over
three bars the reported `sma` is the double nearest to 4/3, which is
6004799503160661 / 2^52 and not the arithmetic mean 4/3 of the closes 1, 1, 2. -/
theorem fetchTradingViewAnalysis_closes_counterexample :
    ∃ a, fetchTradingViewAnalysis (fun _ => JsNum.nan)
        { sampleOptions with smaPeriod := JsVal.num (JsNum.fin 3) }
        { sampleFetched with periods := [sampleBar 1, sampleBar 1, sampleBar 2, sampleBar 5] }
        = Except.ok a ∧
      a.sma = JsVal.num (JsNum.fin (6004799503160661 / 4503599627370496)) ∧
      a.sma ≠ JsVal.num (JsNum.fin ((1 + 1 + 2) / 3)) := by
  obtain ⟨a, h1, h2⟩ := fetchTradingViewAnalysis_sma (fun _ => JsNum.nan)
    { sampleOptions with smaPeriod := JsVal.num (JsNum.fin 3) }
    { sampleFetched with periods := [sampleBar 1, sampleBar 1, sampleBar 2, sampleBar 5] }
    (by simp)
  have hr1 : JsNum.roundDouble 1 = JsNum.fin 1 :=
    JsNum.roundDouble_small 1 (by norm_num) _ (by norm_num)
  have hr2 : JsNum.roundDouble 2 = JsNum.fin 2 :=
    JsNum.roundDouble_small 2 (by norm_num) _ (by norm_num)
  have hr4 : JsNum.roundDouble 4 = JsNum.fin 4 :=
    JsNum.roundDouble_small 4 (by norm_num) _ (by norm_num)
  have hentry := computeSMA_of_closes
    (buildCandles (fun _ => JsNum.nan) [sampleBar 1, sampleBar 1, sampleBar 2, sampleBar 5]) 3 3
    (fun j => if j = 2 then 2 else 1) (by decide) (by decide) (by simp [length_buildCandles])
    (by
      intro j _ hj
      interval_cases j
      · rw [getElem?_buildCandles (fun _ => JsNum.nan) _ 0 (sampleBar 1) rfl]
        simp [sampleBar, toNumber_fin]
      · rw [getElem?_buildCandles (fun _ => JsNum.nan) _ 1 (sampleBar 1) rfl]
        simp [sampleBar, toNumber_fin]
      · rw [getElem?_buildCandles (fun _ => JsNum.nan) _ 2 (sampleBar 2) rfl]
        simp [sampleBar, toNumber_fin])
  have hfold : JsNum.div (((List.range 3).map (fun t => (fun j : ℕ => if j = 2 then (2 : ℚ) else 1)
      (3 - 3 + t))).foldl (fun acc x => JsNum.add acc (JsNum.fin x)) (JsNum.fin 0))
      (JsNum.fin ((3 : ℕ) : ℚ)) = JsNum.fin (6004799503160661 / 4503599627370496) := by
    simp only [List.range_succ, List.range_zero, List.nil_append, List.map_append,
      List.map_cons, List.map_nil, List.cons_append, List.foldl_cons, List.foldl_nil,
      JsNum.add_fin]
    norm_num [JsNum.add_fin, JsNum.div, hr1, hr2, hr4, JsNum.roundDouble_four_thirds]
  rw [hfold] at hentry
  have hs : a.sma = JsVal.num (JsNum.fin (6004799503160661 / 4503599627370496)) := by
    rw [h2]
    have hl : ([sampleBar 1, sampleBar 1, sampleBar 2, sampleBar 5] : List Bar).length - 1 = 3 :=
      rfl
    have hcast : (JsVal.num (JsNum.fin 3) : JsVal) = JsVal.num (JsNum.fin ((3 : ℕ) : ℚ)) := by
      norm_num
    simp only [hl, hcast, hentry, Option.getD_some, JsVal.isFinite, JsNum.isFinite, if_true]
  refine ⟨a, h1, hs, ?_⟩
  rw [hs]
  intro h
  simp only [JsVal.num.injEq, JsNum.fin.injEq] at h
  norm_num at h

/-- C25, as stated, fails: with `recentCount = 2.5` over three bars the claim
gives `min(3, max(2.5, 1)) = 2.5`, while two candles are returned and the field
`recentCount` is 2. -/
theorem fetchTradingViewAnalysis_window_counterexample :
    ∃ a, fetchTradingViewAnalysis (fun _ => JsNum.nan)
        { sampleOptions with recentCount := JsVal.num (JsNum.fin (5 / 2)) } sampleFetched
        = Except.ok a ∧
      a.recentCount = 2 ∧ a.candles.length = 2 ∧
      Min.min (3 : ℚ) (Max.max (5 / 2) 1) = 5 / 2 := by
  obtain ⟨a, h1, h2, h3, _⟩ := fetchTradingViewAnalysis_ok (fun _ => JsNum.nan)
    { sampleOptions with recentCount := JsVal.num (JsNum.fin (5 / 2)) } sampleFetched
    (by simp [sampleFetched])
  have hfloor : ⌊Max.max (5 / 2 : ℚ) 1⌋₊ = 2 := by
    rw [Nat.floor_eq_iff (by positivity)]
    constructor <;> norm_num
  have hlen : a.candles.length = 2 := by
    rw [h2, List.length_map, length_recentWindow, length_analysisCandles]
    simp only [JsVal.toNumeric]
    rw [recentStart_fin, hfloor]
    rfl
  refine ⟨a, h1, by rw [h3, hlen], hlen, ?_⟩
  norm_num

/-- Instance of the amended C25: with `recentCount = 2` over the three sample
bars the field `recentCount` counts the returned candles and all three bars are
reported as fetched. -/
theorem fetchTradingViewAnalysis_window_witness :
    ∃ a, fetchTradingViewAnalysis (fun _ => JsNum.nan) sampleOptions sampleFetched
        = Except.ok a ∧ a.recentCount = a.candles.length ∧ a.totalBarsFetched = 3 := by
  obtain ⟨a, h1, _, _, _, _, _, _, h2, h3, _⟩ := fetchTradingViewAnalysis_window
    (fun _ => JsNum.nan) sampleOptions sampleFetched (JsNum.fin 2) rfl
    (by simp [sampleFetched])
  exact ⟨a, h1, h2, h3⟩

/-- Instance of C23: on the sample green candle a delivery that throws makes the
poll reject with the error of the delivery; and with the symbols `oanda:xauusd`
and `fx:eurusd`, whose keys differ, a cycle in which the delivery of the first
throws and that of the second resolves is followed by a retry in which the first
is delivered and the second is not sent again. -/
theorem pollSymbol_failed_delivery_witness :
    (pollSymbol sampleUpperCase (fun _ => "alert") sampleCredentials
        sampleAlertState "oanda:xauusd" (Except.ok (sampleAnalysis (some sampleGreen)))
        (Except.error "timeout")).1 = Except.error "timeout" ∧
    (pollAllRun sampleUpperCase (fun _ => "alert") sampleCredentials
        (pollAllRun sampleUpperCase (fun _ => "alert") sampleCredentials sampleAlertState
          (samplePolls (Except.error "timeout") (Except.ok "Message sent")) [0, 1, 1, 0]).alert
        (samplePolls (Except.ok "Message sent") (Except.ok "Message sent"))
        [1, 0, 0, 1]).progress[0]?
      = some (PollProgress.settled
          (Except.ok { symbol := "oanda:xauusd", verified := true, sent := true })) ∧
    (pollAllRun sampleUpperCase (fun _ => "alert") sampleCredentials
        (pollAllRun sampleUpperCase (fun _ => "alert") sampleCredentials sampleAlertState
          (samplePolls (Except.error "timeout") (Except.ok "Message sent")) [0, 1, 1, 0]).alert
        (samplePolls (Except.ok "Message sent") (Except.ok "Message sent"))
        [1, 0, 0, 1]).progress[1]?
      = some (PollProgress.settled
          (Except.ok { symbol := "fx:eurusd", verified := true, sent := false })) := by
  have hkeys0 : ∀ j sym inp, j ≠ 0 →
      (samplePolls (Except.error "timeout") (Except.ok "Message sent"))[j]? = some (sym, inp) →
      sampleUpperCase sym ≠ sampleUpperCase "oanda:xauusd" := by
    intro j sym inp hj h
    match j, hj, h with
    | 1, _, h =>
      simp only [samplePolls, List.getElem?_cons_succ, List.getElem?_cons_zero,
        Option.some.injEq, Prod.mk.injEq] at h
      rw [← h.1]
      decide
    | j + 2, _, h =>
      simp [samplePolls] at h
  have hkeys1 : ∀ j sym inp, j ≠ 1 →
      (samplePolls (Except.error "timeout") (Except.ok "Message sent"))[j]? = some (sym, inp) →
      sampleUpperCase sym ≠ sampleUpperCase "fx:eurusd" := by
    intro j sym inp hj h
    match j, hj, h with
    | 0, _, h =>
      simp only [samplePolls, List.getElem?_cons_zero, Option.some.injEq,
        Prod.mk.injEq] at h
      rw [← h.1]
      decide
    | j + 2, _, h =>
      simp [samplePolls] at h
  refine ⟨?_, ?_, ?_⟩
  · exact ((pollSymbol_failed_delivery sampleUpperCase (fun _ => "alert")
      sampleCredentials).2.1 sampleAlertState sampleAlertState
      "oanda:xauusd" (sampleAnalysis (some sampleGreen)) "timeout" (Except.ok "Message sent")
      (by decide) rfl).1
  · exact ((pollSymbol_failed_delivery sampleUpperCase (fun _ => "alert")
      sampleCredentials).2.2 sampleAlertState
      (samplePolls (Except.error "timeout") (Except.ok "Message sent"))
      (samplePolls (Except.ok "Message sent") (Except.ok "Message sent"))
      [0, 1, 1, 0] [1, 0, 0, 1] rfl 0 "oanda:xauusd" _ _ rfl rfl hkeys0 (by decide)
      (by decide)).2.2.2 (sampleAnalysis (some sampleGreen)) "timeout" rfl rfl |>.1
  · exact ((pollSymbol_failed_delivery sampleUpperCase (fun _ => "alert")
      sampleCredentials).2.2 sampleAlertState
      (samplePolls (Except.error "timeout") (Except.ok "Message sent"))
      (samplePolls (Except.ok "Message sent") (Except.ok "Message sent"))
      [0, 1, 1, 0] [1, 0, 0, 1] rfl 1 "fx:eurusd" _ _ rfl rfl hkeys1 (by decide)
      (by decide)).2.2.1 { symbol := "fx:eurusd", verified := true, sent := true }
      rfl rfl |>.1

/-- C23, as stated, fails for configured symbols that share their upper-cased
key: with `fx:eurusd` and `FX:EURUSD`, a cycle in which both polls reach the
delivery, the delivery of the first throws and that of the second resolves,
records the candle under the shared key; in the retrying cycle on the same
candle the first symbol, whose delivery threw, is reported
`{verified: true, sent: false}` and no delivery is attempted at all. -/
theorem pollSymbol_failed_delivery_counterexample :
    (pollAllRun sampleUpperCase (fun _ => "alert") sampleCredentials sampleAlertState
        (sampleTwins (Except.error "timeout") (Except.ok "Message sent"))
        [0, 1, 0, 1]).progress
      = [PollProgress.settled (Except.error "timeout"),
         PollProgress.settled
          (Except.ok { symbol := "FX:EURUSD", verified := true, sent := true })] ∧
    (pollAllRun sampleUpperCase (fun _ => "alert") sampleCredentials
        (pollAllRun sampleUpperCase (fun _ => "alert") sampleCredentials sampleAlertState
          (sampleTwins (Except.error "timeout") (Except.ok "Message sent")) [0, 1, 0, 1]).alert
        (sampleTwins (Except.ok "Message sent") (Except.ok "Message sent"))
        [0, 1, 0, 1]).progress
      = [PollProgress.settled
          (Except.ok { symbol := "fx:eurusd", verified := true, sent := false }),
         PollProgress.settled
          (Except.ok { symbol := "FX:EURUSD", verified := true, sent := false })] ∧
    (pollAllRun sampleUpperCase (fun _ => "alert") sampleCredentials
        (pollAllRun sampleUpperCase (fun _ => "alert") sampleCredentials sampleAlertState
          (sampleTwins (Except.error "timeout") (Except.ok "Message sent")) [0, 1, 0, 1]).alert
        (sampleTwins (Except.ok "Message sent") (Except.ok "Message sent"))
        [0, 1, 0, 1]).alert.sendCalls
      = (pollAllRun sampleUpperCase (fun _ => "alert") sampleCredentials sampleAlertState
          (sampleTwins (Except.error "timeout") (Except.ok "Message sent"))
          [0, 1, 0, 1]).alert.sendCalls := by
  refine ⟨?_, ?_, ?_⟩
  · rfl
  · rfl
  · rfl

/-- C26, as stated, fails: a response that is OK with a body reporting a provider
error with code 429 carries no candle values, and the error thrown has the
status 429, not 404. -/
theorem requestCandles_failure_counterexample :
    providerRowsOf (Except.ok sampleErrorResponse) = [] ∧
    (requestCandles sampleRuntime sampleTwelveData sampleClock [] "XAUUSD"
        (JsVal.num (JsNum.fin 24)) (Except.ok sampleErrorResponse)).1
      = Except.error { message := JsVal.str "You have run out of API credits"
                       statusCode := JsVal.num (JsNum.fin 429) } := by
  constructor
  · rfl
  · have hs : SYMBOLS "XAUUSD" = some
        { providerSymbol := JsVal.str "XAU/USD", label := JsVal.str "Gold / XAUUSD",
          interval := some "1h" } := sampleMeta_eq
    simp [requestCandles, hs, sampleTwelveData, sampleErrorResponse, JsVal.truthy,
      JsVal.strictEq, JsVal.or]

/-- Instance of the amended C26: with the integration disabled the request fails
and the cache stays as it was. -/
theorem requestCandles_failure_witness :
    (requestCandles sampleRuntime { sampleTwelveData with enabled := false } sampleClock
        sampleCache "XAUUSD" (JsVal.num (JsNum.fin 24)) (Except.ok sampleProviderResponse)).2
      = sampleCache :=
  (requestCandles_failure sampleRuntime { sampleTwelveData with enabled := false } sampleClock
    sampleCache "XAUUSD" (JsVal.num (JsNum.fin 24)) (Except.ok sampleProviderResponse)
    { message := JsVal.str "Twelve Data integration is disabled"
      statusCode := JsVal.num (JsNum.fin 503) } rfl).1

/-- C21, as stated, fails for `n = 15`: no sequence of calls leaves more than 15
entries in the chart cache. -/
theorem chartCache_bounded_counterexample :
    ¬ ∃ requests : List ChartRequest,
      15 < (runChartRequests sampleRuntime sampleTwelveData (JsNum.fin 300000)
        (JsVal.num (JsNum.fin 24)) [] requests).length := by
  rintro ⟨requests, hlt⟩
  have hinv := runChartRequests_keys_inv sampleRuntime sampleTwelveData (JsNum.fin 300000)
    (JsVal.num (JsNum.fin 24)) (symbolKeys ++ objectPrototypeNames)
    (fun key hk => List.mem_append_left _ hk) requests []
    (fun _ _ pair _ hp => by
      by_contra hmem
      apply hp
      rw [SYMBOLS_eq_none_iff]
      simpa [List.mem_append, not_or] using hmem)
    ⟨by simp, by simp⟩
  have hle := length_le_of_keys _ _ hinv
  have h15 : (symbolKeys ++ objectPrototypeNames).length = 15 := rfl
  omega

/-- Instance of the amended C21: after one successful request for `XAUUSD` and a
repetition of it the cache holds at most three entries. -/
theorem chartCache_bounded_witness :
    (runChartRequests sampleRuntime sampleTwelveData (JsNum.fin 300000)
      (JsVal.num (JsNum.fin 24)) []
      [ChartRequest.requestCandles "XAUUSD" (JsVal.num (JsNum.fin 1)) sampleClock
          (Except.ok sampleProviderResponse),
        ChartRequest.requestCandles "XAUUSD" (JsVal.num (JsNum.fin 1)) sampleClock
          (Except.ok sampleProviderResponse)]).length ≤ 3 :=
  (chartCache_bounded sampleRuntime sampleTwelveData (JsNum.fin 300000)
    (JsVal.num (JsNum.fin 24)) _).2.2.2 (by
      intro request hr pair hp
      simp only [List.mem_cons, List.mem_singleton, List.not_mem_nil, or_false, or_self] at hr
      subst hr
      simp only [ChartRequest.pair?, Option.some.injEq] at hp
      subst hp
      decide)

/-- Instance of C28: a poll interval of one minute is replaced by one hour. -/
theorem scheduler_interval_floors_witness :
    baseIntervalMsOf (AlertEnv.mk (some "60000") none none) = 3600000 :=
  (scheduler_interval_floors (AlertEnv.mk (some "60000") none none)).2.2.2.2.2.2.2.2.1 60000
    (by decide) (by decide) (by decide)

theorem sampleAlertSymbols_eq :
    WHATSAPP_ALERT_SYMBOLS (some "OANDA:XAUUSD, FX:EURUSD") (some " OANDA:XAUUSD") none
      = ["OANDA:XAUUSD", "FX:EURUSD"] := by
  decide

/-- Instance of C29: with two symbols configured, one of them twice, the list of
the alert symbols is the list of its parsed entries without repetition, and the
text `OANDA:XAUUSD, FX:EURUSD`, two entries with the run `, ` between them, has
these two entries. -/
theorem WHATSAPP_ALERT_SYMBOLS_nonempty_witness :
    WHATSAPP_ALERT_SYMBOLS (some "OANDA:XAUUSD, FX:EURUSD") (some " OANDA:XAUUSD") none
      = jsUnique (parseSymbolList (some "OANDA:XAUUSD, FX:EURUSD")
          ++ parseSymbolList (some " OANDA:XAUUSD")) ∧
    parseSymbolList (some "OANDA:XAUUSD, FX:EURUSD") = ["OANDA:XAUUSD", "FX:EURUSD"] :=
  ⟨((WHATSAPP_ALERT_SYMBOLS_nonempty (some "OANDA:XAUUSD, FX:EURUSD") (some " OANDA:XAUUSD")
      none).2.2.1 (by decide)).2.2,
    (WHATSAPP_ALERT_SYMBOLS_nonempty none none none).2.2.2.2.2.2.1 []
      [("OANDA:XAUUSD".toList, ", ".toList), ("FX:EURUSD".toList, [])]
      (by decide) (by decide) (by decide)⟩

/-- Instance of C30: the interval ` 4H ` is 240 minutes. -/
theorem getIntervalMinutes_spec_witness :
    getIntervalMinutes sampleRuntime (JsVal.str (" " ++ Nat.repr 4 ++ "H" ++ " "))
      = JsNum.fin (if 4 = 0 then 60 else ((4 * 60 : ℕ) : ℚ)) :=
  (getIntervalMinutes_spec sampleRuntime).1 4 "h" 60 " " "H" " " (by decide) (by decide)
    (by decide) (by decide) (by decide) (by norm_num)

/-- C30, as stated, fails: for `n = 2^53 + 1` the interval `<n>min` gives
`2^53`, the double nearest to `n`, and not `n`; and for `n = 2^1023` the
interval `<n>h` gives `Infinity`, which is no integer. -/
theorem getIntervalMinutes_spec_counterexample :
    getIntervalMinutes sampleRuntime (JsVal.str (Nat.repr 9007199254740993 ++ "min"))
      = JsNum.fin 9007199254740992 ∧
    Nat.repr 9007199254740993 = "9007199254740993" ∧
    getIntervalMinutes sampleRuntime (JsVal.str (Nat.repr (2 ^ 1023) ++ "h")) = JsNum.posInf := by
  have hshape : ∀ (x u : String), "" ++ x ++ u ++ "" = x ++ u := by
    intro x u
    apply String.ext
    simp [toList_append]
  refine ⟨?_, by decide, ?_⟩
  · have h := (getIntervalMinutes_of_decimal sampleRuntime 9007199254740993 "min" 1 "" "min" ""
      (by simp) (by simp) (by simp) (by decide) (by decide)).2.2 9007199254740992
      (by norm_num) JsNum.roundDouble_above_exact
    rw [hshape] at h
    rw [h, if_pos rfl]
  · have h := (getIntervalMinutes_of_decimal sampleRuntime (2 ^ 1023) "h" 60 "" "h" ""
      (by simp) (by simp) (by simp) (by decide) (by decide)).2.2 ((2 ^ 1023 : ℕ) : ℚ)
      (by positivity) (JsNum.roundDouble_two_pow 1023 (by norm_num) (by norm_num))
    rw [hshape] at h
    rw [h, if_neg (by decide)]
    have hmul : JsNum.mul (JsNum.fin ((2 ^ 1023 : ℕ) : ℚ)) (JsNum.fin ((60 : ℕ) : ℚ))
        = JsNum.roundDouble (((2 ^ 1023 * 60 : ℕ) : ℚ)) := by
      simp only [JsNum.mul, Nat.cast_mul]
    rw [hmul]
    exact JsNum.roundDouble_of_huge _ (two_pow_le_mul 1023 1024 rfl)

/-- C27, as stated, fails: for `n = 10^21` the timeframe `<n>min` is mapped to
`1e+21`, which is neither the decimal text of `n` nor a text of decimal
digits. -/
theorem normalizeChartTimeframe_spec_counterexample :
    normalizeChartTimeframe sampleRuntime (Nat.repr (10 ^ 21) ++ "min") = "1e+21" ∧
    Nat.repr (10 ^ 21) = "1000000000000000000000" ∧
    ("1e+21" : String).toList.all Char.isDigit = false := by
  refine ⟨?_, by decide, by decide⟩
  rw [normalizeChartTimeframe_decimal sampleRuntime (10 ^ 21) "min" (by simp) (by norm_num)
    (fun h => absurd h (by decide)), if_neg (by decide)]
  decide

/-- Instance of the amended C27: the timeframe `4h` is mapped to `240`. -/
theorem normalizeChartTimeframe_spec_witness :
    normalizeChartTimeframe sampleRuntime (Nat.repr 4 ++ "h") = Nat.repr (60 * 4) :=
  (normalizeChartTimeframe_spec sampleRuntime).1 4 (by decide) (by decide)

/-- C22, as stated, fails: for the empty symbol and a library without search
functions the call does not return the (empty) trimmed symbol, it throws. -/
theorem resolveTradingViewSymbol_spec_counterexample :
    resolveTradingViewSymbol { searchMarketV3 := none, searchMarket := none } ""
      = Except.error "Missing TradingView symbol" := by
  rfl

/-- Instance of the amended C22: when both searches throw, the symbol resolves
to itself, trimmed. -/
theorem resolveTradingViewSymbol_spec_witness :
    resolveTradingViewSymbol
        { searchMarketV3 := some (fun _ => SearchOutcome.threw),
          searchMarket := some (fun _ => SearchOutcome.threw) } " OANDA:XAUUSD "
      = Except.ok (JsVal.str (jsTrim " OANDA:XAUUSD ")) :=
  (resolveTradingViewSymbol_spec
    { searchMarketV3 := some (fun _ => SearchOutcome.threw),
      searchMarket := some (fun _ => SearchOutcome.threw) } " OANDA:XAUUSD ").1
    (by decide) (by
      intro call hcall
      simp only [searchCallsOf, searchFnsOf, Option.toList, List.mem_flatMap, List.mem_map,
        List.singleton_append, List.mem_cons, List.mem_singleton, List.not_mem_nil,
        or_false] at hcall
      obtain ⟨query, -, search, hsearch, rfl⟩ := hcall
      rcases hsearch with rfl | rfl <;> exact Or.inl rfl)

end LuckyGFX
